import Mathlib

/-! Backfill planner and priority preemption selector

A verification development for `src/plugins/sched/backfill/backfill.c` and
`src/plugins/preempt/job_prio/preempt_job_prio.c`.

Conventions of the embedding:

* Times (`time_t`, `uint32_t`) are natural numbers; a narrowing assignment to a
  `uint32_t` variable is written with an explicit `% 4294967296`.
* The `node_space` array is a total map from indices to records; the record
  at `node_space_recs` and above is unused pool space.
* A C loop becomes a recursive function with a fuel argument counting loop
  iterations; `none` means the loop did not finish within the fuel or a NULL
  bitmap was dereferenced.
-/

namespace Slurm

/-! ## Node bitmaps -/

/-- Modelled from the spec: the bitstring library (`src/common/bitstring.c`) is
not part of the sources. A node bitmap is a fixed-width set of nodes; it is
represented by the finite set of the node indices whose bit is set. -/
abbrev bitstr_t := Finset Nat

/-- Modelled from the spec: `bit_and(b1, b2)` stores the bitwise AND in `b1`. -/
def bit_and (b1 b2 : bitstr_t) : bitstr_t := b1 ∩ b2

/-- Modelled from the spec: `bit_not(b)` flips every bit of a bitmap of the
given width. -/
def bit_not (width : Nat) (b : bitstr_t) : bitstr_t := Finset.range width \ b

/-- Modelled from the spec: `bit_copy(b)` is a fresh bitmap with the same bits. -/
def bit_copy (b : bitstr_t) : bitstr_t := b

/-- Modelled from the spec: `bit_equal(b1, b2)` is bit-for-bit equality. -/
def bit_equal (b1 b2 : bitstr_t) : Bool := decide (b1 = b2)

/-- Modelled from the spec: `bit_super_set(b1, b2)` is true when every bit set
in `b1` is also set in `b2`. -/
def bit_super_set (b1 b2 : bitstr_t) : Bool := decide (b1 ⊆ b2)

/-- Modelled from the spec: `bit_overlap(b1, b2)` counts the bits set in both. -/
def bit_overlap (b1 b2 : bitstr_t) : Nat := (b1 ∩ b2).card

/-- Modelled from the spec: `bit_set_count(b)` is the population count. -/
def bit_set_count (b : bitstr_t) : Nat := b.card

/-! ## The node-space map of the backfill planner (`backfill.c`) -/

/-- The record `node_space_map_t`; `avail_bitmap = none` is the NULL pointer. -/
structure node_space_map_t where
  begin_time : Nat
  end_time : Nat
  avail_bitmap : Option bitstr_t
  next : Nat
deriving DecidableEq

/-- The array `node_space` together with the counter `node_space_recs`. -/
structure node_space_state where
  node_space : Nat → node_space_map_t
  node_space_recs : Nat

/-- Assignment `a[i] = v`. -/
def store (a : Nat → node_space_map_t) (i : Nat) (v : node_space_map_t) :
    Nat → node_space_map_t :=
  fun k => if k = i then v else a k

/-- The zero-filled pool returned by `xmalloc`. -/
def xmalloc_pool : Nat → node_space_map_t :=
  fun _ => { begin_time := 0, end_time := 0, avail_bitmap := none, next := 0 }

/-- Initial map of a planner cycle (`_attempt_backfill`, lines 800-807). -/
def init_node_space (sched_start backfill_window : Nat) (avail_node_bitmap : bitstr_t) :
    node_space_state :=
  let node_space := xmalloc_pool
  let node_space := store node_space 0 { node_space 0 with begin_time := sched_start }
  let window_end := sched_start + backfill_window
  let node_space := store node_space 0 { node_space 0 with end_time := window_end }
  let node_space := store node_space 0
    { node_space 0 with avail_bitmap := some (bit_copy avail_node_bitmap) }
  let node_space := store node_space 0 { node_space 0 with next := 0 }
  { node_space := node_space, node_space_recs := 1 }

/-- The record insertion written twice in `_add_reservation` (lines 1495-1503
with `t = start_time`, lines 1514-1524 with `t = end_reserve`): record
`node_space_recs` takes over the part of record `j` from `t` on. -/
def insert_record (t j : Nat) (s : node_space_state) : Option node_space_state :=
  let i := s.node_space_recs
  let ns := s.node_space
  let ns := store ns i { ns i with begin_time := t }
  let ns := store ns i { ns i with end_time := (ns j).end_time }
  let ns := store ns j { ns j with end_time := t }
  match (ns j).avail_bitmap with
  | none => none
  | some b =>
    let ns := store ns i { ns i with avail_bitmap := some (bit_copy b) }
    let ns := store ns i { ns i with next := (ns j).next }
    let ns := store ns j { ns j with next := i }
    some { node_space := ns, node_space_recs := i + 1 }

/-- The inner `while ((j = node_space[j].next))` loop of `_add_reservation`
(lines 1511-1530): place the end of the reservation. -/
def add_resv_end (end_reserve : Nat) :
    Nat → Nat → node_space_state → Option node_space_state
  | 0, _, _ => none
  | fuel + 1, j, s =>
    let j := (s.node_space j).next
    if j = 0 then some s
    else if end_reserve < (s.node_space j).end_time then
      insert_record end_reserve j s
    else if end_reserve = (s.node_space j).end_time then some s
    else add_resv_end end_reserve fuel j s

/-- The first `for (j = 0; ; )` loop of `_add_reservation` (lines 1492-1535):
place the start of the reservation, then its end. -/
def add_resv_start (start_time end_reserve : Nat) :
    Nat → Nat → node_space_state → Option node_space_state
  | 0, _, _ => none
  | fuel + 1, j, s =>
    let split : Option (node_space_state × Bool) :=
      if (s.node_space j).end_time > start_time then
        (insert_record start_time j s).map (fun s1 => (s1, true))
      else some (s, false)
    match split with
    | none => none
    | some (s, placed) =>
      let placed := if (s.node_space j).end_time = start_time then true else placed
      if placed = true then add_resv_end end_reserve fuel j s
      else
        let j := (s.node_space j).next
        if j = 0 then some s
        else add_resv_start start_time end_reserve fuel j s

/-- The second loop of `_add_reservation` (lines 1537-1544): remove the
reserved nodes from every record inside the reservation. -/
def add_resv_and (start_time end_reserve : Nat) (res_bitmap : bitstr_t) :
    Nat → Nat → node_space_state → Option node_space_state
  | 0, _, _ => none
  | fuel + 1, j, s =>
    let anded : Option node_space_state :=
      if (s.node_space j).begin_time ≥ start_time ∧
          (s.node_space j).end_time ≤ end_reserve then
        match (s.node_space j).avail_bitmap with
        | none => none
        | some b =>
          let ns := s.node_space
          let ns := store ns j { ns j with avail_bitmap := some (bit_and b res_bitmap) }
          some { s with node_space := ns }
      else some s
    match anded with
    | none => none
    | some s =>
      if (s.node_space j).begin_time ≥ end_reserve then some s
      else
        let j := (s.node_space j).next
        if j = 0 then some s
        else add_resv_and start_time end_reserve res_bitmap fuel j s

/-- The third loop of `_add_reservation` (lines 1548-1560): drop one record
whose bitmap is identical to its predecessor's. -/
def add_resv_merge : Nat → Nat → node_space_state → Option node_space_state
  | 0, _, _ => none
  | fuel + 1, i, s =>
    let j := (s.node_space i).next
    if j = 0 then some s
    else
      match (s.node_space i).avail_bitmap, (s.node_space j).avail_bitmap with
      | some bi, some bj =>
        if ¬ (bit_equal bi bj = true) then add_resv_merge fuel j s
        else
          let ns := s.node_space
          let ns := store ns i { ns i with end_time := (ns j).end_time }
          let ns := store ns i { ns i with next := (ns j).next }
          let ns := store ns j { ns j with avail_bitmap := none }
          some { s with node_space := ns }
      | _, _ => none

/-- The function `_add_reservation` (lines 1472-1561). Each of its three loops
may run for at most `fuel` iterations. -/
def _add_reservation (fuel : Nat) (start_time end_reserve : Nat) (res_bitmap : bitstr_t)
    (s : node_space_state) : Option node_space_state :=
  let start_time := (max start_time (s.node_space 0).begin_time) % 4294967296
  match add_resv_start start_time end_reserve fuel 0 s with
  | none => none
  | some s =>
    match add_resv_and start_time end_reserve res_bitmap fuel 0 s with
    | none => none
    | some s => add_resv_merge fuel 0 s

/-- The loop of `_test_resv_overlap` (lines 1578-1587), from record `j` on. The
bitmap of a record is read only when the two time tests hold. -/
def test_resv_overlap_from (node_space : Nat → node_space_map_t) (use_bitmap : bitstr_t)
    (start_time end_reserve : Nat) : Nat → Nat → Option Bool
  | 0, _ => none
  | fuel + 1, j =>
    let hit : Option Bool :=
      if (node_space j).end_time > start_time ∧
          (node_space j).begin_time < end_reserve then
        match (node_space j).avail_bitmap with
        | none => none
        | some avail => some (! bit_super_set use_bitmap avail)
      else some false
    match hit with
    | none => none
    | some true => some true
    | some false =>
      let j := (node_space j).next
      if j = 0 then some false
      else test_resv_overlap_from node_space use_bitmap start_time end_reserve fuel j

/-- The function `_test_resv_overlap` (lines 1571-1589). -/
def _test_resv_overlap (fuel : Nat) (node_space : Nat → node_space_map_t)
    (use_bitmap : bitstr_t) (start_time end_reserve : Nat) : Option Bool :=
  test_resv_overlap_from node_space use_bitmap start_time end_reserve fuel 0

/-! ## Snapping of the planned reservation (`_attempt_backfill`) -/

/-- The projected reservation of `_attempt_backfill` (lines 1277-1278):
`start_time = job_ptr->start_time` and
`end_reserve = job_ptr->start_time + (time_limit * 60)`, both stored in
`uint32_t` variables; `time_limit * 60` is a `uint32_t` product. -/
def attempt_backfill_resv_times (job_start_time time_limit : Nat) : Nat × Nat :=
  let start_time := job_start_time % 4294967296
  let end_reserve := (job_start_time + (time_limit * 60) % 4294967296) % 4294967296
  (start_time, end_reserve)

/-- The snapping of `_attempt_backfill` (lines 1279-1282), in `uint32_t`
arithmetic. -/
def attempt_backfill_snap (backfill_resolution start_time end_reserve : Nat) : Nat × Nat :=
  let start_time := ((start_time / backfill_resolution) * backfill_resolution) % 4294967296
  let end_reserve := ((end_reserve / backfill_resolution) * backfill_resolution) % 4294967296
  (start_time, end_reserve)

/-- The `start_time` and `end_reserve` that `_attempt_backfill` passes to
`_add_reservation` (lines 1277-1282 and 1331). -/
def attempt_backfill_planted (backfill_resolution job_start_time time_limit : Nat) :
    Nat × Nat :=
  attempt_backfill_snap backfill_resolution
    (attempt_backfill_resv_times job_start_time time_limit).1
    (attempt_backfill_resv_times job_start_time time_limit).2

/-! ## The priority preemption selector (`preempt_job_prio.c`) -/

/-- Modelled from the spec: the base job states of `slurm.h`, which is not part
of the sources (pending, running, suspended, and the finished states). -/
inductive job_states where
  | JOB_PENDING
  | JOB_RUNNING
  | JOB_SUSPENDED
  | JOB_COMPLETE
deriving DecidableEq

/-- The fields of `struct part_record` read by the two plugins. -/
structure part_record where
  node_bitmap : Option bitstr_t
  total_cpus : Nat
  total_nodes : Nat
  min_nodes : Nat
  max_nodes : Nat
  max_time : Nat
  state_up : Nat
  flags : Nat

/-- The fields of `struct feature_record` read by the planner; `count` is a
`uint16_t`. -/
structure feature_record where
  name : String
  count : Nat
deriving DecidableEq

/-- The fields of `struct job_details` read by the two plugins. -/
structure job_details where
  expanding_jobid : Nat
  min_nodes : Nat
  max_nodes : Nat
  exc_node_bitmap : Option bitstr_t
  req_node_bitmap : Option bitstr_t
  feature_list : Option (List feature_record)
  share_res : Nat

/-- The fields of `slurmdb_qos_rec_t` read by the two plugins. -/
structure slurmdb_qos_rec_t where
  preempt_mode : Nat
  flags : Nat

/-! ## Binary floating point: the C type `double` -/

/-- Modelled from the spec: the arithmetic of the C type `double` is supplied
by the compiler and the processor, not by the sources. It is modelled as the
IEEE 754 binary64 format with rounding to the nearest value, ties to the even
significand, as on a target that evaluates `double` expressions in that format.
A value is given by its sign bit, its 11-bit exponent field and its 52-bit
fraction field. The two number fields are read modulo `2^11` and `2^52`, so
that every value of the structure stands for one `double`. -/
structure double where
  sign : Bool
  expo : Nat
  frac : Nat
  deriving DecidableEq, Repr

/-- Modelled from the spec: the exponent field of a `double`, at most 2047. -/
def double.expo_field (x : double) : Nat := x.expo % 2048

/-- Modelled from the spec: the fraction field of a `double`, below `2^52`. -/
def double.frac_field (x : double) : Nat := x.frac % 4503599627370496

/-- Modelled from the spec: a `double` is not a number when its exponent field
is 2047 and its fraction field is not zero. -/
def double.isnan (x : double) : Bool := decide (x.expo_field = 2047) && decide (x.frac_field ≠ 0)

/-- Modelled from the spec: a `double` is infinite when its exponent field is
2047 and its fraction field is zero. -/
def double.isinf (x : double) : Bool := decide (x.expo_field = 2047) && decide (x.frac_field = 0)

/-- Modelled from the spec: the integer significand of a `double`: the fraction
field for the exponent field 0 (zero and the subnormal numbers), and `2^52`
plus the fraction field otherwise. -/
def double.mant (x : double) : Nat :=
  if x.expo_field = 0 then x.frac_field else 4503599627370496 + x.frac_field

/-- Modelled from the spec: the magnitude of a finite `double` counted in units
of `2^-1074`, the least positive `double`: a number with the exponent field
`k > 0` is `mant * 2^(k - 1075)`, one with the exponent field 0 is
`mant * 2^-1074`. For an infinite value the same formula gives `2^2098`, above
every finite magnitude. -/
def double.mag (x : double) : Nat := x.mant * 2 ^ (x.expo_field - 1)

/-- Modelled from the spec: the signed magnitude of a `double` in units of
`2^-1074`; both zeros give 0. -/
def double.num (x : double) : Int := if x.sign = true then - (x.mag : Int) else (x.mag : Int)

/-- Modelled from the spec: the integer nearest to `X / Y`, a tie going to the
even integer. -/
def fp_nearest (X Y : Nat) : Nat :=
  let q := X / Y
  let r := X % Y
  if 2 * r < Y then q
  else if Y < 2 * r then q + 1
  else if q % 2 = 0 then q else q + 1

/-- Modelled from the spec: the number of halvings that take `n` below 2, at
most `fuel` of them. -/
def fp_log2_loop : Nat → Nat → Nat
  | 0, _ => 0
  | fuel + 1, n => if n < 2 then 0 else fp_log2_loop fuel (n / 2) + 1

/-- Modelled from the spec: the integer part of the binary logarithm of `n`
(0 for `n = 0`). -/
def fp_log2 (n : Nat) : Nat := fp_log2_loop n n

/-- Modelled from the spec: the `double` of the given sign with the magnitude
`m * 2^k` units of `2^-1074`, for a significand `m <= 2^53`. A significand
below `2^52` is a subnormal number or zero (then `k = 0`), `2^53` is the first
value of the next exponent, and an exponent field of 2047 or more is an
overflow to infinity. -/
def fp_pack (sign : Bool) (m k : Nat) : double :=
  if m < 4503599627370496 then ⟨sign, 0, m⟩
  else if m < 9007199254740992 then
    if k + 1 ≥ 2047 then ⟨sign, 2047, 0⟩ else ⟨sign, k + 1, m - 4503599627370496⟩
  else
    if k + 2 ≥ 2047 then ⟨sign, 2047, 0⟩ else ⟨sign, k + 2, 0⟩

/-- Modelled from the spec: the `double` nearest to the quotient `N / D` of two
natural numbers, with the given sign, in the rounding of IEEE 754 to the
nearest value with ties to the even significand. With `V = N * 2^1074 / D` the
quotient in units of `2^-1074`, the spacing of the `double` values around `V`
is `2^k` units, `k = max (floor (log2 V) - 52) 0`, and the significand is
`V / 2^k` rounded to an integer. -/
def fp_round (sign : Bool) (N D : Nat) : double :=
  let V := N * 2 ^ 1074
  let k := fp_log2 (V / D) - 52
  fp_pack sign (fp_nearest V (D * 2 ^ k)) k

/-- Modelled from the spec: the constant `0.0`. -/
def double.zero : double := ⟨false, 0, 0⟩

/-- Modelled from the spec: the constant `1.0`. -/
def double.one : double := ⟨false, 1023, 0⟩

/-- Modelled from the spec: a quiet not-a-number value, the result of an
invalid operation. -/
def double.nan : double := ⟨false, 2047, 2251799813685248⟩

/-- Modelled from the spec: the conversion of an unsigned integer to `double`
(exact below `2^53`, so for every `uint32_t`). -/
def double.of_uint (n : Nat) : double := fp_round false n 1

/-- Modelled from the spec: the product `x * y` of two `double` values. -/
def double.mul (x y : double) : double :=
  if x.isnan = true ∨ y.isnan = true then double.nan
  else if x.isinf = true ∨ y.isinf = true then
    if x.mag = 0 ∨ y.mag = 0 then double.nan
    else ⟨xor x.sign y.sign, 2047, 0⟩
  else fp_round (xor x.sign y.sign) (x.mag * y.mag) (2 ^ 2148)

/-- Modelled from the spec: the quotient `x / y` of two `double` values; a
division by zero gives an infinite value, or no number for `0 / 0`. -/
def double.div (x y : double) : double :=
  if x.isnan = true ∨ y.isnan = true then double.nan
  else if x.isinf = true then
    if y.isinf = true then double.nan else ⟨xor x.sign y.sign, 2047, 0⟩
  else if y.isinf = true then ⟨xor x.sign y.sign, 0, 0⟩
  else if y.mag = 0 then
    if x.mag = 0 then double.nan else ⟨xor x.sign y.sign, 2047, 0⟩
  else fp_round (xor x.sign y.sign) x.mag y.mag

/-- Modelled from the spec: the difference `x - y` of two `double` values. -/
def double.sub (x y : double) : double :=
  if x.isnan = true ∨ y.isnan = true then double.nan
  else if x.isinf = true then
    if y.isinf = true ∧ x.sign = y.sign then double.nan else ⟨x.sign, 2047, 0⟩
  else if y.isinf = true then ⟨! y.sign, 2047, 0⟩
  else if x.num - y.num = 0 then ⟨x.sign && ! y.sign, 0, 0⟩
  else fp_round (decide (x.num - y.num < 0)) (x.num - y.num).natAbs (2 ^ 1074)

/-- Modelled from the spec: the comparison `x < y` of two `double` values,
false when one of them is not a number. -/
def double.lt (x y : double) : Bool :=
  ! x.isnan && ! y.isnan && decide (x.num < y.num)

/-- Modelled from the spec: the comparison `x > y` of two `double` values. -/
def double.gt (x y : double) : Bool := double.lt y x

/-- Modelled from the spec: the comparison `x != y` of two `double` values,
true when one of them is not a number. -/
def double.ne (x y : double) : Bool :=
  x.isnan || y.isnan || decide (x.num ≠ y.num)

/-- The fields of `assoc_mgr_association_usage_t` read by the preemption
plugin. The field `shares_norm` is a `double`. -/
structure assoc_mgr_association_usage_t where
  shares_norm : double
  grp_used_cpus : Nat

/-- The fields of `slurmdb_association_rec_t` read by the preemption plugin. -/
structure slurmdb_association_rec_t where
  acct : String
  usage : assoc_mgr_association_usage_t

/-- The fields of `struct job_record` read by the two plugins; a NULL pointer
is `none`. -/
structure job_record where
  magic : Nat
  job_id : Nat
  user_id : Nat
  array_job_id : Nat
  array_task_id : Nat
  priority : Nat
  job_state : job_states
  preempt_in_progress : Bool
  node_bitmap : Option bitstr_t
  part_ptr : Option part_record
  details : Option job_details
  qos_ptr : Option slurmdb_qos_rec_t
  assoc_ptr : Option slurmdb_association_rec_t
  total_cpus : Nat
  limit_set_max_nodes : Nat
  time_limit : Nat
  time_min : Nat
  start_time : Nat
  end_time : Nat
  pre_sus_time : Nat
  suspend_time : Nat

/-- The fields of `job_queue_rec_t` read by `job_preempt_check`. -/
structure job_queue_rec_t where
  job_ptr : job_record
  job_id : Nat
  priority : Nat

/-- Modelled from the spec: the macro `IS_JOB_PENDING` of `slurm.h`. -/
def IS_JOB_PENDING (job_ptr : job_record) : Bool :=
  decide (job_ptr.job_state = job_states.JOB_PENDING)

/-- Modelled from the spec: the macro `IS_JOB_RUNNING` of `slurm.h`. -/
def IS_JOB_RUNNING (job_ptr : job_record) : Bool :=
  decide (job_ptr.job_state = job_states.JOB_RUNNING)

/-- Modelled from the spec: the macro `IS_JOB_SUSPENDED` of `slurm.h`. -/
def IS_JOB_SUSPENDED (job_ptr : job_record) : Bool :=
  decide (job_ptr.job_state = job_states.JOB_SUSPENDED)

/-- The compile-time switch `CHECK_FOR_PREEMPTOR_OVERALLOC` (line 76). -/
def CHECK_FOR_PREEMPTOR_OVERALLOC : Nat := 0

/-- The body of `_job_prio_preemptable` (lines 309-341) for a given value of the
compile-time switch; `overalloc_test` stands for `_overalloc_test`, which is
called only when the switch is non-zero. -/
def job_prio_preemptable_switch (check_overalloc : Nat)
    (overalloc_test : job_record → job_record → Int)
    (preemptor preemptee : job_record) : Bool :=
  let fair_share : Option Bool :=
    if check_overalloc ≠ 0 then
      let rc := overalloc_test preemptor preemptee
      if rc > 0 then some true
      else if rc < 0 then some false
      else none
    else none
  match fair_share with
  | some b => b
  | none =>
    let job_prio1 := preemptor.priority
    let job_prio2 := preemptee.priority
    if job_prio1 > job_prio2 then true else false

/-- The function `_job_prio_preemptable` (lines 309-341) as compiled, with
`CHECK_FOR_PREEMPTOR_OVERALLOC` defined as 0. -/
def _job_prio_preemptable (overalloc_test : job_record → job_record → Int)
    (preemptor preemptee : job_record) : Bool :=
  job_prio_preemptable_switch CHECK_FOR_PREEMPTOR_OVERALLOC overalloc_test preemptor preemptee

/-- The function `job_preempt_check` (lines 494-498). -/
def job_preempt_check (overalloc_test : job_record → job_record → Int)
    (preemptor preemptee : job_queue_rec_t) : Bool :=
  _job_prio_preemptable overalloc_test preemptor.job_ptr preemptee.job_ptr

/-- The candidate loop of `find_preemptable_jobs` (lines 425-446) over the rest
of `job_list`; `preemptee_job_list` is `none` while the list is not created. -/
def find_preemptable_loop (overalloc_test : job_record → job_record → Int)
    (preemptor_job_ptr : job_record) (part_node_bitmap : bitstr_t) :
    List job_record → Option (List job_record) → Option (List job_record)
  | [], preemptee_job_list => preemptee_job_list
  | preemptee_job_ptr :: rest, preemptee_job_list =>
    if (! IS_JOB_RUNNING preemptee_job_ptr) && (! IS_JOB_SUSPENDED preemptee_job_ptr) then
      find_preemptable_loop overalloc_test preemptor_job_ptr part_node_bitmap rest
        preemptee_job_list
    else if ! _job_prio_preemptable overalloc_test preemptor_job_ptr preemptee_job_ptr then
      find_preemptable_loop overalloc_test preemptor_job_ptr part_node_bitmap rest
        preemptee_job_list
    else if (match preemptee_job_ptr.node_bitmap with
        | none => true
        | some node_bitmap => decide (bit_overlap node_bitmap part_node_bitmap = 0)) then
      find_preemptable_loop overalloc_test preemptor_job_ptr part_node_bitmap rest
        preemptee_job_list
    else if (match preemptor_job_ptr.details with
        | none => false
        | some details => decide (details.expanding_jobid = preemptee_job_ptr.job_id)) then
      find_preemptable_loop overalloc_test preemptor_job_ptr part_node_bitmap rest
        preemptee_job_list
    else
      find_preemptable_loop overalloc_test preemptor_job_ptr part_node_bitmap rest
        (some (preemptee_job_list.getD [] ++ [preemptee_job_ptr]))

/-- The function `find_preemptable_jobs` (lines 390-456); the result `none` is
the NULL list. -/
def find_preemptable_jobs (overalloc_test : job_record → job_record → Int)
    (job_list : List job_record) (job_ptr : Option job_record) :
    Option (List job_record) :=
  match job_ptr with
  | none => none
  | some preemptor_job_ptr =>
    if ! IS_JOB_PENDING preemptor_job_ptr then none
    else
      match preemptor_job_ptr.part_ptr with
      | none => none
      | some part_ptr =>
        match part_ptr.node_bitmap with
        | none => none
        | some part_node_bitmap =>
          find_preemptable_loop overalloc_test preemptor_job_ptr part_node_bitmap job_list none

/-! ## Specification predicates -/

/-- Chain predicate `IsChain ns j l`: following `next` from record `j` visits the
records `j :: l` in this order and then meets the zero terminator. -/
def IsChain (ns : Nat → node_space_map_t) : Nat → List Nat → Prop
  | j, [] => (ns j).next = 0
  | j, k :: l => (ns j).next = k ∧ k ≠ 0 ∧ IsChain ns k l

/-- Contiguity `Contiguous ns l`: each record of `l` ends where its successor begins. -/
def Contiguous (ns : Nat → node_space_map_t) : List Nat → Prop
  | [] => True
  | [_] => True
  | a :: b :: l => (ns a).end_time = (ns b).begin_time ∧ Contiguous ns (b :: l)

/-- Structural well-formedness of the pool: the chain from record 0 visits the
distinct records `0 :: l`, all of them allocated (below `node_space_recs`) and
holding a bitmap. -/
structure ChainOK (s : node_space_state) (l : List Nat) : Prop where
  chain : IsChain s.node_space 0 l
  nodup : (0 :: l).Nodup
  alloc : ∀ k ∈ 0 :: l, k < s.node_space_recs
  bitmap : ∀ k ∈ 0 :: l, (s.node_space k).avail_bitmap ≠ none

/-- The candidate condition in the words of the specification: the job is
running or suspended, the candidate test holds, its node bitmap shares a node
with the partition bitmap of the preemptor, and it is not the job the preemptor
expands into. -/
def is_preemptee (overalloc_test : job_record → job_record → Int)
    (preemptor : job_record) (part_node_bitmap : bitstr_t) (J : job_record) : Prop :=
  (J.job_state = job_states.JOB_RUNNING ∨ J.job_state = job_states.JOB_SUSPENDED) ∧
  _job_prio_preemptable overalloc_test preemptor J = true ∧
  (∃ node_bitmap, J.node_bitmap = some node_bitmap ∧
    0 < bit_overlap node_bitmap part_node_bitmap) ∧
  (∀ details, preemptor.details = some details → details.expanding_jobid ≠ J.job_id)

instance is_preemptee_decidable (overalloc_test : job_record → job_record → Int)
    (preemptor : job_record) (part_node_bitmap : bitstr_t) (J : job_record) :
    Decidable (is_preemptee overalloc_test preemptor part_node_bitmap J) := by
  unfold is_preemptee
  cases hJ : J.node_bitmap with
  | none =>
    exact isFalse (fun h => by obtain ⟨_, _, ⟨nb, h1, _⟩, _⟩ := h; cases h1)
  | some nb =>
    cases hd : preemptor.details with
    | none =>
      exact decidable_of_iff
        ((J.job_state = job_states.JOB_RUNNING ∨ J.job_state = job_states.JOB_SUSPENDED) ∧
          _job_prio_preemptable overalloc_test preemptor J = true ∧
          0 < bit_overlap nb part_node_bitmap)
        ⟨fun h => ⟨h.1, h.2.1, ⟨nb, rfl, h.2.2⟩, fun d hd => by cases hd⟩,
         fun h => ⟨h.1, h.2.1, by obtain ⟨n2, e, h3⟩ := h.2.2.1; cases e; exact h3⟩⟩
    | some d =>
      exact decidable_of_iff
        ((J.job_state = job_states.JOB_RUNNING ∨ J.job_state = job_states.JOB_SUSPENDED) ∧
          _job_prio_preemptable overalloc_test preemptor J = true ∧
          0 < bit_overlap nb part_node_bitmap ∧ d.expanding_jobid ≠ J.job_id)
        ⟨fun h => ⟨h.1, h.2.1, ⟨nb, rfl, h.2.2.1⟩,
           fun d2 hd2 => by cases hd2; exact h.2.2.2⟩,
         fun h => ⟨h.1, h.2.1, by obtain ⟨n2, e, h3⟩ := h.2.2.1; cases e; exact h3,
           h.2.2.2 d rfl⟩⟩

/-! ## Sample data -/

/-- A partition of the four nodes 0 to 3. -/
def sample_part : part_record :=
  { node_bitmap := some {0, 1, 2, 3}, total_cpus := 4, total_nodes := 4, min_nodes := 1,
    max_nodes := 4, max_time := 1440, state_up := 3, flags := 0 }

/-- Running job 1 of priority 50 on nodes 0 and 1. -/
def sample_job_low : job_record :=
  { magic := 4038539564, job_id := 1, user_id := 500, array_job_id := 0,
    array_task_id := 4294967294, priority := 50, job_state := job_states.JOB_RUNNING,
    preempt_in_progress := false,
    node_bitmap := some {0, 1}, part_ptr := some sample_part, details := none,
    qos_ptr := none, assoc_ptr := none,
    total_cpus := 2, limit_set_max_nodes := 0, time_limit := 10, time_min := 0,
    start_time := 100, end_time := 0, pre_sus_time := 0, suspend_time := 0 }

/-- Running job 2 of priority 200 on node 2. -/
def sample_job_high : job_record :=
  { magic := 4038539564, job_id := 2, user_id := 500, array_job_id := 0,
    array_task_id := 4294967294, priority := 200, job_state := job_states.JOB_RUNNING,
    preempt_in_progress := false,
    node_bitmap := some {2}, part_ptr := some sample_part, details := none,
    qos_ptr := none, assoc_ptr := none,
    total_cpus := 1, limit_set_max_nodes := 0, time_limit := 10, time_min := 0,
    start_time := 100, end_time := 0, pre_sus_time := 0, suspend_time := 0 }

/-- Pending job 3 of priority 100 in the sample partition. -/
def sample_job_pending : job_record :=
  { magic := 4038539564, job_id := 3, user_id := 501, array_job_id := 0,
    array_task_id := 4294967294, priority := 100, job_state := job_states.JOB_PENDING,
    preempt_in_progress := false,
    node_bitmap := none, part_ptr := some sample_part, details := none,
    qos_ptr := none, assoc_ptr := none,
    total_cpus := 0, limit_set_max_nodes := 0, time_limit := 10, time_min := 0,
    start_time := 0, end_time := 0, pre_sus_time := 0, suspend_time := 0 }

/-! ## Interval lists: the timeline a chain stands for -/

/-- An interval `[b, e)` of the timeline with the nodes `a` free during it. -/
structure Interval where
  b : Nat
  e : Nat
  a : bitstr_t

/-- The record holding an interval, linked to record `nx`. -/
def Interval.toRec (x : Interval) (nx : Nat) : node_space_map_t :=
  { begin_time := x.b, end_time := x.e, avail_bitmap := some x.a, next := nx }

/-- Index of the first record of a chain segment, 0 for the empty segment. -/
def hdIdx : List (Nat × Interval) → Nat
  | [] => 0
  | p :: _ => p.1

/-- Representation `Rep ns c`: the records listed in `c` hold the intervals listed in
`c` and are linked in this order, the last one to the terminator. -/
def Rep (ns : Nat → node_space_map_t) : List (Nat × Interval) → Prop
  | [] => True
  | p :: rest => ns p.1 = p.2.toRec (hdIdx rest) ∧ Rep ns rest

/-- A well-formed chain segment of a state. -/
structure Seg (s : node_space_state) (c : List (Nat × Interval)) : Prop where
  rep : Rep s.node_space c
  nodup : (c.map Prod.fst).Nodup
  fresh : ∀ i ∈ c.map Prod.fst, i < s.node_space_recs
  nz : ∀ i ∈ c.tail.map Prod.fst, i ≠ 0

/-- Transition `Step s s1 c c1`: the segment `c` of `s` became the segment `c1` of
`s1`; only records of `c` and newly allocated records were written. -/
structure Step (s s1 : node_space_state) (c c1 : List (Nat × Interval)) : Prop where
  seg : Seg s1 c1
  hd : hdIdx c1 = hdIdx c
  idx : ∀ i ∈ c1.map Prod.fst, i ∈ c.map Prod.fst ∨ s.node_space_recs ≤ i
  frame : ∀ k, k ∉ c.map Prod.fst → (k < s.node_space_recs ∨ s1.node_space_recs ≤ k) →
    s1.node_space k = s.node_space k
  recs : s.node_space_recs ≤ s1.node_space_recs

/-- End placement on interval lists. -/
def absEnd (end_reserve : Nat) : List Interval → List Interval
  | [] => []
  | x :: rest =>
    if end_reserve < x.e then
      { x with e := end_reserve } :: { x with b := end_reserve } :: rest
    else if end_reserve = x.e then x :: rest
    else x :: absEnd end_reserve rest

/-- Start placement on interval lists. -/
def absStart (start_time end_reserve : Nat) : List Interval → List Interval
  | [] => []
  | x :: rest =>
    if x.e > start_time then
      { x with e := start_time } :: absEnd end_reserve ({ x with b := start_time } :: rest)
    else if x.e = start_time then x :: absEnd end_reserve rest
    else x :: absStart start_time end_reserve rest

/-- Removal of the reserved nodes on interval lists. -/
def absAnd (start_time end_reserve : Nat) (res : bitstr_t) : List Interval → List Interval
  | [] => []
  | x :: rest =>
    let x1 : Interval :=
      if x.b ≥ start_time ∧ x.e ≤ end_reserve then { x with a := x.a ∩ res } else x
    if x1.b ≥ end_reserve then x1 :: rest
    else x1 :: absAnd start_time end_reserve res rest

/-- Single compaction merge on interval lists. -/
def absMerge : List Interval → List Interval
  | [] => []
  | [x] => [x]
  | x :: y :: rest =>
    if x.a = y.a then { x with e := y.e } :: rest
    else x :: absMerge (y :: rest)

/-- The whole of `_add_reservation` on interval lists. -/
def absAdd (start_time end_reserve : Nat) (res : bitstr_t) (l : List Interval) :
    List Interval :=
  absMerge (absAnd start_time end_reserve res (absStart start_time end_reserve l))

/-- Tiling `Tiled b l t`: the intervals of `l` start at `b`, each ends where the
next begins, and the last one ends at `t`. -/
def Tiled : Nat → List Interval → Nat → Prop
  | b, [], t => b = t
  | b, x :: l, t => x.b = b ∧ Tiled x.e l t

/-- Every interval of the list has `b ≤ e`. -/
def Ordered (l : List Interval) : Prop := ∀ x ∈ l, x.b ≤ x.e

/-- Every interval of the list has `b < e`. -/
def Strict (l : List Interval) : Prop := ∀ x ∈ l, x.b < x.e

/-- The interval held by a record. -/
def intervalOf (r : node_space_map_t) : Interval :=
  { b := r.begin_time, e := r.end_time, a := r.avail_bitmap.getD ∅ }

/-- The intervals held by the records `l` of a pool, in this order. -/
def intervalsOf (ns : Nat → node_space_map_t) (l : List Nat) : List Interval :=
  l.map (fun k => intervalOf (ns k))

/-! ## Job runtime and preempt mode (`preempt_job_prio.c`) -/

/-- Modelled from the spec: the C library function `difftime` on two `time_t`
values; the difference of two times in seconds is an integer that a `double`
holds exactly. -/
def difftime (time1 time0 : Int) : Int := time1 - time0

/-- The function `_get_job_runtime` (lines 117-141); `now` is the value of
`time(NULL)`. -/
def _get_job_runtime (now : Nat) (job_ptr : job_record) : Int :=
  if IS_JOB_PENDING job_ptr = true then 0
  else if IS_JOB_SUSPENDED job_ptr = true then (job_ptr.pre_sus_time : Int)
  else
    let end_time : Int :=
      if IS_JOB_RUNNING job_ptr = true ∨ job_ptr.end_time = 0 then (now : Int)
      else (job_ptr.end_time : Int)
    if job_ptr.suspend_time ≠ 0 then
      difftime end_time job_ptr.suspend_time + job_ptr.pre_sus_time
    else difftime end_time job_ptr.start_time

/-- The expression `mode & (~flag)` on a `uint16_t` mode and an `int` flag
constant, stored in a `uint16_t`. -/
def clear_flag (mode flag : Nat) : Nat :=
  (mode &&& (4294967295 ^^^ flag)) % 65536

/-- The function `job_preempt_mode` (lines 461-481). The constant
`PREEMPT_MODE_GANG` of `slurm.h` and the cluster-wide mode returned by
`slurm_get_preempt_mode()` are arguments. -/
def job_preempt_mode (PREEMPT_MODE_GANG slurm_preempt_mode : Nat) (job_ptr : job_record) :
    Nat :=
  let qos_mode : Option Nat :=
    match job_ptr.qos_ptr with
    | none => none
    | some qos => if qos.preempt_mode ≠ 0 then some qos.preempt_mode else none
  match qos_mode with
  | some mode => mode
  | none => clear_flag slurm_preempt_mode PREEMPT_MODE_GANG

/-- The function `preemption_enabled` (lines 486-489). The constant
`PREEMPT_MODE_OFF` of `slurm.h` and the cluster-wide mode are arguments. -/
def preemption_enabled (PREEMPT_MODE_OFF slurm_preempt_mode : Nat) : Bool :=
  decide (slurm_preempt_mode ≠ PREEMPT_MODE_OFF)

/-! ## Lock yields of the planner (`backfill.c`) -/

/-- The global state read around a lock yield: the three update times, the time
of the last configuration update, and the two flags. -/
structure bf_globals where
  last_job_update : Nat
  last_node_update : Nat
  last_part_update : Nat
  conf_last_update : Nat
  stop_backfill : Bool
  config_flag : Bool

/-- The function `_yield_locks` (lines 689-711): `before` is the global state
when the locks are released, `after` the state when they are held again. The
diagnostic counter `bf_last_yields` is left out. -/
def _yield_locks (before after : bf_globals) : Nat :=
  let job_update := before.last_job_update
  let node_update := before.last_node_update
  let part_update := before.last_part_update
  if after.last_job_update = job_update ∧ after.last_node_update = node_update ∧
      after.last_part_update = part_update ∧ after.stop_backfill = false ∧
      after.config_flag = false then 0
  else 1

/-- The abort test after a yield in `_attempt_backfill` (lines 849-851 and
1055-1057); `config_update` and `part_update` are the snapshots taken at the
start of the cycle (lines 743-744). True means `rc = 1; break`. -/
def yield_abort (backfill_continue : Bool) (config_update part_update : Nat)
    (before after : bf_globals) : Bool :=
  (decide (_yield_locks before after ≠ 0) && ! backfill_continue) ||
    decide (after.conf_last_update ≠ config_update) ||
    decide (after.last_part_update ≠ part_update)

/-! ## Configuration of the planner (`_load_config`) -/

/-- The static tunables of `backfill.c` (lines 134-142), all of type `int`
except the flag `backfill_continue`. -/
structure bf_tunables where
  backfill_interval : Int
  backfill_resolution : Int
  backfill_window : Int
  max_backfill_job_cnt : Int
  max_backfill_job_per_part : Int
  max_backfill_job_per_user : Int
  max_backfill_jobs_start : Int
  backfill_continue : Bool
  defer_rpc_cnt : Int

/-- The initial values of the static tunables (lines 94-106 and 134-142). -/
def bf_tunables_static : bf_tunables :=
  { backfill_interval := 30, backfill_resolution := 60, backfill_window := 24 * 60 * 60,
    max_backfill_job_cnt := 100, max_backfill_job_per_part := 0,
    max_backfill_job_per_user := 0, max_backfill_jobs_start := 0,
    backfill_continue := false, defer_rpc_cnt := 0 }

/-- The value of an arithmetic result stored in a 32-bit `int` (two's
complement wrap-around). -/
def int_wrap (x : Int) : Int := (x + 2147483648) % 4294967296 - 2147483648

/-- Modelled from the spec: the C library function `strstr`; the result is the
rest of `haystack` from the first occurrence of `needle` on, `none` for NULL. -/
def strstr : List Char → List Char → Option (List Char)
  | [], needle => if needle = [] then some [] else none
  | c :: cs, needle =>
    if needle.isPrefixOf (c :: cs) = true then some (c :: cs) else strstr cs needle

/-- Modelled from the spec: the C library predicate `isspace` in the C locale. -/
def isspace (c : Char) : Bool :=
  decide (c.toNat = 32) || decide (9 ≤ c.toNat ∧ c.toNat ≤ 13)

/-- The digits read by `atoi`: the value of the longest prefix of decimal
digits, continuing from `acc`. -/
def atoi_digits : List Char → Nat → Nat
  | [], acc => acc
  | c :: cs, acc =>
    if 48 ≤ c.toNat ∧ c.toNat ≤ 57 then atoi_digits cs (acc * 10 + (c.toNat - 48))
    else acc

/-- Modelled from the spec: the C library function `atoi`: leading white space,
an optional sign, decimal digits; the value is stored in an `int`. -/
def atoi (s : List Char) : Int :=
  match s.dropWhile isspace with
  | [] => 0
  | c :: cs =>
    if c.toNat = 45 then int_wrap (- (atoi_digits cs 0 : Int))
    else if c.toNat = 43 then int_wrap (atoi_digits cs 0)
    else int_wrap (atoi_digits (c :: cs) 0)

/-- The pattern `sched_params && (tmp_ptr = strstr(sched_params, key))` followed
by `atoi(tmp_ptr + skip)` of `_load_config`: the parsed value when the key
occurs, `none` when `sched_params` is NULL or the key does not occur. -/
def sched_param_atoi (sched_params : Option (List Char)) (key : String) (skip : Nat) :
    Option Int :=
  match sched_params with
  | none => none
  | some params =>
    match strstr params key.toList with
    | none => none
    | some tmp_ptr => some (atoi (tmp_ptr.drop skip))

/-- The function `_load_config` (lines 441-526) on the tunables; `sched_params`
is the result of `slurm_get_sched_params()`. The debug flags are left out. -/
def _load_config (sched_params : Option (List Char)) (t : bf_tunables) : bf_tunables :=
  let backfill_interval :=
    match sched_param_atoi sched_params "bf_interval=" 12 with
    | some v => v
    | none => t.backfill_interval
  let backfill_interval := if backfill_interval < 1 then 30 else backfill_interval
  let backfill_window :=
    match sched_param_atoi sched_params "bf_window=" 10 with
    | some v => int_wrap (v * 60)
    | none => t.backfill_window
  let backfill_window := if backfill_window < 1 then 24 * 60 * 60 else backfill_window
  let max_backfill_job_cnt :=
    match sched_param_atoi sched_params "max_job_bf=" 11 with
    | some v => v
    | none => t.max_backfill_job_cnt
  let max_backfill_job_cnt :=
    match sched_param_atoi sched_params "bf_max_job_test=" 16 with
    | some v => v
    | none => max_backfill_job_cnt
  let max_backfill_job_cnt := if max_backfill_job_cnt < 1 then 50 else max_backfill_job_cnt
  let backfill_resolution :=
    match sched_param_atoi sched_params "bf_res=" 7 with
    | some v => v
    | none => t.backfill_resolution
  let backfill_resolution :=
    match sched_param_atoi sched_params "bf_resolution=" 14 with
    | some v => v
    | none => backfill_resolution
  let backfill_resolution := if backfill_resolution < 1 then 60 else backfill_resolution
  let max_backfill_job_per_part :=
    match sched_param_atoi sched_params "bf_max_job_part=" 16 with
    | some v => v
    | none => t.max_backfill_job_per_part
  let max_backfill_job_per_part :=
    if max_backfill_job_per_part < 0 then 0 else max_backfill_job_per_part
  let max_backfill_jobs_start :=
    match sched_param_atoi sched_params "bf_max_job_start=" 17 with
    | some v => v
    | none => t.max_backfill_jobs_start
  let max_backfill_jobs_start :=
    if max_backfill_jobs_start < 0 then 0 else max_backfill_jobs_start
  let max_backfill_job_per_user :=
    match sched_param_atoi sched_params "bf_max_job_user=" 16 with
    | some v => v
    | none => t.max_backfill_job_per_user
  let max_backfill_job_per_user :=
    if max_backfill_job_per_user < 0 then 0 else max_backfill_job_per_user
  let backfill_continue :=
    match sched_params with
    | none => t.backfill_continue
    | some params =>
      if (strstr params "bf_continue".toList).isSome = true then true
      else t.backfill_continue
  let defer_rpc_cnt :=
    match sched_param_atoi sched_params "max_rpc_cnt=" 12 with
    | some v => v
    | none => t.defer_rpc_cnt
  let defer_rpc_cnt := if defer_rpc_cnt < 0 then 0 else defer_rpc_cnt
  { backfill_interval := backfill_interval, backfill_resolution := backfill_resolution,
    backfill_window := backfill_window, max_backfill_job_cnt := max_backfill_job_cnt,
    max_backfill_job_per_part := max_backfill_job_per_part,
    max_backfill_job_per_user := max_backfill_job_per_user,
    max_backfill_jobs_start := max_backfill_jobs_start,
    backfill_continue := backfill_continue, defer_rpc_cnt := defer_rpc_cnt }

/-! ## The agent loop (`backfill_agent`) -/

/-- Length of the arrays `uid` and `njobs` (lines 108-112). -/
def BF_MAX_USERS : Nat := 1000

/-- Constants of header files that are not part of the sources; the planner
model takes them as parameters. -/
structure bf_consts where
  NO_VAL : Nat
  INFINITE : Nat
  JOB_MAGIC : Nat
  PARTITION_SCHED : Nat
  PART_FLAG_ROOT_ONLY : Nat
  QOS_FLAG_NO_RESERVE : Nat
  SLURM_SUCCESS : Int
  ESLURM_ACCOUNTING_POLICY : Int

/-- The values that are fixed when the queue loop of `_attempt_backfill` starts:
the tunables, the snapshots `config_update` and `part_update` (lines 743-744),
`filter_root` (line 774), the partition pointers of `part_list` (lines 811-824),
the number of nodes, the time and the bitmaps read at lines 772-807, and the
bound `fuel` on the iterations of every loop over `node_space`. -/
structure bf_cycle where
  consts : bf_consts
  tunables : bf_tunables
  config_update : Nat
  part_update : Nat
  filter_root : Bool
  bf_part_ptr : List Nat
  node_record_count : Nat
  sched_start : Nat
  avail_node_bitmap : bitstr_t
  cg_node_bitmap : bitstr_t
  fuel : Nat

/-- The values returned by `job_test_resv`, which is not part of the sources:
the result code, `*when` and `*node_bitmap`. -/
structure job_test_resv_t where
  rc : Int
  start_res : Nat
  avail_bitmap : bitstr_t

/-- What one pass from the label `TRY_LATER` (lines 1035-1332) reads from the
rest of the controller, in the order of the source: `shutdown_time`, the thread
count and `time(NULL)` of lines 1036-1041, the global state around the yield of
line 1055, `cg_node_bitmap` and the job record after it, `avail_front_end` and
`time(NULL)` of lines 1083-1088, `job_test_resv` as a function of the requested
start, `find_resv_end`, `up_node_bitmap`, `job_req_node_filter`, the result of
`_try_sched` with the bitmap and the job start time it leaves, `time(NULL)` of
line 1185 and the result of `_start_job`. -/
structure bf_pass_env where
  shutdown_time : Nat
  server_thread_count : Int
  time : Nat
  before : bf_globals
  after : bf_globals
  cg_node_bitmap : bitstr_t
  job_ptr : job_record
  avail_front_end : Bool
  time_after_yield : Nat
  job_test_resv : Nat → job_test_resv_t
  find_resv_end : Nat
  up_node_bitmap : bitstr_t
  job_req_node_filter : Int
  try_sched : Int
  try_sched_bitmap : bitstr_t
  try_sched_start_time : Nat
  now : Nat
  start_job : Int

/-- One entry of the job queue as the planner meets it: the fields of
`job_queue_rec_t` (`part_ptr` is the address of the partition record, `part`
the record), the job record as found at line 871, what lines 837-867, 891 and
983-1028 read from the rest of the controller, and what each pass from
`TRY_LATER` reads. -/
structure bf_queue_rec where
  job_id : Nat
  part_ptr : Nat
  part : part_record
  job_ptr : job_record
  shutdown_time : Nat
  server_thread_count : Int
  time : Nat
  before : bf_globals
  after : bf_globals
  cg_node_bitmap : bitstr_t
  time_after_yield : Nat
  avail_front_end : Bool
  job_independent : Bool
  license_job_test : Int
  slurm_get_preempt_mode : Nat
  passes : List bf_pass_env

/-- The calls that the claims about a planner cycle count: an entry taken from
the queue (`list_pop`, line 831), a call of `_yield_locks` with its result, a
successful `_start_job`, and a call of `_add_reservation` with its time
arguments and the value of `*node_space_recs` before and after. -/
inductive bf_event where
  | popped (job_id : Nat)
  | yield (rc : Nat)
  | started (job_id : Nat)
  | reserved (job_id start_time end_reserve recs_before recs_after : Nat)
deriving DecidableEq

/-- The arrays `uid` and `njobs` with the counter `nuser`. -/
structure bf_user_table where
  uid : Nat → Nat
  njobs : Nat → Nat
  nuser : Nat

/-- The local variables of `_attempt_backfill` that live across queue entries,
and the list of calls made so far. -/
structure bf_state where
  space : node_space_state
  job_start_cnt : Nat
  users : bf_user_table
  bf_part_jobs : Nat → Nat
  reject_array_job_id : Nat
  reject_array_part : Option Nat
  non_cg_bitmap : bitstr_t
  now : Nat
  sched_start : Nat
  rc : Int
  trace : List bf_event

/-- How the body of the queue loop is left: `continue`, `break`, or the model
cannot go on (a loop bound or the list of passes is used up, or a NULL pointer
would be read). -/
inductive bf_flow where
  | next
  | stop
  | stuck
deriving DecidableEq

/-- A part of the loop body either leaves the body or goes on with a value. -/
inductive bf_result (α : Type) where
  | exit (s : bf_state) (flow : bf_flow)
  | go (s : bf_state) (a : α)

/-- A part of a pass leaves the body, jumps to `TRY_LATER` with a new
`later_start`, or goes on with a value. -/
inductive bf_later (α : Type) where
  | exit (s : bf_state) (flow : bf_flow)
  | retry (s : bf_state) (later_start : Nat)
  | go (s : bf_state) (a : α)

/-- A pass leaves the body or jumps to `TRY_LATER`. -/
inductive bf_end where
  | exit (s : bf_state) (flow : bf_flow)
  | retry (s : bf_state) (later_start : Nat)

/-- The values computed for a job before the label `TRY_LATER` (lines
974-1031). -/
structure bf_plan where
  node_bitmap : bitstr_t
  details : job_details
  min_nodes : Nat
  max_nodes : Nat
  req_nodes : Nat
  time_limit : Nat
  comp_time_limit : Nat
  orig_time_limit : Nat
  no_reserve : Bool

/-- The values a pass holds after the node test of lines 1095-1164. -/
structure bf_avail where
  avail_bitmap : bitstr_t
  later_start : Nat
  start_res : Nat

/-- The values a pass holds after `_try_sched` and `_start_job` (lines
1166-1275); `start_time` is `job_ptr->start_time`. -/
structure bf_sched where
  avail_bitmap : bitstr_t
  later_start : Nat
  start_time : Nat

/-- Record a call. -/
def bf_emit (s : bf_state) (e : bf_event) : bf_state :=
  { s with trace := s.trace ++ [e] }

/-- Assignment `a[i] = v` in an array of integers. -/
def set_at (a : Nat → Nat) (i v : Nat) : Nat → Nat :=
  fun k => if k = i then v else a k

/-- The local `window_end` (line 803). -/
def bf_window_end (c : bf_cycle) : Int :=
  (c.sched_start : Int) + c.tunables.backfill_window

/-- The arrays `uid` and `njobs` as allocated by `xmalloc` (lines 825-828), with
`nuser = 0`. -/
def bf_users_init : bf_user_table :=
  { uid := fun _ => 0, njobs := fun _ => 0, nuser := 0 }

/-- The state at line 829, before the queue loop (lines 732-828). -/
def bf_init (c : bf_cycle) : bf_state :=
  { space := init_node_space c.sched_start c.tunables.backfill_window.toNat
      c.avail_node_bitmap,
    job_start_cnt := 0,
    users := bf_users_init,
    bf_part_jobs := fun _ => 0,
    reject_array_job_id := 0,
    reject_array_part := none,
    non_cg_bitmap := bit_not c.node_record_count (bit_copy c.cg_node_bitmap),
    now := c.sched_start,
    sched_start := c.sched_start,
    rc := 0,
    trace := [] }

/-- The yield test of lines 839-841 and 1039-1041, with `sched_timeout = 2`. -/
def bf_yield_needed (c : bf_cycle) (server_thread_count : Int) (time sched_start : Nat) :
    Bool :=
  decide ((c.tunables.defer_rpc_cnt > 0 ∧ server_thread_count ≥ c.tunables.defer_rpc_cnt) ∨
    (time : Int) - (sched_start : Int) ≥ 2)

/-- The search of lines 911-918 from index `j` on; the result is the new array
`bf_part_jobs` and `skip_job`. The counters are `uint32_t`, so the limit is
compared as an unsigned number. -/
def bf_part_loop (part_ptr : Nat) (max_backfill_job_per_part : Int) :
    List Nat → Nat → (Nat → Nat) → (Nat → Nat) × Bool
  | [], _, bf_part_jobs => (bf_part_jobs, false)
  | p :: rest, j, bf_part_jobs =>
    if p ≠ part_ptr then
      bf_part_loop part_ptr max_backfill_job_per_part rest (j + 1) bf_part_jobs
    else
      (set_at bf_part_jobs j ((bf_part_jobs j + 1) % 4294967296),
        decide (bf_part_jobs j ≥ (max_backfill_job_per_part % 4294967296).toNat))

/-- The search loop of lines 932-941 without the increment: the first index
from `j` on, among `n` entries, whose `uid` is `user_id`, or the index after
the last entry. -/
def bf_user_search (uid : Nat → Nat) (user_id : Nat) : Nat → Nat → Nat
  | 0, j => j
  | n + 1, j => if user_id = uid j then j else bf_user_search uid user_id n (j + 1)

/-- The per-user test of lines 932-971; the result is the new table and whether
the job is skipped. `njobs` is an array of `uint16_t`. -/
def bf_user_check (max_backfill_job_per_user : Int) (user_id : Nat) (t : bf_user_table) :
    bf_user_table × Bool :=
  let j := bf_user_search t.uid user_id t.nuser 0
  if j = t.nuser then
    if t.nuser < BF_MAX_USERS then
      ({ uid := set_at t.uid j user_id, njobs := set_at t.njobs j 1,
         nuser := (t.nuser + 1) % 4294967296 }, false)
    else (t, false)
  else
    let njobs := set_at t.njobs j ((t.njobs j + 1) % 65536)
    ({ t with njobs := njobs }, decide ((njobs j : Int) ≥ max_backfill_job_per_user))

/-- The per-user test applied, in queue order, to the user ids of the jobs that
reach line 931; the result lists the user ids of the jobs that are not
skipped. -/
def bf_user_pass (max_backfill_job_per_user : Int) :
    List Nat → bf_user_table → List Nat
  | [], _ => []
  | user_id :: rest, t =>
    if (bf_user_check max_backfill_job_per_user user_id t).2 = true then
      bf_user_pass max_backfill_job_per_user rest
        (bf_user_check max_backfill_job_per_user user_id t).1
    else
      user_id :: bf_user_pass max_backfill_job_per_user rest
        (bf_user_check max_backfill_job_per_user user_id t).1

/-- The table after the per-user test was applied to a list of user ids. -/
def bf_user_run (max_backfill_job_per_user : Int) :
    List Nat → bf_user_table → bf_user_table
  | [], t => t
  | user_id :: rest, t =>
    bf_user_run max_backfill_job_per_user rest
      (bf_user_check max_backfill_job_per_user user_id t).1

/-- The loop of lines 1117-1130 from record `j` on: the new `later_start` and
`avail_bitmap`. -/
def bf_scan (node_space : Nat → node_space_map_t) (start_res end_time : Nat) :
    Nat → Nat → Nat → bitstr_t → Option (Nat × bitstr_t)
  | 0, _, _, _ => none
  | fuel + 1, j, later_start, avail_bitmap =>
    let later_start :=
      if (node_space j).end_time > start_res ∧ (node_space j).next ≠ 0 ∧ later_start = 0 then
        (node_space j).end_time
      else later_start
    if (node_space j).end_time ≤ start_res then
      if (node_space j).next = 0 then some (later_start, avail_bitmap)
      else bf_scan node_space start_res end_time fuel (node_space j).next later_start
        avail_bitmap
    else if (node_space j).begin_time ≤ end_time then
      match (node_space j).avail_bitmap with
      | none => none
      | some b =>
        if (node_space j).next = 0 then some (later_start, bit_and avail_bitmap b)
        else bf_scan node_space start_res end_time fuel (node_space j).next later_start
          (bit_and avail_bitmap b)
    else some (later_start, avail_bitmap)

/-- Lines 831-870: take the entry from the queue, leave on shutdown, and yield
the locks when the test of lines 839-841 holds. -/
def bf_pop (c : bf_cycle) (e : bf_queue_rec) (s : bf_state) : bf_result Unit :=
  let s := bf_emit s (bf_event.popped e.job_id)
  if e.shutdown_time ≠ 0 then bf_result.exit s bf_flow.stop
  else if bf_yield_needed c e.server_thread_count e.time s.sched_start = true then
    let s := bf_emit s (bf_event.yield (_yield_locks e.before e.after))
    if yield_abort c.tunables.backfill_continue c.config_update c.part_update
        e.before e.after = true then
      bf_result.exit { s with rc := 1 } bf_flow.stop
    else
      bf_result.go { s with
        non_cg_bitmap := bit_not c.node_record_count e.cg_node_bitmap,
        sched_start := e.time_after_yield } ()
  else bf_result.go s ()

/-- Lines 871-900: the stale-pointer test, the state tests and the test of
rejected job arrays. -/
def bf_validate (c : bf_cycle) (e : bf_queue_rec) (s : bf_state) : bf_result Unit :=
  if e.job_ptr.magic ≠ c.consts.JOB_MAGIC ∨ e.job_ptr.job_id ≠ e.job_id then
    bf_result.exit s bf_flow.next
  else if (! IS_JOB_PENDING e.job_ptr) = true then bf_result.exit s bf_flow.next
  else if e.job_ptr.preempt_in_progress = true then bf_result.exit s bf_flow.next
  else if (! e.avail_front_end) = true then bf_result.exit s bf_flow.next
  else if e.job_ptr.array_task_id ≠ c.consts.NO_VAL then
    if s.reject_array_job_id = e.job_ptr.array_job_id ∧
        s.reject_array_part = some e.part_ptr then
      bf_result.exit s bf_flow.next
    else
      bf_result.go { s with
        reject_array_job_id := e.job_ptr.array_job_id,
        reject_array_part := some e.part_ptr } ()
  else bf_result.go s ()

/-- Lines 909-972: the per-partition and the per-user limit. -/
def bf_caps (c : bf_cycle) (e : bf_queue_rec) (s : bf_state) : bf_result Unit :=
  let part : (Nat → Nat) × Bool :=
    if c.tunables.max_backfill_job_per_part ≠ 0 then
      bf_part_loop e.part_ptr c.tunables.max_backfill_job_per_part c.bf_part_ptr 0
        s.bf_part_jobs
    else (s.bf_part_jobs, false)
  let s := { s with bf_part_jobs := part.1 }
  if part.2 = true then bf_result.exit s bf_flow.next
  else if c.tunables.max_backfill_job_per_user ≠ 0 then
    let user := bf_user_check c.tunables.max_backfill_job_per_user e.job_ptr.user_id s.users
    let s := { s with users := user.1 }
    if user.2 = true then bf_result.exit s bf_flow.next else bf_result.go s ()
  else bf_result.go s ()

/-- Lines 974-1031: the partition test, the dependency and licence tests, the
node counts and the time limit. The writes to `job_ptr->time_limit` are left
out; the job record is read from the queue entry. -/
def bf_limits (c : bf_cycle) (e : bf_queue_rec) (s : bf_state) : bf_result bf_plan :=
  if e.part.state_up &&& c.consts.PARTITION_SCHED = 0 ∨ e.part.node_bitmap = none ∨
      (e.part.flags &&& c.consts.PART_FLAG_ROOT_ONLY ≠ 0 ∧ c.filter_root = true) then
    bf_result.exit s bf_flow.next
  else if e.job_independent = false ∨ e.license_job_test ≠ c.consts.SLURM_SUCCESS then
    bf_result.exit s bf_flow.next
  else
    match e.part.node_bitmap, e.job_ptr.details with
    | some node_bitmap, some details =>
      let min_nodes := max details.min_nodes e.part.min_nodes
      let max_nodes :=
        if details.max_nodes = 0 then e.part.max_nodes
        else min details.max_nodes e.part.max_nodes
      let max_nodes := min max_nodes 500000
      let req_nodes := if details.max_nodes ≠ 0 then max_nodes else min_nodes
      if min_nodes > max_nodes then bf_result.exit s bf_flow.next
      else
        let part_time_limit :=
          if e.part.max_time = c.consts.INFINITE then 365 * 24 * 60 else e.part.max_time
        let time_limit :=
          if e.job_ptr.time_limit = c.consts.NO_VAL then part_time_limit
          else if e.part.max_time = c.consts.INFINITE then e.job_ptr.time_limit
          else min e.job_ptr.time_limit part_time_limit
        let comp_time_limit := time_limit
        let no_reserve : Bool :=
          match e.job_ptr.qos_ptr with
          | none => false
          | some qos_ptr => decide (qos_ptr.flags &&& c.consts.QOS_FLAG_NO_RESERVE ≠ 0)
        let time_limit :=
          if no_reserve = true ∧ e.slurm_get_preempt_mode ≠ 0 then 1
          else if e.job_ptr.time_min ≠ 0 ∧ e.job_ptr.time_min < time_limit then
            e.job_ptr.time_min
          else time_limit
        bf_result.go s
          { node_bitmap := node_bitmap, details := details, min_nodes := min_nodes,
            max_nodes := max_nodes, req_nodes := req_nodes, time_limit := time_limit,
            comp_time_limit := comp_time_limit, orig_time_limit := e.job_ptr.time_limit,
            no_reserve := no_reserve }
    | _, _ => bf_result.exit s bf_flow.stuck

/-- Lines 1036-1091 of a pass (production path): leave on shutdown, yield the
locks when the test of lines 1039-1041 holds, and validate the job again. -/
def bf_pass_yield (c : bf_cycle) (e : bf_queue_rec) (p : bf_pass_env) (s : bf_state) :
    bf_result Unit :=
  if p.shutdown_time ≠ 0 then bf_result.exit s bf_flow.stop
  else if bf_yield_needed c p.server_thread_count p.time s.sched_start = true then
    let s := bf_emit s (bf_event.yield (_yield_locks p.before p.after))
    if yield_abort c.tunables.backfill_continue c.config_update c.part_update
        p.before p.after = true then
      bf_result.exit { s with rc := 1 } bf_flow.stop
    else
      let s := { s with non_cg_bitmap := bit_not c.node_record_count p.cg_node_bitmap }
      if p.job_ptr.magic ≠ c.consts.JOB_MAGIC ∨ p.job_ptr.job_id ≠ e.job_ptr.job_id then
        bf_result.exit s bf_flow.next
      else if (! IS_JOB_PENDING p.job_ptr) = true then bf_result.exit s bf_flow.next
      else if (! p.avail_front_end) = true then bf_result.exit s bf_flow.next
      else bf_result.go { s with sched_start := p.time_after_yield } ()
  else bf_result.go s ()

/-- Lines 1095-1164 of a pass: the reservation test, the nodes usable over the
projected run time, and the test whether enough nodes remain. -/
def bf_pass_test (c : bf_cycle) (plan : bf_plan) (p : bf_pass_env) (s : bf_state)
    (later_start : Nat) : bf_later bf_avail :=
  let resv := p.job_test_resv later_start
  let start_res := resv.start_res
  let later_start := 0
  if resv.rc ≠ c.consts.SLURM_SUCCESS then bf_later.exit s bf_flow.next
  else
    let end_time :=
      if start_res > s.now then ((plan.time_limit * 60) % 4294967296 + start_res) % 4294967296
      else ((plan.time_limit * 60) % 4294967296 + s.now) % 4294967296
    let resv_end := p.find_resv_end
    let avail_bitmap := bit_and resv.avail_bitmap plan.node_bitmap
    let avail_bitmap := bit_and avail_bitmap p.up_node_bitmap
    let avail_bitmap := bit_and avail_bitmap s.non_cg_bitmap
    match bf_scan s.space.node_space start_res end_time c.fuel 0 later_start avail_bitmap with
    | none => bf_later.exit s bf_flow.stuck
    | some (later_start, avail_bitmap) =>
      let later_start :=
        if resv_end ≠ 0 ∧ ((resv_end + 1 : Nat) : Int) < bf_window_end c ∧
            (later_start = 0 ∨ resv_end + 1 < later_start) then resv_end + 1
        else later_start
      let avail_bitmap :=
        match plan.details.exc_node_bitmap with
        | none => avail_bitmap
        | some exc_node_bitmap =>
          bit_and avail_bitmap (bit_not c.node_record_count exc_node_bitmap)
      let req_missing : Bool :=
        match plan.details.req_node_bitmap with
        | none => false
        | some req_node_bitmap => ! bit_super_set req_node_bitmap avail_bitmap
      if bit_set_count avail_bitmap < plan.min_nodes ∨ req_missing = true ∨
          p.job_req_node_filter ≠ 0 then
        if later_start ≠ 0 then bf_later.retry s later_start
        else bf_later.exit s bf_flow.next
      else
        bf_later.go s
          { avail_bitmap := avail_bitmap, later_start := later_start, start_res := start_res }

/-- Lines 1166-1275 of a pass: `_try_sched`, and `_start_job` when the job can
start now; a started job is counted against `max_backfill_jobs_start`. The
counter `job_start_cnt` is a `uint32_t`, so the limit is compared as an
unsigned number. The time-limit bookkeeping of lines 1201-1234 writes only the
job record and is left out. -/
def bf_pass_sched (c : bf_cycle) (e : bf_queue_rec) (p : bf_pass_env) (s : bf_state)
    (a : bf_avail) : bf_result bf_sched :=
  let s := { s with now := p.now }
  if p.try_sched ≠ c.consts.SLURM_SUCCESS then bf_result.exit s bf_flow.next
  else
    let job_start_time :=
      if a.start_res > p.try_sched_start_time then a.start_res else p.try_sched_start_time
    if job_start_time ≤ s.now then
      if p.start_job = c.consts.ESLURM_ACCOUNTING_POLICY then bf_result.exit s bf_flow.next
      else if p.start_job ≠ c.consts.SLURM_SUCCESS then
        bf_result.go s
          { avail_bitmap := p.try_sched_bitmap, later_start := 0, start_time := job_start_time }
      else
        let s := { s with
          reject_array_job_id := 0,
          reject_array_part := none,
          job_start_cnt := (s.job_start_cnt + 1) % 4294967296 }
        let s := bf_emit s (bf_event.started e.job_ptr.job_id)
        if c.tunables.max_backfill_jobs_start ≠ 0 ∧
            s.job_start_cnt ≥ (c.tunables.max_backfill_jobs_start % 4294967296).toNat then
          bf_result.exit s bf_flow.stop
        else bf_result.exit s bf_flow.next
    else
      bf_result.go s
        { avail_bitmap := p.try_sched_bitmap, later_start := a.later_start,
          start_time := job_start_time }

/-- Lines 1277-1332 of a pass (production path): the snapped reservation, the
window test, the table-size test, the overlap test, and the call of
`_add_reservation`. -/
def bf_pass_reserve (c : bf_cycle) (e : bf_queue_rec) (plan : bf_plan) (s : bf_state)
    (a : bf_sched) : bf_end :=
  let planted := attempt_backfill_planted
    (c.tunables.backfill_resolution % 4294967296).toNat a.start_time plan.time_limit
  let start_time := planted.1
  let end_reserve := planted.2
  if a.later_start ≠ 0 ∧ start_time > a.later_start then bf_end.retry s a.later_start
  else if (a.start_time : Int) > (s.sched_start : Int) + c.tunables.backfill_window then
    bf_end.exit s bf_flow.next
  else if (s.space.node_space_recs : Int) ≥ c.tunables.max_backfill_job_cnt then
    bf_end.exit s bf_flow.stop
  else
    let overlap : Option Bool :=
      if a.start_time > s.now then
        _test_resv_overlap c.fuel s.space.node_space a.avail_bitmap start_time end_reserve
      else some false
    match overlap with
    | none => bf_end.exit s bf_flow.stuck
    | some true => bf_end.retry s a.start_time
    | some false =>
      if plan.no_reserve = true then bf_end.exit s bf_flow.next
      else
        let s := { s with reject_array_job_id := 0, reject_array_part := none }
        match _add_reservation c.fuel start_time end_reserve
            (bit_not c.node_record_count a.avail_bitmap) s.space with
        | none => bf_end.exit s bf_flow.stuck
        | some space =>
          bf_end.exit
            (bf_emit { s with space := space }
              (bf_event.reserved e.job_ptr.job_id start_time end_reserve
                s.space.node_space_recs space.node_space_recs))
            bf_flow.next

/-- One pass from the label `TRY_LATER` to a `continue`, a `break` or a
`goto TRY_LATER` (lines 1035-1332). -/
def bf_pass (c : bf_cycle) (e : bf_queue_rec) (plan : bf_plan) (p : bf_pass_env)
    (s : bf_state) (later_start : Nat) : bf_end :=
  match bf_pass_yield c e p s with
  | bf_result.exit s flow => bf_end.exit s flow
  | bf_result.go s _ =>
    match bf_pass_test c plan p s later_start with
    | bf_later.exit s flow => bf_end.exit s flow
    | bf_later.retry s later_start => bf_end.retry s later_start
    | bf_later.go s a =>
      match bf_pass_sched c e p s a with
      | bf_result.exit s flow => bf_end.exit s flow
      | bf_result.go s a => bf_pass_reserve c e plan s a

/-- The passes of one job: every `goto TRY_LATER` takes the next element of the
list of passes. -/
def bf_try_later (c : bf_cycle) (e : bf_queue_rec) (plan : bf_plan) :
    List bf_pass_env → bf_state → Nat → bf_state × bf_flow
  | [], s, _ => (s, bf_flow.stuck)
  | p :: passes, s, later_start =>
    match bf_pass c e plan p s later_start with
    | bf_end.exit s flow => (s, flow)
    | bf_end.retry s later_start => bf_try_later c e plan passes s later_start

/-- The body of the queue loop for one entry (lines 831-1334). -/
def bf_job (c : bf_cycle) (e : bf_queue_rec) (s : bf_state) : bf_state × bf_flow :=
  match bf_pop c e s with
  | bf_result.exit s flow => (s, flow)
  | bf_result.go s _ =>
    match bf_validate c e s with
    | bf_result.exit s flow => (s, flow)
    | bf_result.go s _ =>
      match bf_caps c e s with
      | bf_result.exit s flow => (s, flow)
      | bf_result.go s _ =>
        match bf_limits c e s with
        | bf_result.exit s flow => (s, flow)
        | bf_result.go s plan => bf_try_later c e plan e.passes s s.now

/-- The queue loop `while (1)` of lines 830-1335: the final state, how the last
body was left (`next` when the queue ran empty), and the entries that were not
taken from the queue. -/
def bf_queue_loop (c : bf_cycle) :
    List bf_queue_rec → bf_state → bf_state × bf_flow × List bf_queue_rec
  | [], s => (s, bf_flow.next, [])
  | e :: rest, s =>
    match bf_job c e s with
    | (s, bf_flow.next) => bf_queue_loop c rest s
    | (s, flow) => (s, flow, rest)

/-- The function `_attempt_backfill` (lines 713-1361) on the production path,
from the sorted job queue on. With an empty queue nothing is done (the early
return of lines 778-785). -/
def _attempt_backfill (c : bf_cycle) (job_queue : List bf_queue_rec) :
    bf_state × bf_flow × List bf_queue_rec :=
  bf_queue_loop c job_queue (bf_init c)

/-- The number of successful starts in a list of calls. -/
def bf_started_count : List bf_event → Nat
  | [] => 0
  | bf_event.started _ :: l => bf_started_count l + 1
  | _ :: l => bf_started_count l

/-- The number of calls of `_add_reservation` in a list of calls. -/
def bf_reserved_count : List bf_event → Nat
  | [] => 0
  | bf_event.reserved _ _ _ _ _ :: l => bf_reserved_count l + 1
  | _ :: l => bf_reserved_count l

/-- The number of calls of `_add_reservation` that added a record. -/
def bf_adding_count : List bf_event → Nat
  | [] => 0
  | bf_event.reserved _ _ _ recs_before recs_after :: l =>
    if recs_before < recs_after then bf_adding_count l + 1 else bf_adding_count l
  | _ :: l => bf_adding_count l

/-- Whether a call is a successful start. -/
def bf_event.is_started : bf_event → Bool
  | bf_event.started _ => true
  | _ => false

/-- Whether a call is a call of `_add_reservation`. -/
def bf_event.is_reserved : bf_event → Bool
  | bf_event.reserved _ _ _ _ _ => true
  | _ => false

/-- Whether a call is a lock yield that reported a change. -/
def bf_event.is_changed_yield : bf_event → Bool
  | bf_event.yield rc => decide (rc ≠ 0)
  | _ => false

/-- The part of the state that the claims about a cycle speak of. -/
structure bf_view where
  trace : List bf_event
  job_start_cnt : Nat
  node_space_recs : Nat
  rc : Int

/-- The view of a state. -/
def bf_state.view (s : bf_state) : bf_view :=
  { trace := s.trace, job_start_cnt := s.job_start_cnt,
    node_space_recs := s.space.node_space_recs, rc := s.rc }

/-- What a pair of predicates says of a result: `F` when the body is left, `I`
when it goes on. -/
def bf_result.holds {α : Type} (I : bf_view → Prop) (F : bf_view → bf_flow → Prop) :
    bf_result α → Prop
  | bf_result.exit s flow => F s.view flow
  | bf_result.go s _ => I s.view

/-- What a pair of predicates says of a result that may jump to `TRY_LATER`. -/
def bf_later.holds {α : Type} (I : bf_view → Prop) (F : bf_view → bf_flow → Prop) :
    bf_later α → Prop
  | bf_later.exit s flow => F s.view flow
  | bf_later.retry s _ => I s.view
  | bf_later.go s _ => I s.view

/-- What a pair of predicates says of the result of a pass. -/
def bf_end.holds (I : bf_view → Prop) (F : bf_view → bf_flow → Prop) : bf_end → Prop
  | bf_end.exit s flow => F s.view flow
  | bf_end.retry s _ => I s.view

/-- Closure conditions for a pair of predicates: `I` holds while a loop body
runs and `F v flow` when a body is left with `flow`. Every call that the body
can make is one field. -/
structure bf_invariant (c : bf_cycle) (I : bf_view → Prop) (F : bf_view → bf_flow → Prop) :
    Prop where
  pop : ∀ v id, F v bf_flow.next → I { v with trace := v.trace ++ [bf_event.popped id] }
  yield_go : ∀ v rc, I v → (rc = 0 ∨ c.tunables.backfill_continue = true) →
    I { v with trace := v.trace ++ [bf_event.yield rc] }
  yield_abort : ∀ v rc, I v →
    F { v with trace := v.trace ++ [bf_event.yield rc], rc := 1 } bf_flow.stop
  started : ∀ v id, I v →
    F { v with trace := v.trace ++ [bf_event.started id],
               job_start_cnt := (v.job_start_cnt + 1) % 4294967296 }
      (if c.tunables.max_backfill_jobs_start ≠ 0 ∧
          (v.job_start_cnt + 1) % 4294967296 ≥
            (c.tunables.max_backfill_jobs_start % 4294967296).toNat
        then bf_flow.stop else bf_flow.next)
  reserved : ∀ v id start_time end_reserve recs_after, I v →
    (v.node_space_recs : Int) < c.tunables.max_backfill_job_cnt →
    v.node_space_recs ≤ recs_after → recs_after ≤ v.node_space_recs + 2 →
    F { v with trace := v.trace ++
          [bf_event.reserved id start_time end_reserve v.node_space_recs recs_after],
               node_space_recs := recs_after } bf_flow.next
  silent : ∀ v flow, I v → F v flow

/-! ## Sample planner cycles -/

/-- Sample values for the constants of the header files. -/
def sample_consts : bf_consts :=
  { NO_VAL := 4294967294, INFINITE := 4294967295, JOB_MAGIC := 4038539564,
    PARTITION_SCHED := 2, PART_FLAG_ROOT_ONLY := 8, QOS_FLAG_NO_RESERVE := 16,
    SLURM_SUCCESS := 0, ESLURM_ACCOUNTING_POLICY := 2050 }

/-- A cycle that starts at time 1000 on six nodes with the static tunables,
except for the three limits given. -/
def sample_cycle (max_backfill_job_cnt max_backfill_jobs_start : Int)
    (backfill_continue : Bool) : bf_cycle :=
  { consts := sample_consts,
    tunables := { bf_tunables_static with
      max_backfill_job_cnt := max_backfill_job_cnt,
      max_backfill_jobs_start := max_backfill_jobs_start,
      backfill_continue := backfill_continue },
    config_update := 900, part_update := 900, filter_root := false, bf_part_ptr := [0],
    node_record_count := 6, sched_start := 1000, avail_node_bitmap := {0, 1, 2, 3, 4, 5},
    cg_node_bitmap := ∅, fuel := 12 }

/-- Global state with no update since the cycle started. -/
def sample_globals : bf_globals :=
  { last_job_update := 900, last_node_update := 900, last_part_update := 900,
    conf_last_update := 900, stop_backfill := false, config_flag := false }

/-- Global state after a job update at time 1001. -/
def sample_globals_changed : bf_globals :=
  { sample_globals with last_job_update := 1001 }

/-- A partition of the six nodes 0 to 5. -/
def sample_bf_part : part_record :=
  { node_bitmap := some {0, 1, 2, 3, 4, 5}, total_cpus := 6, total_nodes := 6, min_nodes := 1,
    max_nodes := 6, max_time := 1440, state_up := 3, flags := 0 }

/-- A pending one-node job with a limit of 10 minutes. -/
def sample_bf_job (job_id : Nat) : job_record :=
  { magic := 4038539564, job_id := job_id, user_id := 500, array_job_id := 0,
    array_task_id := 4294967294, priority := 100, job_state := job_states.JOB_PENDING,
    preempt_in_progress := false, node_bitmap := none, part_ptr := some sample_bf_part,
    details := some { expanding_jobid := 0, min_nodes := 1, max_nodes := 1,
                      exc_node_bitmap := none, req_node_bitmap := none,
                      feature_list := none, share_res := 0 },
    qos_ptr := none, assoc_ptr := none, total_cpus := 0, limit_set_max_nodes := 0, time_limit := 10,
    time_min := 0, start_time := 0, end_time := 0, pre_sus_time := 0, suspend_time := 0 }

/-- A pass at time `time` in which no reservation limits the job, and the node
selector places it on `node` with the start time `start_time`; `_start_job`
succeeds if it is called. -/
def sample_pass (job_id time node start_time : Nat) : bf_pass_env :=
  { shutdown_time := 0, server_thread_count := 1, time := time, before := sample_globals,
    after := sample_globals, cg_node_bitmap := ∅, job_ptr := sample_bf_job job_id,
    avail_front_end := true, time_after_yield := time,
    job_test_resv := fun start_res =>
      { rc := 0, start_res := start_res, avail_bitmap := {0, 1, 2, 3, 4, 5} },
    find_resv_end := 0, up_node_bitmap := {0, 1, 2, 3, 4, 5}, job_req_node_filter := 0,
    try_sched := 0, try_sched_bitmap := {node}, try_sched_start_time := start_time,
    now := time, start_job := 0 }

/-- A queue entry met at time `time` with the global state `after` after a
yield, if one is made; the job has one pass, which places it on `node` with the
start time `start_time`. -/
def sample_entry (job_id time node start_time : Nat) (after : bf_globals) : bf_queue_rec :=
  { job_id := job_id, part_ptr := 0, part := sample_bf_part, job_ptr := sample_bf_job job_id,
    shutdown_time := 0, server_thread_count := 1, time := time, before := sample_globals,
    after := after, cg_node_bitmap := ∅, time_after_yield := time, avail_front_end := true,
    job_independent := true, license_job_test := 0, slurm_get_preempt_mode := 0,
    passes := [sample_pass job_id time node start_time] }

/-- Five one-node jobs that the node selector places on the nodes 0 to 4, each
with the projected start time 2000. -/
def sample_queue_same_window : List bf_queue_rec :=
  [sample_entry 11 1000 0 2000 sample_globals, sample_entry 12 1000 1 2000 sample_globals,
   sample_entry 13 1000 2 2000 sample_globals, sample_entry 14 1000 3 2000 sample_globals,
   sample_entry 15 1000 4 2000 sample_globals]

/-- Three one-node jobs that can start at once. -/
def sample_queue_startable : List bf_queue_rec :=
  [sample_entry 21 1000 0 1000 sample_globals, sample_entry 22 1000 1 1000 sample_globals,
   sample_entry 23 1000 2 1000 sample_globals]

/-- One job met two seconds after the cycle started, after a job update at time
1001; the node selector places it on node 0 with the start time 2000. -/
def sample_queue_yield : List bf_queue_rec :=
  [sample_entry 31 1002 0 2000 sample_globals_changed]

/-! ## Ordering and fair share of the preemption plugin (`preempt_job_prio.c`) -/

/-- The function `_is_job_runtime_greater` (lines 144-169); `now1` and `now2`
are the values of `time(NULL)` in its two calls of `_get_job_runtime`. -/
def _is_job_runtime_greater (now1 now2 : Nat) (job_ptr1 job_ptr2 : job_record) : Bool :=
  let runtime_job1 := _get_job_runtime now1 job_ptr1
  let runtime_job2 := _get_job_runtime now2 job_ptr2
  let timediff_job1_job2 := difftime runtime_job1 runtime_job2
  if timediff_job1_job2 > 0 then true else false

/-- The function `_sort_by_job_prio` (lines 344-356). -/
def _sort_by_job_prio (now1 now2 : Nat) (x y : job_record) : Int :=
  if x.priority > y.priority then 1
  else if x.priority < y.priority then -1
  else if _is_job_runtime_greater now1 now2 x y = true then 1
  else 0

/-- The function `_get_nb_cpus` (lines 178-224) in `uint32_t` arithmetic, the
result converted to `int`. The result is `none` when the partition or the
details pointer is NULL or the partition has no node (a division by zero). -/
def _get_nb_cpus (job_ptr : job_record) : Option Int :=
  match job_ptr.part_ptr, job_ptr.details with
  | some part_ptr, some details =>
    if part_ptr.total_nodes = 0 then none
    else
      let cpus_per_node := part_ptr.total_cpus / part_ptr.total_nodes
      let min_nodes := max details.min_nodes part_ptr.min_nodes
      let max_nodes :=
        if details.max_nodes = 0 then part_ptr.max_nodes
        else min details.max_nodes part_ptr.max_nodes
      let max_nodes := min max_nodes 500000
      let req_nodes :=
        if job_ptr.limit_set_max_nodes = 0 ∧ details.max_nodes ≠ 0 then max_nodes
        else min_nodes
      let cpu_cnt :=
        if job_ptr.total_cpus ≠ 0 then job_ptr.total_cpus
        else (req_nodes * cpus_per_node) % 4294967296
      some (int_wrap cpu_cnt)
  | _, _ => none

/-- Lines 261-286 of `_overalloc_test`: the decision from the two projected
fair-share values and the two account names. -/
def overalloc_decision (new_fairshare_preemptee new_fairshare_preemptor : double)
    (acct_preemptor acct_preemptee : String) : Int :=
  let new_fairshare_diff := double.sub new_fairshare_preemptee new_fairshare_preemptor
  if ((double.gt new_fairshare_preemptee double.one = true ∧
        double.lt new_fairshare_preemptor double.one = true) ∨
      (double.lt new_fairshare_preemptee double.one = true ∧
        double.gt new_fairshare_preemptor double.one = true)) ∧
      double.ne new_fairshare_diff double.zero = true ∧ acct_preemptor ≠ acct_preemptee then
    if double.gt new_fairshare_diff double.zero = true then 1 else -1
  else 0

/-- Lines 240-260 of `_overalloc_test`: the projected fair-share values of the
preemptee and of the preemptor, in `double` arithmetic. The result is `none`
when a pointer is NULL or `_get_nb_cpus` has no result. -/
def overalloc_fairshare (preemptor preemptee : job_record) : Option (double × double) :=
  match _get_nb_cpus preemptee, _get_nb_cpus preemptor with
  | some _, some cpu_cnt_preemptor =>
    match preemptee.assoc_ptr, preemptor.assoc_ptr with
    | some assoc_preemptee, some assoc_preemptor =>
      match preemptee.part_ptr, preemptor.part_ptr with
      | some part_preemptee, some part_preemptor =>
        let cpu_cnt_preemptor := (cpu_cnt_preemptor % 4294967296).toNat
        let shares_preemptee := assoc_preemptee.usage.shares_norm
        let shares_preemptor := assoc_preemptor.usage.shares_norm
        let new_usage_preemptee := assoc_preemptee.usage.grp_used_cpus
        let new_usage_preemptor :=
          (assoc_preemptor.usage.grp_used_cpus + cpu_cnt_preemptor) % 4294967296
        let allotment_preemptee :=
          double.mul shares_preemptee (double.of_uint part_preemptee.total_cpus)
        let allotment_preemptor :=
          double.mul shares_preemptor (double.of_uint part_preemptor.total_cpus)
        let new_fairshare_preemptee :=
          double.div (double.of_uint new_usage_preemptee) allotment_preemptee
        let new_fairshare_preemptor :=
          double.div (double.of_uint new_usage_preemptor) allotment_preemptor
        some (new_fairshare_preemptee, new_fairshare_preemptor)
      | _, _ => none
    | _, _ => none
  | _, _ => none

/-- The function `_overalloc_test` (lines 227-306). -/
def _overalloc_test (preemptor preemptee : job_record) : Option Int :=
  match overalloc_fairshare preemptor preemptee, preemptor.assoc_ptr, preemptee.assoc_ptr with
  | some (new_fairshare_preemptee, new_fairshare_preemptor), some assoc_preemptor,
      some assoc_preemptee =>
    some (overalloc_decision new_fairshare_preemptee new_fairshare_preemptor
      assoc_preemptor.acct assoc_preemptee.acct)
  | _, _, _ => none

/-- A partition of sixteen nodes with one CPU each. -/
def sample_fair_part : part_record :=
  { node_bitmap := some (Finset.range 16), total_cpus := 16, total_nodes := 16, min_nodes := 1,
    max_nodes := 16, max_time := 1440, state_up := 3, flags := 0 }

/-- An association of the account `acct` with half of the shares (the `double`
0.5) and `grp_used_cpus` CPUs in use. -/
def sample_assoc (acct : String) (grp_used_cpus : Nat) : slurmdb_association_rec_t :=
  { acct := acct, usage := { shares_norm := ⟨false, 1022, 0⟩, grp_used_cpus := grp_used_cpus } }

/-- A job of the given state and priority that asks for `nodes` nodes of the
sixteen-node partition; its account is `acct`, with `grp_used_cpus` CPUs in
use. -/
def sample_fair_job (job_id priority : Nat) (job_state : job_states) (nodes : Nat)
    (acct : String) (grp_used_cpus : Nat) : job_record :=
  { magic := 4038539564, job_id := job_id, user_id := 500, array_job_id := 0,
    array_task_id := 4294967294, priority := priority, job_state := job_state,
    preempt_in_progress := false, node_bitmap := some {0, 1},
    part_ptr := some sample_fair_part,
    details := some { expanding_jobid := 0, min_nodes := nodes, max_nodes := 0,
                      exc_node_bitmap := none, req_node_bitmap := none,
                      feature_list := none, share_res := 0 },
    qos_ptr := none, assoc_ptr := some (sample_assoc acct grp_used_cpus), total_cpus := 0,
    limit_set_max_nodes := 0, time_limit := 10, time_min := 0, start_time := 100,
    end_time := 0, pre_sus_time := 0, suspend_time := 0 }

/-- A partition of thirty nodes with one CPU each. -/
def sample_thirty_part : part_record :=
  { node_bitmap := some (Finset.range 30), total_cpus := 30, total_nodes := 30, min_nodes := 1,
    max_nodes := 30, max_time := 1440, state_up := 3, flags := 0 }

/-- The `double` nearest to 0.1, with the bits `0x3FB999999999999A`: it is a
little above one tenth. -/
def sample_tenth : double := ⟨false, 1019, 2702159776422298⟩

/-- A job like `sample_fair_job` in the thirty-node partition whose account
has the normalized shares `sample_tenth`. -/
def sample_tenth_job (job_id priority : Nat) (job_state : job_states) (nodes : Nat)
    (acct : String) (grp_used_cpus : Nat) : job_record :=
  { sample_fair_job job_id priority job_state nodes acct grp_used_cpus with
    part_ptr := some sample_thirty_part,
    assoc_ptr := some { acct := acct,
                        usage := { shares_norm := sample_tenth,
                                   grp_used_cpus := grp_used_cpus } } }

/-- A job like `sample_fair_job` whose account has no shares: its
`shares_norm` is `0.0`, so its allotment is zero. -/
def sample_noshare_job (job_id priority : Nat) (job_state : job_states) (nodes : Nat)
    (acct : String) (grp_used_cpus : Nat) : job_record :=
  { sample_fair_job job_id priority job_state nodes acct grp_used_cpus with
    assoc_ptr := some { acct := acct,
                        usage := { shares_norm := double.zero,
                                   grp_used_cpus := grp_used_cpus } } }

/-- A partition of a million nodes with one CPU each. -/
def sample_wide_part : part_record :=
  { node_bitmap := none, total_cpus := 1000000, total_nodes := 1000000, min_nodes := 1,
    max_nodes := 1000000, max_time := 1440, state_up := 3, flags := 0 }

/-- A pending job that asks for at least 600000 nodes of the wide partition and
names no maximum. -/
def sample_wide_job : job_record :=
  { magic := 4038539564, job_id := 4, user_id := 500, array_job_id := 0,
    array_task_id := 4294967294, priority := 100, job_state := job_states.JOB_PENDING,
    preempt_in_progress := false, node_bitmap := none, part_ptr := some sample_wide_part,
    details := some { expanding_jobid := 0, min_nodes := 600000, max_nodes := 0,
                      exc_node_bitmap := none, req_node_bitmap := none,
                      feature_list := none, share_res := 0 },
    qos_ptr := none, assoc_ptr := none, total_cpus := 0, limit_set_max_nodes := 0,
    time_limit := 10, time_min := 0, start_time := 0, end_time := 0, pre_sus_time := 0,
    suspend_time := 0 }

/-- The value a part of the loop body goes on with, if it goes on. -/
def bf_result.value {α : Type} : bf_result α → Option α
  | bf_result.exit _ _ => none
  | bf_result.go _ a => some a

/-- A partition of the six nodes 0 to 5 without a time limit. -/
def sample_unlimited_part : part_record :=
  { node_bitmap := some {0, 1, 2, 3, 4, 5}, total_cpus := 6, total_nodes := 6, min_nodes := 1,
    max_nodes := 6, max_time := 4294967295, state_up := 3, flags := 0 }

/-- A pending one-node job with a limit of 1000000 minutes. -/
def sample_long_job : job_record :=
  { sample_bf_job 41 with time_limit := 1000000 }

/-- A queue entry for the long job in the partition without a time limit. -/
def sample_long_entry : bf_queue_rec :=
  { sample_entry 41 1000 0 2000 sample_globals with
    part := sample_unlimited_part, job_ptr := sample_long_job }

/-! ## Starting a job from the planner (`_start_job`) -/

/-- The node-space map after the reservation `[1980, 2580)` of node 0 was
planted in the initial map `[1000, 87400)` of six nodes. -/
def sample_space : node_space_state :=
  { node_space :=
      store (store (store xmalloc_pool
        0 { begin_time := 1000, end_time := 1980,
            avail_bitmap := some {0, 1, 2, 3, 4, 5}, next := 1 })
        1 { begin_time := 1980, end_time := 2580,
            avail_bitmap := some {1, 2, 3, 4, 5}, next := 2 })
        2 { begin_time := 2580, end_time := 87400,
            avail_bitmap := some {0, 1, 2, 3, 4, 5}, next := 0 },
    node_space_recs := 3 }

/-! ## The window and the base bitmap of a pass -/

/-- Lines 1108-1111: the end of the projected run, an unsigned 32-bit sum. -/
def bf_pass_end_time (plan : bf_plan) (s : bf_state) (start_res : Nat) : Nat :=
  if start_res > s.now then ((plan.time_limit * 60) % 4294967296 + start_res) % 4294967296
  else ((plan.time_limit * 60) % 4294967296 + s.now) % 4294967296

/-- Lines 1099 and 1114-1116: the bitmap of the reservation system, cut down
to the nodes of the partition, the up nodes and the non-completing nodes. -/
def bf_pass_base (plan : bf_plan) (p : bf_pass_env) (s : bf_state) (later_start : Nat) :
    bitstr_t :=
  let avail_bitmap := bit_and (p.job_test_resv later_start).avail_bitmap plan.node_bitmap
  let avail_bitmap := bit_and avail_bitmap p.up_node_bitmap
  bit_and avail_bitmap s.non_cg_bitmap

/-- A plan of one node for ten minutes on the six sample nodes. -/
def sample_plan : bf_plan :=
  { node_bitmap := {0, 1, 2, 3, 4, 5},
    details := { expanding_jobid := 0, min_nodes := 1, max_nodes := 1,
                 exc_node_bitmap := none, req_node_bitmap := none,
                 feature_list := none, share_res := 0 },
    min_nodes := 1, max_nodes := 1, req_nodes := 1, time_limit := 10,
    comp_time_limit := 10, orig_time_limit := 10, no_reserve := false }

/-- The state of a cycle whose map is `sample_space`. -/
def sample_scan_state : bf_state :=
  { bf_init (sample_cycle 0 0 false) with space := sample_space }

/-- The loop of `_reset_job_time_limit` (lines 1429-1442): the value of
`job_ptr->time_limit` when the loop is left. `resv_delay` is an `int32_t`; it
is compared with the `uint32_t` limit as an unsigned number and stored as one.
The result is `none` when the fuel runs out, when `bit_super_set` meets a NULL
bitmap, and when the result of `difftime` is outside `int32_t`, where the
conversion is undefined. -/
def reset_time_limit_loop (node_space : Nat → node_space_map_t) (now end_time : Nat)
    (node_bitmap : Option bitstr_t) : Nat → Nat → Nat → Option Nat
  | 0, _, _ => none
  | fuel + 1, j, time_limit =>
    let lowered : Option Nat :=
      if (node_space j).begin_time ≠ now ∧ (node_space j).begin_time < end_time then
        match node_bitmap, (node_space j).avail_bitmap with
        | some node_bitmap, some avail_bitmap =>
          if (! bit_super_set node_bitmap avail_bitmap) = true then
            let delay := difftime ((node_space j).begin_time : Int) (now : Int)
            if delay < -2147483648 ∨ 2147483647 < delay then none
            else
              let resv_delay : Int := Int.tdiv delay 60
              if (resv_delay % 4294967296).toNat < time_limit then
                some (resv_delay % 4294967296).toNat
              else some time_limit
          else some time_limit
        | _, _ => none
      else some time_limit
    match lowered with
    | none => none
    | some time_limit =>
      if (node_space j).next = 0 then some time_limit
      else reset_time_limit_loop node_space now end_time node_bitmap fuel (node_space j).next
        time_limit

/-- The function `_reset_job_time_limit` (lines 1422-1454): the job record
afterwards. The product `time_limit * 60` is a `uint32_t`. The calls of
`acct_policy_alter_job` and `job_time_adj_resv`, which are not part of the
sources, and the message are left out. -/
def _reset_job_time_limit (fuel : Nat) (job_ptr : job_record) (now : Nat)
    (node_space : Nat → node_space_map_t) : Option job_record :=
  match reset_time_limit_loop node_space now job_ptr.end_time job_ptr.node_bitmap fuel 0
      job_ptr.time_limit with
  | none => none
  | some time_limit =>
    let new_time_limit := max job_ptr.time_min time_limit
    some { job_ptr with
      time_limit := new_time_limit,
      end_time := job_ptr.start_time + (new_time_limit * 60) % 4294967296 }

/-- A job started at 1000 on node 0 with a limit of thirty minutes and a
minimum of five. -/
def sample_started_job : job_record :=
  { sample_bf_job 9 with
    node_bitmap := some {0}, time_limit := 30, time_min := 5, start_time := 1000,
    end_time := 2800 }

/-! ## The scheduling test of a job (`_try_sched`) -/

/-- The function `_num_feature_count` (lines 266-284): `none` stands for the
dereference of a NULL details pointer. -/
def _num_feature_count (job_ptr : job_record) : Option Nat :=
  match job_ptr.details with
  | none => none
  | some detail_ptr =>
    match detail_ptr.feature_list with
    | none => some 0
    | some feature_list =>
      some (feature_list.foldl (fun rc feat_ptr => if feat_ptr.count ≠ 0 then rc + 1 else rc) 0)

/-- The arguments of one call of `select_g_job_test`: the job record as it is
during the call, the bitmap and the three node counts. -/
structure select_call where
  job_ptr : job_record
  avail_bitmap : bitstr_t
  min_nodes : Nat
  max_nodes : Nat
  req_nodes : Nat

/-- What a call of `select_g_job_test`, which is not part of the sources,
leaves behind: its result, the bitmap and the start time of the job. -/
structure select_result where
  rc : Int
  avail_bitmap : bitstr_t
  start_time : Nat

/-- The result of `_try_sched`: the return code, the job record and the bitmap
afterwards, and the calls of `select_g_job_test` in the order they were made. -/
structure try_sched_result where
  rc : Int
  job_ptr : job_record
  avail_bitmap : bitstr_t
  calls : List select_call

/-- The loop of lines 319-325: every count is saved in `feat_cnt_orig` and set
to 0, and `high_cnt` is raised to the largest count; both locals are
`uint16_t`. The result is the list afterwards, `high_cnt` and `feat_cnt_orig`. -/
def clear_feature_counts :
    List feature_record → Nat → Nat → (Nat → Nat) → List feature_record × Nat × (Nat → Nat)
  | [], _, high_cnt, feat_cnt_orig => ([], high_cnt, feat_cnt_orig)
  | feat_ptr :: rest, i, high_cnt, feat_cnt_orig =>
    let high_cnt := (max high_cnt feat_ptr.count) % 65536
    let feat_cnt_orig := set_at feat_cnt_orig i (feat_ptr.count % 65536)
    let r := clear_feature_counts rest (i + 1) high_cnt feat_cnt_orig
    ({ feat_ptr with count := 0 } :: r.1, r.2.1, r.2.2)

/-- The loop of lines 348-354: every count is read back from `feat_cnt_orig`. -/
def restore_feature_counts : List feature_record → Nat → (Nat → Nat) → List feature_record
  | [], _, _ => []
  | feat_ptr :: rest, i, feat_cnt_orig =>
    { feat_ptr with count := feat_cnt_orig i } :: restore_feature_counts rest (i + 1) feat_cnt_orig

/-- The function `_try_sched` (lines 292-408). `job_req_node_filter` and
`select_g_job_test` are not part of the sources: the filter is a function of
the job record and the bitmap that gives its result and the bitmap it leaves,
the selector a function of its arguments (the candidates of
`slurm_find_preemptable_jobs` are a function of the job record too) that
writes the bitmap and the start time of the job. The constants come from a
header that is not part of the sources. `none` stands for the dereference of a
NULL details pointer. -/
def _try_sched (SLURM_SUCCESS ESLURM_NODES_BUSY : Int)
    (job_req_node_filter : job_record → bitstr_t → Int × bitstr_t)
    (select_g_job_test : select_call → select_result) (now : Nat)
    (job_ptr : job_record) (avail_bitmap : bitstr_t) (min_nodes max_nodes req_nodes : Nat) :
    Option try_sched_result :=
  match _num_feature_count job_ptr, job_ptr.details with
  | some feat_cnt, some detail_ptr =>
    if feat_cnt ≠ 0 then
      match detail_ptr.feature_list with
      | none => none
      | some feature_list =>
        let cleared := clear_feature_counts feature_list 0 0 (fun _ => 0)
        let high_cnt := cleared.2.1
        let feat_cnt_orig := cleared.2.2
        let job_cleared : job_record :=
          { job_ptr with details := some { detail_ptr with feature_list := some cleared.1 } }
        let restored : Option job_details :=
          some { detail_ptr with
            feature_list := some (restore_feature_counts cleared.1 0 feat_cnt_orig) }
        let filtered := job_req_node_filter job_cleared avail_bitmap
        if filtered.1 ≠ SLURM_SUCCESS ∨ bit_set_count filtered.2 < high_cnt then
          some { rc := ESLURM_NODES_BUSY,
                 job_ptr := { job_ptr with details := restored },
                 avail_bitmap := filtered.2,
                 calls := [] }
        else
          let call : select_call :=
            { job_ptr := job_cleared, avail_bitmap := filtered.2, min_nodes := high_cnt,
              max_nodes := max_nodes, req_nodes := req_nodes }
          let selected := select_g_job_test call
          some { rc := selected.rc,
                 job_ptr := { job_ptr with
                   details := restored, start_time := selected.start_time },
                 avail_bitmap := selected.avail_bitmap,
                 calls := [call] }
    else
      let orig_shared := detail_ptr.share_res
      let tmp_bitmap := bit_copy avail_bitmap
      let call : select_call :=
        { job_ptr := { job_ptr with details := some { detail_ptr with share_res := 0 } },
          avail_bitmap := avail_bitmap, min_nodes := min_nodes, max_nodes := max_nodes,
          req_nodes := req_nodes }
      let selected := select_g_job_test call
      let job_ptr : job_record := { job_ptr with start_time := selected.start_time }
      if (selected.rc ≠ SLURM_SUCCESS ∨ job_ptr.start_time > now) ∧ orig_shared ≠ 0 then
        let again : select_call :=
          { job_ptr := job_ptr, avail_bitmap := tmp_bitmap, min_nodes := min_nodes,
            max_nodes := max_nodes, req_nodes := req_nodes }
        let selected := select_g_job_test again
        some { rc := selected.rc,
               job_ptr := { job_ptr with start_time := selected.start_time },
               avail_bitmap := selected.avail_bitmap,
               calls := [call, again] }
      else
        some { rc := selected.rc, job_ptr := job_ptr, avail_bitmap := selected.avail_bitmap,
               calls := [call] }
  | _, _ => none

/-- A job that asks for two nodes with `gpu`, for `bigmem` without a count and
for three nodes with `ssd`. -/
def sample_feature_job : job_record :=
  { sample_bf_job 11 with
    details := some { expanding_jobid := 0, min_nodes := 1, max_nodes := 4,
                      exc_node_bitmap := none, req_node_bitmap := none,
                      feature_list := some [⟨"gpu", 2⟩, ⟨"bigmem", 0⟩, ⟨"ssd", 3⟩],
                      share_res := 1 } }

/-- A filter that accepts every bitmap and leaves it as it is. -/
def sample_filter (_ : job_record) (avail_bitmap : bitstr_t) : Int × bitstr_t :=
  (0, avail_bitmap)

/-- A filter that rejects every bitmap. -/
def sample_filter_reject (_ : job_record) (avail_bitmap : bitstr_t) : Int × bitstr_t :=
  (1, avail_bitmap)

/-- A selector that accepts the job on the first `min_nodes` nodes at 2000. -/
def sample_select (call : select_call) : select_result :=
  { rc := 0, avail_bitmap := Finset.range call.min_nodes, start_time := 2000 }

/-! ## Sample data for the comparator -/

/-- Running job 4 of priority 50, like `sample_job_low`, started at 500. -/
def sample_job_tie : job_record :=
  { sample_job_low with job_id := 4, node_bitmap := some {3}, start_time := 500 }

/-! ## The per-partition test applied in queue order -/

/-- The array `bf_part_jobs` after the per-partition test of lines 909-930 was
applied, in queue order, to the partitions of the jobs that reach line 909. -/
def bf_part_run (max_backfill_job_per_part : Int) (bf_part_ptr : List Nat) :
    List Nat → (Nat → Nat) → (Nat → Nat)
  | [], bf_part_jobs => bf_part_jobs
  | part_ptr :: rest, bf_part_jobs =>
    bf_part_run max_backfill_job_per_part bf_part_ptr rest
      (bf_part_loop part_ptr max_backfill_job_per_part bf_part_ptr 0 bf_part_jobs).1

/-! ## Where a user stands in the per-user table -/

/-- The user `u` is not in the table. -/
def bf_user_absent (t : bf_user_table) (u : Nat) : Prop :=
  ∀ k, k < t.nuser → t.uid k ≠ u

/-- The first entry of the user `u` is entry `j`, with `c` jobs counted. -/
def bf_user_at (t : bf_user_table) (u j c : Nat) : Prop :=
  j < t.nuser ∧ t.uid j = u ∧ (∀ k, k < j → t.uid k ≠ u) ∧ t.njobs j = c

/-! ## Availability as a function of time -/

/-- The state of a result. -/
def bf_result.state {α : Type} : bf_result α → bf_state
  | bf_result.exit s _ => s
  | bf_result.go s _ => s

/-- The state of a result that may jump to `TRY_LATER`. -/
def bf_later.state {α : Type} : bf_later α → bf_state
  | bf_later.exit s _ => s
  | bf_later.retry s _ => s
  | bf_later.go s _ => s

/-- The state of the result of a pass. -/
def bf_end.state : bf_end → bf_state
  | bf_end.exit s _ => s
  | bf_end.retry s _ => s

/-! ## The size of the pool -/

/-- The number of records of the pool allocated at lines 804-805,
`max_backfill_job_cnt * 2 + 1`, an `int` expression; `none` when it does not
fit an `int`. -/
def node_space_pool_size (max_backfill_job_cnt : Int) : Option Int :=
  if max_backfill_job_cnt * 2 + 1 < -2147483648 ∨ 2147483647 < max_backfill_job_cnt * 2 + 1 then
    none
  else some (max_backfill_job_cnt * 2 + 1)

/-! ## Refinement: the loops of `_add_reservation` compute the interval-list functions -/

theorem store_same (a : Nat → node_space_map_t) (i : Nat) (v : node_space_map_t) :
    store a i v i = v := by
  simp [store]

theorem store_other (a : Nat → node_space_map_t) (i k : Nat) (v : node_space_map_t)
    (h : k ≠ i) : store a i v k = a k := by
  simp [store, h]

theorem Rep.congr {ns ns1 : Nat → node_space_map_t} :
    ∀ {c : List (Nat × Interval)}, Rep ns c → (∀ i ∈ c.map Prod.fst, ns1 i = ns i) →
      Rep ns1 c
  | [], _, _ => trivial
  | p :: rest, h, heq => by
    refine ⟨?_, Rep.congr h.2 (fun i hi => heq i (by simp at hi ⊢; exact Or.inr hi))⟩
    rw [heq p.1 (by simp)]
    exact h.1

theorem Seg.tail {s : node_space_state} {p : Nat × Interval} {c : List (Nat × Interval)}
    (h : Seg s (p :: c)) : Seg s c where
  rep := h.rep.2
  nodup := (List.nodup_cons.mp h.nodup).2
  fresh := fun i hi => h.fresh i (List.mem_cons_of_mem _ hi)
  nz := fun i hi => h.nz i (by
    cases c with
    | nil => simp at hi
    | cons q c => simp at hi ⊢; exact Or.inr hi)

theorem Step.refl {s : node_space_state} {c : List (Nat × Interval)} (h : Seg s c) :
    Step s s c c where
  seg := h
  hd := rfl
  idx := fun _ hi => Or.inl hi
  frame := fun _ _ _ => rfl
  recs := le_refl _

theorem Step.trans {s s1 s2 : node_space_state} {c c1 c2 : List (Nat × Interval)}
    (h1 : Step s s1 c c1) (h2 : Step s1 s2 c1 c2) : Step s s2 c c2 where
  seg := h2.seg
  hd := h2.hd.trans h1.hd
  idx := fun i hi => by
    rcases h2.idx i hi with h | h
    · exact h1.idx i h
    · exact Or.inr (le_trans h1.recs h)
  frame := fun k hk hr => by
    have hk1 : k ∉ c1.map Prod.fst := by
      intro hmem
      have hlt := h1.seg.fresh k hmem
      rcases h1.idx k hmem with h | h
      · exact hk h
      · rcases hr with hr | hr
        · omega
        · have := h2.recs; omega
    have e2 : s2.node_space k = s1.node_space k := by
      apply h2.frame k hk1
      rcases hr with hr | hr
      · left; have := h1.recs; omega
      · right; exact hr
    have e1 : s1.node_space k = s.node_space k := by
      apply h1.frame k hk
      rcases hr with hr | hr
      · left; exact hr
      · right; have := h2.recs; omega
    rw [e2, e1]
  recs := le_trans h1.recs h2.recs

theorem Step.cons {s s1 : node_space_state} {p : Nat × Interval}
    {c c1 : List (Nat × Interval)} (h0 : Seg s (p :: c)) (h1 : Step s s1 c c1) :
    Step s s1 (p :: c) (p :: c1) where
  seg := by
    have hp : p.1 < s.node_space_recs := h0.fresh p.1 (by simp)
    have hpc : p.1 ∉ c.map Prod.fst := (List.nodup_cons.mp h0.nodup).1
    have hpc1 : p.1 ∉ c1.map Prod.fst := by
      intro hmem
      rcases h1.idx p.1 hmem with h | h
      · exact hpc h
      · omega
    refine ⟨⟨?_, h1.seg.rep⟩, List.nodup_cons.mpr ⟨hpc1, h1.seg.nodup⟩, ?_, ?_⟩
    · rw [h1.frame p.1 hpc (Or.inl hp), h1.hd]
      exact h0.rep.1
    · intro i hi
      simp only [List.map_cons, List.mem_cons] at hi
      rcases hi with rfl | hi
      · have := h1.recs; omega
      · exact h1.seg.fresh i hi
    · intro i hi
      simp only [List.tail_cons] at hi
      rcases h1.idx i hi with h | h
      · exact h0.nz i (by simpa using h)
      · omega
  hd := rfl
  idx := fun i hi => by
    simp only [List.map_cons, List.mem_cons] at hi ⊢
    rcases hi with rfl | hi
    · exact Or.inl (Or.inl rfl)
    · rcases h1.idx i hi with h | h
      · exact Or.inl (Or.inr h)
      · exact Or.inr h
  frame := fun k hk hr => by
    apply h1.frame k _ hr
    intro hmem
    exact hk (by simp only [List.map_cons, List.mem_cons]; exact Or.inr hmem)
  recs := h1.recs

theorem insert_record_eq (t j nx : Nat) (x : Interval) (s : node_space_state)
    (hj : s.node_space j = x.toRec nx) (hne : j ≠ s.node_space_recs) :
    insert_record t j s = some
      { node_space := store (store s.node_space s.node_space_recs
            (Interval.toRec { x with b := t } nx)) j
            (Interval.toRec { x with e := t } s.node_space_recs),
        node_space_recs := s.node_space_recs + 1 } := by
  have hne1 : ¬ s.node_space_recs = j := fun h => hne h.symm
  unfold insert_record
  simp only [store, hj, hne, hne1, Interval.toRec, bit_copy, if_true, if_false]
  simp only [Option.some.injEq, node_space_state.mk.injEq, and_true]
  funext k
  by_cases h1 : k = j
  · simp [store, h1, hne]
  · by_cases h2 : k = s.node_space_recs
    · simp [store, h2, hne1]
    · simp [store, h1, h2]

theorem insert_step (t : Nat) {s : node_space_state} {j : Nat} {x : Interval}
    {rest : List (Nat × Interval)} (h : Seg s ((j, x) :: rest)) :
    ∃ s1, insert_record t j s = some s1 ∧
      Step s s1 ((j, x) :: rest)
        ((j, { x with e := t }) :: (s.node_space_recs, { x with b := t }) :: rest) ∧
      s1.node_space_recs = s.node_space_recs + 1 ∧
      s1.node_space j = Interval.toRec { x with e := t } s.node_space_recs := by
  have hjr : j < s.node_space_recs := h.fresh j (by simp)
  have hne : j ≠ s.node_space_recs := by omega
  have hfr : ∀ i ∈ rest.map Prod.fst, i < s.node_space_recs := fun i hi =>
    h.fresh i (List.mem_cons_of_mem _ hi)
  have hjrest : j ∉ rest.map Prod.fst := (List.nodup_cons.mp h.nodup).1
  refine ⟨_, insert_record_eq t j (hdIdx rest) x s h.rep.1 hne, ?_, rfl, ?_⟩
  · refine ⟨⟨⟨?_, ?_, ?_⟩, ?_, ?_, ?_⟩, rfl, ?_, ?_, ?_⟩
    · simp [store, hdIdx]
    · have hne1 : ¬ s.node_space_recs = j := fun h => hne h.symm
      simp [store, hne1]
    · refine Rep.congr h.rep.2 (fun i hi => ?_)
      have h1 : i ≠ j := fun e => hjrest (e ▸ hi)
      have h2 : i ≠ s.node_space_recs := by have := hfr i hi; omega
      simp [store, h1, h2]
    · have hn := h.nodup
      simp only [List.map_cons, List.nodup_cons, List.mem_cons] at hn ⊢
      refine ⟨?_, ?_, hn.2⟩
      · rintro (e | e)
        · omega
        · exact hn.1 e
      · intro e
        have := hfr _ e
        omega
    · intro i hi
      simp only [List.map_cons, List.mem_cons] at hi
      rcases hi with rfl | rfl | hi
      · simp only []; omega
      · simp only []; omega
      · have := hfr i hi
        simp only []; omega
    · intro i hi
      simp only [List.tail_cons, List.map_cons, List.mem_cons] at hi
      rcases hi with rfl | hi
      · omega
      · exact h.nz i (by simpa using hi)
    · intro i hi
      simp only [List.map_cons, List.mem_cons] at hi ⊢
      rcases hi with rfl | rfl | hi
      · exact Or.inl (Or.inl rfl)
      · exact Or.inr (le_refl _)
      · exact Or.inl (Or.inr hi)
    · intro k hk hr
      simp only [List.map_cons, List.mem_cons, not_or] at hk
      have h2 : k ≠ s.node_space_recs := by
        rcases hr with hr | hr
        · omega
        · simp only [] at hr; omega
      simp [store, hk.1, h2]
    · simp only []; omega
  · simp [store]

theorem add_resv_end_spec (end_reserve : Nat) :
    ∀ (rest : List (Nat × Interval)) (fuel j : Nat) (x : Interval) (s : node_space_state),
      Seg s ((j, x) :: rest) → rest.length + 1 ≤ fuel →
      ∃ s1 rest1, add_resv_end end_reserve fuel j s = some s1 ∧
        Step s s1 ((j, x) :: rest) ((j, x) :: rest1) ∧
        rest1.map Prod.snd = absEnd end_reserve (rest.map Prod.snd) ∧
        s1.node_space_recs ≤ s.node_space_recs + 1 := by
  intro rest
  induction rest with
  | nil =>
    intro fuel j x s h hf
    obtain ⟨n, rfl⟩ : ∃ n, fuel = n + 1 := ⟨fuel - 1, by omega⟩
    refine ⟨s, [], ?_, Step.refl h, rfl, by omega⟩
    have := h.rep.1
    simp [add_resv_end, this, Interval.toRec, hdIdx]
  | cons q rest2 ih =>
    intro fuel j x s h hf
    obtain ⟨k, y⟩ := q
    obtain ⟨n, rfl⟩ : ∃ n, fuel = n + 1 := ⟨fuel - 1, by omega⟩
    have hj := h.rep.1
    have hk := h.rep.2.1
    have hk0 : k ≠ 0 := h.nz k (by simp)
    simp only [hdIdx] at hj hk
    by_cases c1 : end_reserve < y.e
    · obtain ⟨s1, e1, st1, r1, _⟩ := insert_step end_reserve h.tail
      refine ⟨s1, _, ?_, Step.cons h st1, ?_, by omega⟩
      · simp [add_resv_end, hj, hk, Interval.toRec, hk0, c1, e1]
      · simp [absEnd, c1]
    · by_cases c2 : end_reserve = y.e
      · refine ⟨s, _, ?_, Step.refl h, ?_, by omega⟩
        · simp [add_resv_end, hj, hk, Interval.toRec, hk0, c2]
        · simp [absEnd, c2]
      · simp only [List.length_cons] at hf
        obtain ⟨s1, rest1, e1, st1, m1, r1⟩ := ih n k y s h.tail (by omega)
        refine ⟨s1, (k, y) :: rest1, ?_, Step.cons h st1, ?_, r1⟩
        · simp [add_resv_end, hj, hk, Interval.toRec, hk0, c1, c2, e1]
        · simp [absEnd, c1, c2, m1]

theorem add_resv_start_spec (start_time end_reserve : Nat) :
    ∀ (rest : List (Nat × Interval)) (fuel j : Nat) (x : Interval) (s : node_space_state),
      Seg s ((j, x) :: rest) → rest.length + 3 ≤ fuel →
      ∃ s1 c1, add_resv_start start_time end_reserve fuel j s = some s1 ∧
        Step s s1 ((j, x) :: rest) c1 ∧
        c1.map Prod.snd = absStart start_time end_reserve (x :: rest.map Prod.snd) ∧
        s1.node_space_recs ≤ s.node_space_recs + 2 := by
  intro rest
  induction rest with
  | nil =>
    intro fuel j x s h hf
    obtain ⟨n, rfl⟩ : ∃ n, fuel = n + 1 := ⟨fuel - 1, by omega⟩
    have hj := h.rep.1
    simp only [hdIdx] at hj
    by_cases c1 : x.e > start_time
    · obtain ⟨s1, e1, st1, r1, hj1⟩ := insert_step start_time h
      obtain ⟨s2, rest2, e2, st2, m2, r2⟩ :=
        add_resv_end_spec end_reserve _ n j _ s1 st1.seg (by simp at hf ⊢; omega)
      refine ⟨s2, _, ?_, Step.trans st1 st2, ?_, by omega⟩
      · simp [add_resv_start, hj, hj1, Interval.toRec, c1, e1, e2]
      · simp [absStart, c1, m2]
    · by_cases c2 : x.e = start_time
      · obtain ⟨s2, rest2, e2, st2, m2, r2⟩ :=
          add_resv_end_spec end_reserve _ n j _ s h (by simp at hf ⊢; omega)
        refine ⟨s2, _, ?_, st2, ?_, by omega⟩
        · simp [add_resv_start, hj, Interval.toRec, c2, e2]
        · simp [absStart, c2, m2]
      · refine ⟨s, _, ?_, Step.refl h, ?_, by omega⟩
        · simp [add_resv_start, hj, Interval.toRec, c1, c2]
        · simp [absStart, c1, c2]
  | cons q rest2 ih =>
    intro fuel j x s h hf
    obtain ⟨k, y⟩ := q
    obtain ⟨n, rfl⟩ : ∃ n, fuel = n + 1 := ⟨fuel - 1, by omega⟩
    have hj := h.rep.1
    have hk0 : k ≠ 0 := h.nz k (by simp)
    simp only [hdIdx] at hj
    simp only [List.length_cons] at hf
    by_cases c1 : x.e > start_time
    · obtain ⟨s1, e1, st1, r1, hj1⟩ := insert_step start_time h
      obtain ⟨s2, rest3, e2, st2, m2, r2⟩ :=
        add_resv_end_spec end_reserve _ n j _ s1 st1.seg (by simp at hf ⊢; omega)
      refine ⟨s2, _, ?_, Step.trans st1 st2, ?_, by omega⟩
      · simp [add_resv_start, hj, hj1, Interval.toRec, c1, e1, e2]
      · simp [absStart, c1, m2]
    · by_cases c2 : x.e = start_time
      · obtain ⟨s2, rest3, e2, st2, m2, r2⟩ :=
          add_resv_end_spec end_reserve _ n j _ s h (by simp at hf ⊢; omega)
        refine ⟨s2, _, ?_, st2, ?_, by omega⟩
        · simp [add_resv_start, hj, Interval.toRec, c2, e2]
        · simp [absStart, c2, m2]
      · obtain ⟨s1, c3, e1, st1, m1, r1⟩ := ih n k y s h.tail (by omega)
        refine ⟨s1, (j, x) :: c3, ?_, Step.cons h st1, ?_, r1⟩
        · simp [add_resv_start, hj, Interval.toRec, c1, c2, hk0, e1]
        · simp [absStart, c1, c2, m1]

theorem and_step (res : bitstr_t) {s : node_space_state} {j : Nat} {x : Interval}
    {rest : List (Nat × Interval)} (h : Seg s ((j, x) :: rest)) :
    Step s
      ⟨store s.node_space j { s.node_space j with avail_bitmap := some (bit_and x.a res) },
        s.node_space_recs⟩
      ((j, x) :: rest) ((j, { x with a := x.a ∩ res }) :: rest) := by
  have hjrest : j ∉ rest.map Prod.fst := (List.nodup_cons.mp h.nodup).1
  refine ⟨⟨⟨?_, ?_⟩, h.nodup, h.fresh, h.nz⟩, rfl, fun i hi => Or.inl hi, ?_, le_refl _⟩
  · simp [store, h.rep.1, Interval.toRec, bit_and]
  · refine Rep.congr h.rep.2 (fun i hi => ?_)
    have h1 : i ≠ j := fun e => hjrest (e ▸ hi)
    simp [store, h1]
  · intro k hk _
    simp only [List.map_cons, List.mem_cons, not_or] at hk
    simp [store, hk.1]

theorem add_resv_and_spec (start_time end_reserve : Nat) (res : bitstr_t) :
    ∀ (rest : List (Nat × Interval)) (fuel j : Nat) (x : Interval) (s : node_space_state),
      Seg s ((j, x) :: rest) → rest.length + 1 ≤ fuel →
      ∃ s1 c1, add_resv_and start_time end_reserve res fuel j s = some s1 ∧
        Step s s1 ((j, x) :: rest) c1 ∧
        c1.map Prod.snd = absAnd start_time end_reserve res (x :: rest.map Prod.snd) ∧
        s1.node_space_recs = s.node_space_recs := by
  intro rest
  induction rest with
  | nil =>
    intro fuel j x s h hf
    obtain ⟨n, rfl⟩ : ∃ n, fuel = n + 1 := ⟨fuel - 1, by omega⟩
    have hj := h.rep.1
    simp only [hdIdx] at hj
    by_cases c1 : x.b ≥ start_time ∧ x.e ≤ end_reserve
    · refine ⟨_, _, ?_, and_step res h, ?_, rfl⟩
      · simp [add_resv_and, hj, Interval.toRec, c1, store_same]
      · simp [absAnd, c1]
    · refine ⟨s, _, ?_, Step.refl h, ?_, rfl⟩
      · simp [add_resv_and, hj, Interval.toRec, c1]
      · simp [absAnd, c1]
  | cons q rest2 ih =>
    intro fuel j x s h hf
    obtain ⟨k, y⟩ := q
    obtain ⟨n, rfl⟩ : ∃ n, fuel = n + 1 := ⟨fuel - 1, by omega⟩
    have hj := h.rep.1
    have hk0 : k ≠ 0 := h.nz k (by simp)
    simp only [hdIdx] at hj
    simp only [List.length_cons] at hf
    by_cases c1 : x.b ≥ start_time ∧ x.e ≤ end_reserve
    · have st0 := and_step res h
      by_cases c2 : x.b ≥ end_reserve
      · refine ⟨_, _, ?_, st0, ?_, rfl⟩
        · simp [add_resv_and, hj, Interval.toRec, c1, c2, store_same]
        · simp [absAnd, c1, c2]
      · obtain ⟨s1, c3, e1, st1, m1, r1⟩ := ih n k y _ st0.seg.tail (by omega)
        refine ⟨s1, _, ?_, Step.trans st0 (Step.cons st0.seg st1), ?_, r1⟩
        · simp only [hj, Interval.toRec] at e1
          simp [add_resv_and, hj, Interval.toRec, c1, c2, hk0, store_same, e1]
        · simp [absAnd, c1, c2, m1]
    · by_cases c2 : x.b ≥ end_reserve
      · refine ⟨s, _, ?_, Step.refl h, ?_, rfl⟩
        · simp [add_resv_and, hj, Interval.toRec, c1, c2]
        · simp [absAnd, c1, c2]
      · obtain ⟨s1, c3, e1, st1, m1, r1⟩ := ih n k y s h.tail (by omega)
        refine ⟨s1, (j, x) :: c3, ?_, Step.cons h st1, ?_, r1⟩
        · simp [add_resv_and, hj, Interval.toRec, c1, c2, hk0, e1]
        · simp [absAnd, c1, c2, m1]

theorem merge_step {s : node_space_state} {i j : Nat} {x y : Interval}
    {rest : List (Nat × Interval)} (h : Seg s ((i, x) :: (j, y) :: rest)) :
    Step s
      ⟨store (store (store s.node_space i (Interval.toRec { x with e := y.e } j)) i
          (Interval.toRec { x with e := y.e } (hdIdx rest))) j
          { (y.toRec (hdIdx rest)) with avail_bitmap := none }, s.node_space_recs⟩
      ((i, x) :: (j, y) :: rest) ((i, { x with e := y.e }) :: rest) := by
  have hn := h.nodup
  simp only [List.map_cons, List.nodup_cons, List.mem_cons, not_or] at hn
  have hij : i ≠ j := hn.1.1
  refine ⟨⟨⟨?_, ?_⟩, ?_, ?_, ?_⟩, rfl, ?_, ?_, le_refl _⟩
  · simp [store, hij]
  · refine Rep.congr h.rep.2.2 (fun k hk => ?_)
    have h1 : k ≠ i := fun e => hn.1.2 (e ▸ hk)
    have h2 : k ≠ j := fun e => hn.2.1 (e ▸ hk)
    simp [store, h1, h2]
  · simp only [List.map_cons, List.nodup_cons]
    exact ⟨hn.1.2, hn.2.2⟩
  · intro k hk
    apply h.fresh k
    simp only [List.map_cons, List.mem_cons] at hk ⊢
    rcases hk with hk | hk
    · exact Or.inl hk
    · exact Or.inr (Or.inr hk)
  · intro k hk
    apply h.nz k
    simp only [List.tail_cons, List.map_cons, List.mem_cons] at hk ⊢
    exact Or.inr hk
  · intro k hk
    simp only [List.map_cons, List.mem_cons] at hk ⊢
    rcases hk with hk | hk
    · exact Or.inl (Or.inl hk)
    · exact Or.inl (Or.inr (Or.inr hk))
  · intro k hk _
    simp only [List.map_cons, List.mem_cons, not_or] at hk
    simp [store, hk.1, hk.2.1]

theorem add_resv_merge_spec :
    ∀ (rest : List (Nat × Interval)) (fuel i : Nat) (x : Interval) (s : node_space_state),
      Seg s ((i, x) :: rest) → rest.length + 1 ≤ fuel →
      ∃ s1 c1, add_resv_merge fuel i s = some s1 ∧
        Step s s1 ((i, x) :: rest) c1 ∧
        c1.map Prod.snd = absMerge (x :: rest.map Prod.snd) ∧
        s1.node_space_recs = s.node_space_recs := by
  intro rest
  induction rest with
  | nil =>
    intro fuel i x s h hf
    obtain ⟨n, rfl⟩ : ∃ n, fuel = n + 1 := ⟨fuel - 1, by omega⟩
    have hi := h.rep.1
    simp only [hdIdx] at hi
    refine ⟨s, _, ?_, Step.refl h, ?_, rfl⟩
    · simp [add_resv_merge, hi, Interval.toRec]
    · simp [absMerge]
  | cons q rest2 ih =>
    intro fuel i x s h hf
    obtain ⟨j, y⟩ := q
    obtain ⟨n, rfl⟩ : ∃ n, fuel = n + 1 := ⟨fuel - 1, by omega⟩
    have hi := h.rep.1
    have hj := h.rep.2.1
    have hj0 : j ≠ 0 := h.nz j (by simp)
    simp only [hdIdx] at hi
    simp only [List.length_cons] at hf
    by_cases c1 : x.a = y.a
    · refine ⟨_, _, ?_, merge_step h, ?_, rfl⟩
      · simp [add_resv_merge, hi, hj, Interval.toRec, hj0, c1, bit_equal, store_same]
        have hn := h.nodup
        simp only [List.map_cons, List.nodup_cons, List.mem_cons, not_or] at hn
        have hij : ¬ j = i := fun e => hn.1.1 e.symm
        simp [store, hij, hj, Interval.toRec]
      · simp [absMerge, c1]
    · obtain ⟨s1, c3, e1, st1, m1, r1⟩ := ih n j y s h.tail (by omega)
      refine ⟨s1, (i, x) :: c3, ?_, Step.cons h st1, ?_, r1⟩
      · simp [add_resv_merge, hi, hj, Interval.toRec, hj0, c1, bit_equal, e1]
      · simp [absMerge, c1, m1]

theorem absEnd_length (end_reserve : Nat) (l : List Interval) :
    l.length ≤ (absEnd end_reserve l).length ∧
      (absEnd end_reserve l).length ≤ l.length + 1 := by
  induction l with
  | nil => simp [absEnd]
  | cons x rest ih =>
    simp only [absEnd]
    split_ifs <;> simp only [List.length_cons] <;> omega

theorem absStart_length (start_time end_reserve : Nat) (l : List Interval) :
    l.length ≤ (absStart start_time end_reserve l).length ∧
      (absStart start_time end_reserve l).length ≤ l.length + 2 := by
  induction l with
  | nil => simp [absStart]
  | cons x rest ih =>
    simp only [absStart]
    split_ifs
    · have := absEnd_length end_reserve ({ x with b := start_time } :: rest)
      simp at this ⊢; omega
    · have := absEnd_length end_reserve rest
      simp; omega
    · simp; omega

theorem absAnd_length (start_time end_reserve : Nat) (res : bitstr_t) (l : List Interval) :
    (absAnd start_time end_reserve res l).length = l.length := by
  induction l with
  | nil => simp [absAnd]
  | cons x rest ih =>
    simp only [absAnd]
    split_ifs <;> simp [ih]

/-- Refinement of `_add_reservation`: on a well-formed segment starting at record
0 the function returns, and the chain of the result holds the interval list
computed by `absAdd`. -/
theorem add_reservation_refines (start_time end_reserve : Nat) (res : bitstr_t)
    (fuel : Nat) (x : Interval) (rest : List (Nat × Interval)) (s : node_space_state)
    (h : Seg s ((0, x) :: rest)) (hf : rest.length + 3 ≤ fuel) :
    ∃ s1 x1 rest1, _add_reservation fuel start_time end_reserve res s = some s1 ∧
      Step s s1 ((0, x) :: rest) ((0, x1) :: rest1) ∧
      x1 :: rest1.map Prod.snd =
        absAdd ((max start_time x.b) % 4294967296) end_reserve res (x :: rest.map Prod.snd) ∧
      s1.node_space_recs ≤ s.node_space_recs + 2 := by
  have h0 : (s.node_space 0).begin_time = x.b := by rw [h.rep.1]; rfl
  obtain ⟨s1, c1, e1, st1, m1, r1⟩ :=
    add_resv_start_spec ((max start_time x.b) % 4294967296) end_reserve rest fuel 0 x s h hf
  have l1 := absStart_length ((max start_time x.b) % 4294967296) end_reserve
    (x :: rest.map Prod.snd)
  rw [← m1] at l1
  rcases c1 with _ | ⟨⟨j1, x1⟩, rest1⟩
  · simp at l1
  have hj1 : j1 = 0 := st1.hd
  subst hj1
  simp only [List.length_map, List.length_cons] at l1
  obtain ⟨s2, c2, e2, st2, m2, r2⟩ :=
    add_resv_and_spec ((max start_time x.b) % 4294967296) end_reserve res rest1 fuel 0 x1 s1
      st1.seg (by omega)
  have l2 := absAnd_length ((max start_time x.b) % 4294967296) end_reserve res
    (x1 :: rest1.map Prod.snd)
  rw [← m2] at l2
  rcases c2 with _ | ⟨⟨j2, x2⟩, rest2⟩
  · simp at l2
  have hj2 : j2 = 0 := st2.hd
  subst hj2
  simp only [List.length_map, List.length_cons] at l2
  obtain ⟨s3, c3, e3, st3, m3, r3⟩ :=
    add_resv_merge_spec rest2 fuel 0 x2 s2 st2.seg (by omega)
  rcases c3 with _ | ⟨⟨j3, x3⟩, rest3⟩
  · exfalso
    have : (absMerge (x2 :: rest2.map Prod.snd)).length = 0 := by rw [← m3]; rfl
    cases hr : rest2.map Prod.snd with
    | nil => rw [hr] at this; simp [absMerge] at this
    | cons y r =>
      rw [hr] at this
      simp only [absMerge] at this
      split_ifs at this <;> simp at this
  have hj3 : j3 = 0 := st3.hd
  subst hj3
  refine ⟨s3, x3, rest3, ?_, Step.trans st1 (Step.trans st2 st3), ?_, by omega⟩
  · simp only [_add_reservation, h0, e1, e2, e3]
  · simp only [List.map_cons] at m1 m2 m3
    rw [absAdd, ← m1, ← m2, ← m3]

/-! ## Properties of the interval-list functions -/

theorem absEnd_tiled (er : Nat) : ∀ (l : List Interval) (b t : Nat),
    Tiled b l t → Tiled b (absEnd er l) t := by
  intro l
  induction l with
  | nil => intro b t h; exact h
  | cons x rest ih =>
    intro b t h
    simp only [absEnd]
    split_ifs with c1 c2
    · exact ⟨h.1, rfl, h.2⟩
    · exact h
    · exact ⟨h.1, ih _ _ h.2⟩

theorem absStart_tiled (st er : Nat) : ∀ (l : List Interval) (b t : Nat),
    Tiled b l t → Tiled b (absStart st er l) t := by
  intro l
  induction l with
  | nil => intro b t h; exact h
  | cons x rest ih =>
    intro b t h
    simp only [absStart]
    split_ifs with c1 c2
    · exact ⟨h.1, absEnd_tiled er _ _ _ ⟨rfl, h.2⟩⟩
    · exact ⟨h.1, absEnd_tiled er _ _ _ h.2⟩
    · exact ⟨h.1, ih _ _ h.2⟩

theorem absAnd_tiled (st er : Nat) (res : bitstr_t) : ∀ (l : List Interval) (b t : Nat),
    Tiled b l t → Tiled b (absAnd st er res l) t := by
  intro l
  induction l with
  | nil => intro b t h; exact h
  | cons x rest ih =>
    intro b t h
    simp only [absAnd]
    split_ifs with c1 c2 c3
    · exact ⟨h.1, h.2⟩
    · exact ⟨h.1, ih _ _ h.2⟩
    · exact ⟨h.1, h.2⟩
    · exact ⟨h.1, ih _ _ h.2⟩

theorem absMerge_tiled : ∀ (l : List Interval) (b t : Nat),
    Tiled b l t → Tiled b (absMerge l) t := by
  intro l
  induction l with
  | nil => intro b t h; exact h
  | cons x rest ih =>
    intro b t h
    cases rest with
    | nil => exact h
    | cons y rest2 =>
      simp only [absMerge]
      split_ifs with c1
      · exact ⟨h.1, h.2.2⟩
      · exact ⟨h.1, ih _ _ h.2⟩

theorem absAdd_tiled (st er : Nat) (res : bitstr_t) (l : List Interval) (b t : Nat)
    (h : Tiled b l t) : Tiled b (absAdd st er res l) t :=
  absMerge_tiled _ _ _ (absAnd_tiled st er res _ _ _ (absStart_tiled st er _ _ _ h))

theorem Strict.ordered {l : List Interval} (h : Strict l) : Ordered l :=
  fun x hx => Nat.le_of_lt (h x hx)

theorem tiled_le_begin : ∀ (l : List Interval) (b t : Nat),
    Tiled b l t → Ordered l → ∀ x ∈ l, b ≤ x.b := by
  intro l
  induction l with
  | nil => intro b t _ _ x hx; simp at hx
  | cons y rest ih =>
    intro b t h ho x hx
    simp only [List.mem_cons] at hx
    rcases hx with rfl | hx
    · exact Nat.le_of_eq h.1.symm
    · have h1 := ih _ _ h.2 (fun z hz => ho z (List.mem_cons_of_mem _ hz)) x hx
      have h2 := ho y (List.mem_cons_self _ _)
      have h3 := h.1
      omega

theorem absEnd_strict (er : Nat) : ∀ (l : List Interval) (b t : Nat),
    Tiled b l t → Strict l → b < er → Strict (absEnd er l) := by
  intro l
  induction l with
  | nil => intro b t _ _ _ x hx; simp [absEnd] at hx
  | cons y rest ih =>
    intro b t h hs hbe
    have hy := hs y (List.mem_cons_self _ _)
    have hsr : Strict rest := fun z hz => hs z (List.mem_cons_of_mem _ hz)
    have hyb := h.1
    simp only [absEnd]
    split_ifs with c1 c2
    · intro x hx
      simp only [List.mem_cons] at hx
      rcases hx with rfl | rfl | hx
      · simp only []; omega
      · simp only []; omega
      · exact hsr x hx
    · exact hs
    · have i1 := ih _ _ h.2 hsr (by omega)
      intro x hx
      simp only [List.mem_cons] at hx
      rcases hx with rfl | hx
      · exact hy
      · exact i1 x hx

theorem absStart_strict (st er : Nat) (hse : st < er) : ∀ (l : List Interval) (b t : Nat),
    Tiled b l t → Strict l → b < st → Strict (absStart st er l) := by
  intro l
  induction l with
  | nil => intro b t _ _ _ x hx; simp [absStart] at hx
  | cons y rest ih =>
    intro b t h hs hbs
    have hy := hs y (List.mem_cons_self _ _)
    have hsr : Strict rest := fun z hz => hs z (List.mem_cons_of_mem _ hz)
    have hyb := h.1
    simp only [absStart]
    split_ifs with c1 c2
    · have hs2 : Strict ({ y with b := st } :: rest) := by
        intro z hz
        simp only [List.mem_cons] at hz
        rcases hz with rfl | hz
        · simp only []; omega
        · exact hsr z hz
      have i1 := absEnd_strict er ({ y with b := st } :: rest) st t ⟨rfl, h.2⟩ hs2 hse
      intro x hx
      simp only [List.mem_cons] at hx
      rcases hx with rfl | hx
      · simp only []; omega
      · exact i1 x hx
    · have i1 := absEnd_strict er rest y.e t h.2 hsr (by omega)
      intro x hx
      simp only [List.mem_cons] at hx
      rcases hx with rfl | hx
      · exact hy
      · exact i1 x hx
    · have i1 := ih _ _ h.2 hsr (by omega)
      intro x hx
      simp only [List.mem_cons] at hx
      rcases hx with rfl | hx
      · exact hy
      · exact i1 x hx

theorem absAnd_strict (st er : Nat) (res : bitstr_t) : ∀ (l : List Interval),
    Strict l → Strict (absAnd st er res l) := by
  intro l
  induction l with
  | nil => intro _ x hx; simp [absAnd] at hx
  | cons y rest ih =>
    intro hs
    have hy := hs y (List.mem_cons_self _ _)
    have hsr : Strict rest := fun z hz => hs z (List.mem_cons_of_mem _ hz)
    have i1 := ih hsr
    simp only [absAnd]
    split_ifs with c1 c2 c3 <;>
    · intro x hx
      simp only [List.mem_cons] at hx
      rcases hx with rfl | hx
      · exact hy
      · first | exact hsr x hx | exact i1 x hx

theorem absMerge_strict : ∀ (l : List Interval) (b t : Nat),
    Tiled b l t → Strict l → Strict (absMerge l) := by
  intro l
  induction l with
  | nil => intro b t _ _ x hx; simp [absMerge] at hx
  | cons x rest ih =>
    intro b t h hs
    cases rest with
    | nil => exact hs
    | cons y rest2 =>
      have hx := hs x (List.mem_cons_self _ _)
      have hy := hs y (List.mem_cons_of_mem _ (List.mem_cons_self _ _))
      have hxy : y.b = x.e := h.2.1
      have hsr : Strict (y :: rest2) := fun z hz => hs z (List.mem_cons_of_mem _ hz)
      simp only [absMerge]
      split_ifs with c1
      · intro z hz
        simp only [List.mem_cons] at hz
        rcases hz with rfl | hz
        · simp only []; omega
        · exact hsr z (List.mem_cons_of_mem _ hz)
      · have i1 := ih _ _ h.2 hsr
        intro z hz
        simp only [List.mem_cons] at hz
        rcases hz with rfl | hz
        · exact hx
        · exact i1 z hz

theorem absEnd_head (er : Nat) (y : Interval) (rest : List Interval) :
    ∃ y2 r2, absEnd er (y :: rest) = y2 :: r2 ∧ y2.b = y.b ∧ y2.a = y.a ∧ y2.e ≤ er := by
  simp only [absEnd]
  split_ifs with c1 c2
  · exact ⟨_, _, rfl, rfl, rfl, le_refl _⟩
  · exact ⟨_, _, rfl, rfl, rfl, by omega⟩
  · exact ⟨_, _, rfl, rfl, rfl, by omega⟩

theorem absAnd_head (st er : Nat) (res : bitstr_t) (y : Interval) (rest : List Interval)
    (h1 : st ≤ y.b) (h2 : y.e ≤ er) :
    ∃ r3, absAnd st er res (y :: rest) = { y with a := y.a ∩ res } :: r3 ∧
      (Strict rest → Strict r3) := by
  simp only [absAnd]
  have c : y.b ≥ st ∧ y.e ≤ er := ⟨h1, h2⟩
  simp only [c, and_self, if_true]
  split_ifs with c2
  · exact ⟨_, rfl, id⟩
  · exact ⟨_, rfl, absAnd_strict st er res rest⟩

/-- No empty interval is left: on a tiled list of non-empty intervals, a
reservation with `b ≤ st < er` yields non-empty intervals only. -/
theorem absAdd_strict (st er : Nat) (res : bitstr_t) (l : List Interval) (b t : Nat)
    (h : Tiled b l t) (hs : Strict l) (hb : b ≤ st) (hse : st < er) :
    Strict (absAdd st er res l) := by
  rcases Nat.lt_or_ge b st with hlt | hge
  · have s1 := absStart_strict st er hse l b t h hs hlt
    have t1 := absStart_tiled st er l b t h
    have s2 := absAnd_strict st er res _ s1
    have t2 := absAnd_tiled st er res _ b t t1
    exact absMerge_strict _ b t t2 s2
  · have hbst : b = st := by omega
    subst hbst
    cases l with
    | nil => intro x hx; simp [absAdd, absStart, absAnd, absMerge] at hx
    | cons x rest =>
      have hx := hs x (List.mem_cons_self _ _)
      have hxb : x.b = b := h.1
      have hxe : x.e > b := by omega
      have hs2 : Strict ({ x with b := b } :: rest) := by
        intro z hz
        simp only [List.mem_cons] at hz
        rcases hz with rfl | hz
        · simp only []; omega
        · exact hs z (List.mem_cons_of_mem _ hz)
      have s2 := absEnd_strict er ({ x with b := b } :: rest) b t ⟨rfl, h.2⟩ hs2 hse
      obtain ⟨y2, r2, e2, hy2b, hy2a, hy2e⟩ := absEnd_head er { x with b := b } rest
      rw [e2] at s2
      have hy2 := s2 y2 (List.mem_cons_self _ _)
      have hsr2 : Strict r2 := fun z hz => s2 z (List.mem_cons_of_mem _ hz)
      simp only [] at hy2b hy2a
      obtain ⟨r3, e3, hs3⟩ := absAnd_head b er res y2 r2 (by omega) hy2e
      have hs3 := hs3 hsr2
      have e1 : absStart b er (x :: rest) = { x with e := b } :: y2 :: r2 := by
        simp only [absStart, hxe, if_true, e2]
      have e4 : absAnd b er res ({ x with e := b } :: y2 :: r2) =
          { b := x.b, e := b, a := x.a ∩ res } :: { y2 with a := y2.a ∩ res } :: r3 := by
        have c : x.b ≥ b ∧ b ≤ er := ⟨by omega, by omega⟩
        have c2 : ¬ x.b ≥ er := by omega
        simp only [absAnd, c, and_self, if_true, c2, if_false]
        rw [← e3]
        simp only [absAnd]
      rw [absAdd, e1, e4]
      simp only [absMerge, hy2a, if_true]
      intro z hz
      simp only [List.mem_cons] at hz
      rcases hz with rfl | hz
      · simp only []; omega
      · exact hs3 z hz

theorem tiled_strict_pairwise : ∀ (l : List Interval) (b t : Nat),
    Tiled b l t → Strict l → l.Pairwise (fun x y => x.b < y.b) := by
  intro l
  induction l with
  | nil => intro b t _ _; exact List.Pairwise.nil
  | cons x rest ih =>
    intro b t h hs
    have hx := hs x (List.mem_cons_self _ _)
    have hsr : Strict rest := fun z hz => hs z (List.mem_cons_of_mem _ hz)
    refine List.Pairwise.cons ?_ (ih _ _ h.2 hsr)
    intro y hy
    have := tiled_le_begin rest _ _ h.2 hsr.ordered y hy
    omega

/-! ## From records to intervals and back -/

theorem toRec_intervalOf (r : node_space_map_t) (h : r.avail_bitmap ≠ none) :
    (intervalOf r).toRec r.next = r := by
  cases r with
  | mk b e a n =>
    cases a with
    | none => exact absurd rfl h
    | some a => rfl

theorem rep_of_isChain (ns : Nat → node_space_map_t) : ∀ (l : List Nat) (j : Nat),
    IsChain ns j l → (∀ k ∈ j :: l, (ns k).avail_bitmap ≠ none) →
    Rep ns ((j :: l).map (fun k => (k, intervalOf (ns k)))) := by
  intro l
  induction l with
  | nil =>
    intro j h hb
    refine ⟨?_, trivial⟩
    have := toRec_intervalOf (ns j) (hb j (List.mem_cons_self _ _))
    simp only [IsChain] at h
    rw [h] at this
    exact this.symm
  | cons k l ih =>
    intro j h hb
    refine ⟨?_, ih k h.2.2 (fun i hi => hb i (List.mem_cons_of_mem _ hi))⟩
    have := toRec_intervalOf (ns j) (hb j (List.mem_cons_self _ _))
    rw [h.1] at this
    exact this.symm

theorem map_fst_pair (ns : Nat → node_space_map_t) (l : List Nat) :
    (l.map (fun k => (k, intervalOf (ns k)))).map Prod.fst = l := by
  induction l with
  | nil => rfl
  | cons k l ih => simp only [List.map_cons, ih]

theorem map_snd_pair (ns : Nat → node_space_map_t) (l : List Nat) :
    (l.map (fun k => (k, intervalOf (ns k)))).map Prod.snd = intervalsOf ns l := by
  induction l with
  | nil => rfl
  | cons k l ih =>
    simp only [List.map_cons, ih, intervalsOf]

theorem ChainOK.toSeg {s : node_space_state} {l : List Nat} (h : ChainOK s l) :
    Seg s ((0, intervalOf (s.node_space 0)) ::
      l.map (fun k => (k, intervalOf (s.node_space k)))) where
  rep := rep_of_isChain s.node_space l 0 h.chain h.bitmap
  nodup := by
    have := map_fst_pair s.node_space l
    simp only [List.map_cons, this]
    exact h.nodup
  fresh := by
    have := map_fst_pair s.node_space l
    simp only [List.map_cons, this]
    exact h.alloc
  nz := by
    have := map_fst_pair s.node_space l
    simp only [List.tail_cons, this]
    intro i hi e
    exact (List.nodup_cons.mp h.nodup).1 (e ▸ hi)

theorem isChain_of_rep (ns : Nat → node_space_map_t) :
    ∀ (rest : List (Nat × Interval)) (j : Nat) (x : Interval),
    Rep ns ((j, x) :: rest) → (∀ i ∈ rest.map Prod.fst, i ≠ 0) →
    IsChain ns j (rest.map Prod.fst) := by
  intro rest
  induction rest with
  | nil =>
    intro j x h _
    have := h.1
    simp only [hdIdx] at this
    simp only [List.map_nil, IsChain, this, Interval.toRec]
  | cons q rest ih =>
    intro j x h hz
    obtain ⟨k, y⟩ := q
    have := h.1
    simp only [hdIdx] at this
    refine ⟨by rw [this]; rfl, hz k (by simp), ih k y h.2 (fun i hi => hz i ?_)⟩
    simp only [List.map_cons, List.mem_cons]
    exact Or.inr hi

theorem rep_intervalOf (ns : Nat → node_space_map_t) :
    ∀ (c : List (Nat × Interval)), Rep ns c →
      intervalsOf ns (c.map Prod.fst) = c.map Prod.snd := by
  intro c
  induction c with
  | nil => intro _; rfl
  | cons p c ih =>
    intro h
    have e := ih h.2
    simp only [intervalsOf] at e
    simp only [intervalsOf, List.map_cons, e, h.1, List.cons.injEq, and_true]
    rfl

theorem Seg.toChainOK {s : node_space_state} {x : Interval} {rest : List (Nat × Interval)}
    (h : Seg s ((0, x) :: rest)) : ChainOK s (rest.map Prod.fst) where
  chain := isChain_of_rep s.node_space rest 0 x h.rep (fun i hi => h.nz i (by simpa using hi))
  nodup := by simpa using h.nodup
  alloc := by simpa using h.fresh
  bitmap := by
    intro k hk
    have e := rep_intervalOf s.node_space _ h.rep
    have hr : ∀ (c : List (Nat × Interval)), Rep s.node_space c →
        ∀ i ∈ c.map Prod.fst, (s.node_space i).avail_bitmap ≠ none := by
      intro c
      induction c with
      | nil => intro _ i hi; simp at hi
      | cons p c ih =>
        intro hc i hi
        simp only [List.map_cons, List.mem_cons] at hi
        rcases hi with rfl | hi
        · rw [hc.1]; simp [Interval.toRec]
        · exact ih hc.2 i hi
    exact hr _ h.rep k (by simpa using hk)

/-- The working form of the refinement: on a structurally well-formed pool
`_add_reservation` returns, the result is structurally well-formed, and its
intervals are those computed by `absAdd`. -/
theorem add_reservation_chain (s : node_space_state) (l : List Nat)
    (fuel start_time end_reserve : Nat) (res : bitstr_t)
    (hok : ChainOK s l) (hf : l.length + 3 ≤ fuel) :
    ∃ s1 l1, _add_reservation fuel start_time end_reserve res s = some s1 ∧
      ChainOK s1 l1 ∧
      intervalsOf s1.node_space (0 :: l1) =
        absAdd ((max start_time (s.node_space 0).begin_time) % 4294967296) end_reserve res
          (intervalsOf s.node_space (0 :: l)) ∧
      s.node_space_recs ≤ s1.node_space_recs ∧
      s1.node_space_recs ≤ s.node_space_recs + 2 ∧
      (∀ k, s1.node_space_recs ≤ k → s1.node_space k = s.node_space k) := by
  have hseg := hok.toSeg
  obtain ⟨s1, x1, rest1, e1, st1, m1, r1⟩ :=
    add_reservation_refines start_time end_reserve res fuel _ _ s hseg
      (by simp only [List.length_map]; exact hf)
  refine ⟨s1, rest1.map Prod.fst, e1, st1.seg.toChainOK, ?_, st1.recs, r1, ?_⟩
  · have e := rep_intervalOf s1.node_space _ st1.seg.rep
    simp only [List.map_cons] at e
    rw [e, m1, map_snd_pair]
    rfl
  · intro k hk
    apply st1.frame k _ (Or.inr hk)
    intro hmem
    have := hseg.fresh k hmem
    have := st1.recs
    omega

theorem tiled_of_contiguous (ns : Nat → node_space_map_t) : ∀ (l : List Nat) (j : Nat),
    Contiguous ns (j :: l) →
    Tiled (ns j).begin_time (intervalsOf ns (j :: l)) (ns (l.getLastD j)).end_time := by
  intro l
  induction l with
  | nil => intro j _; exact ⟨rfl, rfl⟩
  | cons k l ih =>
    intro j h
    refine ⟨rfl, ?_⟩
    have := ih k h.2
    simp only [intervalOf, List.getLastD_cons]
    rw [h.1]
    exact this

theorem contiguous_of_tiled (ns : Nat → node_space_map_t) : ∀ (l : List Nat) (j b t : Nat),
    Tiled b (intervalsOf ns (j :: l)) t →
    Contiguous ns (j :: l) ∧ (ns j).begin_time = b ∧ (ns (l.getLastD j)).end_time = t := by
  intro l
  induction l with
  | nil => intro j b t h; exact ⟨trivial, h.1, h.2⟩
  | cons k l ih =>
    intro j b t h
    obtain ⟨i1, i2, i3⟩ := ih k _ t h.2
    refine ⟨⟨?_, i1⟩, h.1, ?_⟩
    · simp only [intervalOf] at i2
      exact i2.symm
    · simp only [List.getLastD_cons]
      exact i3

theorem mem_intervalsOf (ns : Nat → node_space_map_t) {l : List Nat} {k : Nat} (h : k ∈ l) :
    intervalOf (ns k) ∈ intervalsOf ns l :=
  List.mem_map.mpr ⟨k, h, rfl⟩

theorem forall_intervalsOf {ns : Nat → node_space_map_t} {l : List Nat} {P : Interval → Prop}
    (h : ∀ k ∈ l, P (intervalOf (ns k))) : ∀ x ∈ intervalsOf ns l, P x := by
  intro x hx
  obtain ⟨k, hk, rfl⟩ := List.mem_map.mp hx
  exact h k hk

theorem init_chainOK (sched_start backfill_window : Nat) (avail_node_bitmap : bitstr_t) :
    ChainOK (init_node_space sched_start backfill_window avail_node_bitmap) [] where
  chain := by simp [IsChain, init_node_space, store]
  nodup := by simp
  alloc := by simp [init_node_space]
  bitmap := by simp [init_node_space, store]

/-! ## Claims about the node-space map -/

/-- C2 (window bound), evaluated at a failing input. With
`backfill_resolution = 3600` a job projected to start at 3700 with a one-minute
limit is planted as `_add_reservation(3600, 3600, ...)`. In the initial map
`[3700, 90100)` this call returns the chain `0 → 2` whose record 2 begins at
3600, before the cycle start 3700, and whose record 0 is `[3700, 3600)`. -/
theorem add_reservation_window_bound_violated :
    attempt_backfill_planted 3600 3700 1 = (3600, 3600) ∧
    ∃ s1, _add_reservation 3 3600 3600 (bit_not 4 {1, 2})
        (init_node_space 3700 86400 {0, 1, 2, 3}) = some s1 ∧
      IsChain s1.node_space 0 [2] ∧
      (s1.node_space 2).begin_time = 3600 ∧
      (s1.node_space 2).begin_time < 3700 ∧
      (s1.node_space 0).begin_time = 3700 ∧
      (s1.node_space 0).end_time = 3600 := by
  refine ⟨by decide, ?_⟩
  have key : (_add_reservation 3 3600 3600 (bit_not 4 {1, 2})
      (init_node_space 3700 86400 {0, 1, 2, 3})).map
      (fun s => ((s.node_space 0).next, (s.node_space 2).next, (s.node_space 2).begin_time,
        (s.node_space 0).begin_time, (s.node_space 0).end_time)) =
      some (2, 0, 3600, 3700, 3600) := by decide
  cases h : _add_reservation 3 3600 3600 (bit_not 4 {1, 2})
      (init_node_space 3700 86400 {0, 1, 2, 3}) with
  | none => rw [h] at key; exact absurd key (by simp)
  | some s1 =>
    rw [h] at key
    simp only [Option.map_some', Option.some.injEq, Prod.mk.injEq] at key
    obtain ⟨k1, k2, k3, k4, k5⟩ := key
    exact ⟨s1, rfl, ⟨k1, by decide, k2⟩, k3, by omega, k4, k5⟩

/-- C3 (chain well-formedness is an invariant). The initial map is the single
record `[sched_start, sched_start + backfill_window)` holding the available
nodes with `next = 0`, and it is well-formed; and on every well-formed,
contiguous chain every call of `_add_reservation` returns a pool whose chain
from record 0 (a) reaches the terminator after finitely many distinct records,
(b) is contiguous, and (c) has the same first begin time and last end time. -/
theorem add_reservation_chain_invariant (sched_start backfill_window : Nat)
    (avail_node_bitmap : bitstr_t) (s : node_space_state) (l : List Nat)
    (fuel start_time end_reserve : Nat) (res_bitmap : bitstr_t)
    (hok : ChainOK s l) (hcont : Contiguous s.node_space (0 :: l))
    (hfuel : l.length + 3 ≤ fuel) :
    ((init_node_space sched_start backfill_window avail_node_bitmap).node_space 0 =
        { begin_time := sched_start, end_time := sched_start + backfill_window,
          avail_bitmap := some avail_node_bitmap, next := 0 } ∧
      (init_node_space sched_start backfill_window avail_node_bitmap).node_space_recs = 1 ∧
      ChainOK (init_node_space sched_start backfill_window avail_node_bitmap) [] ∧
      Contiguous (init_node_space sched_start backfill_window avail_node_bitmap).node_space
        [0]) ∧
    ∃ s1 l1, _add_reservation fuel start_time end_reserve res_bitmap s = some s1 ∧
      IsChain s1.node_space 0 l1 ∧ (0 :: l1).Nodup ∧ ChainOK s1 l1 ∧
      Contiguous s1.node_space (0 :: l1) ∧
      (s1.node_space 0).begin_time = (s.node_space 0).begin_time ∧
      (s1.node_space (l1.getLastD 0)).end_time = (s.node_space (l.getLastD 0)).end_time := by
  refine ⟨⟨?_, rfl, init_chainOK _ _ _, trivial⟩, ?_⟩
  · simp [init_node_space, store, bit_copy, xmalloc_pool]
  obtain ⟨s1, l1, e1, ok1, m1, _, _, _⟩ :=
    add_reservation_chain s l fuel start_time end_reserve res_bitmap hok hfuel
  have htl := tiled_of_contiguous s.node_space l 0 hcont
  have ht1 := absAdd_tiled ((max start_time (s.node_space 0).begin_time) % 4294967296)
    end_reserve res_bitmap _ _ _ htl
  rw [← m1] at ht1
  obtain ⟨c1, c2, c3⟩ := contiguous_of_tiled s1.node_space l1 0 _ _ ht1
  exact ⟨s1, l1, e1, ok1.chain, ok1.nodup, ok1, c1, c2, c3⟩

/-- Witness for C3: a reservation `[1200, 1800)` planted in the initial map
`[1000, 87400)`. -/
theorem add_reservation_chain_invariant_witness :
    ∃ s1 l1, _add_reservation 3 1200 1800 (bit_not 4 {1, 2})
        (init_node_space 1000 86400 {0, 1, 2, 3}) = some s1 ∧
      IsChain s1.node_space 0 l1 ∧ (0 :: l1).Nodup ∧ ChainOK s1 l1 ∧
      Contiguous s1.node_space (0 :: l1) ∧
      (s1.node_space 0).begin_time =
        ((init_node_space 1000 86400 {0, 1, 2, 3}).node_space 0).begin_time ∧
      (s1.node_space (l1.getLastD 0)).end_time =
        ((init_node_space 1000 86400 {0, 1, 2, 3}).node_space
          (([] : List Nat).getLastD 0)).end_time :=
  (add_reservation_chain_invariant 1000 86400 {0, 1, 2, 3}
    (init_node_space 1000 86400 {0, 1, 2, 3}) [] 3 1200 1800 (bit_not 4 {1, 2})
    (init_chainOK 1000 86400 {0, 1, 2, 3}) trivial (by decide)).2

/-- C4 (no zero-width entries). On a well-formed contiguous chain whose records
all have `begin_time < end_time`, a call with
`max(start, first.begin_time) < end` returns a chain whose records all have
`begin_time < end_time` and pairwise different begin times; the case
`start ≤ first.begin_time` is included. The two range hypotheses say that
`start_time` and the first begin time fit the `uint32_t` variable. -/
theorem add_reservation_no_empty_interval (s : node_space_state) (l : List Nat)
    (fuel start_time end_reserve : Nat) (res_bitmap : bitstr_t)
    (hok : ChainOK s l) (hcont : Contiguous s.node_space (0 :: l))
    (hstrict : ∀ k ∈ 0 :: l, (s.node_space k).begin_time < (s.node_space k).end_time)
    (hfuel : l.length + 3 ≤ fuel)
    (hstart : start_time < 4294967296)
    (hfirst : (s.node_space 0).begin_time < 4294967296)
    (hlt : max start_time (s.node_space 0).begin_time < end_reserve) :
    ∃ s1 l1, _add_reservation fuel start_time end_reserve res_bitmap s = some s1 ∧
      ChainOK s1 l1 ∧
      (∀ k ∈ 0 :: l1, (s1.node_space k).begin_time < (s1.node_space k).end_time) ∧
      (∀ i ∈ 0 :: l1, ∀ j ∈ 0 :: l1,
        (s1.node_space i).begin_time = (s1.node_space j).begin_time → i = j) := by
  obtain ⟨s1, l1, e1, ok1, m1, _, _, _⟩ :=
    add_reservation_chain s l fuel start_time end_reserve res_bitmap hok hfuel
  have hmod : (max start_time (s.node_space 0).begin_time) % 4294967296 =
      max start_time (s.node_space 0).begin_time := Nat.mod_eq_of_lt (by omega)
  rw [hmod] at m1
  have htl := tiled_of_contiguous s.node_space l 0 hcont
  have hsL : Strict (intervalsOf s.node_space (0 :: l)) :=
    forall_intervalsOf (P := fun x => x.b < x.e) hstrict
  have hs1 := absAdd_strict (max start_time (s.node_space 0).begin_time) end_reserve
    res_bitmap _ _ _ htl hsL (le_max_right _ _) hlt
  have ht1 := absAdd_tiled (max start_time (s.node_space 0).begin_time) end_reserve
    res_bitmap _ _ _ htl
  rw [← m1] at hs1 ht1
  have hp := tiled_strict_pairwise _ _ _ ht1 hs1
  have hstr : ∀ k ∈ 0 :: l1, (s1.node_space k).begin_time < (s1.node_space k).end_time :=
    fun k hk => hs1 _ (mem_intervalsOf s1.node_space hk)
  refine ⟨s1, l1, e1, ok1, hstr, ?_⟩
  have hp2 : (0 :: l1).Pairwise
      (fun i j => (s1.node_space i).begin_time ≠ (s1.node_space j).begin_time) := by
    have := (List.pairwise_map (f := fun k => intervalOf (s1.node_space k))).mp hp
    exact this.imp (fun h => Nat.ne_of_lt h)
  intro i hi j hj hij
  by_contra hne
  exact List.Pairwise.forall (fun _ _ h => Ne.symm h) hp2 hi hj hne hij

/-- Witness for C4: the start 900 lies before the first begin time 1000 of the
initial map, so the first record is split at its own begin time. -/
theorem add_reservation_no_empty_interval_witness :
    ∃ s1 l1, _add_reservation 3 900 1800 (bit_not 4 {1, 2})
        (init_node_space 1000 86400 {0, 1, 2, 3}) = some s1 ∧
      ChainOK s1 l1 ∧
      (∀ k ∈ 0 :: l1, (s1.node_space k).begin_time < (s1.node_space k).end_time) ∧
      (∀ i ∈ 0 :: l1, ∀ j ∈ 0 :: l1,
        (s1.node_space i).begin_time = (s1.node_space j).begin_time → i = j) :=
  add_reservation_no_empty_interval (init_node_space 1000 86400 {0, 1, 2, 3}) [] 3 900 1800
    (bit_not 4 {1, 2}) (init_chainOK 1000 86400 {0, 1, 2, 3}) trivial
    (by simp [init_node_space, store]) (by decide) (by decide)
    (by simp [init_node_space, store]) (by simp [init_node_space, store])

theorem test_resv_overlap_hit (r : node_space_map_t) (use_bitmap avail : bitstr_t)
    (start_time end_reserve : Nat) (ha : r.avail_bitmap = some avail) :
    (if r.end_time > start_time ∧ r.begin_time < end_reserve then
        match r.avail_bitmap with
        | none => none
        | some avail => some (! bit_super_set use_bitmap avail)
      else some false) =
    some (decide (r.end_time > start_time ∧ r.begin_time < end_reserve ∧
      ¬ use_bitmap ⊆ avail)) := by
  rw [ha]
  by_cases ht : r.end_time > start_time ∧ r.begin_time < end_reserve
  · by_cases hs : use_bitmap ⊆ avail
    · simp [ht, hs, bit_super_set]
    · simp [ht, hs, bit_super_set]
  · have : ¬ (r.end_time > start_time ∧ r.begin_time < end_reserve ∧
        ¬ use_bitmap ⊆ avail) := fun h => ht ⟨h.1, h.2.1⟩
    simp only [ht, if_false, this, decide_False]

theorem test_resv_overlap_from_spec (ns : Nat → node_space_map_t) (use_bitmap : bitstr_t)
    (start_time end_reserve : Nat) : ∀ (l : List Nat) (fuel j : Nat),
    IsChain ns j l → (∀ k ∈ j :: l, (ns k).avail_bitmap ≠ none) →
    l.length + 1 ≤ fuel →
    ∃ r, test_resv_overlap_from ns use_bitmap start_time end_reserve fuel j = some r ∧
      (r = true ↔ ∃ k ∈ j :: l, ∃ avail, (ns k).avail_bitmap = some avail ∧
        (ns k).end_time > start_time ∧ (ns k).begin_time < end_reserve ∧
        ¬ use_bitmap ⊆ avail) := by
  intro l
  induction l with
  | nil =>
    intro fuel j hc hb hf
    obtain ⟨n, rfl⟩ : ∃ n, fuel = n + 1 := ⟨fuel - 1, by omega⟩
    simp only [IsChain] at hc
    cases ha : (ns j).avail_bitmap with
    | none => exact absurd ha (hb j (List.mem_cons_self _ _))
    | some avail =>
      have hhit := test_resv_overlap_hit (ns j) use_bitmap avail start_time end_reserve ha
      by_cases c : (ns j).end_time > start_time ∧ (ns j).begin_time < end_reserve ∧
          ¬ use_bitmap ⊆ avail
      · refine ⟨true, ?_, ?_⟩
        · rw [decide_eq_true c] at hhit
          simp only [test_resv_overlap_from, hhit]
        · simp only [true_iff]
          exact ⟨j, List.mem_cons_self _ _, avail, ha, c⟩
      · refine ⟨false, ?_, ?_⟩
        · rw [decide_eq_false c] at hhit
          simp only [test_resv_overlap_from, hhit, hc, if_true]
        · simp only [Bool.false_eq_true, false_iff, List.mem_singleton]
          rintro ⟨k, rfl, a, hka, hk⟩
          rw [ha] at hka
          cases hka
          exact c hk
  | cons k l ih =>
    intro fuel j hc hb hf
    obtain ⟨n, rfl⟩ : ∃ n, fuel = n + 1 := ⟨fuel - 1, by omega⟩
    simp only [List.length_cons] at hf
    obtain ⟨hn, hk0, hc2⟩ := hc
    cases ha : (ns j).avail_bitmap with
    | none => exact absurd ha (hb j (List.mem_cons_self _ _))
    | some avail =>
      have hhit := test_resv_overlap_hit (ns j) use_bitmap avail start_time end_reserve ha
      by_cases c : (ns j).end_time > start_time ∧ (ns j).begin_time < end_reserve ∧
          ¬ use_bitmap ⊆ avail
      · refine ⟨true, ?_, ?_⟩
        · rw [decide_eq_true c] at hhit
          simp only [test_resv_overlap_from, hhit]
        · simp only [true_iff]
          exact ⟨j, List.mem_cons_self _ _, avail, ha, c⟩
      · obtain ⟨r, e1, i1⟩ := ih n k hc2 (fun i hi => hb i (List.mem_cons_of_mem _ hi))
          (by omega)
        refine ⟨r, ?_, ?_⟩
        · rw [decide_eq_false c] at hhit
          simp only [test_resv_overlap_from, hhit, hn, hk0, if_false, e1]
        · rw [i1]
          constructor
          · rintro ⟨i, hi, h⟩
            exact ⟨i, List.mem_cons_of_mem _ hi, h⟩
          · rintro ⟨i, hi, a, hia, h⟩
            rcases List.mem_cons.mp hi with rfl | hi
            · rw [ha] at hia
              cases hia
              exact absurd h c
            · exact ⟨i, hi, a, hia, h⟩

/-- C5 (overlap test). On a chain whose records hold bitmaps,
`_test_resv_overlap` returns, and it returns true exactly when some chain record
has `end_time > start`, `begin_time < end` and a bitmap of which `use_bitmap` is
not a subset; on the initial map it returns false whenever `use_bitmap` is a
subset of the globally available nodes. -/
theorem test_resv_overlap_iff (node_space : Nat → node_space_map_t) (l : List Nat)
    (fuel : Nat) (use_bitmap : bitstr_t) (start_time end_reserve : Nat)
    (sched_start backfill_window : Nat) (avail_node_bitmap : bitstr_t)
    (hchain : IsChain node_space 0 l)
    (hbitmap : ∀ k ∈ 0 :: l, (node_space k).avail_bitmap ≠ none)
    (hfuel : l.length + 1 ≤ fuel) :
    (∃ r, _test_resv_overlap fuel node_space use_bitmap start_time end_reserve = some r ∧
      (r = true ↔ ∃ k ∈ 0 :: l, ∃ avail, (node_space k).avail_bitmap = some avail ∧
        (node_space k).end_time > start_time ∧ (node_space k).begin_time < end_reserve ∧
        ¬ use_bitmap ⊆ avail)) ∧
    (use_bitmap ⊆ avail_node_bitmap →
      _test_resv_overlap fuel
        (init_node_space sched_start backfill_window avail_node_bitmap).node_space
        use_bitmap start_time end_reserve = some false) := by
  refine ⟨test_resv_overlap_from_spec node_space use_bitmap start_time end_reserve l fuel 0
    hchain hbitmap hfuel, ?_⟩
  intro hsub
  have h0 := init_chainOK sched_start backfill_window avail_node_bitmap
  obtain ⟨r, e1, i1⟩ := test_resv_overlap_from_spec
    (init_node_space sched_start backfill_window avail_node_bitmap).node_space use_bitmap
    start_time end_reserve [] fuel 0 h0.chain h0.bitmap (by simp only [List.length_nil]; omega)
  cases r with
  | false => exact e1
  | true =>
    exfalso
    obtain ⟨k, hk, a, hka, _, _, hns⟩ := i1.mp rfl
    simp only [List.mem_singleton] at hk
    subst hk
    simp [init_node_space, store, bit_copy] at hka
    subst hka
    exact hns hsub

/-- Witness for C5: the initial map `[1000, 87400)` of a four-node cluster. -/
theorem test_resv_overlap_iff_witness :
    (∃ r, _test_resv_overlap 1 (init_node_space 1000 86400 {0, 1, 2, 3}).node_space {1, 5}
        1200 1800 = some r ∧
      (r = true ↔ ∃ k ∈ 0 :: ([] : List Nat), ∃ avail,
        ((init_node_space 1000 86400 {0, 1, 2, 3}).node_space k).avail_bitmap = some avail ∧
        ((init_node_space 1000 86400 {0, 1, 2, 3}).node_space k).end_time > 1200 ∧
        ((init_node_space 1000 86400 {0, 1, 2, 3}).node_space k).begin_time < 1800 ∧
        ¬ ({1, 5} : bitstr_t) ⊆ avail)) ∧
    (({1, 5} : bitstr_t) ⊆ {0, 1, 5} →
      _test_resv_overlap 1 (init_node_space 1000 86400 {0, 1, 5}).node_space {1, 5}
        1200 1800 = some false) :=
  test_resv_overlap_iff (init_node_space 1000 86400 {0, 1, 2, 3}).node_space [] 1 {1, 5}
    1200 1800 1000 86400 {0, 1, 5} (init_chainOK 1000 86400 {0, 1, 2, 3}).chain
    (init_chainOK 1000 86400 {0, 1, 2, 3}).bitmap (by decide)

/-! ## Claims about the snapping of reservations -/

theorem snap_value (r x : Nat) (hx : x < 4294967296) :
    ((x / r) * r) % 4294967296 = (x / r) * r :=
  Nat.mod_eq_of_lt (lt_of_le_of_lt (Nat.div_mul_le_self x r) hx)

theorem snap_bounds (r x : Nat) (hr : 1 ≤ r) :
    (x / r) * r ≤ x ∧ x < (x / r) * r + r := by
  constructor
  · exact Nat.div_mul_le_self x r
  · have h := Nat.div_add_mod x r
    have h2 := Nat.mod_lt x (show r > 0 by omega)
    have h3 : r * (x / r) = (x / r) * r := Nat.mul_comm _ _
    omega

/-- C9 (resolution snapping). For every `backfill_resolution ≥ 1`, every job
start time `s` and every planning time limit, the `start_time` and `end_reserve`
passed to `_add_reservation` are multiples of the resolution; and when `s` fits
the `uint32_t` variable `start_time`, the snapped start satisfies
`start_time ≤ s < start_time + backfill_resolution`. -/
theorem attempt_backfill_snap_multiple (backfill_resolution s time_limit : Nat)
    (hr : 1 ≤ backfill_resolution) :
    backfill_resolution ∣ (attempt_backfill_planted backfill_resolution s time_limit).1 ∧
    backfill_resolution ∣ (attempt_backfill_planted backfill_resolution s time_limit).2 ∧
    (s < 4294967296 →
      (attempt_backfill_planted backfill_resolution s time_limit).1 ≤ s ∧
      s < (attempt_backfill_planted backfill_resolution s time_limit).1 +
        backfill_resolution) := by
  have h1 : s % 4294967296 < 4294967296 := Nat.mod_lt _ (by decide)
  have h2 : (s + (time_limit * 60) % 4294967296) % 4294967296 < 4294967296 :=
    Nat.mod_lt _ (by decide)
  simp only [attempt_backfill_planted, attempt_backfill_snap, attempt_backfill_resv_times,
    snap_value _ _ h1, snap_value _ _ h2]
  refine ⟨Dvd.intro_left _ rfl, Dvd.intro_left _ rfl, ?_⟩
  intro hs
  rw [Nat.mod_eq_of_lt hs]
  exact snap_bounds backfill_resolution s hr

/-- Witness for C9: resolution 60, start 1235, limit 10 minutes. -/
theorem attempt_backfill_snap_multiple_witness :
    60 ∣ (attempt_backfill_planted 60 1235 10).1 ∧
    60 ∣ (attempt_backfill_planted 60 1235 10).2 ∧
    (1235 < 4294967296 →
      (attempt_backfill_planted 60 1235 10).1 ≤ 1235 ∧
      1235 < (attempt_backfill_planted 60 1235 10).1 + 60) :=
  attempt_backfill_snap_multiple 60 1235 10 (by decide)

/-- C10 as stated fails: with resolution 60, projected start 1235 and projected
end 1830 the snapped reservation is `[1200, 1800)`, not `[1200, 1860)`, and it
ends before the projected end. -/
theorem attempt_backfill_snap_end_not_up :
    attempt_backfill_snap 60 1235 1830 = (1200, 1800) ∧
    attempt_backfill_snap 60 1235 1830 ≠ (1200, 1860) ∧
    (attempt_backfill_snap 60 1235 1830).2 < 1830 := by
  decide

/-- C10 as amended. For every `backfill_resolution ≥ 1` the planner snaps both
the projected start and the projected end down to a multiple of the resolution:
each snapped value is a multiple, is at most the projected value and is less
than one resolution step below it. With resolution 60, start 1235 and end 1830
the planted reservation is `[1200, 1800)`. -/
theorem attempt_backfill_snap_down (backfill_resolution start_time end_reserve : Nat)
    (hr : 1 ≤ backfill_resolution) (hs : start_time < 4294967296)
    (he : end_reserve < 4294967296) :
    backfill_resolution ∣ (attempt_backfill_snap backfill_resolution start_time end_reserve).1 ∧
    (attempt_backfill_snap backfill_resolution start_time end_reserve).1 ≤ start_time ∧
    start_time <
      (attempt_backfill_snap backfill_resolution start_time end_reserve).1 +
        backfill_resolution ∧
    backfill_resolution ∣ (attempt_backfill_snap backfill_resolution start_time end_reserve).2 ∧
    (attempt_backfill_snap backfill_resolution start_time end_reserve).2 ≤ end_reserve ∧
    end_reserve <
      (attempt_backfill_snap backfill_resolution start_time end_reserve).2 +
        backfill_resolution ∧
    attempt_backfill_snap 60 1235 1830 = (1200, 1800) := by
  simp only [attempt_backfill_snap, snap_value _ _ hs, snap_value _ _ he]
  have h1 := snap_bounds backfill_resolution start_time hr
  have h2 := snap_bounds backfill_resolution end_reserve hr
  exact ⟨Dvd.intro_left _ rfl, h1.1, h1.2, Dvd.intro_left _ rfl, h2.1, h2.2, by decide⟩

/-- Witness for C10 as amended: resolution 60, start 1235, end 1835. -/
theorem attempt_backfill_snap_down_witness :
    60 ∣ (attempt_backfill_snap 60 1235 1835).1 ∧
    (attempt_backfill_snap 60 1235 1835).1 ≤ 1235 ∧
    1235 < (attempt_backfill_snap 60 1235 1835).1 + 60 ∧
    60 ∣ (attempt_backfill_snap 60 1235 1835).2 ∧
    (attempt_backfill_snap 60 1235 1835).2 ≤ 1835 ∧
    1835 < (attempt_backfill_snap 60 1235 1835).2 + 60 ∧
    attempt_backfill_snap 60 1235 1830 = (1200, 1800) :=
  attempt_backfill_snap_down 60 1235 1835 (by decide) (by decide) (by decide)

/-! ## Claims about the preemption selector -/

theorem job_prio_preemptable_iff (overalloc_test : job_record → job_record → Int)
    (A B : job_record) :
    _job_prio_preemptable overalloc_test A B = true ↔ A.priority > B.priority := by
  simp [_job_prio_preemptable, job_prio_preemptable_switch, CHECK_FOR_PREEMPTOR_OVERALLOC]

theorem find_preemptable_loop_spec (overalloc_test : job_record → job_record → Int)
    (preemptor : job_record) (pb : bitstr_t) :
    ∀ (job_list : List job_record) (acc : Option (List job_record)),
      (find_preemptable_loop overalloc_test preemptor pb job_list acc).getD [] =
        acc.getD [] ++ job_list.filter
          (fun J => decide (is_preemptee overalloc_test preemptor pb J)) ∧
      (find_preemptable_loop overalloc_test preemptor pb job_list acc = none ↔
        acc = none ∧ job_list.filter
          (fun J => decide (is_preemptee overalloc_test preemptor pb J)) = []) := by
  intro job_list
  induction job_list with
  | nil => intro acc; simp [find_preemptable_loop]
  | cons J rest ih =>
    intro acc
    by_cases hp : is_preemptee overalloc_test preemptor pb J
    · obtain ⟨h1, h2, ⟨nb, h3, h4⟩, h5⟩ := hp
      have hp : is_preemptee overalloc_test preemptor pb J := ⟨h1, h2, ⟨nb, h3, h4⟩, h5⟩
      have c1 : ((! IS_JOB_RUNNING J) && (! IS_JOB_SUSPENDED J)) = false := by
        rcases h1 with h | h <;> simp [IS_JOB_RUNNING, IS_JOB_SUSPENDED, h]
      have c3 : decide (bit_overlap nb pb = 0) = false := by
        simp only [decide_eq_false_iff_not]; omega
      have c4 : (match preemptor.details with
          | none => false
          | some details => decide (details.expanding_jobid = J.job_id)) = false := by
        cases hd : preemptor.details with
        | none => rfl
        | some d => simp only [decide_eq_false_iff_not]; exact h5 d hd
      obtain ⟨i1, i2⟩ := ih (some (acc.getD [] ++ [J]))
      simp only [find_preemptable_loop, c1, h2, h3, c3, c4, Bool.not_true, Bool.false_eq_true,
        if_false, List.filter_cons, hp, decide_True, if_true]
      refine ⟨?_, ?_⟩
      · rw [i1]; simp
      · rw [i2]; simp
    · have key : find_preemptable_loop overalloc_test preemptor pb (J :: rest) acc =
          find_preemptable_loop overalloc_test preemptor pb rest acc := by
        simp only [find_preemptable_loop]
        split_ifs with c1 c2 c3 c4
        · rfl
        · rfl
        · rfl
        · rfl
        · exfalso
          apply hp
          refine ⟨?_, ?_, ?_, ?_⟩
          · simp only [IS_JOB_RUNNING, IS_JOB_SUSPENDED, Bool.and_eq_true, Bool.not_eq_true',
              decide_eq_false_iff_not, not_and, not_not] at c1
            by_cases hr : J.job_state = job_states.JOB_RUNNING
            · exact Or.inl hr
            · exact Or.inr (c1 hr)
          · simpa using c2
          · cases hn : J.node_bitmap with
            | none => rw [hn] at c3; exact absurd rfl c3
            | some nb =>
              rw [hn] at c3
              simp only [decide_eq_true_eq] at c3
              exact ⟨nb, rfl, by omega⟩
          · intro d hd
            rw [hd] at c4
            simpa using c4
      obtain ⟨i1, i2⟩ := ih acc
      rw [key]
      simp only [List.filter_cons, hp, decide_False, Bool.false_eq_true, if_false]
      exact ⟨i1, i2⟩

/-- C6 (preemption candidates). For a pending preemptor whose partition has a
node bitmap, `find_preemptable_jobs` returns exactly the jobs of `job_list`, in
list order and each once, that are running or suspended, pass
`_job_prio_preemptable`, share a node with the partition bitmap and whose id is
not the `expanding_jobid` of the preemptor; the NULL list is returned exactly
when there is no such job. Running A of priority 50 on nodes 0 and 1 and pending
B of priority 100 in a partition of nodes 0 to 3 give the list of A alone. -/
theorem find_preemptable_jobs_exact (overalloc_test : job_record → job_record → Int)
    (job_list : List job_record) (preemptor : job_record) (part_ptr : part_record)
    (part_node_bitmap : bitstr_t)
    (hpending : preemptor.job_state = job_states.JOB_PENDING)
    (hpart : preemptor.part_ptr = some part_ptr)
    (hbitmap : part_ptr.node_bitmap = some part_node_bitmap) :
    (find_preemptable_jobs overalloc_test job_list (some preemptor)).getD [] =
      job_list.filter
        (fun J => decide (is_preemptee overalloc_test preemptor part_node_bitmap J)) ∧
    (find_preemptable_jobs overalloc_test job_list (some preemptor) = none ↔
      job_list.filter
        (fun J => decide (is_preemptee overalloc_test preemptor part_node_bitmap J)) = []) ∧
    (∀ A B : job_record, ∀ part : part_record,
      A.job_state = job_states.JOB_RUNNING → A.priority = 50 → A.node_bitmap = some {0, 1} →
      B.job_state = job_states.JOB_PENDING → B.priority = 100 → B.part_ptr = some part →
      part.node_bitmap = some {0, 1, 2, 3} →
      (∀ d, B.details = some d → d.expanding_jobid ≠ A.job_id) →
      find_preemptable_jobs overalloc_test [A] (some B) = some [A]) := by
  have hp : IS_JOB_PENDING preemptor = true := by simp [IS_JOB_PENDING, hpending]
  have e : find_preemptable_jobs overalloc_test job_list (some preemptor) =
      find_preemptable_loop overalloc_test preemptor part_node_bitmap job_list none := by
    simp only [find_preemptable_jobs, hp, hpart, hbitmap, Bool.not_true, Bool.false_eq_true,
      if_false]
  obtain ⟨i1, i2⟩ := find_preemptable_loop_spec overalloc_test preemptor part_node_bitmap
    job_list none
  refine ⟨?_, ?_, ?_⟩
  · rw [e, i1]; simp
  · rw [e, i2]; simp
  · intro A B part hA hAp hAn hB hBp hBpart hpn hexp
    have hpB : IS_JOB_PENDING B = true := by simp [IS_JOB_PENDING, hB]
    have hpre : _job_prio_preemptable overalloc_test B A = true := by
      rw [job_prio_preemptable_iff, hAp, hBp]; decide
    have hA1 : is_preemptee overalloc_test B {0, 1, 2, 3} A :=
      ⟨Or.inl hA, hpre, ⟨{0, 1}, hAn, by decide⟩, hexp⟩
    obtain ⟨j1, j2⟩ := find_preemptable_loop_spec overalloc_test B {0, 1, 2, 3} [A] none
    have e2 : find_preemptable_jobs overalloc_test [A] (some B) =
        find_preemptable_loop overalloc_test B {0, 1, 2, 3} [A] none := by
      simp only [find_preemptable_jobs, hpB, hBpart, hpn, Bool.not_true, Bool.false_eq_true,
        if_false]
    rw [e2]
    cases hres : find_preemptable_loop overalloc_test B {0, 1, 2, 3} [A] none with
    | none =>
      have := j2.mp hres
      simp [List.filter_cons, hA1] at this
    | some r =>
      rw [hres] at j1
      simp only [Option.getD_some, Option.getD_none, List.nil_append, List.filter_cons, hA1,
        decide_True, if_true, List.filter_nil] at j1
      rw [j1]

/-- Witness for C6: the running jobs 1 (priority 50) and 2 (priority 200) and
the pending preemptor 3 (priority 100) in a partition of nodes 0 to 3. -/
theorem find_preemptable_jobs_exact_witness :
    (find_preemptable_jobs (fun _ _ => 0) [sample_job_low, sample_job_high]
      (some sample_job_pending)).getD [] =
      List.filter
        (fun J => decide (is_preemptee (fun _ _ => 0) sample_job_pending {0, 1, 2, 3} J))
        [sample_job_low, sample_job_high] :=
  (find_preemptable_jobs_exact (fun _ _ => 0) [sample_job_low, sample_job_high]
    sample_job_pending sample_part {0, 1, 2, 3} rfl rfl rfl).1

/-- C7 (priority rule). With `CHECK_FOR_PREEMPTOR_OVERALLOC = 0`,
`_job_prio_preemptable(A, B)`, and `job_preempt_check` on queue records, is true
exactly when `A.priority > B.priority`, whatever the fair-share test would say;
it is irreflexive and antisymmetric, and two jobs of equal priority never
preempt each other, whatever their runtimes. -/
theorem job_prio_preemptable_priority_rule
    (overalloc_test : job_record → job_record → Int) (A B : job_record)
    (qa qb : job_queue_rec_t) :
    CHECK_FOR_PREEMPTOR_OVERALLOC = 0 ∧
    (_job_prio_preemptable overalloc_test A B = true ↔ A.priority > B.priority) ∧
    (job_preempt_check overalloc_test qa qb = true ↔
      qa.job_ptr.priority > qb.job_ptr.priority) ∧
    _job_prio_preemptable overalloc_test A A = false ∧
    ¬ (_job_prio_preemptable overalloc_test A B = true ∧
        _job_prio_preemptable overalloc_test B A = true) ∧
    (A.priority = B.priority →
      _job_prio_preemptable overalloc_test A B = false ∧
      _job_prio_preemptable overalloc_test B A = false) := by
  refine ⟨rfl, job_prio_preemptable_iff _ A B, job_prio_preemptable_iff _ _ _, ?_, ?_, ?_⟩
  · have := job_prio_preemptable_iff overalloc_test A A
    cases h : _job_prio_preemptable overalloc_test A A with
    | false => rfl
    | true => exact absurd (this.mp h) (lt_irrefl _)
  · rintro ⟨h1, h2⟩
    have a := (job_prio_preemptable_iff overalloc_test A B).mp h1
    have b := (job_prio_preemptable_iff overalloc_test B A).mp h2
    omega
  · intro heq
    constructor
    · cases h : _job_prio_preemptable overalloc_test A B with
      | false => rfl
      | true =>
        have := (job_prio_preemptable_iff overalloc_test A B).mp h
        omega
    · cases h : _job_prio_preemptable overalloc_test B A with
      | false => rfl
      | true =>
        have := (job_prio_preemptable_iff overalloc_test B A).mp h
        omega

/-! ## Claims about job runtime, preempt mode and lock yields -/

/-- C20 (job runtime). For a reference time `now`, `_get_job_runtime` returns 0
for a pending job, `pre_sus_time` for a suspended job, and otherwise, with
`e = now` if the job is running or its `end_time` is 0 and `e = end_time` if
not, `(e - suspend_time) + pre_sus_time` when `suspend_time` is non-zero and
`e - start_time` when it is zero. -/
theorem get_job_runtime_cases (now : Nat) (job_ptr : job_record) :
    (job_ptr.job_state = job_states.JOB_PENDING → _get_job_runtime now job_ptr = 0) ∧
    (job_ptr.job_state = job_states.JOB_SUSPENDED →
      _get_job_runtime now job_ptr = job_ptr.pre_sus_time) ∧
    (job_ptr.job_state ≠ job_states.JOB_PENDING →
      job_ptr.job_state ≠ job_states.JOB_SUSPENDED →
      ∀ e : Int,
        e = (if job_ptr.job_state = job_states.JOB_RUNNING ∨ job_ptr.end_time = 0
          then (now : Int) else (job_ptr.end_time : Int)) →
        (job_ptr.suspend_time ≠ 0 →
          _get_job_runtime now job_ptr = (e - job_ptr.suspend_time) + job_ptr.pre_sus_time) ∧
        (job_ptr.suspend_time = 0 → _get_job_runtime now job_ptr = e - job_ptr.start_time)) := by
  refine ⟨?_, ?_, ?_⟩
  · intro h
    simp [_get_job_runtime, IS_JOB_PENDING, h]
  · intro h
    simp [_get_job_runtime, IS_JOB_PENDING, IS_JOB_SUSPENDED, h]
  · intro h1 h2 e he
    subst he
    constructor
    · intro h3
      simp [_get_job_runtime, IS_JOB_PENDING, IS_JOB_SUSPENDED, IS_JOB_RUNNING, h1, h2, h3,
        difftime]
    · intro h3
      simp [_get_job_runtime, IS_JOB_PENDING, IS_JOB_SUSPENDED, IS_JOB_RUNNING, h1, h2, h3,
        difftime]

/-- Witness for C20: the running sample job 1, started at 100, seen at 250. -/
theorem get_job_runtime_cases_witness :
    _get_job_runtime 250 sample_job_low = ((250 : Nat) : Int) - sample_job_low.start_time :=
  ((get_job_runtime_cases 250 sample_job_low).2.2 (by decide) (by decide) (250 : Nat)
    (by simp [sample_job_low])).2 rfl

theorem testBit_of_lt_65536 (m i : Nat) (hm : m < 65536) (hi : 16 ≤ i) :
    m.testBit i = false := by
  apply Nat.testBit_lt_two_pow
  calc m < 2 ^ 16 := by simpa using hm
    _ ≤ 2 ^ i := Nat.pow_le_pow_right (by decide) hi

theorem clear_flag_testBit (mode flag i : Nat) (hm : mode < 65536) :
    (clear_flag mode flag).testBit i = (mode.testBit i && ! flag.testBit i) := by
  have h32 : (4294967295 : Nat) = 2 ^ 32 - 1 := by decide
  have h16 : (65536 : Nat) = 2 ^ 16 := by decide
  unfold clear_flag
  rw [h16, Nat.testBit_mod_two_pow, Nat.testBit_and, Nat.testBit_xor, h32,
    Nat.testBit_two_pow_sub_one]
  by_cases hi : i < 16
  · have hi32 : i < 32 := by omega
    simp [hi, hi32]
  · have hmi := testBit_of_lt_65536 mode i hm (by omega)
    simp [hi, hmi]

theorem clear_flag_and_flag (mode flag : Nat) (hm : mode < 65536) :
    clear_flag mode flag &&& flag = 0 := by
  apply Nat.eq_of_testBit_eq
  intro i
  rw [Nat.testBit_and, clear_flag_testBit mode flag i hm]
  cases mode.testBit i <;> cases flag.testBit i <;> simp

theorem clear_flag_of_disjoint (mode flag : Nat) (hm : mode < 65536)
    (hd : mode &&& flag = 0) : clear_flag mode flag = mode := by
  apply Nat.eq_of_testBit_eq
  intro i
  rw [clear_flag_testBit mode flag i hm]
  have hb : (mode &&& flag).testBit i = false := by rw [hd]; simp
  rw [Nat.testBit_and] at hb
  cases h1 : mode.testBit i <;> cases h2 : flag.testBit i <;> simp_all

/-- C15 (abort decision after a yield). `_yield_locks` returns 0 exactly when
the three update times are unchanged across the yield and neither
`stop_backfill` nor `config_flag` is set; the cycle aborts exactly when
(`_yield_locks` returned non-zero and `bf_continue` is false) or the
configuration time or `last_part_update` differs from its cycle-start snapshot.
When only `last_job_update` was bumped, the cycle aborts if `bf_continue` is
false and continues if it is true. -/
theorem yield_abort_decision (backfill_continue : Bool) (config_update part_update : Nat)
    (before after : bf_globals) :
    (_yield_locks before after = 0 ↔
      (after.last_job_update = before.last_job_update ∧
        after.last_node_update = before.last_node_update ∧
        after.last_part_update = before.last_part_update ∧
        after.stop_backfill = false ∧ after.config_flag = false)) ∧
    (yield_abort backfill_continue config_update part_update before after = true ↔
      ((_yield_locks before after ≠ 0 ∧ backfill_continue = false) ∨
        after.conf_last_update ≠ config_update ∨
        after.last_part_update ≠ part_update)) ∧
    (after.last_job_update ≠ before.last_job_update →
      after.conf_last_update = config_update → after.last_part_update = part_update →
      (yield_abort backfill_continue config_update part_update before after = true ↔
        backfill_continue = false)) := by
  have h1 : _yield_locks before after = 0 ↔
      (after.last_job_update = before.last_job_update ∧
        after.last_node_update = before.last_node_update ∧
        after.last_part_update = before.last_part_update ∧
        after.stop_backfill = false ∧ after.config_flag = false) := by
    unfold _yield_locks
    constructor
    · intro h
      by_contra hc
      simp only [hc, if_false] at h
      exact absurd h (by decide)
    · intro h
      simp only [h, and_self, if_true]
  have h2 : yield_abort backfill_continue config_update part_update before after = true ↔
      ((_yield_locks before after ≠ 0 ∧ backfill_continue = false) ∨
        after.conf_last_update ≠ config_update ∨
        after.last_part_update ≠ part_update) := by
    unfold yield_abort
    simp only [Bool.or_eq_true, Bool.and_eq_true, decide_eq_true_eq, Bool.not_eq_true',
      or_assoc]
  refine ⟨h1, h2, ?_⟩
  intro hj hc hp
  rw [h2]
  have hy : _yield_locks before after ≠ 0 := fun h => hj (h1.mp h).1
  constructor
  · rintro (h | h | h)
    · exact h.2
    · exact absurd hc h
    · exact absurd hp h
  · intro h
    exact Or.inl ⟨hy, h⟩

/-- C18 (preempt mode). `job_preempt_mode` returns the QoS `preempt_mode`
unchanged when the job has a QoS whose `preempt_mode` is non-zero; otherwise it
returns the cluster-wide mode with the bits of `PREEMPT_MODE_GANG` cleared, so
the result has no GANG bit and is `PREEMPT_MODE_OFF` whenever
`preemption_enabled` is false. The hypotheses say that the cluster-wide mode is
a `uint16_t` and that `PREEMPT_MODE_OFF` does not contain the GANG bit. -/
theorem job_preempt_mode_resolution (PREEMPT_MODE_GANG PREEMPT_MODE_OFF : Nat)
    (slurm_preempt_mode : Nat) (job_ptr : job_record)
    (hmode : slurm_preempt_mode < 65536)
    (hoff : PREEMPT_MODE_OFF &&& PREEMPT_MODE_GANG = 0) :
    (∀ qos, job_ptr.qos_ptr = some qos → qos.preempt_mode ≠ 0 →
      job_preempt_mode PREEMPT_MODE_GANG slurm_preempt_mode job_ptr = qos.preempt_mode) ∧
    ((job_ptr.qos_ptr = none ∨ ∃ qos, job_ptr.qos_ptr = some qos ∧ qos.preempt_mode = 0) →
      (∀ i, (job_preempt_mode PREEMPT_MODE_GANG slurm_preempt_mode job_ptr).testBit i =
        (slurm_preempt_mode.testBit i && ! PREEMPT_MODE_GANG.testBit i)) ∧
      job_preempt_mode PREEMPT_MODE_GANG slurm_preempt_mode job_ptr &&& PREEMPT_MODE_GANG = 0 ∧
      (preemption_enabled PREEMPT_MODE_OFF slurm_preempt_mode = false →
        job_preempt_mode PREEMPT_MODE_GANG slurm_preempt_mode job_ptr = PREEMPT_MODE_OFF)) := by
  constructor
  · intro qos hq hne
    simp [job_preempt_mode, hq, hne]
  · intro h
    have e : job_preempt_mode PREEMPT_MODE_GANG slurm_preempt_mode job_ptr =
        clear_flag slurm_preempt_mode PREEMPT_MODE_GANG := by
      rcases h with h | ⟨qos, hq, h0⟩
      · simp [job_preempt_mode, h]
      · simp [job_preempt_mode, hq, h0]
    rw [e]
    refine ⟨fun i => clear_flag_testBit _ _ i hmode, clear_flag_and_flag _ _ hmode, ?_⟩
    intro hen
    have hpm : slurm_preempt_mode = PREEMPT_MODE_OFF := by
      simpa [preemption_enabled] using hen
    rw [hpm] at hmode ⊢
    exact clear_flag_of_disjoint _ _ hmode hoff

/-- Witness for C18: the constants of the Slurm API, `PREEMPT_MODE_GANG = 0x8000`
and `PREEMPT_MODE_OFF = 0`, the cluster-wide mode `0x8001` (suspend with gang)
and the sample job 1, which has no QoS. -/
theorem job_preempt_mode_resolution_witness :
    job_preempt_mode 32768 32769 sample_job_low &&& 32768 = 0 ∧
    (preemption_enabled 0 32769 = false → job_preempt_mode 32768 32769 sample_job_low = 0) :=
  ((job_preempt_mode_resolution 32768 0 32769 sample_job_low (by decide) (by decide)).2
    (Or.inl rfl)).2

/-! ## Claims about the configuration of the planner -/

/-- C16, as the code behaves: the static default of `max_backfill_job_cnt` is
100, but for every prior value of the tunables `_load_config` on the string
"bf_max_job_test=0" leaves `max_backfill_job_cnt = 50` (line 473), while the
other tunables of that call are reset to their static defaults. -/
theorem load_config_job_test_reset_is_50 :
    bf_tunables_static.max_backfill_job_cnt = 100 ∧
    (∀ t : bf_tunables,
      (_load_config (some "bf_max_job_test=0".toList) t).max_backfill_job_cnt = 50) ∧
    (_load_config (some "bf_interval=0,bf_window=0,bf_resolution=0".toList)
        bf_tunables_static).backfill_interval = bf_tunables_static.backfill_interval ∧
    (_load_config (some "bf_interval=0,bf_window=0,bf_resolution=0".toList)
        bf_tunables_static).backfill_window = bf_tunables_static.backfill_window ∧
    (_load_config (some "bf_interval=0,bf_window=0,bf_resolution=0".toList)
        bf_tunables_static).backfill_resolution = bf_tunables_static.backfill_resolution := by
  refine ⟨rfl, fun t => ?_, by decide, by decide, by decide⟩
  rfl

/-- C17: for every scheduler-parameter string (or none) and every prior value
of the tunables, after `_load_config` the interval, window, resolution and job
count are at least 1 and the per-partition, start, per-user and RPC limits are
at least 0; and when "bf_window=" occurs with a value of `v` minutes such that
`v * 60` is at least 1 and fits an `int`, the stored window is `v * 60`. -/
theorem load_config_bounds (sched_params : Option (List Char)) (t : bf_tunables) :
    1 ≤ (_load_config sched_params t).backfill_interval ∧
    1 ≤ (_load_config sched_params t).backfill_window ∧
    1 ≤ (_load_config sched_params t).backfill_resolution ∧
    1 ≤ (_load_config sched_params t).max_backfill_job_cnt ∧
    0 ≤ (_load_config sched_params t).max_backfill_job_per_part ∧
    0 ≤ (_load_config sched_params t).max_backfill_jobs_start ∧
    0 ≤ (_load_config sched_params t).max_backfill_job_per_user ∧
    0 ≤ (_load_config sched_params t).defer_rpc_cnt ∧
    (∀ params tmp_ptr, sched_params = some params →
      strstr params "bf_window=".toList = some tmp_ptr →
      1 ≤ atoi (tmp_ptr.drop 10) * 60 → atoi (tmp_ptr.drop 10) * 60 ≤ 2147483647 →
      (_load_config sched_params t).backfill_window = atoi (tmp_ptr.drop 10) * 60) := by
  refine ⟨?_, ?_, ?_, ?_, ?_, ?_, ?_, ?_, ?_⟩
  · simp only [_load_config]; split_ifs <;> omega
  · simp only [_load_config]; split_ifs <;> omega
  · simp only [_load_config]; split_ifs <;> omega
  · simp only [_load_config]; split_ifs <;> omega
  · simp only [_load_config]; split_ifs <;> omega
  · simp only [_load_config]; split_ifs <;> omega
  · simp only [_load_config]; split_ifs <;> omega
  · simp only [_load_config]; split_ifs <;> omega
  · intro params tmp_ptr hp hs h1 h2
    subst hp
    have hw : int_wrap (atoi (List.drop 10 tmp_ptr) * 60) = atoi (List.drop 10 tmp_ptr) * 60 := by
      unfold int_wrap; omega
    simp only [_load_config, sched_param_atoi, hs, hw]
    rw [if_neg (not_lt.mpr h1)]

/-- Witness for C17 on the string "bf_window=10": the stored window is 600. -/
theorem load_config_bounds_witness :
    (_load_config (some "bf_window=10".toList) bf_tunables_static).backfill_window
      = atoi ("bf_window=10".toList.drop 10) * 60 ∧
    atoi ("bf_window=10".toList.drop 10) * 60 = 600 :=
  ⟨(load_config_bounds (some "bf_window=10".toList) bf_tunables_static).2.2.2.2.2.2.2.2
      "bf_window=10".toList "bf_window=10".toList rfl (by decide) (by decide) (by decide),
    by decide⟩

/-! ## Claims about the agent loop -/

theorem insert_record_recs {t j : Nat} {s s1 : node_space_state}
    (h : insert_record t j s = some s1) : s1.node_space_recs = s.node_space_recs + 1 := by
  unfold insert_record at h
  simp only at h
  split at h
  · cases h
  · cases h; rfl

theorem add_resv_end_recs (end_reserve : Nat) :
    ∀ (fuel j : Nat) (s s1 : node_space_state), add_resv_end end_reserve fuel j s = some s1 →
      s.node_space_recs ≤ s1.node_space_recs ∧ s1.node_space_recs ≤ s.node_space_recs + 1 := by
  intro fuel
  induction fuel with
  | zero => intro j s s1 h; simp [add_resv_end] at h
  | succ n ih =>
    intro j s s1 h
    simp only [add_resv_end] at h
    split_ifs at h with h1 h2 h3
    · cases h; omega
    · have := insert_record_recs h; omega
    · cases h; omega
    · exact ih _ _ _ h

theorem add_resv_start_recs (start_time end_reserve : Nat) :
    ∀ (fuel j : Nat) (s s1 : node_space_state),
      add_resv_start start_time end_reserve fuel j s = some s1 →
      s.node_space_recs ≤ s1.node_space_recs ∧ s1.node_space_recs ≤ s.node_space_recs + 2 := by
  intro fuel
  induction fuel with
  | zero => intro j s s1 h; simp [add_resv_start] at h
  | succ n ih =>
    intro j s s1 h
    simp only [add_resv_start] at h
    by_cases hc : (s.node_space j).end_time > start_time
    · rw [if_pos hc] at h
      cases hi : insert_record start_time j s with
      | none => rw [hi] at h; simp at h
      | some s2 =>
        rw [hi] at h
        simp only [Option.map_some'] at h
        have h2 := insert_record_recs hi
        split_ifs at h
        all_goals first
          | (have hq := add_resv_end_recs end_reserve _ _ _ _ h; omega)
          | (have hq := ih _ _ _ h; omega)
          | (cases h; omega)
          | contradiction
    · rw [if_neg hc] at h
      simp only at h
      split_ifs at h
      all_goals first
        | (have hq := add_resv_end_recs end_reserve _ _ _ _ h; omega)
        | (have hq := ih _ _ _ h; omega)
        | (cases h; omega)

theorem add_resv_and_recs (start_time end_reserve : Nat) (res_bitmap : bitstr_t) :
    ∀ (fuel j : Nat) (s s1 : node_space_state),
      add_resv_and start_time end_reserve res_bitmap fuel j s = some s1 →
      s1.node_space_recs = s.node_space_recs := by
  intro fuel
  induction fuel with
  | zero => intro j s s1 h; simp [add_resv_and] at h
  | succ n ih =>
    intro j s s1 h
    simp only [add_resv_and] at h
    by_cases hc : (s.node_space j).begin_time ≥ start_time ∧
        (s.node_space j).end_time ≤ end_reserve
    · rw [if_pos hc] at h
      cases hb : (s.node_space j).avail_bitmap with
      | none => rw [hb] at h; simp at h
      | some b =>
        rw [hb] at h
        simp only at h
        split_ifs at h
        · cases h; rfl
        · cases h; rfl
        · have := ih _ _ _ h
          exact this
    · rw [if_neg hc] at h
      simp only at h
      split_ifs at h
      · cases h; rfl
      · cases h; rfl
      · exact ih _ _ _ h

theorem add_resv_merge_recs :
    ∀ (fuel i : Nat) (s s1 : node_space_state), add_resv_merge fuel i s = some s1 →
      s1.node_space_recs = s.node_space_recs := by
  intro fuel
  induction fuel with
  | zero => intro i s s1 h; simp [add_resv_merge] at h
  | succ n ih =>
    intro i s s1 h
    simp only [add_resv_merge] at h
    split_ifs at h with h1
    · cases h; rfl
    · split at h
      · split_ifs at h
        all_goals first
          | exact ih _ _ _ h
          | (cases h; rfl)
      · cases h

/-- Whatever the pool holds, a call of `_add_reservation` that returns adds at
most two records and removes none. -/
theorem add_reservation_recs {fuel start_time end_reserve : Nat} {res_bitmap : bitstr_t}
    {s s1 : node_space_state}
    (h : _add_reservation fuel start_time end_reserve res_bitmap s = some s1) :
    s.node_space_recs ≤ s1.node_space_recs ∧ s1.node_space_recs ≤ s.node_space_recs + 2 := by
  unfold _add_reservation at h
  simp only at h
  split at h
  · cases h
  · rename_i s2 h2
    split at h
    · cases h
    · rename_i s3 h3
      have a := add_resv_start_recs _ _ _ _ _ _ h2
      have b := add_resv_and_recs _ _ _ _ _ _ _ h3
      have d := add_resv_merge_recs _ _ _ _ h
      omega

theorem yield_abort_false {backfill_continue : Bool} {config_update part_update : Nat}
    {before after : bf_globals}
    (h : ¬ yield_abort backfill_continue config_update part_update before after = true) :
    _yield_locks before after = 0 ∨ backfill_continue = true := by
  by_contra hc
  push_neg at hc
  apply h
  unfold yield_abort
  simp [hc.1, hc.2]

theorem bf_pop_inv {c : bf_cycle} {I : bf_view → Prop} {F : bf_view → bf_flow → Prop}
    (h : bf_invariant c I F) (e : bf_queue_rec) (s : bf_state)
    (hF : F s.view bf_flow.next) : (bf_pop c e s).holds I F := by
  have hI := h.pop s.view e.job_id hF
  unfold bf_pop
  simp only []
  split_ifs with h1 h2 h3
  · exact h.silent _ _ hI
  · exact h.yield_abort _ _ hI
  · exact h.yield_go _ _ hI (yield_abort_false h3)
  · exact hI

theorem bf_validate_inv {c : bf_cycle} {I : bf_view → Prop} {F : bf_view → bf_flow → Prop}
    (h : bf_invariant c I F) (e : bf_queue_rec) (s : bf_state) (hI : I s.view) :
    (bf_validate c e s).holds I F := by
  unfold bf_validate
  repeat' split
  all_goals first
    | exact h.silent _ _ hI
    | exact hI

theorem bf_caps_inv {c : bf_cycle} {I : bf_view → Prop} {F : bf_view → bf_flow → Prop}
    (h : bf_invariant c I F) (e : bf_queue_rec) (s : bf_state) (hI : I s.view) :
    (bf_caps c e s).holds I F := by
  unfold bf_caps
  simp only []
  repeat' split
  all_goals first
    | exact h.silent _ _ hI
    | exact hI

theorem bf_limits_inv {c : bf_cycle} {I : bf_view → Prop} {F : bf_view → bf_flow → Prop}
    (h : bf_invariant c I F) (e : bf_queue_rec) (s : bf_state) (hI : I s.view) :
    (bf_limits c e s).holds I F := by
  unfold bf_limits
  repeat' first
    | split
    | (simp only []; split)
  all_goals first
    | exact h.silent _ _ hI
    | exact hI

theorem bf_pass_yield_inv {c : bf_cycle} {I : bf_view → Prop} {F : bf_view → bf_flow → Prop}
    (h : bf_invariant c I F) (e : bf_queue_rec) (p : bf_pass_env) (s : bf_state)
    (hI : I s.view) : (bf_pass_yield c e p s).holds I F := by
  unfold bf_pass_yield
  simp only []
  split_ifs with h1 h2 h3
  · exact h.silent _ _ hI
  · exact h.yield_abort _ _ hI
  · exact h.silent _ _ (h.yield_go _ _ hI (yield_abort_false h3))
  · exact h.silent _ _ (h.yield_go _ _ hI (yield_abort_false h3))
  · exact h.silent _ _ (h.yield_go _ _ hI (yield_abort_false h3))
  · exact h.yield_go _ _ hI (yield_abort_false h3)
  · exact hI

theorem bf_pass_test_inv {c : bf_cycle} {I : bf_view → Prop} {F : bf_view → bf_flow → Prop}
    (h : bf_invariant c I F) (plan : bf_plan) (p : bf_pass_env) (s : bf_state)
    (later_start : Nat) (hI : I s.view) :
    (bf_pass_test c plan p s later_start).holds I F := by
  unfold bf_pass_test
  simp only []
  repeat' split
  all_goals first
    | exact h.silent _ _ hI
    | exact hI

theorem bf_pass_sched_inv {c : bf_cycle} {I : bf_view → Prop} {F : bf_view → bf_flow → Prop}
    (h : bf_invariant c I F) (e : bf_queue_rec) (p : bf_pass_env) (s : bf_state)
    (a : bf_avail) (hI : I s.view) : (bf_pass_sched c e p s a).holds I F := by
  have hs := h.started s.view e.job_ptr.job_id hI
  unfold bf_pass_sched
  repeat' first
    | split
    | (simp only []; split)
  all_goals first
    | exact h.silent _ _ hI
    | exact hI
    | (simp only [bf_state.view, bf_emit, bf_result.holds] at *
       split_ifs at hs
       exact hs)

theorem bf_pass_reserve_inv {c : bf_cycle} {I : bf_view → Prop} {F : bf_view → bf_flow → Prop}
    (h : bf_invariant c I F) (e : bf_queue_rec) (plan : bf_plan) (s : bf_state)
    (a : bf_sched) (hI : I s.view) : (bf_pass_reserve c e plan s a).holds I F := by
  unfold bf_pass_reserve
  repeat' first
    | split
    | (simp only []; split)
  all_goals first
    | exact h.silent _ _ hI
    | exact hI
    | (have hr := add_reservation_recs (by assumption)
       exact h.reserved s.view _ _ _ _ hI (by simp only [bf_state.view]; omega) hr.1 hr.2)

theorem bf_pass_inv {c : bf_cycle} {I : bf_view → Prop} {F : bf_view → bf_flow → Prop}
    (h : bf_invariant c I F) (e : bf_queue_rec) (plan : bf_plan) (p : bf_pass_env)
    (s : bf_state) (later_start : Nat) (hI : I s.view) :
    (bf_pass c e plan p s later_start).holds I F := by
  unfold bf_pass
  have h1 := bf_pass_yield_inv h e p s hI
  cases hy : bf_pass_yield c e p s with
  | exit s1 flow => rw [hy] at h1; exact h1
  | go s1 u =>
    rw [hy] at h1
    simp only []
    have h2 := bf_pass_test_inv h plan p s1 later_start h1
    cases ht : bf_pass_test c plan p s1 later_start with
    | exit s2 flow => rw [ht] at h2; exact h2
    | retry s2 ls => rw [ht] at h2; exact h2
    | go s2 a =>
      rw [ht] at h2
      simp only []
      have h3 := bf_pass_sched_inv h e p s2 a h2
      cases hs : bf_pass_sched c e p s2 a with
      | exit s3 flow => rw [hs] at h3; exact h3
      | go s3 b =>
        rw [hs] at h3
        exact bf_pass_reserve_inv h e plan s3 b h3

theorem bf_try_later_inv {c : bf_cycle} {I : bf_view → Prop} {F : bf_view → bf_flow → Prop}
    (h : bf_invariant c I F) (e : bf_queue_rec) (plan : bf_plan) :
    ∀ (passes : List bf_pass_env) (s : bf_state) (later_start : Nat), I s.view →
      F (bf_try_later c e plan passes s later_start).1.view
        (bf_try_later c e plan passes s later_start).2 := by
  intro passes
  induction passes with
  | nil => intro s ls hI; exact h.silent _ _ hI
  | cons p passes ih =>
    intro s ls hI
    have h1 := bf_pass_inv h e plan p s ls hI
    simp only [bf_try_later]
    cases hp : bf_pass c e plan p s ls with
    | exit s1 flow => rw [hp] at h1; exact h1
    | retry s1 ls1 => rw [hp] at h1; exact ih s1 ls1 h1

theorem bf_job_inv {c : bf_cycle} {I : bf_view → Prop} {F : bf_view → bf_flow → Prop}
    (h : bf_invariant c I F) (e : bf_queue_rec) (s : bf_state)
    (hF : F s.view bf_flow.next) : F (bf_job c e s).1.view (bf_job c e s).2 := by
  unfold bf_job
  have h1 := bf_pop_inv h e s hF
  cases hp : bf_pop c e s with
  | exit s1 flow => rw [hp] at h1; exact h1
  | go s1 u =>
    rw [hp] at h1
    simp only []
    have h2 := bf_validate_inv h e s1 h1
    cases hv : bf_validate c e s1 with
    | exit s2 flow => rw [hv] at h2; exact h2
    | go s2 u2 =>
      rw [hv] at h2
      simp only []
      have h3 := bf_caps_inv h e s2 h2
      cases hc : bf_caps c e s2 with
      | exit s3 flow => rw [hc] at h3; exact h3
      | go s3 u3 =>
        rw [hc] at h3
        simp only []
        have h4 := bf_limits_inv h e s3 h3
        cases hl : bf_limits c e s3 with
        | exit s4 flow => rw [hl] at h4; exact h4
        | go s4 plan =>
          rw [hl] at h4
          exact bf_try_later_inv h e plan e.passes s4 s4.now h4

/-- Every pair of predicates that meets the closure conditions holds when the
queue loop ends. -/
theorem bf_queue_loop_inv {c : bf_cycle} {I : bf_view → Prop} {F : bf_view → bf_flow → Prop}
    (h : bf_invariant c I F) :
    ∀ (job_queue : List bf_queue_rec) (s : bf_state), F s.view bf_flow.next →
      F (bf_queue_loop c job_queue s).1.view (bf_queue_loop c job_queue s).2.1 := by
  intro job_queue
  induction job_queue with
  | nil => intro s hF; exact hF
  | cons e rest ih =>
    intro s hF
    have h1 := bf_job_inv h e s hF
    simp only [bf_queue_loop]
    rcases hj : bf_job c e s with ⟨s1, flow⟩
    rw [hj] at h1
    cases flow with
    | next => exact ih s1 h1
    | stop => exact h1
    | stuck => exact h1

/-- The queue loop is left with `next` only when the queue ran empty. -/
theorem bf_queue_loop_rest (c : bf_cycle) :
    ∀ (job_queue : List bf_queue_rec) (s : bf_state),
      (bf_queue_loop c job_queue s).2.1 = bf_flow.next →
      (bf_queue_loop c job_queue s).2.2 = [] := by
  intro job_queue
  induction job_queue with
  | nil => intro s _; rfl
  | cons e rest ih =>
    intro s
    simp only [bf_queue_loop]
    rcases hj : bf_job c e s with ⟨s1, flow⟩
    cases flow with
    | next => exact ih s1
    | stop => intro hn; cases hn
    | stuck => intro hn; cases hn

theorem bf_started_count_append (l : List bf_event) (ev : bf_event) :
    bf_started_count (l ++ [ev]) =
      bf_started_count l + (if ev.is_started = true then 1 else 0) := by
  induction l with
  | nil => cases ev <;> simp [bf_started_count, bf_event.is_started]
  | cons a l ih =>
    cases a
    all_goals simp [bf_started_count, ih]
    omega

theorem bf_adding_count_append (l : List bf_event) (ev : bf_event) :
    bf_adding_count (l ++ [ev]) = bf_adding_count l + bf_adding_count [ev] := by
  induction l with
  | nil => simp [bf_adding_count]
  | cons a l ih =>
    have ih2 : bf_adding_count (List.append l [ev]) =
        bf_adding_count l + bf_adding_count [ev] := ih
    cases a
    all_goals simp only [List.cons_append, bf_adding_count]
    all_goals first
      | exact ih
      | (split_ifs <;> omega)

theorem concat_eq_concat {α : Type} {l pre : List α} {a b : α} (h : l ++ [a] = pre ++ [b]) :
    l = pre ∧ a = b := by
  have := List.append_inj' h rfl
  exact ⟨this.1, by simpa using this.2⟩

/-- The start counter equals the number of recorded starts and stays below a
positive limit while the loop runs; when the limit is met the body is left by
`break` right after the start. -/
theorem start_cap_invariant (c : bf_cycle) (hpos : 0 < c.tunables.max_backfill_jobs_start)
    (hmax : c.tunables.max_backfill_jobs_start ≤ 2147483647) :
    bf_invariant c
      (fun v => bf_started_count v.trace = v.job_start_cnt ∧
        (v.job_start_cnt : Int) < c.tunables.max_backfill_jobs_start)
      (fun v flow => bf_started_count v.trace = v.job_start_cnt ∧
        ((v.job_start_cnt : Int) < c.tunables.max_backfill_jobs_start ∨
          ((v.job_start_cnt : Int) = c.tunables.max_backfill_jobs_start ∧
            flow = bf_flow.stop ∧ ∃ pre id, v.trace = pre ++ [bf_event.started id]))) where
  pop := by
    rintro v id ⟨h1, h2⟩
    refine ⟨by simp [bf_started_count_append, bf_event.is_started, h1], ?_⟩
    rcases h2 with h | ⟨_, hf, _⟩
    · exact h
    · cases hf
  yield_go := by
    rintro v rc ⟨h1, h2⟩ _
    exact ⟨by simp [bf_started_count_append, bf_event.is_started, h1], h2⟩
  yield_abort := by
    rintro v rc ⟨h1, h2⟩
    exact ⟨by simp [bf_started_count_append, bf_event.is_started, h1], Or.inl h2⟩
  started := by
    rintro v id ⟨h1, h2⟩
    simp only at h2 ⊢
    have e1 : (v.job_start_cnt + 1) % 4294967296 = v.job_start_cnt + 1 :=
      Nat.mod_eq_of_lt (by omega)
    refine ⟨by simp [bf_started_count_append, bf_event.is_started, h1, e1], ?_⟩
    rw [e1]
    split_ifs with hc
    · right
      refine ⟨?_, rfl, v.trace, id, rfl⟩
      have := hc.2
      omega
    · left
      have : ¬ (v.job_start_cnt + 1 ≥ (c.tunables.max_backfill_jobs_start % 4294967296).toNat) :=
        fun h => hc ⟨by omega, h⟩
      omega
  reserved := by
    rintro v id st er ra ⟨h1, h2⟩ _ _ _
    exact ⟨by simp [bf_started_count_append, bf_event.is_started, h1], Or.inl h2⟩
  silent := by
    rintro v flow ⟨h1, h2⟩
    exact ⟨h1, Or.inl h2⟩

/-- Without a start limit, a body that ends with a start is left by
`continue`. -/
theorem start_nocap_invariant (c : bf_cycle) (hzero : c.tunables.max_backfill_jobs_start = 0) :
    bf_invariant c
      (fun v => ∀ pre id, v.trace ≠ pre ++ [bf_event.started id])
      (fun v flow => ∀ pre id, v.trace = pre ++ [bf_event.started id] →
        flow = bf_flow.next) where
  pop := by
    intro v id _ pre id2 h
    have := (concat_eq_concat h).2
    cases this
  yield_go := by
    intro v rc _ _ pre id2 h
    have := (concat_eq_concat h).2
    cases this
  yield_abort := by
    intro v rc _ pre id2 h
    have := (concat_eq_concat h).2
    cases this
  started := by
    intro v id _ pre id2 _
    rw [if_neg (fun hc => hc.1 hzero)]
  reserved := by
    intro v id st er ra _ _ _ _ pre id2 h
    have := (concat_eq_concat h).2
    cases this
  silent := by
    intro v flow hI pre id h
    exact absurd h (hI pre id)

/-- The table-size test: every recorded call of `_add_reservation` was made
below the limit and added at most two records; the calls that added a record
are fewer than the records. -/
theorem table_cap_invariant (c : bf_cycle) :
    bf_invariant c
      (fun v => (∀ id st er rb ra, bf_event.reserved id st er rb ra ∈ v.trace →
          (rb : Int) < c.tunables.max_backfill_job_cnt ∧ rb ≤ ra ∧ ra ≤ rb + 2) ∧
        bf_adding_count v.trace + 1 ≤ v.node_space_recs ∧
        (bf_adding_count v.trace = 0 ∨
          (bf_adding_count v.trace : Int) < c.tunables.max_backfill_job_cnt) ∧
        (v.node_space_recs = 1 ∨
          (v.node_space_recs : Int) ≤ c.tunables.max_backfill_job_cnt + 1))
      (fun v _ => (∀ id st er rb ra, bf_event.reserved id st er rb ra ∈ v.trace →
          (rb : Int) < c.tunables.max_backfill_job_cnt ∧ rb ≤ ra ∧ ra ≤ rb + 2) ∧
        bf_adding_count v.trace + 1 ≤ v.node_space_recs ∧
        (bf_adding_count v.trace = 0 ∨
          (bf_adding_count v.trace : Int) < c.tunables.max_backfill_job_cnt) ∧
        (v.node_space_recs = 1 ∨
          (v.node_space_recs : Int) ≤ c.tunables.max_backfill_job_cnt + 1)) where
  pop := by
    rintro v id ⟨h1, h2, h3, h4⟩
    refine ⟨?_, ?_, ?_, h4⟩
    · intro id st er rb ra hm
      simp only [List.mem_append, List.mem_singleton] at hm
      rcases hm with hm | hm
      · exact h1 _ _ _ _ _ hm
      · cases hm
    · simp only [bf_adding_count_append, bf_adding_count]; omega
    · simp only [bf_adding_count_append, bf_adding_count]; omega
  yield_go := by
    rintro v rc ⟨h1, h2, h3, h4⟩ _
    refine ⟨?_, ?_, ?_, h4⟩
    · intro id st er rb ra hm
      simp only [List.mem_append, List.mem_singleton] at hm
      rcases hm with hm | hm
      · exact h1 _ _ _ _ _ hm
      · cases hm
    · simp only [bf_adding_count_append, bf_adding_count]; omega
    · simp only [bf_adding_count_append, bf_adding_count]; omega
  yield_abort := by
    rintro v rc ⟨h1, h2, h3, h4⟩
    refine ⟨?_, ?_, ?_, h4⟩
    · intro id st er rb ra hm
      simp only [List.mem_append, List.mem_singleton] at hm
      rcases hm with hm | hm
      · exact h1 _ _ _ _ _ hm
      · cases hm
    · simp only [bf_adding_count_append, bf_adding_count]; omega
    · simp only [bf_adding_count_append, bf_adding_count]; omega
  started := by
    rintro v id ⟨h1, h2, h3, h4⟩
    refine ⟨?_, ?_, ?_, h4⟩
    · intro id st er rb ra hm
      simp only [List.mem_append, List.mem_singleton] at hm
      rcases hm with hm | hm
      · exact h1 _ _ _ _ _ hm
      · cases hm
    · simp only [bf_adding_count_append, bf_adding_count]; omega
    · simp only [bf_adding_count_append, bf_adding_count]; omega
  reserved := by
    rintro v id st er ra ⟨h1, h2, h3, h4⟩ hlt hle hge
    refine ⟨?_, ?_, ?_, ?_⟩
    · intro id st er rb ra2 hm
      simp only [List.mem_append, List.mem_singleton] at hm
      rcases hm with hm | hm
      · exact h1 _ _ _ _ _ hm
      · cases hm
        exact ⟨hlt, hle, hge⟩
    · simp only [bf_adding_count_append, bf_adding_count]
      split_ifs <;> omega
    · simp only [bf_adding_count_append, bf_adding_count]
      split_ifs <;> omega
    · right
      simp only
      omega
  silent := by
    rintro v flow h
    exact h

/-- Without `bf_continue` no yield that reported a change is recorded while the
loop runs, and a body that records one is left by `break` with `rc = 1`. -/
theorem yield_stop_invariant (c : bf_cycle) (hc : c.tunables.backfill_continue = false) :
    bf_invariant c
      (fun v => ∀ ev ∈ v.trace, ev.is_changed_yield = false)
      (fun v flow => (∀ ev ∈ v.trace, ev.is_changed_yield = false) ∨
        (flow = bf_flow.stop ∧ v.rc = 1 ∧ ∃ pre rc, v.trace = pre ++ [bf_event.yield rc] ∧
          ∀ ev ∈ pre, ev.is_changed_yield = false)) where
  pop := by
    intro v id h ev hm
    simp only [List.mem_append, List.mem_singleton] at hm
    rcases h with h | ⟨hf, _⟩
    · rcases hm with hm | hm
      · exact h ev hm
      · subst hm; rfl
    · cases hf
  yield_go := by
    intro v rc h hrc ev hm
    simp only [List.mem_append, List.mem_singleton] at hm
    rcases hm with hm | hm
    · exact h ev hm
    · subst hm
      rcases hrc with hrc | hrc
      · simp [bf_event.is_changed_yield, hrc]
      · rw [hc] at hrc; cases hrc
  yield_abort := by
    intro v rc h
    exact Or.inr ⟨rfl, rfl, v.trace, rc, rfl, h⟩
  started := by
    intro v id h
    left
    intro ev hm
    simp only [List.mem_append, List.mem_singleton] at hm
    rcases hm with hm | hm
    · exact h ev hm
    · subst hm; rfl
  reserved := by
    intro v id st er ra h _ _ _
    left
    intro ev hm
    simp only [List.mem_append, List.mem_singleton] at hm
    rcases hm with hm | hm
    · exact h ev hm
    · subst hm; rfl
  silent := by
    intro v flow h
    exact Or.inl h

/-! ## Claims about the limits of a planner cycle -/

/-- C11 (start cap). In a planner cycle with `max_backfill_jobs_start = M`,
`0 < M` (an `int`, so `M ≤ 2147483647`), the number of successful starts is at
most `M`, and when it is `M` the last call of the cycle is the `M`-th start and
the queue loop was left by `break` right after it. With `M = 0` a cycle whose
last call is a start left the loop body by `continue` and has taken every entry
from the queue, so the starts are not limited. -/
theorem attempt_backfill_start_cap (c : bf_cycle) (job_queue : List bf_queue_rec) :
    (0 < c.tunables.max_backfill_jobs_start →
      c.tunables.max_backfill_jobs_start ≤ 2147483647 →
      (bf_started_count (_attempt_backfill c job_queue).1.trace : Int) ≤
          c.tunables.max_backfill_jobs_start ∧
        ((bf_started_count (_attempt_backfill c job_queue).1.trace : Int) =
            c.tunables.max_backfill_jobs_start →
          (_attempt_backfill c job_queue).2.1 = bf_flow.stop ∧
          ∃ pre id, (_attempt_backfill c job_queue).1.trace =
            pre ++ [bf_event.started id])) ∧
    (c.tunables.max_backfill_jobs_start = 0 →
      ∀ pre id, (_attempt_backfill c job_queue).1.trace = pre ++ [bf_event.started id] →
        (_attempt_backfill c job_queue).2.1 = bf_flow.next ∧
        (_attempt_backfill c job_queue).2.2 = []) := by
  constructor
  · intro hpos hmax
    have h := bf_queue_loop_inv (start_cap_invariant c hpos hmax) job_queue (bf_init c)
      ⟨rfl, Or.inl (by simp only [bf_state.view, bf_init]; omega)⟩
    obtain ⟨h1, h2⟩ := h
    unfold _attempt_backfill
    simp only [bf_state.view] at h1 h2
    rw [h1]
    rcases h2 with h2 | ⟨h2, h3, h4⟩
    · exact ⟨by omega, fun he => by omega⟩
    · exact ⟨by omega, fun _ => ⟨h3, h4⟩⟩
  · intro hzero pre id htr
    have h := bf_queue_loop_inv (start_nocap_invariant c hzero) job_queue (bf_init c)
      (by intro pre id h; simp [bf_state.view, bf_init] at h)
    have hn := h pre id htr
    exact ⟨hn, bf_queue_loop_rest c job_queue (bf_init c) hn⟩

/-- Witness for C11: three jobs that can start at once, with
`max_backfill_jobs_start = 2`; two are started and the third stays in the
queue. With the limit 0 all three are started. -/
theorem attempt_backfill_start_cap_witness :
    ((bf_started_count
        (_attempt_backfill (sample_cycle 100 2 false) sample_queue_startable).1.trace : Int) ≤ 2 ∧
      ((bf_started_count
          (_attempt_backfill (sample_cycle 100 2 false) sample_queue_startable).1.trace : Int)
          = 2 →
        (_attempt_backfill (sample_cycle 100 2 false) sample_queue_startable).2.1
            = bf_flow.stop ∧
        ∃ pre id, (_attempt_backfill (sample_cycle 100 2 false) sample_queue_startable).1.trace =
          pre ++ [bf_event.started id])) ∧
    (_attempt_backfill (sample_cycle 100 2 false) sample_queue_startable).1.trace =
      [bf_event.popped 21, bf_event.started 21, bf_event.popped 22, bf_event.started 22] ∧
    (_attempt_backfill (sample_cycle 100 2 false) sample_queue_startable).2.2.length = 1 ∧
    (_attempt_backfill (sample_cycle 100 0 false) sample_queue_startable).1.trace =
      [bf_event.popped 21, bf_event.started 21, bf_event.popped 22, bf_event.started 22,
       bf_event.popped 23, bf_event.started 23] :=
  ⟨(attempt_backfill_start_cap (sample_cycle 100 2 false) sample_queue_startable).1
      (by decide) (by decide), by decide, by decide, by decide⟩

/-- C13, as the code behaves: with `max_backfill_job_cnt = 4`, five one-node
jobs that are all projected to start at 2000 for ten minutes are all planted;
`_add_reservation` is called five times. The first call adds the two records
of `[1980, 2580)`, the other four fall on these boundaries and add none, so
`node_space_recs` stays at 3 and the table-size test never holds. -/
theorem attempt_backfill_reservations_exceed_cap :
    (sample_cycle 4 0 false).tunables.max_backfill_job_cnt = 4 ∧
    (_attempt_backfill (sample_cycle 4 0 false) sample_queue_same_window).1.trace =
      [bf_event.popped 11, bf_event.reserved 11 1980 2580 1 3,
       bf_event.popped 12, bf_event.reserved 12 1980 2580 3 3,
       bf_event.popped 13, bf_event.reserved 13 1980 2580 3 3,
       bf_event.popped 14, bf_event.reserved 14 1980 2580 3 3,
       bf_event.popped 15, bf_event.reserved 15 1980 2580 3 3] ∧
    bf_reserved_count
      (_attempt_backfill (sample_cycle 4 0 false) sample_queue_same_window).1.trace = 5 ∧
    (_attempt_backfill (sample_cycle 4 0 false) sample_queue_same_window).1.space.node_space_recs
      = 3 := by
  refine ⟨rfl, by decide, by decide, by decide⟩

/-- C13, amended: in a planner cycle every call of `_add_reservation` is made
while `node_space_recs < max_backfill_job_cnt` and adds at most two records and
removes none; the calls that add a record are fewer than
`max_backfill_job_cnt` (or there is none), and `node_space_recs` ends at 1 or
at most at `max_backfill_job_cnt + 1`. -/
theorem attempt_backfill_table_cap (c : bf_cycle) (job_queue : List bf_queue_rec) :
    (∀ id st er rb ra,
      bf_event.reserved id st er rb ra ∈ (_attempt_backfill c job_queue).1.trace →
      (rb : Int) < c.tunables.max_backfill_job_cnt ∧ rb ≤ ra ∧ ra ≤ rb + 2) ∧
    (bf_adding_count (_attempt_backfill c job_queue).1.trace = 0 ∨
      (bf_adding_count (_attempt_backfill c job_queue).1.trace : Int) <
        c.tunables.max_backfill_job_cnt) ∧
    ((_attempt_backfill c job_queue).1.space.node_space_recs = 1 ∨
      ((_attempt_backfill c job_queue).1.space.node_space_recs : Int) ≤
        c.tunables.max_backfill_job_cnt + 1) := by
  have h := bf_queue_loop_inv (table_cap_invariant c) job_queue (bf_init c)
    ⟨by intro id st er rb ra hm; simp [bf_state.view, bf_init] at hm,
     by simp [bf_state.view, bf_init, bf_adding_count, init_node_space],
     Or.inl rfl, Or.inl rfl⟩
  exact ⟨h.1, h.2.2.1, h.2.2.2⟩

/-- C14, as the code behaves: with `bf_continue` set, a cycle whose first entry
is met two seconds after the start yields the locks; `_yield_locks` returns 1
because a job was updated meanwhile, the cycle goes on, and the job is planted
as `[1980, 2580)` after that yield. -/
theorem attempt_backfill_reserves_after_yield :
    (sample_cycle 100 0 true).tunables.backfill_continue = true ∧
    _yield_locks sample_globals sample_globals_changed = 1 ∧
    (_attempt_backfill (sample_cycle 100 0 true) sample_queue_yield).1.trace =
      [bf_event.popped 31, bf_event.yield 1, bf_event.reserved 31 1980 2580 1 3] ∧
    (_attempt_backfill (sample_cycle 100 0 true) sample_queue_yield).1.rc = 0 := by
  refine ⟨rfl, by decide, by decide, by decide⟩

/-- C14, amended: in a planner cycle without `bf_continue`, a call of
`_yield_locks` that returns non-zero is the last call of the cycle: no
reservation is added after it, the queue loop is left by `break`, and the cycle
returns 1. -/
theorem attempt_backfill_yield_stops (c : bf_cycle) (job_queue : List bf_queue_rec)
    (hc : c.tunables.backfill_continue = false) (pre post : List bf_event) (rc : Nat)
    (htrace : (_attempt_backfill c job_queue).1.trace = pre ++ bf_event.yield rc :: post)
    (hrc : rc ≠ 0) :
    post = [] ∧ (_attempt_backfill c job_queue).1.rc = 1 ∧
      (_attempt_backfill c job_queue).2.1 = bf_flow.stop := by
  have h := bf_queue_loop_inv (yield_stop_invariant c hc) job_queue (bf_init c)
    (Or.inl (by intro ev hm; simp [bf_state.view, bf_init] at hm))
  have hch : (bf_event.yield rc).is_changed_yield = true := by
    simp [bf_event.is_changed_yield, hrc]
  rcases h with h | ⟨hf, hr, pre2, rc2, ht, hpre⟩
  · have hm : bf_event.yield rc ∈ (_attempt_backfill c job_queue).1.trace := by
      rw [htrace]; simp
    have := h _ hm
    rw [hch] at this
    cases this
  · refine ⟨?_, hr, hf⟩
    have ht2 : pre ++ bf_event.yield rc :: post = pre2 ++ [bf_event.yield rc2] := by
      rw [← htrace]; exact ht
    rcases List.eq_nil_or_concat post with hp | ⟨q, z, hp⟩
    · exact hp
    · exfalso
      subst hp
      have e : (pre ++ bf_event.yield rc :: q) ++ [z] = pre2 ++ [bf_event.yield rc2] := by
        rw [← ht2]; simp
      have e2 := (concat_eq_concat e).1
      have hm : bf_event.yield rc ∈ pre2 := by rw [← e2]; simp
      have := hpre _ hm
      rw [hch] at this
      cases this

/-- Witness for C14: without `bf_continue` the sample cycle ends with the yield
that reported the job update and returns 1. -/
theorem attempt_backfill_yield_stops_witness :
    (_attempt_backfill (sample_cycle 100 0 false) sample_queue_yield).1.trace =
      [bf_event.popped 31] ++ bf_event.yield 1 :: [] ∧
    (([] : List bf_event) = [] ∧
      (_attempt_backfill (sample_cycle 100 0 false) sample_queue_yield).1.rc = 1 ∧
      (_attempt_backfill (sample_cycle 100 0 false) sample_queue_yield).2.1 = bf_flow.stop) :=
  ⟨by decide,
    attempt_backfill_yield_stops (sample_cycle 100 0 false) sample_queue_yield rfl
      [bf_event.popped 31] [] 1 (by decide) (by decide)⟩

/-! ## Claims about the per-user limit -/

theorem bf_user_search_le (uid : Nat → Nat) (u : Nat) :
    ∀ n j, j ≤ bf_user_search uid u n j ∧ bf_user_search uid u n j ≤ j + n := by
  intro n
  induction n with
  | zero => intro j; simp [bf_user_search]
  | succ n ih =>
    intro j
    simp only [bf_user_search]
    split_ifs
    · omega
    · have := ih (j + 1); omega

theorem bf_user_search_found (uid : Nat → Nat) (u : Nat) :
    ∀ n j, bf_user_search uid u n j < j + n → uid (bf_user_search uid u n j) = u := by
  intro n
  induction n with
  | zero => intro j h; simp [bf_user_search] at h
  | succ n ih =>
    intro j h
    simp only [bf_user_search] at h ⊢
    split_ifs at h ⊢ with hc
    · exact hc.symm
    · exact ih (j + 1) (by omega)

theorem bf_user_search_miss (uid : Nat → Nat) (u : Nat) :
    ∀ n j, (∀ k, j ≤ k → k < j + n → uid k ≠ u) → bf_user_search uid u n j = j + n := by
  intro n
  induction n with
  | zero => intro j _; simp [bf_user_search]
  | succ n ih =>
    intro j h
    simp only [bf_user_search]
    rw [if_neg (fun hc => h j (le_refl j) (by omega) hc.symm)]
    rw [ih (j + 1) (fun k h1 h2 => h k (by omega) (by omega))]
    omega

theorem bf_user_search_hit (uid : Nat → Nat) (u : Nat) :
    ∀ n j i, j ≤ i → i < j + n → uid i = u → (∀ k, j ≤ k → k < i → uid k ≠ u) →
      bf_user_search uid u n j = i := by
  intro n
  induction n with
  | zero => intro j i h1 h2; omega
  | succ n ih =>
    intro j i h1 h2 h3 h4
    simp only [bf_user_search]
    by_cases hji : j = i
    · subst hji
      rw [if_pos h3.symm]
    · rw [if_neg (fun hc => h4 j (le_refl j) (by omega) hc.symm)]
      exact ih (j + 1) i (by omega) (by omega) h3 (fun k h5 h6 => h4 k (by omega) h6)

/-- The per-user test either leaves `uid` and `nuser` as they are, or the user
was not found and is appended with one job, and the job is not skipped. -/
theorem bf_user_check_frame (N : Int) (w : Nat) (t : bf_user_table) :
    ((bf_user_check N w t).1.uid = t.uid ∧ (bf_user_check N w t).1.nuser = t.nuser ∧
      (∀ k, (∀ i, i < t.nuser → t.uid i = w → i ≠ k) →
        (bf_user_check N w t).1.njobs k = t.njobs k)) ∨
    (t.nuser < BF_MAX_USERS ∧ bf_user_search t.uid w t.nuser 0 = t.nuser ∧
      (bf_user_check N w t).1.uid = set_at t.uid t.nuser w ∧
      (bf_user_check N w t).1.njobs = set_at t.njobs t.nuser 1 ∧
      (bf_user_check N w t).1.nuser = t.nuser + 1 ∧
      (bf_user_check N w t).2 = false) := by
  unfold bf_user_check
  simp only []
  split_ifs with h1 h2
  · right
    refine ⟨h2, h1, ?_, ?_, ?_, rfl⟩
    · simp only [h1]
    · simp only [h1]
    · simp only [BF_MAX_USERS] at h2
      exact Nat.mod_eq_of_lt (by omega)
  · left
    exact ⟨rfl, rfl, fun _ _ => rfl⟩
  · left
    refine ⟨rfl, rfl, ?_⟩
    intro k hk
    have hle := (bf_user_search_le t.uid w t.nuser 0).2
    have hlt : bf_user_search t.uid w t.nuser 0 < 0 + t.nuser := by omega
    have hu := bf_user_search_found t.uid w t.nuser 0 hlt
    have := hk _ (by omega) hu
    simp only [set_at]
    rw [if_neg (fun hc => this hc.symm)]

theorem bf_user_pass_append (N : Int) :
    ∀ (l1 l2 : List Nat) (t : bf_user_table),
      bf_user_pass N (l1 ++ l2) t =
        bf_user_pass N l1 t ++ bf_user_pass N l2 (bf_user_run N l1 t) := by
  intro l1
  induction l1 with
  | nil => intro l2 t; rfl
  | cons w l1 ih =>
    intro l2 t
    have ih2 : bf_user_pass N (List.append l1 l2) (bf_user_check N w t).1 =
        bf_user_pass N l1 (bf_user_check N w t).1 ++
          bf_user_pass N l2 (bf_user_run N l1 (bf_user_check N w t).1) := ih _ _
    simp only [List.cons_append, bf_user_pass, bf_user_run]
    split_ifs
    · exact ih2
    · rw [ih2]; rfl

theorem bf_user_run_append (N : Int) :
    ∀ (l1 l2 : List Nat) (t : bf_user_table),
      bf_user_run N (l1 ++ l2) t = bf_user_run N l2 (bf_user_run N l1 t) := by
  intro l1
  induction l1 with
  | nil => intro l2 t; rfl
  | cons w l1 ih =>
    intro l2 t
    simp only [List.cons_append, bf_user_run]
    exact ih _ _

theorem bf_user_pass_mem (N : Int) :
    ∀ (l : List Nat) (t : bf_user_table) (x : Nat), x ∈ bf_user_pass N l t → x ∈ l := by
  intro l
  induction l with
  | nil => intro t x h; simp [bf_user_pass] at h
  | cons w l ih =>
    intro t x h
    simp only [bf_user_pass] at h
    split_ifs at h
    · exact List.mem_cons_of_mem _ (ih _ _ h)
    · rcases List.mem_cons.mp h with h | h
      · rw [h]; exact List.mem_cons_self _ _
      · exact List.mem_cons_of_mem _ (ih _ _ h)

/-- Filling the table: after the first `n` users `0, 1, ..., n - 1` the table
holds them in this order. -/
theorem bf_user_run_range (N : Int) :
    ∀ n, n ≤ BF_MAX_USERS →
      (bf_user_run N (List.range n) bf_users_init).nuser = n ∧
      ∀ j, j < n → (bf_user_run N (List.range n) bf_users_init).uid j = j := by
  intro n
  induction n with
  | zero => intro _; exact ⟨rfl, fun j hj => absurd hj (Nat.not_lt_zero j)⟩
  | succ n ih =>
    intro hn
    obtain ⟨h1, h2⟩ := ih (by omega)
    rw [List.range_succ, bf_user_run_append]
    simp only [bf_user_run]
    have hmiss : bf_user_search (bf_user_run N (List.range n) bf_users_init).uid n
        (bf_user_run N (List.range n) bf_users_init).nuser 0 =
        (bf_user_run N (List.range n) bf_users_init).nuser := by
      rw [bf_user_search_miss _ _ _ _ (fun k _ hk => by
        rw [h1] at hk
        rw [h2 k (by omega)]
        omega)]
      omega
    rcases bf_user_check_frame N n (bf_user_run N (List.range n) bf_users_init) with
      ⟨_, hf, _⟩ | ⟨_, _, hu, _, hnu, _⟩
    · exfalso
      have hchk : (bf_user_check N n (bf_user_run N (List.range n) bf_users_init)).1.nuser =
          (bf_user_run N (List.range n) bf_users_init).nuser + 1 := by
        unfold bf_user_check
        simp only []
        rw [if_pos hmiss, if_pos (by rw [h1]; omega)]
        simp only [BF_MAX_USERS] at hn
        exact Nat.mod_eq_of_lt (by rw [h1]; omega)
      omega
    · refine ⟨by rw [hnu, h1], ?_⟩
      intro j hj
      rw [hu, h1]
      simp only [set_at]
      split_ifs with hc
      · exact hc.symm
      · exact h2 j (by omega)

/-- A user that is not in a full table passes the test, and the table is left
as it is. -/
theorem bf_user_check_full (N : Int) (u : Nat) (t : bf_user_table)
    (hfull : ¬ t.nuser < BF_MAX_USERS) (hnot : ∀ k, k < t.nuser → t.uid k ≠ u) :
    bf_user_check N u t = (t, false) := by
  have hmiss : bf_user_search t.uid u t.nuser 0 = t.nuser := by
    rw [bf_user_search_miss _ _ _ _ (fun k _ hk => hnot k (by omega))]
    omega
  unfold bf_user_check
  simp only []
  rw [if_pos hmiss, if_neg hfull]

/-- A full table that does not hold a user never takes it up. -/
theorem bf_user_run_full (N : Int) (u : Nat) :
    ∀ (l : List Nat) (t : bf_user_table), ¬ t.nuser < BF_MAX_USERS →
      (∀ k, k < t.nuser → t.uid k ≠ u) →
      ∀ k, k < (bf_user_run N l t).nuser → (bf_user_run N l t).uid k ≠ u := by
  intro l
  induction l with
  | nil => intro t _ h; exact h
  | cons w l ih =>
    intro t hfull hnot
    simp only [bf_user_run]
    rcases bf_user_check_frame N w t with ⟨hu, hn, _⟩ | ⟨hlt, _⟩
    · exact ih _ (by rw [hn]; exact hfull) (by rw [hu, hn]; exact hnot)
    · exact absurd hlt hfull

/-- A user found in the table at its first index `j` with `njobs[j] = m` has at
most `N - 1 - m` further jobs that pass, as long as the 16-bit counter does not
wrap. -/
theorem bf_user_pass_found (N : Int) (u : Nat) :
    ∀ (l : List Nat) (t : bf_user_table) (j : Nat), j < t.nuser → t.uid j = u →
      (∀ k, k < j → t.uid k ≠ u) → t.njobs j + l.count u < 65536 →
      ((bf_user_pass N l t).count u : Int) ≤ max 0 (N - 1 - (t.njobs j : Int)) := by
  intro l
  induction l with
  | nil => intro t j _ _ _ _; simp [bf_user_pass]
  | cons w l ih =>
    intro t j hj hu hfirst hcnt
    by_cases hw : w = u
    · subst hw
      rw [List.count_cons_self] at hcnt
      have hs : bf_user_search t.uid w t.nuser 0 = j :=
        bf_user_search_hit _ _ _ _ _ (Nat.zero_le j) (by omega) hu
          (fun k _ hk => hfirst k hk)
      have hchk : bf_user_check N w t =
          ({ t with njobs := set_at t.njobs j (t.njobs j + 1) },
            decide (((t.njobs j + 1 : Nat) : Int) ≥ N)) := by
        unfold bf_user_check
        simp only [hs]
        rw [if_neg (by omega)]
        have e : (t.njobs j + 1) % 65536 = t.njobs j + 1 := Nat.mod_eq_of_lt (by omega)
        simp only [e, set_at, if_true]
      have hih := ih { t with njobs := set_at t.njobs j (t.njobs j + 1) } j hj hu hfirst
        (by simp only [set_at, if_true]; omega)
      simp only [set_at, if_true] at hih
      simp only [bf_user_pass, hchk]
      split_ifs with hc
      · simp only [decide_eq_true_eq] at hc
        have := le_max_left (0 : Int) (N - 1 - (t.njobs j : Int))
        have h2 : max (0 : Int) (N - 1 - ((t.njobs j + 1 : Nat) : Int)) = 0 :=
          max_eq_left (by push_cast; omega)
        rw [h2] at hih
        omega
      · simp only [decide_eq_true_eq] at hc
        rw [List.count_cons_self]
        have h2 : max (0 : Int) (N - 1 - ((t.njobs j + 1 : Nat) : Int)) =
            N - 1 - ((t.njobs j + 1 : Nat) : Int) := max_eq_right (by push_cast; omega)
        have h3 : max (0 : Int) (N - 1 - (t.njobs j : Int)) = N - 1 - (t.njobs j : Int) :=
          max_eq_right (by push_cast at hc; omega)
        rw [h2] at hih
        rw [h3]
        push_cast at hih ⊢
        omega
    · rw [List.count_cons_of_ne (fun h => hw h.symm)] at hcnt
      have hkeep : (bf_user_check N w t).1.nuser ≥ t.nuser ∧
          (∀ k, k < t.nuser → (bf_user_check N w t).1.uid k = t.uid k) ∧
          (bf_user_check N w t).1.njobs j = t.njobs j := by
        rcases bf_user_check_frame N w t with ⟨h1, h2, h3⟩ | ⟨_, _, h1, h2, h3, _⟩
        · refine ⟨by omega, fun k _ => by rw [h1], h3 j ?_⟩
          intro i _ hi hij
          rw [hij, hu] at hi
          exact hw hi.symm
        · refine ⟨by omega, ?_, ?_⟩
          · intro k hk
            rw [h1]
            simp only [set_at]
            rw [if_neg (by omega)]
          · rw [h2]
            simp only [set_at]
            rw [if_neg (by omega)]
      obtain ⟨k1, k2, k3⟩ := hkeep
      have hih := ih (bf_user_check N w t).1 j (by omega) (by rw [k2 j hj]; exact hu)
        (fun k hk => by rw [k2 k (by omega)]; exact hfirst k hk) (by rw [k3]; exact hcnt)
      rw [k3] at hih
      simp only [bf_user_pass]
      split_ifs
      · exact hih
      · rw [List.count_cons_of_ne (fun h => hw h.symm)]
        exact hih

/-- A user that is not yet in the table but is in it when the queue is done
has at most `max 1 (N - 1)` jobs that pass. -/
theorem bf_user_pass_new (N : Int) (u : Nat) :
    ∀ (l : List Nat) (t : bf_user_table), (∀ k, k < t.nuser → t.uid k ≠ u) →
      (∃ j, j < (bf_user_run N l t).nuser ∧ (bf_user_run N l t).uid j = u) →
      l.count u < 65536 →
      ((bf_user_pass N l t).count u : Int) ≤ max 1 (N - 1) := by
  intro l
  induction l with
  | nil =>
    intro t hnot hin _
    obtain ⟨j, hj, hu⟩ := hin
    exact absurd hu (hnot j hj)
  | cons w l ih =>
    intro t hnot hin hcnt
    simp only [bf_user_run] at hin
    by_cases hw : w = u
    · subst hw
      rw [List.count_cons_self] at hcnt
      by_cases hfull : t.nuser < BF_MAX_USERS
      · rcases bf_user_check_frame N w t with ⟨_, h2, _⟩ | ⟨_, _, h1, h2, h3, h4⟩
        · exfalso
          have hmiss : bf_user_search t.uid w t.nuser 0 = t.nuser := by
            rw [bf_user_search_miss _ _ _ _ (fun k _ hk => hnot k (by omega))]
            omega
          have hchk : (bf_user_check N w t).1.nuser = t.nuser + 1 := by
            unfold bf_user_check
            simp only []
            rw [if_pos hmiss, if_pos hfull]
            simp only [BF_MAX_USERS] at hfull
            exact Nat.mod_eq_of_lt (by omega)
          omega
        · have hf := bf_user_pass_found N w l (bf_user_check N w t).1 t.nuser (by omega)
            (by rw [h1]; simp [set_at])
            (fun k hk => by
              rw [h1]
              simp only [set_at]
              rw [if_neg (by omega)]
              exact hnot k hk)
            (by rw [h2]; simp only [set_at, if_true]; omega)
          rw [h2] at hf
          simp only [set_at, if_true] at hf
          simp only [bf_user_pass, h4]
          rw [if_neg (by simp), List.count_cons_self]
          rcases le_total (0 : Int) (N - 1 - ((1 : Nat) : Int)) with hle | hle
          · rw [max_eq_right hle] at hf
            have := le_max_right (1 : Int) (N - 1)
            push_cast at hf ⊢
            omega
          · rw [max_eq_left hle] at hf
            have := le_max_left (1 : Int) (N - 1)
            push_cast at hf ⊢
            omega
      · exfalso
        rw [bf_user_check_full N w t hfull hnot] at hin
        obtain ⟨j, hj, hu⟩ := hin
        exact bf_user_run_full N w l t hfull hnot j hj hu
    · rw [List.count_cons_of_ne (fun h => hw h.symm)] at hcnt
      have hnot2 : ∀ k, k < (bf_user_check N w t).1.nuser →
          (bf_user_check N w t).1.uid k ≠ u := by
        rcases bf_user_check_frame N w t with ⟨h1, h2, _⟩ | ⟨_, _, h1, _, h3, _⟩
        · rw [h1, h2]; exact hnot
        · intro k hk
          rw [h1]
          simp only [set_at]
          split_ifs with hc
          · exact hw
          · exact hnot k (by omega)
      have hih := ih (bf_user_check N w t).1 hnot2 hin hcnt
      simp only [bf_user_pass]
      split_ifs
      · exact hih
      · rw [List.count_cons_of_ne (fun h => hw h.symm)]
        exact hih

/-- C12, as the code behaves: with `max_backfill_job_per_user = 1` and a queue
in which the 1000 users `0, ..., 999` have one job each and user 1000 has three
jobs behind them, the table of `BF_MAX_USERS = 1000` entries is full when user
1000 comes, so user 1000 is never counted and all three of its jobs pass. -/
theorem user_cap_unrecorded_user_unlimited :
    BF_MAX_USERS = 1000 ∧
    (bf_user_pass 1 (List.range 1000 ++ [1000, 1000, 1000]) bf_users_init).count 1000 = 3 := by
  refine ⟨rfl, ?_⟩
  obtain ⟨h1, h2⟩ := bf_user_run_range 1 1000 (by decide)
  have hfull : ¬ (bf_user_run 1 (List.range 1000) bf_users_init).nuser < BF_MAX_USERS := by
    rw [h1]; decide
  have hnot : ∀ k, k < (bf_user_run 1 (List.range 1000) bf_users_init).nuser →
      (bf_user_run 1 (List.range 1000) bf_users_init).uid k ≠ 1000 := by
    intro k hk
    rw [h1] at hk
    rw [h2 k hk]
    omega
  have hc := bf_user_check_full 1 1000 _ hfull hnot
  have h0 : (bf_user_pass 1 (List.range 1000) bf_users_init).count 1000 = 0 := by
    rw [List.count_eq_zero]
    intro hm
    have := bf_user_pass_mem 1 _ _ _ hm
    rw [List.mem_range] at this
    omega
  have key : ∀ t : bf_user_table, bf_user_check 1 1000 t = (t, false) →
      bf_user_pass 1 [1000, 1000, 1000] t = [1000, 1000, 1000] := by
    intro t ht
    simp [bf_user_pass, ht]
  rw [bf_user_pass_append, List.count_append, h0, key _ hc]
  rfl

/-- C12, amended: with `max_backfill_job_per_user = N`, for every queue of
jobs reaching the per-user test and every user that has an entry in the table
when the queue is done (so it came while the table had fewer than
`BF_MAX_USERS` entries) and has fewer than 65536 jobs in the queue, the number
of its jobs that pass the test is at most `max 1 (N - 1)`, hence at most `N`
when `N > 0`. -/
theorem user_cap_recorded_user (N : Int) (l : List Nat) (u : Nat)
    (hrec : ∃ j, j < (bf_user_run N l bf_users_init).nuser ∧
      (bf_user_run N l bf_users_init).uid j = u)
    (hcnt : l.count u < 65536) :
    ((bf_user_pass N l bf_users_init).count u : Int) ≤ max 1 (N - 1) ∧
    (0 < N → ((bf_user_pass N l bf_users_init).count u : Int) ≤ N) := by
  have h := bf_user_pass_new N u l bf_users_init
    (fun k hk => absurd hk (Nat.not_lt_zero k)) hrec hcnt
  refine ⟨h, fun hN => ?_⟩
  rcases le_total (1 : Int) (N - 1) with hle | hle
  · rw [max_eq_right hle] at h; omega
  · rw [max_eq_left hle] at h; omega

/-- Witness for C12: with the limit 2 and the queue of users `7, 7, 8, 7`, user
7 is in the table and one of its three jobs passes. -/
theorem user_cap_recorded_user_witness :
    ((bf_user_pass 2 [7, 7, 8, 7] bf_users_init).count 7 : Int) ≤ max 1 (2 - 1) ∧
    (0 < (2 : Int) → ((bf_user_pass 2 [7, 7, 8, 7] bf_users_init).count 7 : Int) ≤ 2) :=
  user_cap_recorded_user 2 [7, 7, 8, 7] 7 ⟨0, by decide, by decide⟩ (by decide)

/-! ## Claims about the ordering and the fair share of the preemption plugin -/

/-- C21 (priority ordering). `_sort_by_job_prio(x, y)` returns 1 when the
priority of `x` is greater, -1 when it is smaller, and on equal priorities 1
when the cumulative runtime of `x` is strictly greater than that of `y` and 0
otherwise; `now1` and `now2` are the times at which the two runtimes are
taken. -/
theorem sort_by_job_prio_cases (now1 now2 : Nat) (x y : job_record) :
    (x.priority > y.priority → _sort_by_job_prio now1 now2 x y = 1) ∧
    (x.priority < y.priority → _sort_by_job_prio now1 now2 x y = -1) ∧
    (x.priority = y.priority →
      (_get_job_runtime now1 x > _get_job_runtime now2 y →
        _sort_by_job_prio now1 now2 x y = 1) ∧
      (_get_job_runtime now1 x ≤ _get_job_runtime now2 y →
        _sort_by_job_prio now1 now2 x y = 0)) := by
  refine ⟨fun h => ?_, fun h => ?_, fun h => ⟨fun hr => ?_, fun hr => ?_⟩⟩
  · simp [_sort_by_job_prio, h]
  · have h2 : ¬ x.priority > y.priority := by omega
    simp [_sort_by_job_prio, h, h2]
  · have hd : difftime (_get_job_runtime now1 x) (_get_job_runtime now2 y) > 0 := by
      unfold difftime; omega
    simp [_sort_by_job_prio, h, _is_job_runtime_greater, hd]
  · have hd : ¬ difftime (_get_job_runtime now1 x) (_get_job_runtime now2 y) > 0 := by
      unfold difftime; omega
    simp [_sort_by_job_prio, h, _is_job_runtime_greater, hd]

/-- C29, as the code behaves: a job that asks for at least 600000 nodes, with no
maximum, in a partition of a million nodes with one CPU each: the requested node
count is `min_nodes = 600000`, which is above 500000, and `_get_nb_cpus`
returns 600000. -/
theorem get_nb_cpus_min_nodes_not_capped :
    sample_wide_job.total_cpus = 0 ∧
    sample_wide_job.details.map (fun d => (d.min_nodes, d.max_nodes)) = some (600000, 0) ∧
    sample_wide_job.part_ptr.map (fun p => (p.total_cpus / p.total_nodes, p.min_nodes))
      = some (1, 1) ∧
    _get_nb_cpus sample_wide_job = some 600000 := by
  refine ⟨rfl, rfl, by decide, by decide⟩

/-- C29, amended: `_get_nb_cpus` returns `total_cpus` when it is non-zero, and
otherwise `(total_cpus / total_nodes of the partition) * req_nodes` in
`uint32_t` arithmetic, where `req_nodes` is `max_nodes` when the job has a
maximum that was not set by a limit and `min_nodes` otherwise; `max_nodes` is
the job maximum clamped by the partition maximum (the partition maximum alone
without a job maximum) and by 500000, and `min_nodes` is the larger of the job
and the partition minimum, without a cap. So `req_nodes ≤ 500000` when the
maximum is used, and `req_nodes` is at least both minimums otherwise. -/
theorem get_nb_cpus_formula (job_ptr : job_record) (part_ptr : part_record)
    (details : job_details) (hpart : job_ptr.part_ptr = some part_ptr)
    (hdetails : job_ptr.details = some details) (hnodes : part_ptr.total_nodes ≠ 0) :
    ∃ min_nodes max_nodes req_nodes,
      min_nodes = max details.min_nodes part_ptr.min_nodes ∧
      max_nodes = min (if details.max_nodes = 0 then part_ptr.max_nodes
        else min details.max_nodes part_ptr.max_nodes) 500000 ∧
      req_nodes = (if job_ptr.limit_set_max_nodes = 0 ∧ details.max_nodes ≠ 0 then max_nodes
        else min_nodes) ∧
      max_nodes ≤ 500000 ∧ max_nodes ≤ part_ptr.max_nodes ∧
      (job_ptr.limit_set_max_nodes = 0 ∧ details.max_nodes ≠ 0 → req_nodes ≤ 500000) ∧
      (¬ (job_ptr.limit_set_max_nodes = 0 ∧ details.max_nodes ≠ 0) →
        details.min_nodes ≤ req_nodes ∧ part_ptr.min_nodes ≤ req_nodes) ∧
      (job_ptr.total_cpus ≠ 0 → _get_nb_cpus job_ptr = some (int_wrap job_ptr.total_cpus)) ∧
      (job_ptr.total_cpus = 0 → _get_nb_cpus job_ptr =
        some (int_wrap (((req_nodes * (part_ptr.total_cpus / part_ptr.total_nodes))
          % 4294967296 : Nat) : Int))) ∧
      (job_ptr.total_cpus = 0 →
        req_nodes * (part_ptr.total_cpus / part_ptr.total_nodes) < 2147483648 →
        _get_nb_cpus job_ptr =
          some ((req_nodes * (part_ptr.total_cpus / part_ptr.total_nodes) : Nat) : Int)) := by
  refine ⟨_, _, _, rfl, rfl, rfl, ?_, ?_, ?_, ?_, ?_, ?_, ?_⟩
  · exact min_le_right _ _
  · split_ifs
    · exact min_le_left _ _
    · exact le_trans (min_le_left _ _) (min_le_right _ _)
  · intro h
    rw [if_pos h]
    exact min_le_right _ _
  · intro h
    rw [if_neg h]
    exact ⟨le_max_left _ _, le_max_right _ _⟩
  · intro h
    simp only [_get_nb_cpus, hpart, hdetails]
    rw [if_neg hnodes, if_pos h]
  · intro h
    simp only [_get_nb_cpus, hpart, hdetails]
    rw [if_neg hnodes, if_neg (not_not.mpr h)]
  · intro h
    simp only [_get_nb_cpus, hpart, hdetails]
    rw [if_neg hnodes, if_neg (not_not.mpr h)]
    generalize (if job_ptr.limit_set_max_nodes = 0 ∧ details.max_nodes ≠ 0 then
        min (if details.max_nodes = 0 then part_ptr.max_nodes
          else min details.max_nodes part_ptr.max_nodes) 500000
      else max details.min_nodes part_ptr.min_nodes) *
        (part_ptr.total_cpus / part_ptr.total_nodes) = q
    intro hlt
    rw [Nat.mod_eq_of_lt (by omega)]
    have hw : int_wrap (q : Int) = (q : Int) := by
      unfold int_wrap
      omega
    rw [hw]

/-- Witness for C29: the pending sample job that asks for six nodes of the
sixteen-node partition gets six CPUs. -/
theorem get_nb_cpus_formula_witness :
    ∃ min_nodes max_nodes req_nodes,
      min_nodes = max 6 sample_fair_part.min_nodes ∧
      max_nodes = min (if (0 : Nat) = 0 then sample_fair_part.max_nodes
        else min 0 sample_fair_part.max_nodes) 500000 ∧
      req_nodes = (if (0 : Nat) = 0 ∧ (0 : Nat) ≠ 0 then max_nodes else min_nodes) ∧
      _get_nb_cpus (sample_fair_job 2 100 job_states.JOB_PENDING 6 "X" 4) =
        some (int_wrap (((req_nodes *
          (sample_fair_part.total_cpus / sample_fair_part.total_nodes)) % 4294967296 : Nat)
          : Int)) := by
  obtain ⟨a, b, r, h1, h2, h3, _, _, _, _, _, h9, _⟩ :=
    get_nb_cpus_formula (sample_fair_job 2 100 job_states.JOB_PENDING 6 "X" 4) sample_fair_part
      { expanding_jobid := 0, min_nodes := 6, max_nodes := 0, exc_node_bitmap := none,
        req_node_bitmap := none, feature_list := none, share_res := 0 } rfl rfl (by decide)
  exact ⟨a, b, r, h1, h2, h3, h9 rfl⟩

/-! ## Facts about the `double` arithmetic -/

theorem fp_log2_loop_le (fuel : Nat) : ∀ n : Nat, n ≠ 0 → 2 ^ fp_log2_loop fuel n ≤ n := by
  induction fuel with
  | zero => intro n hn; simp only [fp_log2_loop, pow_zero]; omega
  | succ f ih =>
    intro n hn
    unfold fp_log2_loop
    by_cases h : n < 2
    · rw [if_pos h]; simp only [pow_zero]; omega
    · rw [if_neg h, pow_succ]
      have := ih (n / 2) (by omega)
      omega

theorem fp_log2_loop_lt (fuel : Nat) : ∀ n : Nat, n ≤ fuel → n < 2 ^ (fp_log2_loop fuel n + 1) := by
  induction fuel with
  | zero => intro n hn; simp only [fp_log2_loop]; omega
  | succ f ih =>
    intro n hn
    unfold fp_log2_loop
    by_cases h : n < 2
    · rw [if_pos h]; simp only [zero_add, pow_one]; exact h
    · rw [if_neg h, pow_succ]
      have := ih (n / 2) (by omega)
      omega

/-- The function `fp_log2` gives the integer part of the binary logarithm. -/
theorem fp_log2_spec (n : Nat) (hn : n ≠ 0) : 2 ^ fp_log2 n ≤ n ∧ n < 2 ^ (fp_log2 n + 1) :=
  ⟨fp_log2_loop_le n n hn, fp_log2_loop_lt n n (Nat.le_refl n)⟩

theorem fp_pack_sign (s : Bool) (m k : Nat) : (fp_pack s m k).sign = s := by
  unfold fp_pack
  split_ifs <;> rfl

theorem fp_pack_isnan (s : Bool) (m k : Nat) : (fp_pack s m k).isnan = false := by
  unfold fp_pack
  split_ifs <;> simp [double.isnan, double.expo_field, double.frac_field]
  all_goals omega

theorem double.mag_pos_mk (s : Bool) (e f : Nat) (h : e % 2048 ≠ 0 ∨ f % 4503599627370496 ≠ 0) :
    0 < (double.mk s e f).mag := by
  unfold double.mag double.mant double.expo_field double.frac_field
  simp only []
  apply Nat.mul_pos _ (pow_pos (by decide) _)
  split_ifs <;> omega

theorem fp_pack_mag_pos (s : Bool) (m k : Nat) (hm : 0 < m) : 0 < (fp_pack s m k).mag := by
  unfold fp_pack
  split_ifs <;> apply double.mag_pos_mk <;> omega

theorem fp_nearest_pos (X Y : Nat) (hY : 0 < Y) (h : Y ≤ X) : 0 < fp_nearest X Y := by
  unfold fp_nearest
  simp only []
  have hq : 0 < X / Y := Nat.div_pos h hY
  split_ifs <;> omega

theorem fp_round_sign (s : Bool) (N D : Nat) : (fp_round s N D).sign = s :=
  fp_pack_sign _ _ _

theorem fp_round_isnan (s : Bool) (N D : Nat) : (fp_round s N D).isnan = false :=
  fp_pack_isnan _ _ _

theorem fp_round_mag_pos (s : Bool) (N D : Nat) (hD : 0 < D) (h : D ≤ N * 2 ^ 1074) :
    0 < (fp_round s N D).mag := by
  have hk : D * 2 ^ (fp_log2 (N * 2 ^ 1074 / D) - 52) ≤ N * 2 ^ 1074 := by
    have hq : N * 2 ^ 1074 / D ≠ 0 := Nat.pos_iff_ne_zero.mp (Nat.div_pos h hD)
    have h1 := (fp_log2_spec _ hq).1
    have h2 : 2 ^ (fp_log2 (N * 2 ^ 1074 / D) - 52) ≤ 2 ^ fp_log2 (N * 2 ^ 1074 / D) :=
      Nat.pow_le_pow_right (by decide) (Nat.sub_le _ _)
    calc D * 2 ^ (fp_log2 (N * 2 ^ 1074 / D) - 52)
        ≤ D * (N * 2 ^ 1074 / D) := Nat.mul_le_mul_left _ (le_trans h2 h1)
      _ ≤ N * 2 ^ 1074 := Nat.mul_div_le _ _
  exact fp_pack_mag_pos _ _ _ (fp_nearest_pos _ _ (Nat.mul_pos hD (pow_pos (by decide) _)) hk)

theorem double.isinf_mag (x : double) (h : x.isinf = true) :
    x.mag = 4503599627370496 * 2 ^ 2046 := by
  unfold double.isinf at h
  simp only [Bool.and_eq_true, decide_eq_true_eq] at h
  unfold double.mag double.mant
  rw [h.1, h.2, if_neg (by decide)]

theorem double.finite_mag_lt (x : double) (h1 : x.isnan = false) (h2 : x.isinf = false) :
    x.mag < 4503599627370496 * 2 ^ 2046 := by
  have he : x.expo_field ≤ 2046 := by
    unfold double.isnan at h1
    unfold double.isinf at h2
    by_cases h : x.expo_field = 2047
    · by_cases hf : x.frac_field = 0
      · simp [h, hf] at h2
      · simp [h, hf] at h1
    · have : x.expo_field < 2048 := Nat.mod_lt _ (by decide)
      omega
  have hm : x.mant < 9007199254740992 := by
    have : x.frac_field < 4503599627370496 := Nat.mod_lt _ (by decide)
    unfold double.mant
    split_ifs <;> omega
  have he1 : x.expo_field - 1 ≤ 2045 := by omega
  have hmono : ∀ a b : Nat, a ≤ b → 2 ^ a ≤ 2 ^ b :=
    fun a b hab => Nat.pow_le_pow_right (Nat.succ_pos 1) hab
  have hp := hmono _ _ he1
  have hpos : 0 < 2 ^ (x.expo_field - 1) := pow_pos (by decide) _
  unfold double.mag
  calc x.mant * 2 ^ (x.expo_field - 1)
      < 9007199254740992 * 2 ^ (x.expo_field - 1) := Nat.mul_lt_mul_of_pos_right hm hpos
    _ ≤ 9007199254740992 * 2 ^ 2045 := Nat.mul_le_mul_left _ hp
    _ = 4503599627370496 * 2 ^ 2046 := by
      have hq : ∀ n : Nat, (2 : Nat) ^ (n + 1) = 2 ^ n * 2 := fun n => pow_succ 2 n
      rw [hq 2045]
      generalize (2 : Nat) ^ 2045 = P
      omega

theorem double.num_mk_inf (s : Bool) :
    (double.mk s 2047 0).isnan = false ∧
    (double.mk s 2047 0).num =
      if s = true then - ((4503599627370496 * 2 ^ 2046 : Nat) : Int)
      else ((4503599627370496 * 2 ^ 2046 : Nat) : Int) := by
  refine ⟨rfl, ?_⟩
  have h : (double.mk s 2047 0).mag = 4503599627370496 * 2 ^ 2046 :=
    double.isinf_mag _ rfl
  unfold double.num
  rw [h]

theorem double.num_of_inf (x : double) (h : x.isinf = true) :
    x.num = if x.sign = true then - ((4503599627370496 * 2 ^ 2046 : Nat) : Int)
      else ((4503599627370496 * 2 ^ 2046 : Nat) : Int) := by
  unfold double.num
  rw [double.isinf_mag x h]

theorem double.num_of_finite (x : double) (h1 : x.isnan = false) (h2 : x.isinf = false) :
    - ((4503599627370496 * 2 ^ 2046 : Nat) : Int) < x.num ∧
    x.num < ((4503599627370496 * 2 ^ 2046 : Nat) : Int) := by
  have h := double.finite_mag_lt x h1 h2
  unfold double.num
  split_ifs <;> omega

theorem double.num_pos_of (z : double) (hs : z.sign = false) (hm : 0 < z.mag) : 0 < z.num := by
  unfold double.num
  rw [hs]
  simp only [Bool.false_eq_true, if_false]
  omega

theorem double.num_neg_of (z : double) (hs : z.sign = true) (hm : 0 < z.mag) : z.num < 0 := by
  unfold double.num
  rw [hs]
  simp only [if_true]
  omega

/-- The difference of two `double` values that are numbers, the first greater
than the second, is a number above zero: a difference of two different
`double` values is at least one unit of `2^-1074` and does not round to
zero. -/
theorem double.sub_pos (x y : double) (hx : x.isnan = false) (hy : y.isnan = false)
    (h : y.num < x.num) : (double.sub x y).isnan = false ∧ 0 < (double.sub x y).num := by
  have hB : 0 < 4503599627370496 * 2 ^ 2046 := Nat.mul_pos (by decide) (pow_pos (by decide) _)
  unfold double.sub
  rw [if_neg (by simp [hx, hy])]
  by_cases hxi : x.isinf = true
  · rw [if_pos hxi]
    have nx := double.num_of_inf x hxi
    by_cases hyi : y.isinf = true
    · have ny := double.num_of_inf y hyi
      by_cases hs : x.sign = y.sign
      · rw [hs] at nx; omega
      · rw [if_neg (fun hc => hs hc.2)]
        refine ⟨(double.num_mk_inf _).1, ?_⟩
        rw [(double.num_mk_inf _).2]
        by_cases hsx : x.sign = true
        · rw [if_pos hsx] at nx
          split_ifs at ny <;> omega
        · rw [if_neg hsx]; omega
    · rw [if_neg (fun hc => hyi hc.1)]
      have ny := double.num_of_finite y hy (by simpa using hyi)
      refine ⟨(double.num_mk_inf _).1, ?_⟩
      rw [(double.num_mk_inf _).2]
      by_cases hsx : x.sign = true
      · rw [if_pos hsx] at nx; omega
      · rw [if_neg hsx]; omega
  · rw [if_neg hxi]
    have nx := double.num_of_finite x hx (by simpa using hxi)
    by_cases hyi : y.isinf = true
    · rw [if_pos hyi]
      have ny := double.num_of_inf y hyi
      refine ⟨(double.num_mk_inf _).1, ?_⟩
      rw [(double.num_mk_inf _).2]
      by_cases hsy : y.sign = true
      · rw [hsy, if_neg (by decide)]; omega
      · rw [if_neg hsy] at ny; omega
    · rw [if_neg hyi, if_neg (by omega)]
      refine ⟨fp_round_isnan _ _ _, ?_⟩
      have hm := fp_round_mag_pos (decide (x.num - y.num < 0)) (x.num - y.num).natAbs (2 ^ 1074)
        (pow_pos (by decide) _)
        (Nat.le_mul_of_pos_left _ (by omega))
      have hsg := fp_round_sign (decide (x.num - y.num < 0)) (x.num - y.num).natAbs (2 ^ 1074)
      have hd : decide (x.num - y.num < 0) = false := by simp; omega
      rw [hd] at hsg hm ⊢
      exact double.num_pos_of _ hsg hm

/-- The difference of two `double` values that are numbers, the first less than
the second, is a number below zero. -/
theorem double.sub_neg (x y : double) (hx : x.isnan = false) (hy : y.isnan = false)
    (h : x.num < y.num) : (double.sub x y).isnan = false ∧ (double.sub x y).num < 0 := by
  have hB : 0 < 4503599627370496 * 2 ^ 2046 := Nat.mul_pos (by decide) (pow_pos (by decide) _)
  unfold double.sub
  rw [if_neg (by simp [hx, hy])]
  by_cases hxi : x.isinf = true
  · rw [if_pos hxi]
    have nx := double.num_of_inf x hxi
    by_cases hyi : y.isinf = true
    · have ny := double.num_of_inf y hyi
      by_cases hs : x.sign = y.sign
      · rw [hs] at nx; omega
      · rw [if_neg (fun hc => hs hc.2)]
        refine ⟨(double.num_mk_inf _).1, ?_⟩
        rw [(double.num_mk_inf _).2]
        by_cases hsx : x.sign = true
        · rw [if_pos hsx]; omega
        · rw [if_neg hsx] at nx
          split_ifs at ny <;> omega
    · rw [if_neg (fun hc => hyi hc.1)]
      have ny := double.num_of_finite y hy (by simpa using hyi)
      refine ⟨(double.num_mk_inf _).1, ?_⟩
      rw [(double.num_mk_inf _).2]
      by_cases hsx : x.sign = true
      · rw [if_pos hsx]; omega
      · rw [if_neg hsx] at nx; omega
  · rw [if_neg hxi]
    have nx := double.num_of_finite x hx (by simpa using hxi)
    by_cases hyi : y.isinf = true
    · rw [if_pos hyi]
      have ny := double.num_of_inf y hyi
      refine ⟨(double.num_mk_inf _).1, ?_⟩
      rw [(double.num_mk_inf _).2]
      by_cases hsy : y.sign = true
      · rw [if_pos hsy] at ny; omega
      · have hsy2 : y.sign = false := by simpa using hsy
        rw [hsy2, if_pos (by decide)]; omega
    · rw [if_neg hyi, if_neg (by omega)]
      refine ⟨fp_round_isnan _ _ _, ?_⟩
      have hm := fp_round_mag_pos (decide (x.num - y.num < 0)) (x.num - y.num).natAbs (2 ^ 1074)
        (pow_pos (by decide) _)
        (Nat.le_mul_of_pos_left _ (by omega))
      have hsg := fp_round_sign (decide (x.num - y.num < 0)) (x.num - y.num).natAbs (2 ^ 1074)
      have hd : decide (x.num - y.num < 0) = true := by simp; omega
      rw [hd] at hsg hm ⊢
      exact double.num_neg_of _ hsg hm

theorem double.lt_iff (x y : double) :
    double.lt x y = true ↔ x.isnan = false ∧ y.isnan = false ∧ x.num < y.num := by
  unfold double.lt
  simp only [Bool.and_eq_true, Bool.not_eq_true', decide_eq_true_eq]
  tauto

theorem double.gt_iff (x y : double) :
    double.gt x y = true ↔ x.isnan = false ∧ y.isnan = false ∧ y.num < x.num := by
  unfold double.gt
  rw [double.lt_iff]
  tauto

theorem double.ne_iff (x y : double) :
    double.ne x y = true ↔ x.isnan = true ∨ y.isnan = true ∨ x.num ≠ y.num := by
  unfold double.ne
  simp only [Bool.or_eq_true, decide_eq_true_eq]
  tauto

theorem double.zero_num : double.zero.isnan = false ∧ double.zero.num = 0 := by
  constructor <;> rfl

theorem double.one_isnan : double.one.isnan = false := rfl

/-- The comparisons of a difference with `0.0` when one value is above `1.0`
and the other below. -/
theorem double.sub_compare (fe fr : double) :
    (double.gt fe double.one = true → double.lt fr double.one = true →
      double.ne (double.sub fe fr) double.zero = true ∧
      double.gt (double.sub fe fr) double.zero = true ∧
      double.lt (double.sub fe fr) double.zero = false ∧
      double.lt fe double.one = false) ∧
    (double.lt fe double.one = true → double.gt fr double.one = true →
      double.ne (double.sub fe fr) double.zero = true ∧
      double.gt (double.sub fe fr) double.zero = false ∧
      double.lt (double.sub fe fr) double.zero = true ∧
      double.gt fe double.one = false) := by
  constructor
  · intro h1 h2
    rw [double.gt_iff] at h1
    rw [double.lt_iff] at h2
    obtain ⟨a, b⟩ := double.sub_pos fe fr h1.1 h2.1 (by omega)
    refine ⟨?_, ?_, ?_, ?_⟩
    · rw [double.ne_iff, double.zero_num.2]
      right; right; omega
    · rw [double.gt_iff, double.zero_num.2]
      exact ⟨a, double.zero_num.1, b⟩
    · rw [Bool.eq_false_iff]
      intro hc
      rw [double.lt_iff, double.zero_num.2] at hc
      omega
    · rw [Bool.eq_false_iff]
      intro hc
      rw [double.lt_iff] at hc
      omega
  · intro h1 h2
    rw [double.lt_iff] at h1
    rw [double.gt_iff] at h2
    obtain ⟨a, b⟩ := double.sub_neg fe fr h1.1 h2.1 (by omega)
    refine ⟨?_, ?_, ?_, ?_⟩
    · rw [double.ne_iff, double.zero_num.2]
      right; right; omega
    · rw [Bool.eq_false_iff]
      intro hc
      rw [double.gt_iff, double.zero_num.2] at hc
      omega
    · rw [double.lt_iff, double.zero_num.2]
      exact ⟨a, double.zero_num.1, b⟩
    · rw [Bool.eq_false_iff]
      intro hc
      rw [double.gt_iff] at hc
      omega

theorem overalloc_decision_eval (fe fr : double) (ar ae : String) :
    overalloc_decision fe fr ar ae =
      if ((double.gt fe double.one = true ∧ double.lt fr double.one = true) ∨
          (double.lt fe double.one = true ∧ double.gt fr double.one = true)) ∧ ar ≠ ae then
        (if double.gt fe double.one = true then 1 else -1)
      else 0 := by
  unfold overalloc_decision
  simp only []
  by_cases h : ((double.gt fe double.one = true ∧ double.lt fr double.one = true) ∨
      (double.lt fe double.one = true ∧ double.gt fr double.one = true)) ∧ ar ≠ ae
  · rw [if_pos h]
    rcases h.1 with ⟨h1, h2⟩ | ⟨h1, h2⟩
    · obtain ⟨a, b, _, _⟩ := (double.sub_compare fe fr).1 h1 h2
      rw [if_pos ⟨h.1, a, h.2⟩, if_pos b, if_pos h1]
    · obtain ⟨a, b, _, d⟩ := (double.sub_compare fe fr).2 h1 h2
      rw [if_pos ⟨h.1, a, h.2⟩, if_neg (by rw [b]; decide), if_neg (by rw [d]; decide)]
  · rw [if_neg (fun hc => h ⟨hc.1, hc.2.2⟩), if_neg h]

theorem fp_nearest_near (X Y : Nat) (hY : 0 < Y) :
    2 * (fp_nearest X Y * Y) ≤ 2 * X + Y ∧ 2 * X ≤ 2 * (fp_nearest X Y * Y) + Y ∧
    X / Y ≤ fp_nearest X Y ∧ fp_nearest X Y ≤ X / Y + 1 ∧
    (2 * X = 2 * (X / Y * Y) + Y → fp_nearest X Y % 2 = 0) := by
  have hX : Y * (X / Y) + X % Y = X := Nat.div_add_mod X Y
  have hr : X % Y < Y := Nat.mod_lt X hY
  have e1 : (X / Y + 1) * Y = Y * (X / Y) + Y := by rw [Nat.add_mul, Nat.one_mul, Nat.mul_comm]
  have e2 : X / Y * Y = Y * (X / Y) := Nat.mul_comm _ _
  unfold fp_nearest
  simp only []
  split_ifs with h1 h2 h3
  · rw [e2]; omega
  · rw [e1, e2]; omega
  · rw [e2]; omega
  · rw [e1, e2]; omega

theorem fp_log2_zero : fp_log2 0 = 0 := rfl

/-- The significand and the spacing chosen by `fp_round`: the significand is
at most `2^53`, and it is at least `2^52` unless the spacing is the least
one. -/
theorem fp_round_significand (N D : Nat) (hD : 0 < D) :
    fp_nearest (N * 2 ^ 1074) (D * 2 ^ (fp_log2 (N * 2 ^ 1074 / D) - 52)) ≤ 9007199254740992 ∧
    (fp_log2 (N * 2 ^ 1074 / D) - 52 = 0 ∨
      4503599627370496 ≤
        fp_nearest (N * 2 ^ 1074) (D * 2 ^ (fp_log2 (N * 2 ^ 1074 / D) - 52))) := by
  generalize N * 2 ^ 1074 = X
  have hpow : ∀ a b : Nat, (2 : Nat) ^ (a + b) = 2 ^ a * 2 ^ b := fun a b => pow_add 2 a b
  have hmono : ∀ a b : Nat, a ≤ b → (2 : Nat) ^ a ≤ 2 ^ b :=
    fun a b hab => Nat.pow_le_pow_right (Nat.succ_pos 1) hab
  have h52 : (2 : Nat) ^ 52 = 4503599627370496 := by decide
  have h53 : (2 : Nat) ^ 53 = 9007199254740992 := by decide
  have hY : 0 < D * 2 ^ (fp_log2 (X / D) - 52) := Nat.mul_pos hD (pow_pos (by decide) _)
  obtain ⟨_, _, n3, n4, _⟩ := fp_nearest_near X (D * 2 ^ (fp_log2 (X / D) - 52)) hY
  have hup : X / D < 2 ^ (fp_log2 (X / D) + 1) := by
    by_cases h0 : X / D = 0
    · rw [h0]; exact pow_pos (by decide) _
    · exact (fp_log2_spec _ h0).2
  have hq : X / (D * 2 ^ (fp_log2 (X / D) - 52)) < 9007199254740992 := by
    rw [← Nat.div_div_eq_div_mul, Nat.div_lt_iff_lt_mul (pow_pos (by decide) _)]
    calc X / D < 2 ^ (fp_log2 (X / D) + 1) := hup
      _ ≤ 2 ^ (53 + (fp_log2 (X / D) - 52)) := hmono _ _ (by omega)
      _ = 9007199254740992 * 2 ^ (fp_log2 (X / D) - 52) := by rw [hpow, h53]
  refine ⟨by omega, ?_⟩
  by_cases hk : fp_log2 (X / D) - 52 = 0
  · exact Or.inl hk
  · right
    have h0 : X / D ≠ 0 := by
      intro h0
      rw [h0, fp_log2_zero] at hk
      exact hk rfl
    have hlow := (fp_log2_spec _ h0).1
    have hq2 : 4503599627370496 ≤ X / (D * 2 ^ (fp_log2 (X / D) - 52)) := by
      rw [← Nat.div_div_eq_div_mul, Nat.le_div_iff_mul_le (pow_pos (by decide) _)]
      calc 4503599627370496 * 2 ^ (fp_log2 (X / D) - 52)
          = 2 ^ (52 + (fp_log2 (X / D) - 52)) := by rw [hpow, h52]
        _ ≤ 2 ^ fp_log2 (X / D) := hmono _ _ (by omega)
        _ ≤ X / D := hlow
    omega

theorem double.isinf_mk_inf (s : Bool) : (double.mk s 2047 0).isinf = true := rfl

theorem fp_pack_mag (s : Bool) (m k : Nat) (hm : m ≤ 9007199254740992)
    (hk : k = 0 ∨ 4503599627370496 ≤ m) (hfin : (fp_pack s m k).isinf = false) :
    (fp_pack s m k).mag = m * 2 ^ k := by
  unfold fp_pack at hfin ⊢
  by_cases h1 : m < 4503599627370496
  · have hk0 : k = 0 := by omega
    rw [if_pos h1]
    unfold double.mag double.mant double.expo_field double.frac_field
    simp only [hk0, Nat.zero_mod, if_true, Nat.zero_sub, pow_zero, Nat.mod_eq_of_lt h1]
  · rw [if_neg h1] at hfin ⊢
    by_cases h2 : m < 9007199254740992
    · rw [if_pos h2] at hfin ⊢
      by_cases h3 : k + 1 ≥ 2047
      · rw [if_pos h3, double.isinf_mk_inf] at hfin
        exact absurd hfin (by decide)
      · rw [if_neg h3]
        unfold double.mag double.mant double.expo_field double.frac_field
        simp only []
        have e1 : (k + 1) % 2048 = k + 1 := Nat.mod_eq_of_lt (by omega)
        have e2 : (m - 4503599627370496) % 4503599627370496 = m - 4503599627370496 :=
          Nat.mod_eq_of_lt (by omega)
        have e3 : 4503599627370496 + (m - 4503599627370496) = m := by omega
        rw [e1, e2, if_neg (by omega), Nat.add_sub_cancel, e3]
    · rw [if_neg h2] at hfin ⊢
      have hm2 : m = 9007199254740992 := by omega
      by_cases h3 : k + 2 ≥ 2047
      · rw [if_pos h3, double.isinf_mk_inf] at hfin
        exact absurd hfin (by decide)
      · rw [if_neg h3]
        unfold double.mag double.mant double.expo_field double.frac_field
        simp only []
        have e1 : (k + 2) % 2048 = k + 2 := Nat.mod_eq_of_lt (by omega)
        rw [e1, if_neg (by omega), hm2]
        have e3 : k + 2 - 1 = k + 1 := by omega
        rw [e3, pow_succ]
        generalize (2 : Nat) ^ k = P
        omega

/-- The rounding of `fp_round` is to a nearest `double`: a finite result of
the quotient `N / D` is a multiple `m * 2^k` of a spacing `2^k` units of
`2^-1074`, with `m <= 2^53` and with `2^52 <= m` unless `k = 0` (the spacing of
the values from the subnormal numbers to `2^-1021`), and it differs from the
quotient by at most half of that spacing; the sign is the one given and the
result is never not-a-number. -/
theorem fp_round_nearest (s : Bool) (N D : Nat) (hD : 0 < D) :
    (fp_round s N D).sign = s ∧ (fp_round s N D).isnan = false ∧
    ((fp_round s N D).isinf = false →
      ∃ m k, (fp_round s N D).mag = m * 2 ^ k ∧ m ≤ 9007199254740992 ∧
        (k = 0 ∨ 4503599627370496 ≤ m) ∧
        2 * ((fp_round s N D).mag * D) ≤ 2 * (N * 2 ^ 1074) + D * 2 ^ k ∧
        2 * (N * 2 ^ 1074) ≤ 2 * ((fp_round s N D).mag * D) + D * 2 ^ k) := by
  refine ⟨fp_round_sign s N D, fp_round_isnan s N D, ?_⟩
  intro hfin
  obtain ⟨hm, hk⟩ := fp_round_significand N D hD
  have hmag := fp_pack_mag s _ _ hm hk hfin
  have hY : 0 < D * 2 ^ (fp_log2 (N * 2 ^ 1074 / D) - 52) := Nat.mul_pos hD (pow_pos (by decide) _)
  obtain ⟨n1, n2, _, _, _⟩ := fp_nearest_near (N * 2 ^ 1074) _ hY
  refine ⟨_, _, hmag, hm, hk, ?_, ?_⟩
  · have e : (fp_round s N D).mag * D =
        fp_nearest (N * 2 ^ 1074) (D * 2 ^ (fp_log2 (N * 2 ^ 1074 / D) - 52)) *
          (D * 2 ^ (fp_log2 (N * 2 ^ 1074 / D) - 52)) := by
      unfold fp_round
      simp only []
      rw [hmag]
      ring
    rw [e]
    exact n1
  · have e : (fp_round s N D).mag * D =
        fp_nearest (N * 2 ^ 1074) (D * 2 ^ (fp_log2 (N * 2 ^ 1074 / D) - 52)) *
          (D * 2 ^ (fp_log2 (N * 2 ^ 1074 / D) - 52)) := by
      unfold fp_round
      simp only []
      rw [hmag]
      ring
    rw [e]
    exact n2

theorem fp_pack_isinf (s : Bool) (m k : Nat) (hk : k + 2 < 2047) :
    (fp_pack s m k).isinf = false := by
  unfold fp_pack
  split_ifs <;> simp [double.isinf, double.expo_field, double.frac_field]
  all_goals omega

/-- The conversion of an unsigned integer below `2^53` to `double` is exact. -/
theorem double.of_uint_exact (n : Nat) (hn : n < 9007199254740992) :
    (double.of_uint n).sign = false ∧ (double.of_uint n).isnan = false ∧
    (double.of_uint n).isinf = false ∧ (double.of_uint n).mag = n * 2 ^ 1074 := by
  have hpow : ∀ a b : Nat, (2 : Nat) ^ (a + b) = 2 ^ a * 2 ^ b := fun a b => pow_add 2 a b
  have hmono : ∀ a b : Nat, a ≤ b → (2 : Nat) ^ a ≤ 2 ^ b :=
    fun a b hab => Nat.pow_le_pow_right (Nat.succ_pos 1) hab
  have h53 : (2 : Nat) ^ 53 = 9007199254740992 := by decide
  have hk : fp_log2 (n * 2 ^ 1074 / 1) - 52 ≤ 1074 := by
    rw [Nat.div_one]
    by_cases h0 : n * 2 ^ 1074 = 0
    · rw [h0, fp_log2_zero]; omega
    · have h1 := (fp_log2_spec _ h0).1
      by_contra hc
      have h2 : (2 : Nat) ^ (53 + 1074) ≤ 2 ^ fp_log2 (n * 2 ^ 1074) := hmono _ _ (by omega)
      rw [hpow, h53] at h2
      have h3 : n * 2 ^ 1074 < 9007199254740992 * 2 ^ 1074 :=
        Nat.mul_lt_mul_of_pos_right hn (pow_pos (by decide) _)
      omega
  have hfin : (double.of_uint n).isinf = false := fp_pack_isinf _ _ _ (by omega)
  obtain ⟨hm, hk2⟩ := fp_round_significand n 1 Nat.one_pos
  have hmag : (double.of_uint n).mag = _ := fp_pack_mag false _ _ hm hk2 hfin
  refine ⟨fp_round_sign _ _ _, fp_round_isnan _ _ _, hfin, ?_⟩
  rw [hmag, Nat.one_mul]
  generalize fp_log2 (n * 2 ^ 1074 / 1) - 52 = k at hk
  obtain ⟨j, hj⟩ : ∃ j, 1074 = j + k := ⟨1074 - k, by omega⟩
  have hX : n * 2 ^ 1074 = n * 2 ^ j * 2 ^ k := by rw [hj, hpow, Nat.mul_assoc]
  rw [hX]
  have hP : 0 < 2 ^ k := pow_pos (by decide) _
  unfold fp_nearest
  simp only []
  rw [Nat.mul_mod_left, Nat.mul_div_cancel _ hP, if_pos (by omega)]

/-! ## Claims about the fair-share decision -/

/-- C30 (fair-share decision). With `D` the `double` difference of the projected
fair share of the preemptee and that of the preemptor, the decision of
`_overalloc_test` is +1 exactly when one value is above 1 and the other below
1, the accounts differ and `D > 0`; -1 exactly when one value is above 1 and
the other below 1, the accounts differ and `D < 0`; and 0 in every other case
(same account, both above 1, both below 1, one exactly 1, one not a number).
`_overalloc_test` returns this decision for its two projected values. With the
fair-share switch on, a positive result makes the preemptor preempt and a
negative result makes it not preempt, whatever the priorities, and the result
0 leaves the priority rule. In the sample, starting B (priority 100)
overcommits its account while the account of A (priority 50) is under its
share: B cannot preempt A when the accounts differ and can when they are
equal. With shares of `0.1` of 30 CPUs and 3 CPUs in use the projected value
is exactly `1.0` and the decision is 0. With no shares the allotment is zero:
2 CPUs in use give an infinite value and the decision +1 against a preemptor
under its share, and no CPU in use gives no number and the decision 0. -/
theorem overalloc_test_decision :
    (∀ (fe fr : double) (ar ae : String),
      (overalloc_decision fe fr ar ae = 1 ↔
        ((double.gt fe double.one = true ∧ double.lt fr double.one = true) ∨
          (double.lt fe double.one = true ∧ double.gt fr double.one = true)) ∧ ar ≠ ae ∧
        double.gt (double.sub fe fr) double.zero = true) ∧
      (overalloc_decision fe fr ar ae = -1 ↔
        ((double.gt fe double.one = true ∧ double.lt fr double.one = true) ∨
          (double.lt fe double.one = true ∧ double.gt fr double.one = true)) ∧ ar ≠ ae ∧
        double.lt (double.sub fe fr) double.zero = true) ∧
      (overalloc_decision fe fr ar ae = 0 ↔
        ¬ (((double.gt fe double.one = true ∧ double.lt fr double.one = true) ∨
          (double.lt fe double.one = true ∧ double.gt fr double.one = true)) ∧ ar ≠ ae)) ∧
      (ar = ae → overalloc_decision fe fr ar ae = 0) ∧
      (double.gt fe double.one = true → double.gt fr double.one = true →
        overalloc_decision fe fr ar ae = 0) ∧
      (double.lt fe double.one = true → double.lt fr double.one = true →
        overalloc_decision fe fr ar ae = 0) ∧
      (fe.num = double.one.num ∨ fr.num = double.one.num →
        overalloc_decision fe fr ar ae = 0) ∧
      (fe.isnan = true ∨ fr.isnan = true → overalloc_decision fe fr ar ae = 0) ∧
      (double.gt fr double.one = true → double.lt fe double.one = true → ar ≠ ae →
        overalloc_decision fe fr ar ae = -1) ∧
      (double.lt fr double.one = true → double.gt fe double.one = true → ar ≠ ae →
        overalloc_decision fe fr ar ae = 1)) ∧
    (∀ (preemptor preemptee : job_record) (rc : Int),
      _overalloc_test preemptor preemptee = some rc →
      ∃ fe fr assoc_preemptor assoc_preemptee,
        overalloc_fairshare preemptor preemptee = some (fe, fr) ∧
        preemptor.assoc_ptr = some assoc_preemptor ∧
        preemptee.assoc_ptr = some assoc_preemptee ∧
        rc = overalloc_decision fe fr assoc_preemptor.acct assoc_preemptee.acct) ∧
    (∀ (overalloc_test : job_record → job_record → Int) (preemptor preemptee : job_record),
      (overalloc_test preemptor preemptee > 0 →
        job_prio_preemptable_switch 1 overalloc_test preemptor preemptee = true) ∧
      (overalloc_test preemptor preemptee < 0 →
        job_prio_preemptable_switch 1 overalloc_test preemptor preemptee = false) ∧
      (overalloc_test preemptor preemptee = 0 →
        job_prio_preemptable_switch 1 overalloc_test preemptor preemptee =
          decide (preemptor.priority > preemptee.priority))) ∧
    overalloc_fairshare (sample_fair_job 2 100 job_states.JOB_PENDING 6 "X" 4)
        (sample_fair_job 1 50 job_states.JOB_RUNNING 2 "Y" 2) =
      some (⟨false, 1021, 0⟩, ⟨false, 1023, 1125899906842624⟩) ∧
    _overalloc_test (sample_fair_job 2 100 job_states.JOB_PENDING 6 "X" 4)
        (sample_fair_job 1 50 job_states.JOB_RUNNING 2 "Y" 2) = some (-1) ∧
    _overalloc_test (sample_fair_job 2 100 job_states.JOB_PENDING 6 "X" 4)
        (sample_fair_job 1 50 job_states.JOB_RUNNING 2 "X" 4) = some 0 ∧
    job_prio_preemptable_switch 1 (fun preemptor preemptee =>
        (_overalloc_test preemptor preemptee).getD 0)
      (sample_fair_job 2 100 job_states.JOB_PENDING 6 "X" 4)
      (sample_fair_job 1 50 job_states.JOB_RUNNING 2 "Y" 2) = false ∧
    job_prio_preemptable_switch 1 (fun preemptor preemptee =>
        (_overalloc_test preemptor preemptee).getD 0)
      (sample_fair_job 2 100 job_states.JOB_PENDING 6 "X" 4)
      (sample_fair_job 1 50 job_states.JOB_RUNNING 2 "X" 4) = true ∧
    overalloc_fairshare (sample_tenth_job 2 100 job_states.JOB_PENDING 1 "X" 5)
        (sample_tenth_job 1 50 job_states.JOB_RUNNING 2 "Y" 3) =
      some (double.one, ⟨false, 1024, 0⟩) ∧
    _overalloc_test (sample_tenth_job 2 100 job_states.JOB_PENDING 1 "X" 5)
        (sample_tenth_job 1 50 job_states.JOB_RUNNING 2 "Y" 3) = some 0 ∧
    overalloc_fairshare (sample_fair_job 2 100 job_states.JOB_PENDING 2 "X" 0)
        (sample_noshare_job 1 50 job_states.JOB_RUNNING 2 "Y" 2) =
      some (⟨false, 2047, 0⟩, ⟨false, 1021, 0⟩) ∧
    _overalloc_test (sample_fair_job 2 100 job_states.JOB_PENDING 2 "X" 0)
        (sample_noshare_job 1 50 job_states.JOB_RUNNING 2 "Y" 2) = some 1 ∧
    (overalloc_fairshare (sample_fair_job 2 100 job_states.JOB_PENDING 2 "X" 0)
        (sample_noshare_job 1 50 job_states.JOB_RUNNING 2 "Y" 0)).map
      (fun v => v.1.isnan) = some true ∧
    _overalloc_test (sample_fair_job 2 100 job_states.JOB_PENDING 2 "X" 0)
        (sample_noshare_job 1 50 job_states.JOB_RUNNING 2 "Y" 0) = some 0 := by
  refine ⟨?_, ?_, ?_, by decide!, by decide!, by decide!, by decide!, by decide!, by decide!,
    by decide!, by decide!, by decide!, by decide!, by decide!⟩
  · intro fe fr ar ae
    rw [overalloc_decision_eval]
    have hc := double.sub_compare fe fr
    refine ⟨?_, ?_, ?_, ?_, ?_, ?_, ?_, ?_, ?_, ?_⟩
    · constructor
      · intro h
        by_cases h1 : ((double.gt fe double.one = true ∧ double.lt fr double.one = true) ∨
            (double.lt fe double.one = true ∧ double.gt fr double.one = true)) ∧ ar ≠ ae
        · rw [if_pos h1] at h
          by_cases h2 : double.gt fe double.one = true
          · rcases h1.1 with ⟨a, b⟩ | ⟨a, b⟩
            · exact ⟨h1.1, h1.2, (hc.1 a b).2.1⟩
            · rw [(hc.2 a b).2.2.2] at h2
              exact absurd h2 (by decide)
          · rw [if_neg h2] at h
            exact absurd h (by decide)
        · rw [if_neg h1] at h
          exact absurd h (by decide)
      · rintro ⟨h1, h2, h3⟩
        rcases h1 with ⟨a, b⟩ | ⟨a, b⟩
        · rw [if_pos ⟨Or.inl ⟨a, b⟩, h2⟩, if_pos a]
        · rw [(hc.2 a b).2.1] at h3
          exact absurd h3 (by decide)
    · constructor
      · intro h
        by_cases h1 : ((double.gt fe double.one = true ∧ double.lt fr double.one = true) ∨
            (double.lt fe double.one = true ∧ double.gt fr double.one = true)) ∧ ar ≠ ae
        · rw [if_pos h1] at h
          by_cases h2 : double.gt fe double.one = true
          · rw [if_pos h2] at h
            exact absurd h (by decide)
          · rcases h1.1 with ⟨a, b⟩ | ⟨a, b⟩
            · exact absurd a h2
            · exact ⟨h1.1, h1.2, (hc.2 a b).2.2.1⟩
        · rw [if_neg h1] at h
          exact absurd h (by decide)
      · rintro ⟨h1, h2, h3⟩
        rcases h1 with ⟨a, b⟩ | ⟨a, b⟩
        · rw [(hc.1 a b).2.2.1] at h3
          exact absurd h3 (by decide)
        · rw [if_pos ⟨Or.inr ⟨a, b⟩, h2⟩, if_neg (by rw [(hc.2 a b).2.2.2]; decide)]
    · constructor
      · intro h
        by_cases h1 : ((double.gt fe double.one = true ∧ double.lt fr double.one = true) ∨
            (double.lt fe double.one = true ∧ double.gt fr double.one = true)) ∧ ar ≠ ae
        · rw [if_pos h1] at h
          by_cases h2 : double.gt fe double.one = true
          · rw [if_pos h2] at h
            exact absurd h (by decide)
          · rw [if_neg h2] at h
            exact absurd h (by decide)
        · exact h1
      · intro h
        rw [if_neg h]
    · intro h
      rw [if_neg (fun hc => hc.2 h)]
    · intro h1 h2
      rw [if_neg]
      rw [double.gt_iff] at h1 h2
      rintro ⟨⟨a, b⟩ | ⟨a, b⟩, _⟩
      · rw [double.lt_iff] at b; omega
      · rw [double.lt_iff] at a; omega
    · intro h1 h2
      rw [if_neg]
      rw [double.lt_iff] at h1 h2
      rintro ⟨⟨a, b⟩ | ⟨a, b⟩, _⟩
      · rw [double.gt_iff] at a; omega
      · rw [double.gt_iff] at b; omega
    · intro h
      rw [if_neg]
      rintro ⟨⟨a, b⟩ | ⟨a, b⟩, _⟩ <;> rw [double.gt_iff] at * <;> rw [double.lt_iff] at * <;>
        rcases h with h | h <;> omega
    · intro h
      rw [if_neg]
      rintro ⟨⟨a, b⟩ | ⟨a, b⟩, _⟩ <;> rw [double.gt_iff] at * <;> rw [double.lt_iff] at * <;>
        rcases h with h | h <;> simp_all
    · intro h1 h2 h3
      rw [if_pos ⟨Or.inr ⟨h2, h1⟩, h3⟩, if_neg (by rw [(hc.2 h2 h1).2.2.2]; decide)]
    · intro h1 h2 h3
      rw [if_pos ⟨Or.inl ⟨h2, h1⟩, h3⟩, if_pos h2]
  · intro preemptor preemptee rc h
    unfold _overalloc_test at h
    split at h
    · rename_i fe fr ar ae h1 h2 h3
      exact ⟨fe, fr, ar, ae, h1, h2, h3, by simpa using h.symm⟩
    · cases h
  · intro overalloc_test preemptor preemptee
    refine ⟨fun h => ?_, fun h => ?_, fun h => ?_⟩
    · simp [job_prio_preemptable_switch, h]
    · have h2 : ¬ overalloc_test preemptor preemptee > 0 := by omega
      simp [job_prio_preemptable_switch, h, h2]
    · simp [job_prio_preemptable_switch, h]

/-! ## Claims about the limits computed for a job -/

/-- The result of `bf_limits` when the partition is usable, the job is
runnable and both pointers are set: the skip on the node counts, or the plan in
closed form. -/
theorem bf_limits_eval (c : bf_cycle) (e : bf_queue_rec) (s : bf_state)
    (details : job_details) (node_bitmap : bitstr_t)
    (hd : e.job_ptr.details = some details) (hb : e.part.node_bitmap = some node_bitmap)
    (husable : ¬ (e.part.state_up &&& c.consts.PARTITION_SCHED = 0 ∨
      e.part.node_bitmap = none ∨
      (e.part.flags &&& c.consts.PART_FLAG_ROOT_ONLY ≠ 0 ∧ c.filter_root = true)))
    (hrun : ¬ (e.job_independent = false ∨ e.license_job_test ≠ c.consts.SLURM_SUCCESS)) :
    bf_limits c e s =
      if max details.min_nodes e.part.min_nodes >
          min (if details.max_nodes = 0 then e.part.max_nodes
            else min details.max_nodes e.part.max_nodes) 500000 then
        bf_result.exit s bf_flow.next
      else
        bf_result.go s
          { node_bitmap := node_bitmap, details := details,
            min_nodes := max details.min_nodes e.part.min_nodes,
            max_nodes := min (if details.max_nodes = 0 then e.part.max_nodes
              else min details.max_nodes e.part.max_nodes) 500000,
            req_nodes := if details.max_nodes ≠ 0 then
                min (if details.max_nodes = 0 then e.part.max_nodes
                  else min details.max_nodes e.part.max_nodes) 500000
              else max details.min_nodes e.part.min_nodes,
            time_limit :=
              if (match e.job_ptr.qos_ptr with
                  | none => false
                  | some qos_ptr =>
                    decide (qos_ptr.flags &&& c.consts.QOS_FLAG_NO_RESERVE ≠ 0)) = true ∧
                  e.slurm_get_preempt_mode ≠ 0 then 1
              else if e.job_ptr.time_min ≠ 0 ∧ e.job_ptr.time_min <
                  (if e.job_ptr.time_limit = c.consts.NO_VAL then
                    (if e.part.max_time = c.consts.INFINITE then 365 * 24 * 60
                      else e.part.max_time)
                  else if e.part.max_time = c.consts.INFINITE then e.job_ptr.time_limit
                  else min e.job_ptr.time_limit
                    (if e.part.max_time = c.consts.INFINITE then 365 * 24 * 60
                      else e.part.max_time)) then e.job_ptr.time_min
              else
                (if e.job_ptr.time_limit = c.consts.NO_VAL then
                  (if e.part.max_time = c.consts.INFINITE then 365 * 24 * 60
                    else e.part.max_time)
                else if e.part.max_time = c.consts.INFINITE then e.job_ptr.time_limit
                else min e.job_ptr.time_limit
                  (if e.part.max_time = c.consts.INFINITE then 365 * 24 * 60
                    else e.part.max_time)),
            comp_time_limit :=
              if e.job_ptr.time_limit = c.consts.NO_VAL then
                (if e.part.max_time = c.consts.INFINITE then 365 * 24 * 60
                  else e.part.max_time)
              else if e.part.max_time = c.consts.INFINITE then e.job_ptr.time_limit
              else min e.job_ptr.time_limit
                (if e.part.max_time = c.consts.INFINITE then 365 * 24 * 60
                  else e.part.max_time),
            orig_time_limit := e.job_ptr.time_limit,
            no_reserve :=
              match e.job_ptr.qos_ptr with
              | none => false
              | some qos_ptr => decide (qos_ptr.flags &&& c.consts.QOS_FLAG_NO_RESERVE ≠ 0) } := by
  unfold bf_limits
  rw [if_neg husable, if_neg hrun]
  simp only [hd, hb]

/-- A plan comes only from an entry that passed the partition and dependency
tests and has both pointers set. -/
theorem bf_limits_go (c : bf_cycle) (e : bf_queue_rec) (s s1 : bf_state) (plan : bf_plan)
    (h : bf_limits c e s = bf_result.go s1 plan) :
    ∃ details node_bitmap, e.job_ptr.details = some details ∧
      e.part.node_bitmap = some node_bitmap ∧
      ¬ (e.part.state_up &&& c.consts.PARTITION_SCHED = 0 ∨
        e.part.node_bitmap = none ∨
        (e.part.flags &&& c.consts.PART_FLAG_ROOT_ONLY ≠ 0 ∧ c.filter_root = true)) ∧
      ¬ (e.job_independent = false ∨ e.license_job_test ≠ c.consts.SLURM_SUCCESS) := by
  unfold bf_limits at h
  by_cases h1 : e.part.state_up &&& c.consts.PARTITION_SCHED = 0 ∨
      e.part.node_bitmap = none ∨
      (e.part.flags &&& c.consts.PART_FLAG_ROOT_ONLY ≠ 0 ∧ c.filter_root = true)
  · rw [if_pos h1] at h; cases h
  · rw [if_neg h1] at h
    by_cases h2 : e.job_independent = false ∨ e.license_job_test ≠ c.consts.SLURM_SUCCESS
    · rw [if_pos h2] at h; cases h
    · rw [if_neg h2] at h
      cases hb : e.part.node_bitmap with
      | none => exact absurd (Or.inr (Or.inl hb)) h1
      | some node_bitmap =>
        cases hd : e.job_ptr.details with
        | none => rw [hb, hd] at h; cases h
        | some details => exact ⟨details, node_bitmap, rfl, rfl, by rw [← hb]; exact h1, h2⟩

/-- C25, as the code behaves: in a partition whose `max_time` is INFINITE a job
with a limit of 1000000 minutes is planned with `time_limit = 1000000`; this
is more than one year (525600 minutes) and is not the minimum of the job limit
and the one-year stand-in of the partition limit. -/
theorem attempt_backfill_time_limit_exceeds_year :
    sample_long_entry.part.max_time = (sample_cycle 100 0 false).consts.INFINITE ∧
    sample_long_entry.job_ptr.time_limit = 1000000 ∧
    (bf_limits (sample_cycle 100 0 false) sample_long_entry
      (bf_init (sample_cycle 100 0 false))).value.map (fun plan => plan.time_limit)
        = some 1000000 ∧
    min 1000000 (365 * 24 * 60) = 525600 ∧
    ¬ (1000000 ≤ 365 * 24 * 60) := by
  refine ⟨rfl, rfl, ?_, by norm_num, by norm_num⟩
  rfl

/-- C25, amended: for a job that reaches the node selection, the planner's
limit `comp_time_limit` is the partition limit (one year, 525600 minutes, for
INFINITE) when the job limit is NO_VAL, the job limit itself when the
partition limit is INFINITE, and the smaller of the two otherwise; so it never
exceeds a finite partition limit nor a job limit that is set. The planning
`time_limit` is 1 when the QoS has NO_RESERVE and the cluster preempt mode is
non-zero, otherwise `time_min` when that is non-zero and smaller, otherwise
`comp_time_limit`. -/
theorem attempt_backfill_time_limit (c : bf_cycle) (e : bf_queue_rec) (s s1 : bf_state)
    (plan : bf_plan) (h : bf_limits c e s = bf_result.go s1 plan) :
    plan.comp_time_limit =
      (if e.job_ptr.time_limit = c.consts.NO_VAL then
        (if e.part.max_time = c.consts.INFINITE then 525600 else e.part.max_time)
      else if e.part.max_time = c.consts.INFINITE then e.job_ptr.time_limit
      else min e.job_ptr.time_limit e.part.max_time) ∧
    (e.part.max_time ≠ c.consts.INFINITE → plan.comp_time_limit ≤ e.part.max_time) ∧
    (e.job_ptr.time_limit ≠ c.consts.NO_VAL → plan.comp_time_limit ≤ e.job_ptr.time_limit) ∧
    (e.job_ptr.time_limit = c.consts.NO_VAL → e.part.max_time = c.consts.INFINITE →
      plan.comp_time_limit = 525600) ∧
    (plan.no_reserve = true ↔
      ∃ qos_ptr, e.job_ptr.qos_ptr = some qos_ptr ∧
        qos_ptr.flags &&& c.consts.QOS_FLAG_NO_RESERVE ≠ 0) ∧
    plan.time_limit =
      (if plan.no_reserve = true ∧ e.slurm_get_preempt_mode ≠ 0 then 1
      else if e.job_ptr.time_min ≠ 0 ∧ e.job_ptr.time_min < plan.comp_time_limit then
        e.job_ptr.time_min
      else plan.comp_time_limit) := by
  obtain ⟨details, node_bitmap, hd, hb, h1, h2⟩ := bf_limits_go c e s s1 plan h
  rw [bf_limits_eval c e s details node_bitmap hd hb h1 h2] at h
  by_cases hskip : max details.min_nodes e.part.min_nodes >
      min (if details.max_nodes = 0 then e.part.max_nodes
        else min details.max_nodes e.part.max_nodes) 500000
  · rw [if_pos hskip] at h
    cases h
  rw [if_neg hskip] at h
  injection h with hs hp
  subst hp
  dsimp only
  refine ⟨?_, ?_, ?_, ?_, ?_, rfl⟩
  · split_ifs <;> rfl
  · intro hne
    rw [if_neg hne]
    split_ifs
    · exact le_refl _
    · exact min_le_right _ _
  · intro hne
    rw [if_neg hne]
    split_ifs
    · exact le_refl _
    · exact min_le_left _ _
  · intro h3 h4
    rw [if_pos h3, if_pos h4]
  · cases hq : e.job_ptr.qos_ptr with
    | none => simp
    | some qos_ptr => simp

/-- Witness for C25: the long job in the partition without a time limit. -/
theorem attempt_backfill_time_limit_witness :
    (1000000 : Nat) =
      (if sample_long_entry.job_ptr.time_limit = (sample_cycle 100 0 false).consts.NO_VAL then
        (if sample_long_entry.part.max_time = (sample_cycle 100 0 false).consts.INFINITE
          then 525600 else sample_long_entry.part.max_time)
      else if sample_long_entry.part.max_time = (sample_cycle 100 0 false).consts.INFINITE
        then sample_long_entry.job_ptr.time_limit
      else min sample_long_entry.job_ptr.time_limit sample_long_entry.part.max_time) :=
  (attempt_backfill_time_limit (sample_cycle 100 0 false) sample_long_entry
    (bf_init (sample_cycle 100 0 false)) (bf_init (sample_cycle 100 0 false))
    { node_bitmap := {0, 1, 2, 3, 4, 5},
      details := { expanding_jobid := 0, min_nodes := 1, max_nodes := 1,
                   exc_node_bitmap := none, req_node_bitmap := none,
                   feature_list := none, share_res := 0 },
      min_nodes := 1, max_nodes := 1, req_nodes := 1, time_limit := 1000000,
      comp_time_limit := 1000000, orig_time_limit := 1000000, no_reserve := false }
    rfl).1

/-- C26 (node-count bounds). For a job that reaches the node selection,
`min_nodes` is the larger of the job and partition minimum, `max_nodes` is the
partition maximum when the job names none and the smaller of the two
otherwise, capped at 500000, and `req_nodes` is `max_nodes` when the job names
a maximum and `min_nodes` otherwise, with
`min_nodes ≤ req_nodes ≤ max_nodes ≤ 500000`. A job in a usable partition that
is runnable is skipped at this point exactly when `min_nodes > max_nodes`. -/
theorem attempt_backfill_node_counts (c : bf_cycle) (e : bf_queue_rec) (s : bf_state) :
    (∀ s1 plan, bf_limits c e s = bf_result.go s1 plan →
      ∃ details, e.job_ptr.details = some details ∧
        plan.min_nodes = max details.min_nodes e.part.min_nodes ∧
        plan.max_nodes = min (if details.max_nodes = 0 then e.part.max_nodes
          else min details.max_nodes e.part.max_nodes) 500000 ∧
        plan.req_nodes = (if details.max_nodes ≠ 0 then plan.max_nodes else plan.min_nodes) ∧
        plan.min_nodes ≤ plan.req_nodes ∧ plan.req_nodes ≤ plan.max_nodes ∧
        plan.max_nodes ≤ 500000) ∧
    (∀ details node_bitmap, e.job_ptr.details = some details →
      e.part.node_bitmap = some node_bitmap →
      ¬ (e.part.state_up &&& c.consts.PARTITION_SCHED = 0 ∨
        e.part.node_bitmap = none ∨
        (e.part.flags &&& c.consts.PART_FLAG_ROOT_ONLY ≠ 0 ∧ c.filter_root = true)) →
      ¬ (e.job_independent = false ∨ e.license_job_test ≠ c.consts.SLURM_SUCCESS) →
      (bf_limits c e s = bf_result.exit s bf_flow.next ↔
        max details.min_nodes e.part.min_nodes >
          min (if details.max_nodes = 0 then e.part.max_nodes
            else min details.max_nodes e.part.max_nodes) 500000) ∧
      ((∃ plan, bf_limits c e s = bf_result.go s plan) ↔
        ¬ (max details.min_nodes e.part.min_nodes >
          min (if details.max_nodes = 0 then e.part.max_nodes
            else min details.max_nodes e.part.max_nodes) 500000))) := by
  constructor
  · intro s1 plan h
    obtain ⟨details, node_bitmap, hd, hb, h1, h2⟩ := bf_limits_go c e s s1 plan h
    rw [bf_limits_eval c e s details node_bitmap hd hb h1 h2] at h
    by_cases hskip : max details.min_nodes e.part.min_nodes >
        min (if details.max_nodes = 0 then e.part.max_nodes
          else min details.max_nodes e.part.max_nodes) 500000
    · rw [if_pos hskip] at h
      cases h
    rw [if_neg hskip] at h
    injection h with hs hp
    subst hp
    dsimp only
    refine ⟨details, hd, rfl, rfl, rfl, ?_, ?_, min_le_right _ _⟩
    · generalize min (if details.max_nodes = 0 then e.part.max_nodes
        else min details.max_nodes e.part.max_nodes) 500000 = b at hskip ⊢
      generalize max details.min_nodes e.part.min_nodes = a at hskip ⊢
      split_ifs <;> omega
    · generalize min (if details.max_nodes = 0 then e.part.max_nodes
        else min details.max_nodes e.part.max_nodes) 500000 = b at hskip ⊢
      generalize max details.min_nodes e.part.min_nodes = a at hskip ⊢
      split_ifs <;> omega
  · intro details node_bitmap hd hb h1 h2
    rw [bf_limits_eval c e s details node_bitmap hd hb h1 h2]
    constructor
    · constructor
      · intro h
        by_contra hskip
        rw [if_neg hskip] at h
        cases h
      · intro h
        rw [if_pos h]
    · constructor
      · rintro ⟨plan, h⟩ hskip
        rw [if_pos hskip] at h
        cases h
      · intro h
        rw [if_neg h]
        exact ⟨_, rfl⟩

/-! ## Claims about the availability scan -/

theorem isChain_next_ne {ns : Nat → node_space_map_t} :
    ∀ (l : List Nat) (j k : Nat), IsChain ns j l → k ∈ (j :: l).dropLast →
      (ns k).next ≠ 0 := by
  intro l
  induction l with
  | nil => intro j k _ hk; simp at hk
  | cons a l ih =>
    intro j k h hk
    obtain ⟨h1, h2, h3⟩ := h
    rw [List.dropLast_cons₂, List.mem_cons] at hk
    rcases hk with hk | hk
    · subst hk; rw [h1]; exact h2
    · exact ih a k h3 hk

/-- The scan of lines 1117-1130 over a chain ordered by `begin_time`: it
returns, and a node stays in the bitmap exactly when it was there and every
chain entry that intersects the window holds it. -/
theorem bf_scan_spec (ns : Nat → node_space_map_t) (start_res end_time : Nat) :
    ∀ (l : List Nat) (j fuel later_start : Nat) (avail : bitstr_t),
      IsChain ns j l →
      (∀ k ∈ j :: l, (ns k).avail_bitmap ≠ none) →
      (j :: l).Pairwise (fun a b => (ns a).begin_time ≤ (ns b).begin_time) →
      l.length + 1 ≤ fuel →
      ∃ ls avail1, bf_scan ns start_res end_time fuel j later_start avail = some (ls, avail1) ∧
        ∀ n, n ∈ avail1 ↔ n ∈ avail ∧ ∀ k ∈ j :: l, (ns k).end_time > start_res →
          (ns k).begin_time ≤ end_time → ∀ b, (ns k).avail_bitmap = some b → n ∈ b := by
  intro l
  induction l with
  | nil =>
    intro j fuel later_start avail hc hb _ hf
    cases fuel with
    | zero => omega
    | succ f =>
      have hn : (ns j).next = 0 := hc
      obtain ⟨b, hbj⟩ := Option.ne_none_iff_exists'.mp (hb j (List.mem_cons_self _ _))
      unfold bf_scan
      simp only [hn, hbj, if_true]
      by_cases h1 : (ns j).end_time ≤ start_res
      · rw [if_pos h1]
        refine ⟨_, _, rfl, ?_⟩
        intro n
        constructor
        · intro hn2
          refine ⟨hn2, ?_⟩
          intro k hk hk1
          simp at hk
          subst hk
          omega
        · intro hn2; exact hn2.1
      · rw [if_neg h1]
        by_cases h2 : (ns j).begin_time ≤ end_time
        · rw [if_pos h2]
          refine ⟨_, _, rfl, ?_⟩
          intro n
          simp only [bit_and, Finset.mem_inter]
          constructor
          · intro hn2
            refine ⟨hn2.1, ?_⟩
            intro k hk _ _ b2 hb2
            simp at hk
            subst hk
            rw [hbj] at hb2
            cases hb2
            exact hn2.2
          · intro hn2
            exact ⟨hn2.1, hn2.2 j (List.mem_cons_self _ _) (by omega) h2 b hbj⟩
        · rw [if_neg h2]
          refine ⟨_, _, rfl, ?_⟩
          intro n
          constructor
          · intro hn2
            refine ⟨hn2, ?_⟩
            intro k hk _ hk2
            simp at hk
            subst hk
            omega
          · intro hn2; exact hn2.1
  | cons a l ih =>
    intro j fuel later_start avail hc hb hp hf
    cases fuel with
    | zero => omega
    | succ f =>
      obtain ⟨hn, ha, hrest⟩ := hc
      have hn0 : (ns j).next ≠ 0 := by rw [hn]; exact ha
      obtain ⟨b, hbj⟩ := Option.ne_none_iff_exists'.mp (hb j (List.mem_cons_self _ _))
      have hb2 : ∀ k ∈ a :: l, (ns k).avail_bitmap ≠ none :=
        fun k hk => hb k (List.mem_cons_of_mem _ hk)
      have hp2 := (List.pairwise_cons.mp hp).2
      have hp1 := (List.pairwise_cons.mp hp).1
      have hf2 : l.length + 1 ≤ f := by simp at hf; omega
      unfold bf_scan
      simp only [hbj, if_neg hn0]
      rw [hn]
      by_cases h1 : (ns j).end_time ≤ start_res
      · rw [if_pos h1]
        obtain ⟨ls, avail1, hres, hmem⟩ := ih a f
          (if (ns j).end_time > start_res ∧ a ≠ 0 ∧ later_start = 0 then (ns j).end_time
            else later_start) avail hrest hb2 hp2 hf2
        refine ⟨ls, avail1, hres, ?_⟩
        intro n
        rw [hmem n]
        constructor
        · intro hn2
          refine ⟨hn2.1, ?_⟩
          intro k hk hk1 hk2 b2 hb3
          rw [List.mem_cons] at hk
          rcases hk with hk | hk
          · subst hk; omega
          · exact hn2.2 k hk hk1 hk2 b2 hb3
        · intro hn2
          exact ⟨hn2.1, fun k hk => hn2.2 k (List.mem_cons_of_mem _ hk)⟩
      · rw [if_neg h1]
        by_cases h2 : (ns j).begin_time ≤ end_time
        · rw [if_pos h2]
          obtain ⟨ls, avail1, hres, hmem⟩ := ih a f
            (if (ns j).end_time > start_res ∧ a ≠ 0 ∧ later_start = 0 then (ns j).end_time
              else later_start) (bit_and avail b) hrest hb2 hp2 hf2
          refine ⟨ls, avail1, hres, ?_⟩
          intro n
          rw [hmem n]
          simp only [bit_and, Finset.mem_inter]
          constructor
          · intro hn2
            refine ⟨hn2.1.1, ?_⟩
            intro k hk hk1 hk2 b2 hb3
            rw [List.mem_cons] at hk
            rcases hk with hk | hk
            · subst hk
              rw [hbj] at hb3
              cases hb3
              exact hn2.1.2
            · exact hn2.2 k hk hk1 hk2 b2 hb3
          · intro hn2
            exact ⟨⟨hn2.1, hn2.2 j (List.mem_cons_self _ _) (by omega) h2 b hbj⟩,
              fun k hk => hn2.2 k (List.mem_cons_of_mem _ hk)⟩
        · rw [if_neg h2]
          refine ⟨_, _, rfl, ?_⟩
          intro n
          constructor
          · intro hn2
            refine ⟨hn2, ?_⟩
            intro k hk _ hk2
            rw [List.mem_cons] at hk
            rcases hk with hk | hk
            · subst hk; omega
            · have hq := hp1 k hk
              omega
          · intro hn2; exact hn2.1

/-- The scan that a pass runs, and what the pass hands on when it goes on to
the scheduling test. -/
theorem bf_pass_test_go {c : bf_cycle} {plan : bf_plan} {p : bf_pass_env} {s s1 : bf_state}
    {later_start : Nat} {a : bf_avail}
    (h : bf_pass_test c plan p s later_start = bf_later.go s1 a) :
    ∃ ls avail,
      bf_scan s.space.node_space (p.job_test_resv later_start).start_res
        (bf_pass_end_time plan s (p.job_test_resv later_start).start_res) c.fuel 0 0
        (bf_pass_base plan p s later_start) = some (ls, avail) ∧
      s1 = s ∧ a.start_res = (p.job_test_resv later_start).start_res ∧
      a.avail_bitmap =
        (match plan.details.exc_node_bitmap with
          | none => avail
          | some exc_node_bitmap =>
            bit_and avail (bit_not c.node_record_count exc_node_bitmap)) := by
  unfold bf_pass_test at h
  simp only [] at h
  by_cases hrc : (p.job_test_resv later_start).rc ≠ c.consts.SLURM_SUCCESS
  · rw [if_pos hrc] at h
    cases h
  · rw [if_neg hrc] at h
    cases hscan : bf_scan s.space.node_space (p.job_test_resv later_start).start_res
        (bf_pass_end_time plan s (p.job_test_resv later_start).start_res) c.fuel 0 0
        (bf_pass_base plan p s later_start) with
    | none =>
      unfold bf_pass_end_time bf_pass_base at hscan
      simp only [] at hscan
      rw [hscan] at h
      cases h
    | some r =>
      obtain ⟨ls, avail⟩ := r
      refine ⟨ls, avail, rfl, ?_⟩
      unfold bf_pass_end_time bf_pass_base at hscan
      simp only [] at hscan
      rw [hscan] at h
      simp only [] at h
      split_ifs at h
      all_goals (cases h; exact ⟨rfl, rfl, rfl⟩)

theorem sample_space_chainOK : ChainOK sample_scan_state.space [1, 2] where
  chain := ⟨rfl, by decide, rfl, by decide, rfl⟩
  nodup := by decide
  alloc := by
    intro k hk
    simp at hk
    rcases hk with hk | hk | hk <;> subst hk <;> decide
  bitmap := by
    intro k hk
    simp at hk
    rcases hk with hk | hk | hk <;> subst hk <;> exact Option.some_ne_none _

/-- C22: for a well-formed chain ordered by `begin_time`, the availability scan
of a pass returns, and a node is in the bitmap it leaves exactly when it is in
the base bitmap (the bitmap of the reservation system, the nodes of the
partition, the up nodes and the non-completing nodes) and in the bitmap of every
chain entry with `end_time > start_res` and `begin_time <= end_time`; no
intersecting entry is left out by the early stop. The pass hands this bitmap on,
less the nodes the job excludes. -/
theorem attempt_backfill_scan_bitmap (c : bf_cycle) (plan : bf_plan) (p : bf_pass_env)
    (s : bf_state) (later_start : Nat) (l : List Nat)
    (hok : ChainOK s.space l)
    (hord : (0 :: l).Pairwise (fun a b =>
      (s.space.node_space a).begin_time ≤ (s.space.node_space b).begin_time))
    (hfuel : l.length + 1 ≤ c.fuel) :
    ∃ ls avail,
      bf_scan s.space.node_space (p.job_test_resv later_start).start_res
        (bf_pass_end_time plan s (p.job_test_resv later_start).start_res) c.fuel 0 0
        (bf_pass_base plan p s later_start) = some (ls, avail) ∧
      (∀ n, n ∈ avail ↔
        (n ∈ (p.job_test_resv later_start).avail_bitmap ∧ n ∈ plan.node_bitmap ∧
          n ∈ p.up_node_bitmap ∧ n ∈ s.non_cg_bitmap) ∧
        ∀ k ∈ 0 :: l,
          (s.space.node_space k).end_time > (p.job_test_resv later_start).start_res →
          (s.space.node_space k).begin_time ≤
            bf_pass_end_time plan s (p.job_test_resv later_start).start_res →
          ∀ b, (s.space.node_space k).avail_bitmap = some b → n ∈ b) ∧
      (∀ s1 a, bf_pass_test c plan p s later_start = bf_later.go s1 a →
        a.start_res = (p.job_test_resv later_start).start_res ∧
        a.avail_bitmap =
          (match plan.details.exc_node_bitmap with
            | none => avail
            | some exc_node_bitmap =>
              bit_and avail (bit_not c.node_record_count exc_node_bitmap))) := by
  obtain ⟨ls, avail, hscan, hmem⟩ := bf_scan_spec s.space.node_space
    (p.job_test_resv later_start).start_res
    (bf_pass_end_time plan s (p.job_test_resv later_start).start_res) l 0 c.fuel 0
    (bf_pass_base plan p s later_start) hok.chain hok.bitmap hord hfuel
  refine ⟨ls, avail, hscan, ?_, ?_⟩
  · intro n
    rw [hmem n]
    simp only [bf_pass_base, bit_and, Finset.mem_inter, and_assoc]
  · intro s1 a h
    obtain ⟨ls2, avail2, hscan2, _, h2, h3⟩ := bf_pass_test_go h
    rw [hscan] at hscan2
    cases hscan2
    exact ⟨h2, h3⟩

theorem attempt_backfill_scan_bitmap_witness :
    ChainOK sample_scan_state.space [1, 2] ∧
    (∃ ls avail,
      bf_scan sample_scan_state.space.node_space
        ((sample_pass 7 1000 0 1000).job_test_resv 1500).start_res
        (bf_pass_end_time sample_plan sample_scan_state
          ((sample_pass 7 1000 0 1000).job_test_resv 1500).start_res)
        (sample_cycle 0 0 false).fuel 0 0
        (bf_pass_base sample_plan (sample_pass 7 1000 0 1000) sample_scan_state 1500) =
          some (ls, avail) ∧
      (∀ n, n ∈ avail ↔
        (n ∈ ((sample_pass 7 1000 0 1000).job_test_resv 1500).avail_bitmap ∧
          n ∈ sample_plan.node_bitmap ∧
          n ∈ (sample_pass 7 1000 0 1000).up_node_bitmap ∧
          n ∈ sample_scan_state.non_cg_bitmap) ∧
        ∀ k ∈ 0 :: [1, 2],
          (sample_scan_state.space.node_space k).end_time >
            ((sample_pass 7 1000 0 1000).job_test_resv 1500).start_res →
          (sample_scan_state.space.node_space k).begin_time ≤
            bf_pass_end_time sample_plan sample_scan_state
              ((sample_pass 7 1000 0 1000).job_test_resv 1500).start_res →
          ∀ b, (sample_scan_state.space.node_space k).avail_bitmap = some b → n ∈ b) ∧
      (∀ s1 a, bf_pass_test (sample_cycle 0 0 false) sample_plan (sample_pass 7 1000 0 1000)
          sample_scan_state 1500 = bf_later.go s1 a →
        a.start_res = ((sample_pass 7 1000 0 1000).job_test_resv 1500).start_res ∧
        a.avail_bitmap =
          (match sample_plan.details.exc_node_bitmap with
            | none => avail
            | some exc_node_bitmap =>
              bit_and avail
                (bit_not (sample_cycle 0 0 false).node_record_count exc_node_bitmap)))) :=
  ⟨sample_space_chainOK,
    attempt_backfill_scan_bitmap (sample_cycle 0 0 false) sample_plan
      (sample_pass 7 1000 0 1000) sample_scan_state 1500 [1, 2] sample_space_chainOK
      (by decide) (by decide)⟩

theorem resv_delay_minutes (b n : Nat) (h1 : n < b) (h2 : b - n < 2147483648) :
    ((Int.tdiv (difftime (b : Int) (n : Int)) 60) % 4294967296).toNat = (b - n) / 60 := by
  unfold difftime
  rw [Int.tdiv_eq_ediv (by omega) (by omega)]
  omega

/-- The loop of `_reset_job_time_limit` over a chain whose entries begin at
`now` or later: it returns the least of the limit on entry and the distances,
in minutes, to the entries that block the job. -/
theorem reset_time_limit_loop_spec (ns : Nat → node_space_map_t) (now end_time : Nat)
    (nb : bitstr_t) :
    ∀ (l : List Nat) (j fuel time_limit : Nat),
      IsChain ns j l →
      (∀ k ∈ j :: l, (ns k).avail_bitmap ≠ none) →
      l.length + 1 ≤ fuel →
      (∀ k ∈ j :: l, (ns k).begin_time ≠ now →
        now < (ns k).begin_time ∧ (ns k).begin_time - now < 2147483648) →
      ∃ m, reset_time_limit_loop ns now end_time (some nb) fuel j time_limit = some m ∧
        m ≤ time_limit ∧
        (∀ k ∈ j :: l, (ns k).begin_time ≠ now → (ns k).begin_time < end_time →
          (∀ b, (ns k).avail_bitmap = some b → ¬ nb ⊆ b) →
          m ≤ ((ns k).begin_time - now) / 60) ∧
        (m = time_limit ∨ ∃ k ∈ j :: l, (ns k).begin_time ≠ now ∧
          (ns k).begin_time < end_time ∧
          (∀ b, (ns k).avail_bitmap = some b → ¬ nb ⊆ b) ∧
          m = ((ns k).begin_time - now) / 60) := by
  intro l
  have hstep : ∀ (j time_limit : Nat), (ns j).avail_bitmap ≠ none →
      ((ns j).begin_time ≠ now →
        now < (ns j).begin_time ∧ (ns j).begin_time - now < 2147483648) →
      ∃ t, (if (ns j).begin_time ≠ now ∧ (ns j).begin_time < end_time then
          match some nb, (ns j).avail_bitmap with
          | some node_bitmap, some avail_bitmap =>
            if (! bit_super_set node_bitmap avail_bitmap) = true then
              if difftime ((ns j).begin_time : Int) (now : Int) < -2147483648 ∨
                  2147483647 < difftime ((ns j).begin_time : Int) (now : Int) then none
              else
                if ((Int.tdiv (difftime ((ns j).begin_time : Int) (now : Int)) 60) %
                    4294967296).toNat < time_limit then
                  some ((Int.tdiv (difftime ((ns j).begin_time : Int) (now : Int)) 60) %
                    4294967296).toNat
                else some time_limit
            else some time_limit
          | _, _ => none
        else some time_limit) = some t ∧
        t ≤ time_limit ∧
        ((ns j).begin_time ≠ now → (ns j).begin_time < end_time →
          (∀ b, (ns j).avail_bitmap = some b → ¬ nb ⊆ b) →
          t ≤ ((ns j).begin_time - now) / 60) ∧
        (t = time_limit ∨ ((ns j).begin_time ≠ now ∧ (ns j).begin_time < end_time ∧
          (∀ b, (ns j).avail_bitmap = some b → ¬ nb ⊆ b) ∧
          t = ((ns j).begin_time - now) / 60)) := by
    intro j time_limit hb ha
    obtain ⟨b, hbj⟩ := Option.ne_none_iff_exists'.mp hb
    by_cases hc : (ns j).begin_time ≠ now ∧ (ns j).begin_time < end_time
    · rw [if_pos hc, hbj]
      simp only []
      obtain ⟨ha1, ha2⟩ := ha hc.1
      by_cases hsub : nb ⊆ b
      · have hs : ¬ ((! bit_super_set nb b) = true) := by
          simp [bit_super_set, hsub]
        rw [if_neg hs]
        refine ⟨_, rfl, le_refl _, ?_, Or.inl rfl⟩
        intro _ _ hq
        exact absurd hsub (hq b rfl)
      · have hs : (! bit_super_set nb b) = true := by
          simp [bit_super_set, hsub]
        rw [if_pos hs]
        have hr : ¬ (difftime ((ns j).begin_time : Int) (now : Int) < -2147483648 ∨
            2147483647 < difftime ((ns j).begin_time : Int) (now : Int)) := by
          unfold difftime
          omega
        rw [if_neg hr, resv_delay_minutes _ _ ha1 ha2]
        have hblock : ∀ b2, some b = some b2 → ¬ nb ⊆ b2 := by
          intro b2 hb2
          cases hb2
          exact hsub
        by_cases hlt : ((ns j).begin_time - now) / 60 < time_limit
        · rw [if_pos hlt]
          exact ⟨_, rfl, Nat.le_of_lt hlt, fun _ _ _ => le_refl _,
            Or.inr ⟨hc.1, hc.2, hblock, rfl⟩⟩
        · rw [if_neg hlt]
          exact ⟨_, rfl, le_refl _, fun _ _ _ => by omega, Or.inl rfl⟩
    · rw [if_neg hc]
      refine ⟨_, rfl, le_refl _, ?_, Or.inl rfl⟩
      intro h1 h2 _
      exact absurd ⟨h1, h2⟩ hc
  induction l with
  | nil =>
    intro j fuel time_limit hc hb hf ha
    cases fuel with
    | zero => omega
    | succ f =>
      have hn : (ns j).next = 0 := hc
      obtain ⟨t, ht, ht1, ht2, ht3⟩ := hstep j time_limit (hb j (List.mem_cons_self _ _))
        (ha j (List.mem_cons_self _ _))
      unfold reset_time_limit_loop
      simp only []
      rw [ht]
      simp only [hn, if_true]
      refine ⟨t, rfl, ht1, ?_, ?_⟩
      · intro k hk
        simp at hk
        subst hk
        exact ht2
      · rcases ht3 with ht3 | ht3
        · exact Or.inl ht3
        · exact Or.inr ⟨j, List.mem_cons_self _ _, ht3⟩
  | cons a l ih =>
    intro j fuel time_limit hc hb hf ha
    cases fuel with
    | zero => omega
    | succ f =>
      obtain ⟨hn, ha0, hrest⟩ := hc
      have hn0 : (ns j).next ≠ 0 := by rw [hn]; exact ha0
      obtain ⟨t, ht, ht1, ht2, ht3⟩ := hstep j time_limit (hb j (List.mem_cons_self _ _))
        (ha j (List.mem_cons_self _ _))
      obtain ⟨m, hm, hm1, hm2, hm3⟩ := ih a f t hrest
        (fun k hk => hb k (List.mem_cons_of_mem _ hk)) (by simp at hf; omega)
        (fun k hk => ha k (List.mem_cons_of_mem _ hk))
      unfold reset_time_limit_loop
      simp only []
      rw [ht]
      simp only [if_neg hn0]
      rw [hn]
      refine ⟨m, hm, by omega, ?_, ?_⟩
      · intro k hk hk1 hk2 hk3
        rw [List.mem_cons] at hk
        rcases hk with hk | hk
        · subst hk
          have hq := ht2 hk1 hk2 hk3
          omega
        · exact hm2 k hk hk1 hk2 hk3
      · rcases hm3 with hm3 | hm3
        · rcases ht3 with ht3 | ht3
          · left; omega
          · right
            refine ⟨j, List.mem_cons_self _ _, ht3.1, ht3.2.1, ht3.2.2.1, ?_⟩
            rw [hm3]
            exact ht3.2.2.2
        · right
          obtain ⟨k, hk, hk1⟩ := hm3
          exact ⟨k, List.mem_cons_of_mem _ hk, hk1⟩

/-- C27: on a chain whose entries begin at `now` or after it (less than 2^31
seconds after it, so that the delay fits `int32_t`), `_reset_job_time_limit`
returns and sets `time_limit` to `max(time_min, m)`, where `m` is the least of
the limit on entry and of `(begin_time - now) / 60` over the chain entries with
`begin_time != now`, `begin_time < end_time` of the job and a bitmap that does
not hold all nodes of the job (the limit on entry when there is none), and
`end_time` to `start_time + time_limit * 60`, the product being a `uint32_t`.
The new limit lies between `time_min` and `max(time_min, L0)`; when `time_min`
is at most every such distance and `start_time <= now`, the new `end_time` is
no later than the `begin_time` of any such entry. -/
theorem reset_job_time_limit_value (ns : Nat → node_space_map_t) (fuel : Nat)
    (job_ptr : job_record) (now : Nat) (l : List Nat) (nb : bitstr_t)
    (hchain : IsChain ns 0 l)
    (hbitmap : ∀ k ∈ 0 :: l, (ns k).avail_bitmap ≠ none)
    (hfuel : l.length + 1 ≤ fuel)
    (hnb : job_ptr.node_bitmap = some nb)
    (hafter : ∀ k ∈ 0 :: l, (ns k).begin_time ≠ now →
      now < (ns k).begin_time ∧ (ns k).begin_time - now < 2147483648) :
    ∃ m,
      _reset_job_time_limit fuel job_ptr now ns =
        some { job_ptr with
          time_limit := max job_ptr.time_min m,
          end_time := job_ptr.start_time + (max job_ptr.time_min m * 60) % 4294967296 } ∧
      m ≤ job_ptr.time_limit ∧
      (∀ k ∈ 0 :: l, (ns k).begin_time ≠ now → (ns k).begin_time < job_ptr.end_time →
        (∀ b, (ns k).avail_bitmap = some b → ¬ nb ⊆ b) →
        m ≤ ((ns k).begin_time - now) / 60) ∧
      (m = job_ptr.time_limit ∨ ∃ k ∈ 0 :: l, (ns k).begin_time ≠ now ∧
        (ns k).begin_time < job_ptr.end_time ∧
        (∀ b, (ns k).avail_bitmap = some b → ¬ nb ⊆ b) ∧
        m = ((ns k).begin_time - now) / 60) ∧
      ((∀ k ∈ 0 :: l, ¬ ((ns k).begin_time ≠ now ∧ (ns k).begin_time < job_ptr.end_time ∧
          ∀ b, (ns k).avail_bitmap = some b → ¬ nb ⊆ b)) →
        m = job_ptr.time_limit) ∧
      job_ptr.time_min ≤ max job_ptr.time_min m ∧
      max job_ptr.time_min m ≤ max job_ptr.time_min job_ptr.time_limit ∧
      (max job_ptr.time_min m * 60 < 4294967296 →
        job_ptr.start_time + (max job_ptr.time_min m * 60) % 4294967296 =
          job_ptr.start_time + max job_ptr.time_min m * 60) ∧
      ((∀ k ∈ 0 :: l, (ns k).begin_time ≠ now → (ns k).begin_time < job_ptr.end_time →
          (∀ b, (ns k).avail_bitmap = some b → ¬ nb ⊆ b) →
          job_ptr.time_min ≤ ((ns k).begin_time - now) / 60) →
        job_ptr.start_time ≤ now →
        ∀ k ∈ 0 :: l, (ns k).begin_time ≠ now → (ns k).begin_time < job_ptr.end_time →
          (∀ b, (ns k).avail_bitmap = some b → ¬ nb ⊆ b) →
          job_ptr.start_time + (max job_ptr.time_min m * 60) % 4294967296 ≤
            (ns k).begin_time) := by
  obtain ⟨m, hm, hm1, hm2, hm3⟩ := reset_time_limit_loop_spec ns now job_ptr.end_time nb l 0
    fuel job_ptr.time_limit hchain hbitmap hfuel hafter
  refine ⟨m, ?_, hm1, hm2, hm3, ?_, ?_, ?_, ?_, ?_⟩
  · unfold _reset_job_time_limit
    rw [hnb, hm]
  · intro hnone
    rcases hm3 with hm3 | hm3
    · exact hm3
    · obtain ⟨k, hk, hk1, hk2, hk3, _⟩ := hm3
      exact absurd ⟨hk1, hk2, hk3⟩ (hnone k hk)
  · omega
  · omega
  · intro hfit
    rw [Nat.mod_eq_of_lt hfit]
  · intro hmin hstart k hk hk1 hk2 hk3
    have h1 := hm2 k hk hk1 hk2 hk3
    have h2 := hmin k hk hk1 hk2 hk3
    have h3 := hafter k hk hk1
    omega

theorem reset_job_time_limit_value_witness :
    _reset_job_time_limit 12 sample_started_job 1000 sample_space.node_space =
      some { sample_started_job with time_limit := 16, end_time := 1960 } ∧
    ∃ m,
      _reset_job_time_limit 12 sample_started_job 1000 sample_space.node_space =
        some { sample_started_job with
          time_limit := max sample_started_job.time_min m,
          end_time := sample_started_job.start_time +
            (max sample_started_job.time_min m * 60) % 4294967296 } ∧
      m ≤ sample_started_job.time_limit :=
  ⟨by rfl,
    (reset_job_time_limit_value sample_space.node_space 12 sample_started_job 1000 [1, 2]
      {0} sample_space_chainOK.chain sample_space_chainOK.bitmap (by decide) rfl
      (by decide)).imp (fun _ h => ⟨h.1, h.2.1⟩)⟩

/-! ## Claims about the scheduling test -/

theorem feature_count_foldl_le :
    ∀ (l : List feature_record) (acc : Nat),
      acc ≤ l.foldl (fun rc feat_ptr => if feat_ptr.count ≠ 0 then rc + 1 else rc) acc := by
  intro l
  induction l with
  | nil => intro acc; exact le_refl _
  | cons f rest ih =>
    intro acc
    rw [List.foldl_cons]
    by_cases h : f.count ≠ 0
    · rw [if_pos h]
      exact Nat.le_trans (Nat.le_succ _) (ih _)
    · rw [if_neg h]
      exact ih _

theorem feature_count_foldl_pos :
    ∀ (l : List feature_record) (acc : Nat), (∃ feat ∈ l, feat.count ≠ 0) →
      acc < l.foldl (fun rc feat_ptr => if feat_ptr.count ≠ 0 then rc + 1 else rc) acc := by
  intro l
  induction l with
  | nil => intro acc h; simp at h
  | cons f rest ih =>
    intro acc h
    rw [List.foldl_cons]
    by_cases hf : f.count ≠ 0
    · rw [if_pos hf]
      exact feature_count_foldl_le rest (acc + 1)
    · rw [if_neg hf]
      apply ih
      obtain ⟨feat, hmem, hne⟩ := h
      rw [List.mem_cons] at hmem
      rcases hmem with hmem | hmem
      · subst hmem; exact absurd hne hf
      · exact ⟨feat, hmem, hne⟩

/-- The two loops over the feature list: the first leaves every count 0 and
`high_cnt` at the largest count, the second gives the list back as it was. -/
theorem clear_feature_counts_spec :
    ∀ (l : List feature_record) (i high_cnt : Nat) (feat_cnt_orig : Nat → Nat),
      (∀ feat ∈ l, feat.count < 65536) → high_cnt < 65536 →
      (clear_feature_counts l i high_cnt feat_cnt_orig).1 =
        l.map (fun feat => { feat with count := 0 }) ∧
      (clear_feature_counts l i high_cnt feat_cnt_orig).2.1 < 65536 ∧
      high_cnt ≤ (clear_feature_counts l i high_cnt feat_cnt_orig).2.1 ∧
      (∀ feat ∈ l, feat.count ≤ (clear_feature_counts l i high_cnt feat_cnt_orig).2.1) ∧
      ((clear_feature_counts l i high_cnt feat_cnt_orig).2.1 = high_cnt ∨
        ∃ feat ∈ l, feat.count = (clear_feature_counts l i high_cnt feat_cnt_orig).2.1) ∧
      (∀ k, k < i →
        (clear_feature_counts l i high_cnt feat_cnt_orig).2.2 k = feat_cnt_orig k) ∧
      restore_feature_counts (l.map (fun feat => { feat with count := 0 })) i
        (clear_feature_counts l i high_cnt feat_cnt_orig).2.2 = l := by
  intro l
  induction l with
  | nil =>
    intro i high_cnt feat_cnt_orig _ hh
    simp [clear_feature_counts, restore_feature_counts, hh]
  | cons f rest ih =>
    intro i high_cnt feat_cnt_orig hl hh
    have hf : f.count < 65536 := hl f (List.mem_cons_self _ _)
    have hmax : max high_cnt f.count % 65536 = max high_cnt f.count := by
      apply Nat.mod_eq_of_lt
      omega
    have hfm : f.count % 65536 = f.count := Nat.mod_eq_of_lt hf
    obtain ⟨h1, h2, h3, h4, h5, h6, h7⟩ := ih (i + 1) (max high_cnt f.count)
      (set_at feat_cnt_orig i f.count) (fun feat hm => hl feat (List.mem_cons_of_mem _ hm))
      (by omega)
    simp only [clear_feature_counts, hmax, hfm, List.map_cons, restore_feature_counts]
    refine ⟨?_, h2, by omega, ?_, ?_, ?_, ?_⟩
    · rw [h1]
    · intro feat hm
      rw [List.mem_cons] at hm
      rcases hm with hm | hm
      · subst hm; omega
      · exact h4 feat hm
    · rcases h5 with h5 | h5
      · by_cases hc : high_cnt ≤ f.count
        · right
          refine ⟨f, List.mem_cons_self _ _, ?_⟩
          rw [h5]
          omega
        · left
          rw [h5]
          omega
      · right
        obtain ⟨feat, hm, he⟩ := h5
        exact ⟨feat, List.mem_cons_of_mem _ hm, he⟩
    · intro k hk
      rw [h6 k (by omega)]
      unfold set_at
      rw [if_neg (by omega)]
    · rw [h7, h6 i (by omega)]
      unfold set_at
      rw [if_pos rfl]

/-- C28: for a job whose feature list has an entry with a non-zero count (the
counts being `uint16_t`), `_try_sched` returns; the selector is called at most
once, with every count set to 0 and with the minimum node count `high_cnt`, the
largest of the original counts; the result is `ESLURM_NODES_BUSY` without a
call of the selector when the feature filter rejects the bitmap or the bitmap
holds fewer than `high_cnt` nodes; and on every path the feature list, and
with it the details of the job, is afterwards what it was before the call. -/
theorem try_sched_feature_counts (SLURM_SUCCESS ESLURM_NODES_BUSY : Int)
    (job_req_node_filter : job_record → bitstr_t → Int × bitstr_t)
    (select_g_job_test : select_call → select_result) (now : Nat)
    (job_ptr : job_record) (detail_ptr : job_details) (feature_list : List feature_record)
    (avail_bitmap : bitstr_t) (min_nodes max_nodes req_nodes : Nat)
    (hdetails : job_ptr.details = some detail_ptr)
    (hlist : detail_ptr.feature_list = some feature_list)
    (hcount : ∃ feat ∈ feature_list, feat.count ≠ 0)
    (huint16 : ∀ feat ∈ feature_list, feat.count < 65536) :
    ∃ r high_cnt,
      _try_sched SLURM_SUCCESS ESLURM_NODES_BUSY job_req_node_filter select_g_job_test now
        job_ptr avail_bitmap min_nodes max_nodes req_nodes = some r ∧
      (∀ feat ∈ feature_list, feat.count ≤ high_cnt) ∧
      (∃ feat ∈ feature_list, feat.count = high_cnt) ∧
      r.calls.length ≤ 1 ∧
      (∀ call ∈ r.calls,
        call.job_ptr = { job_ptr with details := some { detail_ptr with
          feature_list := some (feature_list.map (fun feat => { feat with count := 0 })) } } ∧
        (∀ details cleared, call.job_ptr.details = some details →
          details.feature_list = some cleared → ∀ feat ∈ cleared, feat.count = 0) ∧
        call.min_nodes = high_cnt ∧ call.max_nodes = max_nodes ∧
        call.req_nodes = req_nodes) ∧
      (((job_req_node_filter { job_ptr with details := some { detail_ptr with
            feature_list := some (feature_list.map (fun feat => { feat with count := 0 })) } }
            avail_bitmap).1 ≠ SLURM_SUCCESS ∨
          bit_set_count (job_req_node_filter { job_ptr with details := some { detail_ptr with
            feature_list := some (feature_list.map (fun feat => { feat with count := 0 })) } }
            avail_bitmap).2 < high_cnt) →
        r.rc = ESLURM_NODES_BUSY ∧ r.calls = []) ∧
      (¬ ((job_req_node_filter { job_ptr with details := some { detail_ptr with
            feature_list := some (feature_list.map (fun feat => { feat with count := 0 })) } }
            avail_bitmap).1 ≠ SLURM_SUCCESS ∨
          bit_set_count (job_req_node_filter { job_ptr with details := some { detail_ptr with
            feature_list := some (feature_list.map (fun feat => { feat with count := 0 })) } }
            avail_bitmap).2 < high_cnt) →
        r.calls.length = 1 ∧ ∀ call ∈ r.calls, r.rc = (select_g_job_test call).rc) ∧
      r.job_ptr.details = some detail_ptr ∧
      (∀ details, r.job_ptr.details = some details →
        details.feature_list = some feature_list) := by
  obtain ⟨h1, _, _, h4, h5, _, h7⟩ := clear_feature_counts_spec feature_list 0 0
    (fun _ => 0) huint16 (by omega)
  have hmax : ∃ feat ∈ feature_list,
      feat.count = (clear_feature_counts feature_list 0 0 (fun _ => 0)).2.1 := by
    rcases h5 with h5 | h5
    · obtain ⟨feat, hm, hne⟩ := hcount
      have hq := h4 feat hm
      omega
    · exact h5
  have hnum : _num_feature_count job_ptr = some (feature_list.foldl
      (fun rc feat_ptr => if feat_ptr.count ≠ 0 then rc + 1 else rc) 0) := by
    unfold _num_feature_count
    rw [hdetails]
    simp only [hlist]
  have hpos : feature_list.foldl
      (fun rc feat_ptr => if feat_ptr.count ≠ 0 then rc + 1 else rc) 0 ≠ 0 :=
    Nat.pos_iff_ne_zero.mp (feature_count_foldl_pos feature_list 0 hcount)
  have hrest : ({ detail_ptr with feature_list := some feature_list } : job_details) =
      detail_ptr := by
    cases detail_ptr
    simp only [] at hlist
    subst hlist
    rfl
  have hzero : ∀ feat ∈ feature_list.map (fun feat => { feat with count := 0 }),
      feat.count = 0 := by
    intro feat hm
    rw [List.mem_map] at hm
    obtain ⟨g, _, hg⟩ := hm
    rw [← hg]
  unfold _try_sched
  rw [hnum, hdetails]
  simp only [hlist]
  rw [if_pos hpos, h1, h7, hrest]
  by_cases hbusy : (job_req_node_filter { job_ptr with details := some { detail_ptr with
        feature_list := some (feature_list.map (fun feat => { feat with count := 0 })) } }
        avail_bitmap).1 ≠ SLURM_SUCCESS ∨
      bit_set_count (job_req_node_filter { job_ptr with details := some { detail_ptr with
        feature_list := some (feature_list.map (fun feat => { feat with count := 0 })) } }
        avail_bitmap).2 < (clear_feature_counts feature_list 0 0 (fun _ => 0)).2.1
  · rw [if_pos hbusy]
    refine ⟨_, _, rfl, h4, hmax, by simp, ?_, ?_, ?_, rfl, ?_⟩
    · intro call hc
      simp at hc
    · intro _
      exact ⟨rfl, rfl⟩
    · intro hn
      exact absurd hbusy hn
    · intro details hd
      simp only [Option.some.injEq] at hd
      subst hd
      exact hlist
  · rw [if_neg hbusy]
    refine ⟨_, _, rfl, h4, hmax, by simp, ?_, ?_, ?_, rfl, ?_⟩
    · intro call hc
      simp only [List.mem_singleton] at hc
      subst hc
      refine ⟨rfl, ?_, rfl, rfl, rfl⟩
      intro details cleared hd hcl
      simp only [Option.some.injEq] at hd
      subst hd
      simp only [Option.some.injEq] at hcl
      subst hcl
      exact hzero
    · intro hb
      exact absurd hb hbusy
    · intro _
      refine ⟨rfl, ?_⟩
      intro call hc
      simp only [List.mem_singleton] at hc
      subst hc
      rfl
    · intro details hd
      simp only [Option.some.injEq] at hd
      subst hd
      exact hlist

theorem try_sched_feature_counts_witness :
    (∃ feat ∈ [(⟨"gpu", 2⟩ : feature_record), ⟨"bigmem", 0⟩, ⟨"ssd", 3⟩], feat.count ≠ 0) ∧
    (∃ r high_cnt,
      _try_sched 0 2016 sample_filter sample_select 1000 sample_feature_job
        {0, 1, 2, 3, 4, 5} 1 4 4 = some r ∧
      (∃ feat ∈ [(⟨"gpu", 2⟩ : feature_record), ⟨"bigmem", 0⟩, ⟨"ssd", 3⟩],
        feat.count = high_cnt) ∧
      r.job_ptr.details = sample_feature_job.details) ∧
    (_try_sched 0 2016 sample_filter sample_select 1000 sample_feature_job
        {0, 1, 2, 3, 4, 5} 1 4 4).map
      (fun r => (r.rc, r.calls.map (fun call => call.min_nodes))) = some (0, [3]) ∧
    (_try_sched 0 2016 sample_filter_reject sample_select 1000 sample_feature_job
        {0, 1, 2, 3, 4, 5} 1 4 4).map
      (fun r => (r.rc, r.calls.map (fun call => call.min_nodes))) = some (2016, []) := by
  have hcount : ∃ feat ∈ [(⟨"gpu", 2⟩ : feature_record), ⟨"bigmem", 0⟩, ⟨"ssd", 3⟩],
      feat.count ≠ 0 := ⟨⟨"gpu", 2⟩, List.mem_cons_self _ _, by decide⟩
  obtain ⟨r, high_cnt, h1, _, h3, _, _, _, _, h8, _⟩ :=
    try_sched_feature_counts 0 2016 sample_filter sample_select 1000 sample_feature_job
      { expanding_jobid := 0, min_nodes := 1, max_nodes := 4, exc_node_bitmap := none,
        req_node_bitmap := none,
        feature_list := some [⟨"gpu", 2⟩, ⟨"bigmem", 0⟩, ⟨"ssd", 3⟩], share_res := 1 }
      [⟨"gpu", 2⟩, ⟨"bigmem", 0⟩, ⟨"ssd", 3⟩] {0, 1, 2, 3, 4, 5} 1 4 4 rfl rfl hcount
      (by decide)
  exact ⟨hcount, ⟨r, high_cnt, h1, h3, h8⟩, by rfl, by rfl⟩

/-! ## Claims about the fair-share formula -/

/-- C31, as the code behaves: the preemptee runs on two nodes (two CPUs by
`_get_nb_cpus`), its account has 2 CPUs in use and half of the shares of a
partition of 16 CPUs. `_overalloc_test` takes the `double` `2 / 8 = 0.25` for
the preemptee, without the CPUs of the preemptee's job, while the formula of
the claim gives `(2 + 2) / 8 = 0.5`; for the preemptor (6 CPUs asked, 4 in use)
it takes `(4 + 6) / 8 = 1.25`. And the values are rounded, not exact ratios:
with the shares `0.1` (the `double` nearest to one tenth, a little above it) of
30 CPUs and 3 CPUs in use the product rounds to `3.0` and the value taken is
exactly `1.0`, while the exact ratio of 3 to the product of the shares and 30
is below 1. -/
theorem overalloc_fairshare_preemptee_not_projected :
    _get_nb_cpus (sample_fair_job 1 50 job_states.JOB_RUNNING 2 "Y" 2) = some 2 ∧
    _get_nb_cpus (sample_fair_job 2 100 job_states.JOB_PENDING 6 "X" 4) = some 6 ∧
    overalloc_fairshare (sample_fair_job 2 100 job_states.JOB_PENDING 6 "X" 4)
        (sample_fair_job 1 50 job_states.JOB_RUNNING 2 "Y" 2) =
      some (⟨false, 1021, 0⟩, ⟨false, 1023, 1125899906842624⟩) ∧
    double.div (double.of_uint (2 + 2))
        (double.mul (sample_assoc "Y" 2).usage.shares_norm
          (double.of_uint sample_fair_part.total_cpus)) = ⟨false, 1022, 0⟩ ∧
    double.ne ⟨false, 1021, 0⟩ ⟨false, 1022, 0⟩ = true ∧
    (double.mk false 1021 0).mag * 4 = 2 ^ 1074 ∧
    (double.mk false 1022 0).mag * 2 = 2 ^ 1074 ∧
    (double.mk false 1023 1125899906842624).mag * 4 = 5 * 2 ^ 1074 ∧
    overalloc_fairshare (sample_tenth_job 2 100 job_states.JOB_PENDING 1 "X" 5)
        (sample_tenth_job 1 50 job_states.JOB_RUNNING 2 "Y" 3) =
      some (double.one, ⟨false, 1024, 0⟩) ∧
    double.one.mag = 2 ^ 1074 ∧
    3 * 2 ^ 1074 < sample_tenth.mag * 30 := by
  decide!

/-- C31, amended: in `_overalloc_test` the projected usage of the preemptor's
account is `(grp_used_cpus + the CPU count of the preemptor's job)`, a
`uint32_t` sum, converted to `double` and divided by the `double` product
`shares_norm * total_cpus` of the preemptor's partition, while the value of
the preemptee's account is its `grp_used_cpus` alone, converted to `double`
and divided by the `double` product `shares_norm * total_cpus` of the
preemptee's partition; the decision is taken on these two values. The
conversions of the two `uint32_t` numerators are exact, and no value of the
allotments is excluded. -/
theorem overalloc_fairshare_formula (preemptor preemptee : job_record)
    (cpu_cnt_preemptee cpu_cnt_preemptor : Int)
    (assoc_preemptee assoc_preemptor : slurmdb_association_rec_t)
    (part_preemptee part_preemptor : part_record)
    (h1 : _get_nb_cpus preemptee = some cpu_cnt_preemptee)
    (h2 : _get_nb_cpus preemptor = some cpu_cnt_preemptor)
    (h3 : preemptee.assoc_ptr = some assoc_preemptee)
    (h4 : preemptor.assoc_ptr = some assoc_preemptor)
    (h5 : preemptee.part_ptr = some part_preemptee)
    (h6 : preemptor.part_ptr = some part_preemptor) :
    overalloc_fairshare preemptor preemptee =
      some (double.div (double.of_uint assoc_preemptee.usage.grp_used_cpus)
          (double.mul assoc_preemptee.usage.shares_norm
            (double.of_uint part_preemptee.total_cpus)),
        double.div (double.of_uint ((assoc_preemptor.usage.grp_used_cpus +
            (cpu_cnt_preemptor % 4294967296).toNat) % 4294967296))
          (double.mul assoc_preemptor.usage.shares_norm
            (double.of_uint part_preemptor.total_cpus))) ∧
    (0 ≤ cpu_cnt_preemptor →
      assoc_preemptor.usage.grp_used_cpus + cpu_cnt_preemptor.toNat < 4294967296 →
      overalloc_fairshare preemptor preemptee =
        some (double.div (double.of_uint assoc_preemptee.usage.grp_used_cpus)
            (double.mul assoc_preemptee.usage.shares_norm
              (double.of_uint part_preemptee.total_cpus)),
          double.div (double.of_uint (assoc_preemptor.usage.grp_used_cpus +
              cpu_cnt_preemptor.toNat))
            (double.mul assoc_preemptor.usage.shares_norm
              (double.of_uint part_preemptor.total_cpus)))) ∧
    _overalloc_test preemptor preemptee =
      some (overalloc_decision
        (double.div (double.of_uint assoc_preemptee.usage.grp_used_cpus)
          (double.mul assoc_preemptee.usage.shares_norm
            (double.of_uint part_preemptee.total_cpus)))
        (double.div (double.of_uint ((assoc_preemptor.usage.grp_used_cpus +
            (cpu_cnt_preemptor % 4294967296).toNat) % 4294967296))
          (double.mul assoc_preemptor.usage.shares_norm
            (double.of_uint part_preemptor.total_cpus)))
        assoc_preemptor.acct assoc_preemptee.acct) ∧
    (double.of_uint ((assoc_preemptor.usage.grp_used_cpus +
        (cpu_cnt_preemptor % 4294967296).toNat) % 4294967296)).mag =
      (assoc_preemptor.usage.grp_used_cpus +
        (cpu_cnt_preemptor % 4294967296).toNat) % 4294967296 * 2 ^ 1074 ∧
    (assoc_preemptee.usage.grp_used_cpus < 4294967296 →
      (double.of_uint assoc_preemptee.usage.grp_used_cpus).mag =
        assoc_preemptee.usage.grp_used_cpus * 2 ^ 1074) := by
  have hf : overalloc_fairshare preemptor preemptee =
      some (double.div (double.of_uint assoc_preemptee.usage.grp_used_cpus)
          (double.mul assoc_preemptee.usage.shares_norm
            (double.of_uint part_preemptee.total_cpus)),
        double.div (double.of_uint ((assoc_preemptor.usage.grp_used_cpus +
            (cpu_cnt_preemptor % 4294967296).toNat) % 4294967296))
          (double.mul assoc_preemptor.usage.shares_norm
            (double.of_uint part_preemptor.total_cpus))) := by
    unfold overalloc_fairshare
    rw [h1, h2, h3, h4, h5, h6]
  refine ⟨hf, ?_, ?_, ?_, ?_⟩
  · intro hpos hfit
    rw [hf]
    have e1 : (cpu_cnt_preemptor % 4294967296).toNat = cpu_cnt_preemptor.toNat := by omega
    rw [e1, Nat.mod_eq_of_lt hfit]
  · unfold _overalloc_test
    rw [hf, h3, h4]
  · exact (double.of_uint_exact _ (by omega)).2.2.2
  · intro hfit
    exact (double.of_uint_exact _ (by omega)).2.2.2

/-- Witness for C31: the pending job that asks for six nodes against the
running job on two nodes. -/
theorem overalloc_fairshare_formula_witness :
    overalloc_fairshare (sample_fair_job 2 100 job_states.JOB_PENDING 6 "X" 4)
        (sample_fair_job 1 50 job_states.JOB_RUNNING 2 "Y" 2) =
      some (double.div (double.of_uint (sample_assoc "Y" 2).usage.grp_used_cpus)
          (double.mul (sample_assoc "Y" 2).usage.shares_norm
            (double.of_uint sample_fair_part.total_cpus)),
        double.div (double.of_uint (((sample_assoc "X" 4).usage.grp_used_cpus +
            ((6 : Int) % 4294967296).toNat) % 4294967296))
          (double.mul (sample_assoc "X" 4).usage.shares_norm
            (double.of_uint sample_fair_part.total_cpus))) :=
  (overalloc_fairshare_formula (sample_fair_job 2 100 job_states.JOB_PENDING 6 "X" 4)
    (sample_fair_job 1 50 job_states.JOB_RUNNING 2 "Y" 2) 2 6 (sample_assoc "Y" 2)
    (sample_assoc "X" 4) sample_fair_part sample_fair_part (by decide) (by decide) rfl rfl
    rfl rfl).1

/-! ## Claims about the comparator -/

/-- C36, as the code behaves: two running jobs of priority 50 with runtimes 900
and 500 at the time 1000. `_sort_by_job_prio(x, y)` is 1 and
`_sort_by_job_prio(y, x)` is 0, not -1: the tie-break on the runtime returns
only 1 or 0, so the first result is not the negation of the second. -/
theorem sort_by_job_prio_not_antisymmetric :
    sample_job_low.priority = sample_job_tie.priority ∧
    _get_job_runtime 1000 sample_job_low = 900 ∧
    _get_job_runtime 1000 sample_job_tie = 500 ∧
    _sort_by_job_prio 1000 1000 sample_job_low sample_job_tie = 1 ∧
    _sort_by_job_prio 1000 1000 sample_job_tie sample_job_low = 0 ∧
    _sort_by_job_prio 1000 1000 sample_job_low sample_job_tie ≠
      - _sort_by_job_prio 1000 1000 sample_job_tie sample_job_low := by
  decide

/-- C36, amended: for two jobs compared at the same time,
`_sort_by_job_prio(x, y) = -_sort_by_job_prio(y, x)` whenever the priorities
differ or the cumulative runtimes are equal; for jobs of equal priority the
call whose first argument has the smaller runtime returns 0 and the swapped
call returns 1. -/
theorem sort_by_job_prio_antisymmetric_cases (now : Nat) (x y : job_record) :
    ((x.priority ≠ y.priority ∨ _get_job_runtime now x = _get_job_runtime now y) →
      _sort_by_job_prio now now x y = - _sort_by_job_prio now now y x) ∧
    (x.priority = y.priority → _get_job_runtime now x < _get_job_runtime now y →
      _sort_by_job_prio now now x y = 0 ∧ _sort_by_job_prio now now y x = 1) := by
  refine ⟨?_, ?_⟩
  · intro h
    unfold _sort_by_job_prio _is_job_runtime_greater difftime
    simp only []
    rcases h with h | h
    · rcases Nat.lt_or_gt_of_ne h with hlt | hgt
      · have h1 : ¬ x.priority > y.priority := by omega
        rw [if_neg h1, if_pos hlt, if_pos hlt]
      · have h1 : ¬ y.priority > x.priority := by omega
        rw [if_pos hgt, if_neg h1, if_pos hgt]
        rfl
    · by_cases h1 : x.priority > y.priority
      · have h2 : ¬ y.priority > x.priority := by omega
        rw [if_pos h1, if_neg h2, if_pos h1]
        rfl
      · by_cases h2 : x.priority < y.priority
        · rw [if_neg h1, if_pos h2, if_pos h2]
        · have h3 : ¬ y.priority > x.priority := by omega
          have h4 : ¬ y.priority < x.priority := by omega
          rw [if_neg h1, if_neg h2, if_neg h3, if_neg h4, h]
          simp
  · intro hp hr
    unfold _sort_by_job_prio _is_job_runtime_greater difftime
    simp only []
    have h1 : ¬ x.priority > y.priority := by omega
    have h2 : ¬ x.priority < y.priority := by omega
    have h3 : ¬ y.priority > x.priority := by omega
    have h4 : ¬ y.priority < x.priority := by omega
    have h5 : ¬ (_get_job_runtime now x - _get_job_runtime now y > 0) := by omega
    have h6 : _get_job_runtime now y - _get_job_runtime now x > 0 := by omega
    rw [if_neg h1, if_neg h2, if_neg h3, if_neg h4]
    simp [h5, h6]

/-! ## Claims about the length of a snapped reservation -/

/-- C35, as the code behaves: with resolution 60, a job start time of
1700000000 and a planning limit of 50000000 minutes the sum
`1700000000 + 3000000000` does not fit the `uint32_t` variable `end_reserve`:
the snapped reservation is `[1699999980, 405032700)`, whose end is less than
its start. -/
theorem attempt_backfill_snap_end_wraps :
    attempt_backfill_planted 60 1700000000 50000000 = (1699999980, 405032700) ∧
    50000000 * 60 < 4294967296 ∧
    ¬ (1700000000 + 50000000 * 60 < 4294967296) ∧
    (attempt_backfill_planted 60 1700000000 50000000).2 <
      (attempt_backfill_planted 60 1700000000 50000000).1 := by
  decide

/-- C35, amended: for every resolution `r ≥ 1`, job start time `s` and planning
limit `L` whose projected end `s + L * 60` fits 32 bits, the snapped values are
`(s / r) * r` and `((s + L * 60) / r) * r`, the snapped end is never less than
the snapped start, and it is strictly greater when `L * 60 ≥ r`. -/
theorem attempt_backfill_snap_nonempty (backfill_resolution s time_limit : Nat)
    (hr : 1 ≤ backfill_resolution) (hfit : s + time_limit * 60 < 4294967296) :
    (attempt_backfill_planted backfill_resolution s time_limit).1 =
      (s / backfill_resolution) * backfill_resolution ∧
    (attempt_backfill_planted backfill_resolution s time_limit).2 =
      ((s + time_limit * 60) / backfill_resolution) * backfill_resolution ∧
    (attempt_backfill_planted backfill_resolution s time_limit).1 ≤
      (attempt_backfill_planted backfill_resolution s time_limit).2 ∧
    (time_limit * 60 ≥ backfill_resolution →
      (attempt_backfill_planted backfill_resolution s time_limit).1 <
        (attempt_backfill_planted backfill_resolution s time_limit).2) := by
  have h1 : s % 4294967296 = s := Nat.mod_eq_of_lt (by omega)
  have h2 : (time_limit * 60) % 4294967296 = time_limit * 60 := Nat.mod_eq_of_lt (by omega)
  have h3 : (s + time_limit * 60) % 4294967296 = s + time_limit * 60 :=
    Nat.mod_eq_of_lt hfit
  have e1 : (attempt_backfill_planted backfill_resolution s time_limit).1 =
      (s / backfill_resolution) * backfill_resolution := by
    simp only [attempt_backfill_planted, attempt_backfill_snap, attempt_backfill_resv_times,
      h1]
    exact snap_value _ _ (by omega)
  have e2 : (attempt_backfill_planted backfill_resolution s time_limit).2 =
      ((s + time_limit * 60) / backfill_resolution) * backfill_resolution := by
    simp only [attempt_backfill_planted, attempt_backfill_snap, attempt_backfill_resv_times,
      h2, h3]
    exact snap_value _ _ hfit
  refine ⟨e1, e2, ?_, ?_⟩
  · rw [e1, e2]
    exact Nat.mul_le_mul_right _ (Nat.div_le_div_right (Nat.le_add_right _ _))
  · intro hlen
    rw [e1, e2]
    have hpos : 0 < backfill_resolution := by omega
    have hstep : s / backfill_resolution + 1 ≤ (s + time_limit * 60) / backfill_resolution := by
      have h4 : (s + backfill_resolution) / backfill_resolution =
          s / backfill_resolution + 1 := Nat.add_div_right s hpos
      rw [← h4]
      exact Nat.div_le_div_right (by omega)
    have hmul := Nat.mul_le_mul_right backfill_resolution hstep
    have hexp : (s / backfill_resolution + 1) * backfill_resolution =
        s / backfill_resolution * backfill_resolution + backfill_resolution := by
      rw [Nat.add_mul, Nat.one_mul]
    omega

/-- Witness for C35: resolution 60, start 1235, limit 10 minutes: the snapped
reservation is `[1200, 1800)`. -/
theorem attempt_backfill_snap_nonempty_witness :
    (attempt_backfill_planted 60 1235 10).1 = (1235 / 60) * 60 ∧
    (attempt_backfill_planted 60 1235 10).2 = ((1235 + 10 * 60) / 60) * 60 ∧
    (attempt_backfill_planted 60 1235 10).1 ≤ (attempt_backfill_planted 60 1235 10).2 ∧
    (10 * 60 ≥ 60 →
      (attempt_backfill_planted 60 1235 10).1 < (attempt_backfill_planted 60 1235 10).2) :=
  attempt_backfill_snap_nonempty 60 1235 10 (by decide) (by decide)

/-! ## Claims about the reload of the configuration -/

/-- C39, as the code behaves: after a load of "bf_continue,bf_interval=5" a
load of the empty string leaves `backfill_continue = true` and
`backfill_interval = 5`, while the same load from the static defaults leaves
`false` and 30: the result depends on the prior tunables, and a key that is
absent does not revert to its default. -/
theorem load_config_depends_on_prior :
    (_load_config (some "bf_continue,bf_interval=5".toList) bf_tunables_static).backfill_continue
      = true ∧
    (_load_config (some "bf_continue,bf_interval=5".toList) bf_tunables_static).backfill_interval
      = 5 ∧
    (_load_config (some "".toList)
      (_load_config (some "bf_continue,bf_interval=5".toList)
        bf_tunables_static)).backfill_continue = true ∧
    (_load_config (some "".toList)
      (_load_config (some "bf_continue,bf_interval=5".toList)
        bf_tunables_static)).backfill_interval = 5 ∧
    (_load_config (some "".toList) bf_tunables_static).backfill_continue = false ∧
    (_load_config (some "".toList) bf_tunables_static).backfill_interval = 30 ∧
    bf_tunables_static.backfill_continue = false ∧
    bf_tunables_static.backfill_interval = 30 := by
  decide

/-- C39, amended: for every parameter string and any two prior states,
`_load_config` leaves the same value in a tunable whose key occurs in the
string; a tunable whose key does not occur keeps its prior value (replaced by
the reset value only when the prior value fails the range test), and
`backfill_continue` is set when "bf_continue" occurs and keeps its prior value
otherwise. So two runs agree on every tunable when all keys and "bf_continue"
occur. -/
theorem load_config_prior_dependence (sched_params : Option (List Char))
    (t1 t2 : bf_tunables) :
    (sched_param_atoi sched_params "bf_interval=" 12 ≠ none →
      (_load_config sched_params t1).backfill_interval =
        (_load_config sched_params t2).backfill_interval) ∧
    (sched_param_atoi sched_params "bf_interval=" 12 = none →
      (_load_config sched_params t1).backfill_interval =
        if t1.backfill_interval < 1 then 30 else t1.backfill_interval) ∧
    (sched_param_atoi sched_params "bf_window=" 10 ≠ none →
      (_load_config sched_params t1).backfill_window =
        (_load_config sched_params t2).backfill_window) ∧
    (sched_param_atoi sched_params "bf_window=" 10 = none →
      (_load_config sched_params t1).backfill_window =
        if t1.backfill_window < 1 then 24 * 60 * 60 else t1.backfill_window) ∧
    (sched_param_atoi sched_params "max_job_bf=" 11 ≠ none ∨
        sched_param_atoi sched_params "bf_max_job_test=" 16 ≠ none →
      (_load_config sched_params t1).max_backfill_job_cnt =
        (_load_config sched_params t2).max_backfill_job_cnt) ∧
    (sched_param_atoi sched_params "max_job_bf=" 11 = none →
      sched_param_atoi sched_params "bf_max_job_test=" 16 = none →
      (_load_config sched_params t1).max_backfill_job_cnt =
        if t1.max_backfill_job_cnt < 1 then 50 else t1.max_backfill_job_cnt) ∧
    (sched_param_atoi sched_params "bf_res=" 7 ≠ none ∨
        sched_param_atoi sched_params "bf_resolution=" 14 ≠ none →
      (_load_config sched_params t1).backfill_resolution =
        (_load_config sched_params t2).backfill_resolution) ∧
    (sched_param_atoi sched_params "bf_res=" 7 = none →
      sched_param_atoi sched_params "bf_resolution=" 14 = none →
      (_load_config sched_params t1).backfill_resolution =
        if t1.backfill_resolution < 1 then 60 else t1.backfill_resolution) ∧
    (sched_param_atoi sched_params "bf_max_job_part=" 16 ≠ none →
      (_load_config sched_params t1).max_backfill_job_per_part =
        (_load_config sched_params t2).max_backfill_job_per_part) ∧
    (sched_param_atoi sched_params "bf_max_job_part=" 16 = none →
      (_load_config sched_params t1).max_backfill_job_per_part =
        if t1.max_backfill_job_per_part < 0 then 0 else t1.max_backfill_job_per_part) ∧
    (sched_param_atoi sched_params "bf_max_job_start=" 17 ≠ none →
      (_load_config sched_params t1).max_backfill_jobs_start =
        (_load_config sched_params t2).max_backfill_jobs_start) ∧
    (sched_param_atoi sched_params "bf_max_job_start=" 17 = none →
      (_load_config sched_params t1).max_backfill_jobs_start =
        if t1.max_backfill_jobs_start < 0 then 0 else t1.max_backfill_jobs_start) ∧
    (sched_param_atoi sched_params "bf_max_job_user=" 16 ≠ none →
      (_load_config sched_params t1).max_backfill_job_per_user =
        (_load_config sched_params t2).max_backfill_job_per_user) ∧
    (sched_param_atoi sched_params "bf_max_job_user=" 16 = none →
      (_load_config sched_params t1).max_backfill_job_per_user =
        if t1.max_backfill_job_per_user < 0 then 0 else t1.max_backfill_job_per_user) ∧
    (sched_param_atoi sched_params "max_rpc_cnt=" 12 ≠ none →
      (_load_config sched_params t1).defer_rpc_cnt =
        (_load_config sched_params t2).defer_rpc_cnt) ∧
    (sched_param_atoi sched_params "max_rpc_cnt=" 12 = none →
      (_load_config sched_params t1).defer_rpc_cnt =
        if t1.defer_rpc_cnt < 0 then 0 else t1.defer_rpc_cnt) ∧
    (∀ params, sched_params = some params →
      (strstr params "bf_continue".toList).isSome = true →
      (_load_config sched_params t1).backfill_continue = true) ∧
    ((∀ params, sched_params = some params →
        (strstr params "bf_continue".toList).isSome = false) →
      (_load_config sched_params t1).backfill_continue = t1.backfill_continue) ∧
    (sched_param_atoi sched_params "bf_interval=" 12 ≠ none →
      sched_param_atoi sched_params "bf_window=" 10 ≠ none →
      (sched_param_atoi sched_params "max_job_bf=" 11 ≠ none ∨
        sched_param_atoi sched_params "bf_max_job_test=" 16 ≠ none) →
      (sched_param_atoi sched_params "bf_res=" 7 ≠ none ∨
        sched_param_atoi sched_params "bf_resolution=" 14 ≠ none) →
      sched_param_atoi sched_params "bf_max_job_part=" 16 ≠ none →
      sched_param_atoi sched_params "bf_max_job_start=" 17 ≠ none →
      sched_param_atoi sched_params "bf_max_job_user=" 16 ≠ none →
      sched_param_atoi sched_params "max_rpc_cnt=" 12 ≠ none →
      (∃ params, sched_params = some params ∧
        (strstr params "bf_continue".toList).isSome = true) →
      _load_config sched_params t1 = _load_config sched_params t2) := by
  have one : ∀ (key : String) (skip : Nat) (f : Int → Int) (a b : Int),
      sched_param_atoi sched_params key skip ≠ none →
      (match sched_param_atoi sched_params key skip with
        | some v => f v
        | none => a) =
      (match sched_param_atoi sched_params key skip with
        | some v => f v
        | none => b) := by
    intro key skip f a b h
    cases hv : sched_param_atoi sched_params key skip with
    | none => exact absurd hv h
    | some v => rfl
  have two : ∀ (key1 key2 : String) (skip1 skip2 : Nat) (a b : Int),
      (sched_param_atoi sched_params key1 skip1 ≠ none ∨
        sched_param_atoi sched_params key2 skip2 ≠ none) →
      (match sched_param_atoi sched_params key2 skip2 with
        | some v => v
        | none =>
          match sched_param_atoi sched_params key1 skip1 with
          | some v => v
          | none => a) =
      (match sched_param_atoi sched_params key2 skip2 with
        | some v => v
        | none =>
          match sched_param_atoi sched_params key1 skip1 with
          | some v => v
          | none => b) := by
    intro key1 key2 skip1 skip2 a b h
    cases hv2 : sched_param_atoi sched_params key2 skip2 with
    | some v => rfl
    | none =>
      cases hv1 : sched_param_atoi sched_params key1 skip1 with
      | some v => rfl
      | none =>
        rw [hv1, hv2] at h
        exact absurd rfl (h.elim id id)
  have hflag : ∀ t : bf_tunables, (∃ params, sched_params = some params ∧
      (strstr params "bf_continue".toList).isSome = true) →
      (_load_config sched_params t).backfill_continue = true := by
    intro t h
    obtain ⟨params, hp, hs⟩ := h
    subst hp
    simp only [_load_config, hs, if_true]
  have i1 : sched_param_atoi sched_params "bf_interval=" 12 ≠ none →
      (_load_config sched_params t1).backfill_interval =
        (_load_config sched_params t2).backfill_interval := by
    intro h
    simp only [_load_config]
    rw [one "bf_interval=" 12 (fun v => v) t1.backfill_interval t2.backfill_interval h]
  have i2 : sched_param_atoi sched_params "bf_window=" 10 ≠ none →
      (_load_config sched_params t1).backfill_window =
        (_load_config sched_params t2).backfill_window := by
    intro h
    simp only [_load_config]
    rw [one "bf_window=" 10 (fun v => int_wrap (v * 60)) t1.backfill_window
      t2.backfill_window h]
  have i3 : (sched_param_atoi sched_params "max_job_bf=" 11 ≠ none ∨
      sched_param_atoi sched_params "bf_max_job_test=" 16 ≠ none) →
      (_load_config sched_params t1).max_backfill_job_cnt =
        (_load_config sched_params t2).max_backfill_job_cnt := by
    intro h
    simp only [_load_config]
    rw [two "max_job_bf=" "bf_max_job_test=" 11 16 t1.max_backfill_job_cnt
      t2.max_backfill_job_cnt h]
  have i4 : (sched_param_atoi sched_params "bf_res=" 7 ≠ none ∨
      sched_param_atoi sched_params "bf_resolution=" 14 ≠ none) →
      (_load_config sched_params t1).backfill_resolution =
        (_load_config sched_params t2).backfill_resolution := by
    intro h
    simp only [_load_config]
    rw [two "bf_res=" "bf_resolution=" 7 14 t1.backfill_resolution t2.backfill_resolution h]
  have i5 : sched_param_atoi sched_params "bf_max_job_part=" 16 ≠ none →
      (_load_config sched_params t1).max_backfill_job_per_part =
        (_load_config sched_params t2).max_backfill_job_per_part := by
    intro h
    simp only [_load_config]
    rw [one "bf_max_job_part=" 16 (fun v => v) t1.max_backfill_job_per_part
      t2.max_backfill_job_per_part h]
  have i6 : sched_param_atoi sched_params "bf_max_job_start=" 17 ≠ none →
      (_load_config sched_params t1).max_backfill_jobs_start =
        (_load_config sched_params t2).max_backfill_jobs_start := by
    intro h
    simp only [_load_config]
    rw [one "bf_max_job_start=" 17 (fun v => v) t1.max_backfill_jobs_start
      t2.max_backfill_jobs_start h]
  have i7 : sched_param_atoi sched_params "bf_max_job_user=" 16 ≠ none →
      (_load_config sched_params t1).max_backfill_job_per_user =
        (_load_config sched_params t2).max_backfill_job_per_user := by
    intro h
    simp only [_load_config]
    rw [one "bf_max_job_user=" 16 (fun v => v) t1.max_backfill_job_per_user
      t2.max_backfill_job_per_user h]
  have i8 : sched_param_atoi sched_params "max_rpc_cnt=" 12 ≠ none →
      (_load_config sched_params t1).defer_rpc_cnt =
        (_load_config sched_params t2).defer_rpc_cnt := by
    intro h
    simp only [_load_config]
    rw [one "max_rpc_cnt=" 12 (fun v => v) t1.defer_rpc_cnt t2.defer_rpc_cnt h]
  refine ⟨i1, ?_, i2, ?_, i3, ?_, i4, ?_, i5, ?_, i6, ?_, i7, ?_, i8, ?_, ?_, ?_, ?_⟩
  · intro h
    simp only [_load_config, h]
  · intro h
    simp only [_load_config, h]
  · intro h1 h2
    simp only [_load_config, h1, h2]
  · intro h1 h2
    simp only [_load_config, h1, h2]
  · intro h
    simp only [_load_config, h]
  · intro h
    simp only [_load_config, h]
  · intro h
    simp only [_load_config, h]
  · intro h
    simp only [_load_config, h]
  · intro params hp hs
    exact hflag t1 ⟨params, hp, hs⟩
  · intro h
    cases hp : sched_params with
    | none => simp only [_load_config]
    | some params =>
      have hs := h params hp
      simp only [_load_config, hs]
      simp
  · intro h1 h2 h3 h4 h5 h6 h7 h8 h9
    have e1 := i1 h1
    have e2 := i2 h2
    have e3 := i3 h3
    have e4 := i4 h4
    have e5 := i5 h5
    have e6 := i6 h6
    have e7 := i7 h7
    have e8 := i8 h8
    have e9 : (_load_config sched_params t1).backfill_continue =
        (_load_config sched_params t2).backfill_continue := by
      rw [hflag t1 h9, hflag t2 h9]
    cases hL1 : _load_config sched_params t1
    cases hL2 : _load_config sched_params t2
    rw [hL1, hL2] at e1 e2 e3 e4 e5 e6 e7 e8 e9
    simp only [] at e1 e2 e3 e4 e5 e6 e7 e8 e9
    simp only [bf_tunables.mk.injEq]
    exact ⟨e1, e4, e2, e3, e5, e7, e6, e9, e8⟩

/-! ## Claims about the per-partition limit -/

theorem bf_part_loop_mem (p : Nat) (N : Int) :
    ∀ (parts : List Nat) (j : Nat) (jobs : Nat → Nat), p ∈ parts →
      bf_part_loop p N parts j jobs =
        (set_at jobs (j + parts.indexOf p) ((jobs (j + parts.indexOf p) + 1) % 4294967296),
          decide (jobs (j + parts.indexOf p) ≥ (N % 4294967296).toNat)) := by
  intro parts
  induction parts with
  | nil => intro j jobs h; simp at h
  | cons q rest ih =>
    intro j jobs h
    unfold bf_part_loop
    by_cases hq : q ≠ p
    · rw [if_pos hq, List.indexOf_cons_ne _ hq]
      have hmem : p ∈ rest := by
        rcases List.mem_cons.mp h with h1 | h1
        · exact absurd h1.symm hq
        · exact h1
      rw [ih (j + 1) jobs hmem]
      have e : j + 1 + List.indexOf p rest = j + (List.indexOf p rest).succ := by omega
      rw [e]
    · rw [if_neg hq]
      have hqp : q = p := not_not.mp hq
      rw [List.indexOf_cons_eq _ hqp]
      rfl

theorem bf_part_loop_not_mem (p : Nat) (N : Int) :
    ∀ (parts : List Nat) (j : Nat) (jobs : Nat → Nat), p ∉ parts →
      bf_part_loop p N parts j jobs = (jobs, false) := by
  intro parts
  induction parts with
  | nil => intro j jobs _; rfl
  | cons q rest ih =>
    intro j jobs h
    unfold bf_part_loop
    have hq : q ≠ p := fun hc => h (by rw [hc]; exact List.mem_cons_self _ _)
    rw [if_pos hq]
    exact ih (j + 1) jobs (fun hc => h (List.mem_cons_of_mem _ hc))

/-- The counter of a partition of the list counts the jobs of that partition
that reached the test. -/
theorem bf_part_run_count (N : Int) (parts : List Nat) (p : Nat) (hp : p ∈ parts) :
    ∀ (l : List Nat) (jobs : Nat → Nat),
      jobs (parts.indexOf p) + l.count p < 4294967296 →
      bf_part_run N parts l jobs (parts.indexOf p) = jobs (parts.indexOf p) + l.count p := by
  intro l
  induction l with
  | nil => intro jobs _; rfl
  | cons q rest ih =>
    intro jobs hcnt
    unfold bf_part_run
    by_cases hq : q = p
    · subst hq
      rw [List.count_cons_self] at hcnt ⊢
      rw [bf_part_loop_mem q N parts 0 jobs hp]
      simp only [Nat.zero_add]
      have hv : set_at jobs (List.indexOf q parts)
          ((jobs (List.indexOf q parts) + 1) % 4294967296) (List.indexOf q parts) =
          jobs (List.indexOf q parts) + 1 := by
        unfold set_at
        rw [if_pos rfl]
        exact Nat.mod_eq_of_lt (by omega)
      rw [ih _ (by rw [hv]; omega), hv]
      omega
    · have hc : List.count p (q :: rest) = List.count p rest :=
        List.count_cons_of_ne (fun hc => hq hc.symm) rest
      rw [hc] at hcnt ⊢
      by_cases hmem : q ∈ parts
      · rw [bf_part_loop_mem q N parts 0 jobs hmem]
        simp only [Nat.zero_add]
        have hne : List.indexOf p parts ≠ List.indexOf q parts :=
          fun hc => hq ((List.indexOf_inj hp hmem).mp hc).symm
        have hv : set_at jobs (List.indexOf q parts)
            ((jobs (List.indexOf q parts) + 1) % 4294967296) (List.indexOf p parts) =
            jobs (List.indexOf p parts) := by
          unfold set_at
          rw [if_neg hne]
        rw [ih _ (by rw [hv]; exact hcnt), hv]
      · rw [bf_part_loop_not_mem q N parts 0 jobs hmem]
        exact ih jobs hcnt

/-- C38: with `max_backfill_job_per_part = N > 0` and a partition of the
partition list, the counter of the partition counts every job of the partition
that reaches the per-partition test, and the job that reaches the test after
the jobs `l1` passes exactly when fewer than `N` jobs of its partition reached
the test before it; so the first `N` jobs of a partition pass and every later
one is skipped. A skipped job leaves the loop body at line 929 with the counter
incremented. The counters are `uint32_t`, so the queue holds fewer than 2^32
jobs of the partition. -/
theorem part_admission_exact (N : Int) (bf_part_ptr l1 l2 : List Nat) (part_ptr : Nat)
    (hN : 0 < N) (hint : N ≤ 2147483647) (hmem : part_ptr ∈ bf_part_ptr)
    (hcnt : (l1 ++ part_ptr :: l2).count part_ptr < 4294967296) :
    bf_part_run N bf_part_ptr l1 (fun _ => 0) (bf_part_ptr.indexOf part_ptr) =
      l1.count part_ptr ∧
    bf_part_run N bf_part_ptr (l1 ++ [part_ptr]) (fun _ => 0) (bf_part_ptr.indexOf part_ptr) =
      l1.count part_ptr + 1 ∧
    ((bf_part_loop part_ptr N bf_part_ptr 0 (bf_part_run N bf_part_ptr l1 (fun _ => 0))).2
        = false ↔ (l1.count part_ptr : Int) < N) ∧
    ((bf_part_loop part_ptr N bf_part_ptr 0 (bf_part_run N bf_part_ptr l1 (fun _ => 0))).2
        = true ↔ N ≤ (l1.count part_ptr : Int)) ∧
    (∀ (c : bf_cycle) (e : bf_queue_rec) (s : bf_state),
      c.tunables.max_backfill_job_per_part = N →
      (bf_part_loop e.part_ptr N c.bf_part_ptr 0 s.bf_part_jobs).2 = true →
      bf_caps c e s =
        bf_result.exit
          { s with bf_part_jobs := (bf_part_loop e.part_ptr N c.bf_part_ptr 0 s.bf_part_jobs).1 }
          bf_flow.next) := by
  have hc : List.count part_ptr (l1 ++ part_ptr :: l2) =
      List.count part_ptr l1 + 1 + List.count part_ptr l2 := by
    rw [List.count_append, List.count_cons_self]
    omega
  have h1 : bf_part_run N bf_part_ptr l1 (fun _ => 0) (bf_part_ptr.indexOf part_ptr) =
      l1.count part_ptr := by
    rw [bf_part_run_count N bf_part_ptr part_ptr hmem l1 (fun _ => 0)
      (by simp only []; omega)]
    simp only [Nat.zero_add]
  have h2 : bf_part_run N bf_part_ptr (l1 ++ [part_ptr]) (fun _ => 0)
      (bf_part_ptr.indexOf part_ptr) = l1.count part_ptr + 1 := by
    have hc2 : List.count part_ptr (l1 ++ [part_ptr]) = List.count part_ptr l1 + 1 := by
      rw [List.count_append, List.count_singleton_self]
    rw [bf_part_run_count N bf_part_ptr part_ptr hmem (l1 ++ [part_ptr]) (fun _ => 0)
      (by simp only [hc2]; omega)]
    simp only [Nat.zero_add, hc2]
  have hflag : (bf_part_loop part_ptr N bf_part_ptr 0
      (bf_part_run N bf_part_ptr l1 (fun _ => 0))).2 =
      decide (l1.count part_ptr ≥ (N % 4294967296).toNat) := by
    rw [bf_part_loop_mem part_ptr N bf_part_ptr 0 _ hmem]
    simp only [Nat.zero_add, h1]
  refine ⟨h1, h2, ?_, ?_, ?_⟩
  · rw [hflag, decide_eq_false_iff_not]
    omega
  · rw [hflag, decide_eq_true_iff]
    omega
  · intro c e s hc1 hskip
    unfold bf_caps
    have hne : c.tunables.max_backfill_job_per_part ≠ 0 := by omega
    simp only [hc1] at hne ⊢
    rw [if_pos hne]
    simp only [hskip, if_true]

/-- Witness for C38: the limit 2, the partitions 10 and 20, and the third job
of partition 10, which is skipped. -/
theorem part_admission_exact_witness :
    bf_part_run 2 [10, 20] [10, 20, 10] (fun _ => 0) (List.indexOf 10 [10, 20]) =
      List.count 10 [10, 20, 10] ∧
    ((bf_part_loop 10 2 [10, 20] 0 (bf_part_run 2 [10, 20] [10, 20, 10] (fun _ => 0))).2
        = true ↔ (2 : Int) ≤ (List.count 10 [10, 20, 10] : Int)) ∧
    (bf_part_loop 10 2 [10, 20] 0 (bf_part_run 2 [10, 20] [10, 20, 10] (fun _ => 0))).2
        = true :=
  ⟨(part_admission_exact 2 [10, 20] [10, 20, 10] [] 10 (by decide) (by decide) (by decide)
      (by decide)).1,
    (part_admission_exact 2 [10, 20] [10, 20, 10] [] 10 (by decide) (by decide) (by decide)
      (by decide)).2.2.2.1,
    by decide⟩

/-! ## Claims about the exact per-user admission -/

theorem bf_user_check_found (N : Int) (u : Nat) (t : bf_user_table) (j c : Nat)
    (h : bf_user_at t u j c) (hc : c + 1 < 65536) :
    bf_user_check N u t =
      ({ t with njobs := set_at t.njobs j (c + 1) }, decide (((c + 1 : Nat) : Int) ≥ N)) := by
  obtain ⟨hj, hu, hfirst, hn⟩ := h
  have hs : bf_user_search t.uid u t.nuser 0 = j :=
    bf_user_search_hit _ _ _ _ _ (Nat.zero_le j) (by omega) hu (fun k _ hk => hfirst k hk)
  unfold bf_user_check
  simp only [hs]
  rw [if_neg (by omega)]
  have e : (t.njobs j + 1) % 65536 = c + 1 := by
    rw [hn]
    exact Nat.mod_eq_of_lt hc
  simp only [e, set_at, if_true]

theorem bf_user_check_new (N : Int) (u : Nat) (t : bf_user_table)
    (h : bf_user_absent t u) (hroom : t.nuser < BF_MAX_USERS) :
    bf_user_check N u t =
      ({ uid := set_at t.uid t.nuser u, njobs := set_at t.njobs t.nuser 1,
         nuser := t.nuser + 1 }, false) := by
  have hmiss : bf_user_search t.uid u t.nuser 0 = t.nuser := by
    rw [bf_user_search_miss _ _ _ _ (fun k _ hk => h k (by omega))]
    omega
  unfold bf_user_check
  simp only []
  rw [if_pos hmiss, if_pos hroom]
  simp only [BF_MAX_USERS] at hroom
  have e : (t.nuser + 1) % 4294967296 = t.nuser + 1 := Nat.mod_eq_of_lt (by omega)
  simp only [hmiss, e]

theorem bf_user_check_new_at (N : Int) (u : Nat) (t : bf_user_table)
    (h : bf_user_absent t u) (hroom : t.nuser < BF_MAX_USERS) :
    bf_user_at (bf_user_check N u t).1 u t.nuser 1 := by
  rw [bf_user_check_new N u t h hroom]
  refine ⟨Nat.lt_succ_self _, ?_, ?_, ?_⟩
  · simp [set_at]
  · intro k hk
    simp only [set_at]
    rw [if_neg (by omega)]
    exact h k hk
  · simp [set_at]

theorem bf_user_check_other_absent (N : Int) (u w : Nat) (t : bf_user_table) (hw : w ≠ u)
    (h : bf_user_absent t u) : bf_user_absent (bf_user_check N w t).1 u := by
  rcases bf_user_check_frame N w t with ⟨hu, hn, _⟩ | ⟨_, _, hu, _, hn, _⟩
  · intro k hk
    rw [hu]
    rw [hn] at hk
    exact h k hk
  · intro k hk
    rw [hu]
    rw [hn] at hk
    simp only [set_at]
    by_cases hk2 : k = t.nuser
    · rw [if_pos hk2]
      exact hw
    · rw [if_neg hk2]
      exact h k (by omega)

theorem bf_user_check_other_at (N : Int) (u w : Nat) (t : bf_user_table) (j c : Nat)
    (hw : w ≠ u) (h : bf_user_at t u j c) : bf_user_at (bf_user_check N w t).1 u j c := by
  obtain ⟨hj, hu, hfirst, hn⟩ := h
  rcases bf_user_check_frame N w t with ⟨hu2, hn2, hf⟩ | ⟨_, _, hu2, hj2, hn2, _⟩
  · refine ⟨by rw [hn2]; exact hj, by rw [hu2]; exact hu, ?_, ?_⟩
    · intro k hk
      rw [hu2]
      exact hfirst k hk
    · rw [hf j (fun i _ hi hij => hw (by rw [← hi, hij, hu]))]
      exact hn
  · refine ⟨by rw [hn2]; omega, ?_, ?_, ?_⟩
    · rw [hu2]
      simp only [set_at]
      rw [if_neg (by omega)]
      exact hu
    · intro k hk
      rw [hu2]
      simp only [set_at]
      rw [if_neg (by omega)]
      exact hfirst k hk
    · rw [hj2]
      simp only [set_at]
      rw [if_neg (by omega)]
      exact hn

theorem bf_user_run_absent (N : Int) (u : Nat) :
    ∀ (l : List Nat) (t : bf_user_table), bf_user_absent t u → l.count u = 0 →
      bf_user_absent (bf_user_run N l t) u := by
  intro l
  induction l with
  | nil => intro t h _; exact h
  | cons w l ih =>
    intro t h hc
    have hw : w ≠ u := by
      intro hwu
      rw [hwu, List.count_cons_self] at hc
      omega
    rw [List.count_cons_of_ne (fun hc2 => hw hc2.symm)] at hc
    simp only [bf_user_run]
    exact ih _ (bf_user_check_other_absent N u w t hw h) hc

theorem bf_user_run_at (N : Int) (u : Nat) :
    ∀ (l : List Nat) (t : bf_user_table) (j c : Nat), bf_user_at t u j c →
      c + l.count u < 65536 → bf_user_at (bf_user_run N l t) u j (c + l.count u) := by
  intro l
  induction l with
  | nil => intro t j c h _; exact h
  | cons w l ih =>
    intro t j c h hc
    simp only [bf_user_run]
    by_cases hw : w = u
    · subst hw
      rw [List.count_cons_self] at hc ⊢
      have hchk := bf_user_check_found N w t j c h (by omega)
      have hat : bf_user_at (bf_user_check N w t).1 w j (c + 1) := by
        rw [hchk]
        obtain ⟨hj, hu, hfirst, _⟩ := h
        exact ⟨hj, hu, hfirst, by simp [set_at]⟩
      have hih := ih _ j (c + 1) hat (by omega)
      have e : c + 1 + List.count w l = c + (List.count w l + 1) := by omega
      rw [e] at hih
      exact hih
    · rw [List.count_cons_of_ne (fun hc2 => hw hc2.symm)] at hc ⊢
      exact ih _ j c (bf_user_check_other_at N u w t j c hw h) hc

theorem bf_user_run_full_nuser (N : Int) :
    ∀ (l : List Nat) (t : bf_user_table), ¬ t.nuser < BF_MAX_USERS →
      ¬ (bf_user_run N l t).nuser < BF_MAX_USERS := by
  intro l
  induction l with
  | nil => intro t h; exact h
  | cons v l ih =>
    intro t hroom
    simp only [bf_user_run]
    rcases bf_user_check_frame N v t with ⟨_, hn, _⟩ | ⟨hlt, _⟩
    · exact ih _ (by rw [hn]; exact hroom)
    · exact absurd hlt hroom

/-- After at least one job of a user that was not in the table, the user is in
the table with all its jobs counted, or the table was full and the user is
still not in it. -/
theorem bf_user_run_new (N : Int) (u : Nat) :
    ∀ (l : List Nat) (t : bf_user_table), bf_user_absent t u → 1 ≤ l.count u →
      l.count u < 65536 →
      (∃ j, bf_user_at (bf_user_run N l t) u j (l.count u)) ∨
      (bf_user_absent (bf_user_run N l t) u ∧ ¬ (bf_user_run N l t).nuser < BF_MAX_USERS) := by
  intro l
  induction l with
  | nil => intro t _ h1 _; simp at h1
  | cons w l ih =>
    intro t h h1 hc
    simp only [bf_user_run]
    by_cases hw : w = u
    · subst hw
      rw [List.count_cons_self] at hc ⊢
      by_cases hroom : t.nuser < BF_MAX_USERS
      · left
        have hat := bf_user_check_new_at N w t h hroom
        have hrun := bf_user_run_at N w l _ t.nuser 1 hat (by omega)
        have e : 1 + List.count w l = List.count w l + 1 := by omega
        rw [e] at hrun
        exact ⟨t.nuser, hrun⟩
      · right
        have hchk := bf_user_check_full N w t hroom h
        have e : (bf_user_check N w t).1 = t := by rw [hchk]
        rw [e]
        exact ⟨bf_user_run_full N w l t hroom h, bf_user_run_full_nuser N l t hroom⟩
    · rw [List.count_cons_of_ne (fun hc2 => hw hc2.symm)] at h1 hc ⊢
      exact ih _ (bf_user_check_other_absent N u w t hw h) h1 hc

/-- The per-user test of the job of user `u` that follows the jobs `l1`, for a
user that is in the table when the queue is done. -/
theorem bf_user_flag (N : Int) (l1 l2 : List Nat) (u : Nat)
    (hrec : ∃ j, j < (bf_user_run N (l1 ++ u :: l2) bf_users_init).nuser ∧
      (bf_user_run N (l1 ++ u :: l2) bf_users_init).uid j = u)
    (hcnt : (l1 ++ u :: l2).count u < 65536) :
    (bf_user_check N u (bf_user_run N l1 bf_users_init)).2 = false ↔
      (l1.count u = 0 ∨ ((l1.count u + 1 : Nat) : Int) < N) := by
  have hc : List.count u (l1 ++ u :: l2) = List.count u l1 + 1 + List.count u l2 := by
    rw [List.count_append, List.count_cons_self]
    omega
  have h0 : bf_user_absent bf_users_init u := fun k hk => absurd hk (Nat.not_lt_zero k)
  by_cases hm : l1.count u = 0
  · have habs := bf_user_run_absent N u l1 bf_users_init h0 hm
    constructor
    · intro _; exact Or.inl hm
    · intro _
      by_cases hroom : (bf_user_run N l1 bf_users_init).nuser < BF_MAX_USERS
      · rw [bf_user_check_new N u _ habs hroom]
      · rw [bf_user_check_full N u _ hroom habs]
  · rcases bf_user_run_new N u l1 bf_users_init h0 (by omega) (by omega) with ⟨j, hat⟩ | ⟨habs, hfull⟩
    · rw [bf_user_check_found N u _ j _ hat (by omega)]
      simp only [decide_eq_false_iff_not]
      constructor
      · intro h
        right
        omega
      · intro h
        rcases h with h | h
        · exact absurd h hm
        · omega
    · exfalso
      have hfin : bf_user_absent (bf_user_run N (l1 ++ u :: l2) bf_users_init) u := by
        rw [bf_user_run_append]
        exact bf_user_run_full N u (u :: l2) _ hfull habs
      obtain ⟨j, hj, hu⟩ := hrec
      exact hfin j hj hu

/-- The number of jobs of a recorded user that pass the per-user test, for
every prefix of the queue. -/
theorem bf_user_pass_count (N : Int) (l : List Nat) (u : Nat)
    (hrec : ∃ j, j < (bf_user_run N l bf_users_init).nuser ∧
      (bf_user_run N l bf_users_init).uid j = u)
    (hcnt : l.count u < 65536) :
    ∀ (l1 l2 : List Nat), l = l1 ++ l2 →
      ((bf_user_pass N l1 bf_users_init).count u : Int) =
        min (l1.count u : Int) (max 1 (N - 1)) := by
  intro l1
  induction l1 using List.reverseRecOn with
  | nil =>
    intro l2 _
    simp only [bf_user_pass, List.count_nil, Nat.cast_zero]
    omega
  | append_singleton l1 w ih =>
    intro l2 hl
    have hl2 : l = l1 ++ w :: l2 := by rw [hl, List.append_assoc]; rfl
    have hih := ih (w :: l2) hl2
    rw [bf_user_pass_append, List.count_append, List.count_append]
    by_cases hw : w = u
    · subst hw
      have hflag := bf_user_flag N l1 l2 w (by rw [← hl2]; exact hrec) (by rw [← hl2]; exact hcnt)
      rw [List.count_singleton_self]
      by_cases hf : (bf_user_check N w (bf_user_run N l1 bf_users_init)).2 = true
      · have hp : bf_user_pass N [w] (bf_user_run N l1 bf_users_init) = [] := by
          simp only [bf_user_pass, hf, if_true]
        have hnot : ¬ (l1.count w = 0 ∨ ((l1.count w + 1 : Nat) : Int) < N) := by
          intro hc
          rw [hflag.mpr hc] at hf
          exact absurd hf (by decide)
        rw [hp]
        simp only [List.count_nil, Nat.add_zero]
        push_cast at hnot ⊢
        omega
      · have hf2 : (bf_user_check N w (bf_user_run N l1 bf_users_init)).2 = false := by
          cases hb : (bf_user_check N w (bf_user_run N l1 bf_users_init)).2 with
          | true => exact absurd hb hf
          | false => rfl
        have hp : bf_user_pass N [w] (bf_user_run N l1 bf_users_init) = [w] := by
          simp only [bf_user_pass, hf2]
          rfl
        have hyes := hflag.mp hf2
        rw [hp, List.count_singleton_self]
        push_cast at hyes ⊢
        omega
    · have hp : (bf_user_pass N [w] (bf_user_run N l1 bf_users_init)).count u = 0 := by
        rw [List.count_eq_zero]
        intro hm
        have := bf_user_pass_mem N _ _ _ hm
        simp only [List.mem_singleton] at this
        exact hw this.symm
      have hc0 : List.count u [w] = 0 := by
        rw [List.count_eq_zero]
        intro hm
        simp only [List.mem_singleton] at hm
        exact hw hm.symm
      rw [hp, hc0]
      simpa using hih

/-- C37: with `max_backfill_job_per_user = N > 0`, for a user that is in the
per-user table when the queue is done (one of the first `BF_MAX_USERS` distinct
users) and has fewer than 65536 jobs in the queue, the job of the user that
follows the jobs `l1` passes the per-user test exactly when it is the first job
of the user or its number `k` among the jobs of the user is less than `N`; so
the number of jobs of the user that pass is the smaller of the number of its
jobs and `max(1, N - 1)`. A job that does not pass leaves the loop body at line
968. -/
theorem user_admission_exact (N : Int) (l1 l2 : List Nat) (u : Nat) (hN : 0 < N)
    (hrec : ∃ j, j < (bf_user_run N (l1 ++ u :: l2) bf_users_init).nuser ∧
      (bf_user_run N (l1 ++ u :: l2) bf_users_init).uid j = u)
    (hcnt : (l1 ++ u :: l2).count u < 65536) :
    ((bf_user_check N u (bf_user_run N l1 bf_users_init)).2 = false ↔
      (l1.count u = 0 ∨ ((l1.count u + 1 : Nat) : Int) < N)) ∧
    (l1.count u = 0 → (bf_user_check N u (bf_user_run N l1 bf_users_init)).2 = false) ∧
    (2 ≤ l1.count u + 1 →
      ((bf_user_check N u (bf_user_run N l1 bf_users_init)).2 = false ↔
        ((l1.count u + 1 : Nat) : Int) < N)) ∧
    ((bf_user_pass N (l1 ++ u :: l2) bf_users_init).count u : Int) =
      min ((l1 ++ u :: l2).count u : Int) (max 1 (N - 1)) ∧
    (∀ (c : bf_cycle) (e : bf_queue_rec) (s : bf_state),
      c.tunables.max_backfill_job_per_user = N →
      c.tunables.max_backfill_job_per_part = 0 →
      (bf_user_check N e.job_ptr.user_id s.users).2 = true →
      bf_caps c e s =
        bf_result.exit
          { s with bf_part_jobs := s.bf_part_jobs,
                   users := (bf_user_check N e.job_ptr.user_id s.users).1 }
          bf_flow.next) := by
  have hflag := bf_user_flag N l1 l2 u hrec hcnt
  refine ⟨hflag, fun h => hflag.mpr (Or.inl h), ?_, ?_, ?_⟩
  · intro h2
    rw [hflag]
    constructor
    · intro h
      rcases h with h | h
      · omega
      · exact h
    · intro h
      exact Or.inr h
  · exact bf_user_pass_count N (l1 ++ u :: l2) u hrec hcnt (l1 ++ u :: l2) [] (by simp)
  · intro c e s hc1 hc2 hskip
    unfold bf_caps
    have hne : c.tunables.max_backfill_job_per_user ≠ 0 := by omega
    simp only [hc2, hc1] at hne ⊢
    simp only [ne_eq, not_true_eq_false, if_false, hskip, if_true]
    rw [if_pos hne]
    simp

/-- Witness for C37: the limit 3 and the queue of users `7, 7, 8, 7`: the
third job of user 7 does not pass, and two of its three jobs pass. -/
theorem user_admission_exact_witness :
    ((bf_user_check 3 7 (bf_user_run 3 [7, 7, 8] bf_users_init)).2 = false ↔
      (List.count 7 [7, 7, 8] = 0 ∨ ((List.count 7 [7, 7, 8] + 1 : Nat) : Int) < 3)) ∧
    (bf_user_check 3 7 (bf_user_run 3 [7, 7, 8] bf_users_init)).2 = true ∧
    ((bf_user_pass 3 ([7, 7, 8] ++ 7 :: []) bf_users_init).count 7 : Int) =
      min ((List.count 7 ([7, 7, 8] ++ 7 :: []) : Nat) : Int) (max 1 (3 - 1)) :=
  ⟨(user_admission_exact 3 [7, 7, 8] [] 7 (by decide) ⟨0, by decide, by decide⟩
      (by decide)).1,
    by decide,
    (user_admission_exact 3 [7, 7, 8] [] 7 (by decide) ⟨0, by decide, by decide⟩
      (by decide)).2.2.2.1⟩

/-! ## Claims about the effect of a reservation on the timeline -/

theorem bf_pop_space (c : bf_cycle) (e : bf_queue_rec) (s : bf_state) :
    (bf_pop c e s).state.space = s.space := by
  unfold bf_pop
  simp only []
  split_ifs <;> rfl

theorem bf_validate_space (c : bf_cycle) (e : bf_queue_rec) (s : bf_state) :
    (bf_validate c e s).state.space = s.space := by
  unfold bf_validate
  repeat' split
  all_goals rfl

theorem bf_caps_space (c : bf_cycle) (e : bf_queue_rec) (s : bf_state) :
    (bf_caps c e s).state.space = s.space := by
  unfold bf_caps
  simp only []
  repeat' split
  all_goals rfl

theorem bf_limits_space (c : bf_cycle) (e : bf_queue_rec) (s : bf_state) :
    (bf_limits c e s).state.space = s.space := by
  unfold bf_limits
  repeat' first
    | split
    | (simp only []; split)
  all_goals rfl

theorem bf_pass_yield_space (c : bf_cycle) (e : bf_queue_rec) (p : bf_pass_env)
    (s : bf_state) : (bf_pass_yield c e p s).state.space = s.space := by
  unfold bf_pass_yield
  simp only []
  split_ifs <;> rfl

theorem bf_pass_test_space (c : bf_cycle) (plan : bf_plan) (p : bf_pass_env) (s : bf_state)
    (later_start : Nat) : (bf_pass_test c plan p s later_start).state.space = s.space := by
  unfold bf_pass_test
  simp only []
  repeat' split
  all_goals rfl

theorem bf_pass_sched_space (c : bf_cycle) (e : bf_queue_rec) (p : bf_pass_env)
    (s : bf_state) (a : bf_avail) : (bf_pass_sched c e p s a).state.space = s.space := by
  unfold bf_pass_sched
  repeat' first
    | split
    | (simp only []; split)
  all_goals rfl

/-- A pass leaves the map as it was or as a call of `_add_reservation`, made
while `node_space_recs < max_backfill_job_cnt`, left it. -/
theorem bf_pass_reserve_space (c : bf_cycle) (Q : node_space_state → Prop)
    (hstep : ∀ (sp sp1 : node_space_state) (start_time end_reserve : Nat) (res : bitstr_t),
      Q sp → (sp.node_space_recs : Int) < c.tunables.max_backfill_job_cnt →
      _add_reservation c.fuel start_time end_reserve res sp = some sp1 → Q sp1)
    (e : bf_queue_rec) (plan : bf_plan) (s : bf_state) (a : bf_sched) (hQ : Q s.space) :
    Q (bf_pass_reserve c e plan s a).state.space := by
  unfold bf_pass_reserve
  repeat' first
    | split
    | (simp only []; split)
  all_goals first
    | exact hQ
    | (exact hstep _ _ _ _ _ hQ (by omega) (by assumption))

theorem bf_pass_space_inv (c : bf_cycle) (Q : node_space_state → Prop)
    (hstep : ∀ (sp sp1 : node_space_state) (start_time end_reserve : Nat) (res : bitstr_t),
      Q sp → (sp.node_space_recs : Int) < c.tunables.max_backfill_job_cnt →
      _add_reservation c.fuel start_time end_reserve res sp = some sp1 → Q sp1)
    (e : bf_queue_rec) (plan : bf_plan) (p : bf_pass_env) (s : bf_state) (later_start : Nat)
    (hQ : Q s.space) : Q (bf_pass c e plan p s later_start).state.space := by
  unfold bf_pass
  have h1 := bf_pass_yield_space c e p s
  cases hy : bf_pass_yield c e p s with
  | exit s1 flow =>
    rw [hy] at h1
    simp only [bf_result.state] at h1
    simp only [bf_end.state]
    rw [h1]
    exact hQ
  | go s1 u =>
    rw [hy] at h1
    simp only [bf_result.state] at h1
    simp only []
    have h2 := bf_pass_test_space c plan p s1 later_start
    cases ht : bf_pass_test c plan p s1 later_start with
    | exit s2 flow =>
      rw [ht] at h2
      simp only [bf_later.state] at h2
      simp only [bf_end.state]
      rw [h2, h1]
      exact hQ
    | retry s2 ls =>
      rw [ht] at h2
      simp only [bf_later.state] at h2
      simp only [bf_end.state]
      rw [h2, h1]
      exact hQ
    | go s2 a =>
      rw [ht] at h2
      simp only [bf_later.state] at h2
      simp only []
      have h3 := bf_pass_sched_space c e p s2 a
      cases hs : bf_pass_sched c e p s2 a with
      | exit s3 flow =>
        rw [hs] at h3
        simp only [bf_result.state] at h3
        simp only [bf_end.state]
        rw [h3, h2, h1]
        exact hQ
      | go s3 b =>
        rw [hs] at h3
        simp only [bf_result.state] at h3
        exact bf_pass_reserve_space c Q hstep e plan s3 b (by rw [h3, h2, h1]; exact hQ)

theorem bf_try_later_space_inv (c : bf_cycle) (Q : node_space_state → Prop)
    (hstep : ∀ (sp sp1 : node_space_state) (start_time end_reserve : Nat) (res : bitstr_t),
      Q sp → (sp.node_space_recs : Int) < c.tunables.max_backfill_job_cnt →
      _add_reservation c.fuel start_time end_reserve res sp = some sp1 → Q sp1)
    (e : bf_queue_rec) (plan : bf_plan) :
    ∀ (passes : List bf_pass_env) (s : bf_state) (later_start : Nat), Q s.space →
      Q (bf_try_later c e plan passes s later_start).1.space := by
  intro passes
  induction passes with
  | nil => intro s ls hQ; exact hQ
  | cons p passes ih =>
    intro s ls hQ
    have h1 := bf_pass_space_inv c Q hstep e plan p s ls hQ
    simp only [bf_try_later]
    cases hp : bf_pass c e plan p s ls with
    | exit s1 flow => rw [hp] at h1; exact h1
    | retry s1 ls1 => rw [hp] at h1; exact ih s1 ls1 h1

theorem bf_job_space_inv (c : bf_cycle) (Q : node_space_state → Prop)
    (hstep : ∀ (sp sp1 : node_space_state) (start_time end_reserve : Nat) (res : bitstr_t),
      Q sp → (sp.node_space_recs : Int) < c.tunables.max_backfill_job_cnt →
      _add_reservation c.fuel start_time end_reserve res sp = some sp1 → Q sp1)
    (e : bf_queue_rec) (s : bf_state) (hQ : Q s.space) : Q (bf_job c e s).1.space := by
  unfold bf_job
  have h1 := bf_pop_space c e s
  cases hp : bf_pop c e s with
  | exit s1 flow =>
    rw [hp] at h1
    simp only [bf_result.state] at h1
    simp only []
    rw [h1]
    exact hQ
  | go s1 u =>
    rw [hp] at h1
    simp only [bf_result.state] at h1
    simp only []
    have h2 := bf_validate_space c e s1
    cases hv : bf_validate c e s1 with
    | exit s2 flow =>
      rw [hv] at h2
      simp only [bf_result.state] at h2
      simp only []
      rw [h2, h1]
      exact hQ
    | go s2 u2 =>
      rw [hv] at h2
      simp only [bf_result.state] at h2
      simp only []
      have h3 := bf_caps_space c e s2
      cases hc : bf_caps c e s2 with
      | exit s3 flow =>
        rw [hc] at h3
        simp only [bf_result.state] at h3
        simp only []
        rw [h3, h2, h1]
        exact hQ
      | go s3 u3 =>
        rw [hc] at h3
        simp only [bf_result.state] at h3
        simp only []
        have h4 := bf_limits_space c e s3
        cases hl : bf_limits c e s3 with
        | exit s4 flow =>
          rw [hl] at h4
          simp only [bf_result.state] at h4
          simp only []
          rw [h4, h3, h2, h1]
          exact hQ
        | go s4 plan =>
          rw [hl] at h4
          simp only [bf_result.state] at h4
          exact bf_try_later_space_inv c Q hstep e plan e.passes s4 s4.now
            (by rw [h4, h3, h2, h1]; exact hQ)

/-- Every property of the map that a call of `_add_reservation` made while
`node_space_recs < max_backfill_job_cnt` keeps, holds when the queue loop
ends. -/
theorem bf_queue_loop_space_inv (c : bf_cycle) (Q : node_space_state → Prop)
    (hstep : ∀ (sp sp1 : node_space_state) (start_time end_reserve : Nat) (res : bitstr_t),
      Q sp → (sp.node_space_recs : Int) < c.tunables.max_backfill_job_cnt →
      _add_reservation c.fuel start_time end_reserve res sp = some sp1 → Q sp1) :
    ∀ (job_queue : List bf_queue_rec) (s : bf_state), Q s.space →
      Q (bf_queue_loop c job_queue s).1.space := by
  intro job_queue
  induction job_queue with
  | nil => intro s hQ; exact hQ
  | cons e rest ih =>
    intro s hQ
    have h1 := bf_job_space_inv c Q hstep e s hQ
    simp only [bf_queue_loop]
    rcases hj : bf_job c e s with ⟨s1, flow⟩
    rw [hj] at h1
    cases flow with
    | next => exact ih s1 h1
    | stop => exact h1
    | stuck => exact h1

/-! ## Claims about the bound of the pool -/

theorem chainOK_length {s : node_space_state} {l : List Nat} (h : ChainOK s l) :
    l.length + 1 ≤ s.node_space_recs := by
  have hsub : (0 :: l).toFinset ⊆ Finset.range s.node_space_recs := by
    intro k hk
    rw [List.mem_toFinset] at hk
    exact Finset.mem_range.mpr (h.alloc k hk)
  have hcard := Finset.card_le_card hsub
  rw [List.toFinset_card_of_nodup h.nodup, Finset.card_range] at hcard
  simpa using hcard

theorem init_pool_rest (sched_start backfill_window : Nat) (avail_node_bitmap : bitstr_t)
    (k : Nat) (hk : 1 ≤ k) :
    (init_node_space sched_start backfill_window avail_node_bitmap).node_space k =
      xmalloc_pool k := by
  have hne : k ≠ 0 := by omega
  simp [init_node_space, store, hne]

/-- C32: in a planner cycle with `max_backfill_job_cnt = M ≥ 1` every call of
`_add_reservation` is made while `node_space_recs < M`; a call on a sound chain
adds 0, 1 or 2 records, removes none, and leaves every record with an index
above `node_space_recs + 1` as it was, whatever the pool held there. So
`node_space_recs` stays at most `M + 1`, no record with an index above `M` is
written in the cycle (it is as `xmalloc` left it), and `M` is inside the pool
of `2 * M + 1` records, which is the size allocated whenever that `int`
expression does not overflow. The hypothesis on the fuel lets every loop of
`_add_reservation` run to its end. -/
theorem attempt_backfill_pool_bound (c : bf_cycle) (job_queue : List bf_queue_rec) (M : Nat)
    (hM : c.tunables.max_backfill_job_cnt = (M : Int)) (h1 : 1 ≤ M)
    (hfuel : M + 1 ≤ c.fuel) :
    (∃ l, ChainOK (_attempt_backfill c job_queue).1.space l) ∧
    (_attempt_backfill c job_queue).1.space.node_space_recs ≤ M + 1 ∧
    (∀ k, M < k → (_attempt_backfill c job_queue).1.space.node_space k = xmalloc_pool k) ∧
    M < 2 * M + 1 ∧
    (M ≤ 1073741823 →
      node_space_pool_size c.tunables.max_backfill_job_cnt = some ((2 * M + 1 : Nat) : Int)) ∧
    (∀ id st er rb ra,
      bf_event.reserved id st er rb ra ∈ (_attempt_backfill c job_queue).1.trace →
      rb < M ∧ rb ≤ ra ∧ ra ≤ rb + 2 ∧ ra ≤ M + 1) ∧
    (∀ (sp sp1 : node_space_state) (l : List Nat) (start_time end_reserve : Nat)
        (res_bitmap : bitstr_t),
      ChainOK sp l → sp.node_space_recs < M →
      _add_reservation c.fuel start_time end_reserve res_bitmap sp = some sp1 →
      sp.node_space_recs ≤ sp1.node_space_recs ∧
      sp1.node_space_recs ≤ sp.node_space_recs + 2 ∧
      (∀ k, sp.node_space_recs + 1 < k → sp1.node_space k = sp.node_space k) ∧
      (∀ k, M < k → sp1.node_space k = sp.node_space k)) := by
  have hcall : ∀ (sp sp1 : node_space_state) (l : List Nat) (start_time end_reserve : Nat)
      (res_bitmap : bitstr_t),
      ChainOK sp l → sp.node_space_recs < M →
      _add_reservation c.fuel start_time end_reserve res_bitmap sp = some sp1 →
      (∃ l1, ChainOK sp1 l1) ∧
      sp.node_space_recs ≤ sp1.node_space_recs ∧
      sp1.node_space_recs ≤ sp.node_space_recs + 2 ∧
      (∀ k, sp1.node_space_recs ≤ k → sp1.node_space k = sp.node_space k) := by
    intro sp sp1 l st er res hok hlt hadd
    have hlen := chainOK_length hok
    obtain ⟨s1, l1, e1, ok1, _, r1, r2, hframe⟩ :=
      add_reservation_chain sp l c.fuel st er res hok (by omega)
    rw [hadd] at e1
    cases e1
    exact ⟨⟨l1, ok1⟩, r1, r2, hframe⟩
  have hspace := bf_queue_loop_space_inv c
    (fun sp => (∃ l, ChainOK sp l) ∧ sp.node_space_recs ≤ M + 1 ∧
      ∀ k, sp.node_space_recs ≤ k → sp.node_space k = xmalloc_pool k)
    (by
      rintro sp sp1 st er res ⟨⟨l, hok⟩, _, hrest⟩ hlt hadd
      have hlt2 : sp.node_space_recs < M := by rw [hM] at hlt; omega
      obtain ⟨hok1, r1, r2, hframe⟩ := hcall sp sp1 l st er res hok hlt2 hadd
      refine ⟨hok1, by omega, ?_⟩
      intro k hk
      rw [hframe k hk]
      exact hrest k (by omega))
    job_queue (bf_init c)
    ⟨⟨[], init_chainOK _ _ _⟩, by simp [bf_init, init_node_space],
      fun k hk => init_pool_rest _ _ _ k (by simpa [bf_init, init_node_space] using hk)⟩
  have htrace := bf_queue_loop_inv (table_cap_invariant c) job_queue (bf_init c)
    ⟨by intro id st er rb ra hm; simp [bf_state.view, bf_init] at hm,
     by simp [bf_state.view, bf_init, bf_adding_count, init_node_space],
     Or.inl rfl, Or.inl rfl⟩
  refine ⟨hspace.1, hspace.2.1, ?_, by omega, ?_, ?_, ?_⟩
  · intro k hk
    exact hspace.2.2 k (by have hq := hspace.2.1; omega)
  · intro hsmall
    unfold node_space_pool_size
    rw [hM, if_neg (by omega)]
    congr 1
    omega
  · intro id st er rb ra hm
    have h := htrace.1 id st er rb ra hm
    rw [hM] at h
    omega
  · intro sp sp1 l st er res hok hlt hadd
    obtain ⟨_, r1, r2, hframe⟩ := hcall sp sp1 l st er res hok hlt hadd
    exact ⟨r1, r2, fun k hk => hframe k (by omega), fun k hk => hframe k (by omega)⟩

/-- Witness for C32: the cycle with `max_backfill_job_cnt = 4` and five jobs
planned for the same window. -/
theorem attempt_backfill_pool_bound_witness :
    (_attempt_backfill (sample_cycle 4 0 false) sample_queue_same_window).1.space.node_space_recs
      ≤ 4 + 1 ∧
    (∀ k, 4 < k →
      (_attempt_backfill (sample_cycle 4 0 false) sample_queue_same_window).1.space.node_space k
        = xmalloc_pool k) :=
  ⟨(attempt_backfill_pool_bound (sample_cycle 4 0 false) sample_queue_same_window 4 rfl
      (by decide) (by decide)).2.1,
    (attempt_backfill_pool_bound (sample_cycle 4 0 false) sample_queue_same_window 4 rfl
      (by decide) (by decide)).2.2.1⟩

end Slurm
